import Mathlib

/-!
# A shallow embedding of the jvm Vulkan sub-allocator

The definitions follow `source/jvm.c`, `source/internal.c` and `source/internal.h`.

Conventions of the embedding.

* `VkDeviceSize` values are natural numbers below `2 ^ 64`; every addition and subtraction the
  code performs on them is written with `u64_add` and `u64_sub`, which reduce modulo `2 ^ 64`.
* A heap record (`jvm_chunk`, `jvm_allocation_pool`) carries the host address it lives at in
  its `addr` field; pointer comparison in the code is comparison of these addresses.
  The pointer arrays `pool->chunks` and `allocator->pools` are lists of the records they point
  to, so `chunk_count` and `pool_count` are the lengths of these lists.
* The world outside the allocator (host heap callbacks, Vulkan driver, error callback) is the
  explicit state `World`: it decides which host allocations and driver calls fail, what a
  failing `vkMapMemory` leaves in the location it was handed, and records what was called.
* `assert` is compiled out and `NDEBUG` is defined (release build); `jvm_free` leaves no trace
  in the model.
* The counters `chunk_count`, `pool_count` and `map_count` are natural numbers.
* `JVM_TRACK_ALLOCATIONS` is not defined.
-/

namespace Jvm

/-! ## Machine arithmetic -/

/-- Number of values of a `uint64_t` (`VkDeviceSize`). -/
def U64 : Nat := 18446744073709551616

/-- Number of values of a `uint32_t` (`unsigned`). -/
def U32 : Nat := 4294967296

/-- Addition of two `VkDeviceSize` values. -/
def u64_add (a b : Nat) : Nat := (a + b) % U64

/-- Subtraction of two `VkDeviceSize` values. -/
def u64_sub (a b : Nat) : Nat := (a + (U64 - b % U64)) % U64

/-! ## Vulkan constants and types -/

abbrev VkResult := Int

def VK_SUCCESS : VkResult := 0
def VK_ERROR_OUT_OF_HOST_MEMORY : VkResult := -1
def VK_ERROR_OUT_OF_DEVICE_MEMORY : VkResult := -2
def VK_ERROR_MEMORY_MAP_FAILED : VkResult := -5
def VK_ERROR_UNKNOWN : VkResult := -13

def VK_MAX_MEMORY_TYPES : Nat := 32
def VK_MEMORY_PROPERTY_HOST_VISIBLE_BIT : Nat := 2

structure VkMemoryType where
  propertyFlags : Nat
  heapIndex : Nat
deriving DecidableEq, Repr

structure VkMemoryHeap where
  size : Nat
  flags : Nat
deriving DecidableEq, Repr

/-- The valid entries of the two tables; `memoryTypeCount` and `memoryHeapCount` are the
lengths of the lists. -/
structure VkPhysicalDeviceMemoryProperties where
  memoryTypes : List VkMemoryType
  memoryHeaps : List VkMemoryHeap
deriving DecidableEq, Repr

def VkPhysicalDeviceMemoryProperties.memoryTypeCount (p : VkPhysicalDeviceMemoryProperties) :
    Nat :=
  p.memoryTypes.length

/-- The array read `memoryTypes[i]`. -/
def VkPhysicalDeviceMemoryProperties.memoryType (p : VkPhysicalDeviceMemoryProperties)
    (i : Nat) : VkMemoryType :=
  p.memoryTypes.getD i ⟨0, 0⟩

/-- The array read `memoryHeaps[i]`. -/
def VkPhysicalDeviceMemoryProperties.memoryHeap (p : VkPhysicalDeviceMemoryProperties)
    (i : Nat) : VkMemoryHeap :=
  p.memoryHeaps.getD i ⟨0, 0⟩

/-! ## The world outside the allocator -/

/-- What the allocator did to the outside world. -/
inductive Event where
  /-- the macro `JVM_ERROR` was reached -/
  | jvm_error
  /-- the error callback `report` was called -/
  | report
  | vkAllocateMemory (allocationSize memoryTypeIndex : Nat)
  | vkFreeMemory (memory : Nat)
  | vkMapMemory (memory offset size : Nat)
  | vkUnmapMemory (memory : Nat)
  | vkFlushMappedMemoryRanges (memory offset size : Nat)
  | vkInvalidateMappedMemoryRanges (memory offset size : Nat)
  | vkDestroyBuffer (buffer : Nat)
  | vkDestroyImage (image : Nat)
deriving DecidableEq, Repr

/-- State of the injected capabilities.
`next` is the next unused host address or driver handle, `host` lists the outcomes of the
coming host allocation requests (`false`: the callback returns NULL) and `driver` the results
of the coming fallible driver calls; once a list is used up every further call succeeds.
`log` records the calls made, latest first. `stray` lists what the coming failing calls of
`vkMapMemory` leave in `*ppData` (`none`: NULL), which Vulkan leaves undefined; once it is
used up a failing call leaves the location as it was. -/
structure World where
  next : Nat
  host : List Bool
  driver : List VkResult
  log : List Event
  stray : List (Option Nat)
deriving DecidableEq, Repr

def World.emit (w : World) (e : Event) : World :=
  { w with log := e :: w.log }

/-- The allocation callback: `internal.c`, `jvm_alloc`. Returns the new address, or `none` for
NULL. -/
def jvm_alloc (w : World) : World × Option Nat :=
  match w.host with
  | [] => ({ w with next := w.next + 1 }, some w.next)
  | true :: rest => ({ w with next := w.next + 1, host := rest }, some w.next)
  | false :: rest => ({ w with host := rest }, none)

/-- The reallocation callback: `internal.c`, `jvm_realloc`. -/
def jvm_realloc (w : World) : World × Option Nat :=
  jvm_alloc w

/-- A fallible driver call: takes the next result from `driver`. -/
def World.driver_call (w : World) : World × VkResult :=
  match w.driver with
  | [] => (w, VK_SUCCESS)
  | r :: rest => ({ w with driver := rest }, r)

/-- What a failed `vkMapMemory` leaves in the location `*ppData` that held `old`: the next
entry of `stray`, or `old` when the list is used up. -/
def World.stray_write (w : World) (old : Option Nat) : World × Option Nat :=
  match w.stray with
  | [] => (w, old)
  | p :: rest => ({ w with stray := rest }, p)

/-! ## Data model (`internal.h`) -/

/-- A `jvm_chunk*`: the address of the record and the value of its `pool` field, which is
written once when the record is created. -/
structure chunk_ptr where
  addr : Nat
  pool : Nat
deriving DecidableEq, Repr

structure jvm_chunk where
  addr : Nat
  mapped : Nat
  used : Nat
  size : Nat
  memory : Nat
  chunk_offset : Nat
  padding : Nat
  pool : Nat
deriving DecidableEq, Repr

def jvm_chunk.ptr (c : jvm_chunk) : chunk_ptr :=
  ⟨c.addr, c.pool⟩

structure jvm_allocation_pool where
  addr : Nat
  memory_type_index : Nat
  memory : Nat
  chunk_capacity : Nat
  map_count : Nat
  /-- NULL is `none` -/
  map_ptr : Option Nat
  chunks : List jvm_chunk
  memory_type_info : VkMemoryType
  size : Nat
deriving DecidableEq, Repr

def jvm_allocation_pool.chunk_count (pool : jvm_allocation_pool) : Nat :=
  pool.chunks.length

structure jvm_allocator where
  /-- `error_callbacks.report` is not NULL -/
  has_report : Bool
  has_vk_alloc : Bool
  memory_properties : VkPhysicalDeviceMemoryProperties
  min_pool_size : Nat
  automatically_free_unused : Nat
  min_allocation_size : Nat
  min_map_alignment : Nat
  pool_capacity : Nat
  pools : List jvm_allocation_pool
deriving DecidableEq, Repr

def jvm_allocator.pool_count (a : jvm_allocator) : Nat :=
  a.pools.length

/-! ## Error reporting (`internal.c`) -/

/-- The function `jvm_report_error`: without a callback nothing happens; otherwise the message
buffer is allocated and, if that succeeds, the callback is called. Every message of `jvm.c`
has positive length. -/
def jvm_report_error (w : World) (alc : jvm_allocator) : World :=
  if alc.has_report = false then w
  else
    match jvm_alloc w with
    | (w1, none) => w1
    | (w1, some _) => w1.emit Event.report

/-- The macro `JVM_ERROR`. -/
def JVM_ERROR (w : World) (alc : jvm_allocator) : World :=
  jvm_report_error (w.emit Event.jvm_error) alc

/-! ## Pools: `allocate_from_pool` -/

/-- What a call on a pool hands back: the return value, the pool after the call and `*p_out`
(`none` when it was not written). -/
structure pool_result where
  world : World
  result : Int
  pool : jvm_allocation_pool
  p_out : Option chunk_ptr
deriving DecidableEq, Repr

/-- The padding computed at the head of the loop body of `allocate_from_pool`. -/
def allocate_from_pool.padding (chunk_offset alignment : Nat) : Nat :=
  let padding := u64_sub alignment (chunk_offset &&& u64_sub alignment 1)
  if padding = alignment then 0 else padding

/-- The split branch of `allocate_from_pool` from `jvm_alloc(sizeof(*new_allocation))` to
`return 0`, for the chunk `chunk` at index `i`. -/
def allocate_from_pool.split (w : World) (allocator : jvm_allocator)
    (pool : jvm_allocation_pool) (i : Nat) (chunk : jvm_chunk) (size padding left_over : Nat) :
    pool_result :=
  match jvm_alloc w with
  | (w1, none) => ⟨JVM_ERROR w1 allocator, -1, pool, none⟩
  | (w1, some a) =>
    let new_allocation : jvm_chunk :=
      { addr := a
        size := left_over
        chunk_offset := u64_add (u64_add chunk.chunk_offset padding) size
        pool := pool.addr
        memory := pool.memory
        used := 0
        padding := 0
        mapped := 0 }
    let chunk1 : jvm_chunk :=
      { chunk with size := u64_add size padding, padding := padding, used := 1 }
    ⟨w1, 0,
      { pool with
        chunks := pool.chunks.take i ++ chunk1 :: new_allocation :: pool.chunks.drop (i + 1) },
      some chunk1.ptr⟩

/-- The loop body of `allocate_from_pool` once the chunk `chunk` at index `i` is known to be
large enough: from the computation of `left_over` to `return 0`. -/
def allocate_from_pool.carve (w : World) (allocator : jvm_allocator)
    (pool : jvm_allocation_pool) (i : Nat) (chunk : jvm_chunk) (size padding : Nat) :
    pool_result :=
  let left_over := u64_sub chunk.size (u64_add padding size)
  if left_over > allocator.min_allocation_size then
    if pool.chunk_count = pool.chunk_capacity then
      let new_capacity :=
        ((if pool.chunk_capacity ≠ 0 then pool.chunk_capacity else 8) <<< 1) % U32
      match jvm_realloc w with
      | (w1, none) => ⟨JVM_ERROR w1 allocator, -1, pool, none⟩
      | (w1, some _) =>
        allocate_from_pool.split w1 allocator { pool with chunk_capacity := new_capacity } i
          chunk size padding left_over
    else allocate_from_pool.split w allocator pool i chunk size padding left_over
  else
    let chunk1 : jvm_chunk := { chunk with padding := padding, used := 1 }
    ⟨w, 0, { pool with chunks := pool.chunks.set i chunk1 }, some chunk1.ptr⟩

/-- The loop of `allocate_from_pool`, from index `i`, with `fuel` iterations left. -/
def allocate_from_pool.loop (w : World) (allocator : jvm_allocator) (pool : jvm_allocation_pool)
    (size alignment : Nat) : Nat → Nat → pool_result
  | 0, _ => ⟨w, 1, pool, none⟩
  | fuel + 1, i =>
    match pool.chunks[i]? with
    | none => ⟨w, 1, pool, none⟩
    | some chunk =>
      if chunk.used = 1 then
        allocate_from_pool.loop w allocator pool size alignment fuel (i + 1)
      else
        let padding := allocate_from_pool.padding chunk.chunk_offset alignment
        if chunk.size < u64_add padding size then
          allocate_from_pool.loop w allocator pool size alignment fuel (i + 1)
        else allocate_from_pool.carve w allocator pool i chunk size padding

/-- The function `allocate_from_pool`: returns 0 when found, `> 0` when no chunk was good,
`< 0` when memory allocation fails. -/
def allocate_from_pool (w : World) (allocator : jvm_allocator) (pool : jvm_allocation_pool)
    (size alignment : Nat) : pool_result :=
  allocate_from_pool.loop w allocator pool size alignment pool.chunk_count 0

/-! ## Pools: `merge_chunks` and `deallocate_from_pool` -/

/-- The function `merge_chunks`: returns 0 when the chunks at `i` and `j = i + 1` do not merge,
non-zero when they do. -/
def merge_chunks (pool : jvm_allocation_pool) (i j : Nat) : Int × jvm_allocation_pool :=
  match pool.chunks[i]?, pool.chunks[j]? with
  | some c1, some c2 =>
    if c1.used ≠ 0 ∨ c2.used ≠ 0 then (0, pool)
    else
      (1, { pool with
            chunks :=
              (pool.chunks.set i { c1 with size := u64_add c1.size c2.size }).eraseIdx j })
  | _, _ => (0, pool)

/-- The loop "merge with blocks after" of `deallocate_from_pool`. -/
def deallocate_from_pool.merge_after : Nat → jvm_allocation_pool → Nat → jvm_allocation_pool
  | 0, pool, _ => pool
  | fuel + 1, pool, idx =>
    if idx < pool.chunk_count - 1 then
      match merge_chunks pool idx (idx + 1) with
      | (r, pool1) =>
        if r = 0 then pool1 else deallocate_from_pool.merge_after fuel pool1 idx
    else pool

/-- The loop "merge with blocks before" of `deallocate_from_pool`. -/
def deallocate_from_pool.merge_before : Nat → jvm_allocation_pool → Nat → jvm_allocation_pool
  | 0, pool, _ => pool
  | fuel + 1, pool, idx =>
    if idx ≠ 0 then
      match merge_chunks pool (idx - 1) idx with
      | (r, pool1) =>
        if r = 0 then pool1 else deallocate_from_pool.merge_before fuel pool1 (idx - 1)
    else pool

/-- The function `deallocate_from_pool`: returns 0 when successful, -1 when the chunk is not
in the pool. Both merge loops remove a chunk in every round but the last, so `chunk_count`
rounds are enough fuel. -/
def deallocate_from_pool (pool : jvm_allocation_pool) (chunk : chunk_ptr) :
    Int × jvm_allocation_pool :=
  let idx := pool.chunks.findIdx (fun c => c.addr == chunk.addr)
  if idx = pool.chunk_count then (-1, pool)
  else
    let pool1 : jvm_allocation_pool :=
      { pool with chunks := pool.chunks.modify (fun c => { c with used := 0, padding := 0 }) idx }
    let pool2 := deallocate_from_pool.merge_after pool1.chunk_count pool1 idx
    let pool3 := deallocate_from_pool.merge_before pool2.chunk_count pool2 idx
    (0, pool3)

/-! ## Allocator: pool life-cycle -/

/-- Result of an operation on the allocator. -/
structure allocator_result where
  world : World
  result : VkResult
  allocator : jvm_allocator
deriving DecidableEq, Repr

/-- Result of `jvm_allocate` and `jvm_allocate_dedicated`; `p_out` is `none` when `*p_out` was
not written. -/
structure jvm_result where
  world : World
  result : VkResult
  allocator : jvm_allocator
  p_out : Option chunk_ptr
deriving DecidableEq, Repr

/-- The driver call `vkAllocateMemory`: result and, on success, the new memory handle. -/
def vkAllocateMemory (w : World) (allocationSize memoryTypeIndex : Nat) :
    World × VkResult × Nat :=
  match (w.emit (Event.vkAllocateMemory allocationSize memoryTypeIndex)).driver_call with
  | (w1, r) => if r = VK_SUCCESS then ({ w1 with next := w1.next + 1 }, r, w1.next) else (w1, r, 0)

/-- The function `create_new_pool` from the allocation of the chunk array on, for the pool
record at `pool_addr`. -/
def create_new_pool.fill (w : World) (this : jvm_allocator) (pool_addr mem_size idx : Nat)
    (mem_info : VkMemoryType) : allocator_result :=
  match jvm_alloc w with
  | (w1, none) => ⟨JVM_ERROR w1 this, VK_ERROR_OUT_OF_HOST_MEMORY, this⟩
  | (w1, some _) =>
    match jvm_alloc w1 with
    | (w2, none) => ⟨JVM_ERROR w2 this, VK_ERROR_OUT_OF_HOST_MEMORY, this⟩
    | (w2, some chunk_addr) =>
      match vkAllocateMemory w2 mem_size idx with
      | (w3, res, mem) =>
        if res ≠ VK_SUCCESS then ⟨JVM_ERROR w3 this, res, this⟩
        else
          let whole_chunk : jvm_chunk :=
            { addr := chunk_addr
              chunk_offset := 0
              size := mem_size
              padding := 0
              used := 0
              mapped := 0
              memory := mem
              pool := pool_addr }
          let pool : jvm_allocation_pool :=
            { addr := pool_addr
              chunk_capacity := 32
              chunks := [whole_chunk]
              map_count := 0
              map_ptr := none
              memory_type_index := idx
              memory_type_info := mem_info
              size := mem_size
              memory := mem }
          ⟨w3, VK_SUCCESS, { this with pools := this.pools ++ [pool] }⟩

/-- The function `create_new_pool`. -/
def create_new_pool (w : World) (this : jvm_allocator) (mem_size idx : Nat)
    (mem_info : VkMemoryType) : allocator_result :=
  match jvm_alloc w with
  | (w1, none) => ⟨JVM_ERROR w1 this, VK_ERROR_OUT_OF_HOST_MEMORY, this⟩
  | (w1, some pool_addr) =>
    if this.pool_capacity = this.pool_count then
      let new_capacity := ((if this.pool_count ≠ 0 then this.pool_count else 8) <<< 1) % U32
      match jvm_realloc w1 with
      | (w2, none) => ⟨JVM_ERROR w2 this, VK_ERROR_OUT_OF_HOST_MEMORY, this⟩
      | (w2, some _) =>
        create_new_pool.fill w2 { this with pool_capacity := new_capacity } pool_addr mem_size idx
          mem_info
    else create_new_pool.fill w1 this pool_addr mem_size idx mem_info

/-- The function `remove_pool`: returns 0 on success, -1 when the pool is not from this
allocator, -2 when there are still chunks within the pool. The pool is given by its record;
its place in `pools` is found by address. -/
def remove_pool (w : World) (this : jvm_allocator) (pool : jvm_allocation_pool) :
    World × Int × jvm_allocator :=
  if pool.chunk_count > 1 ∨ (pool.chunks.map (fun c => c.used)).headD 0 ≠ 0 then
    (JVM_ERROR w this, -2, this)
  else
    let pos := this.pools.findIdx (fun p => p.addr == pool.addr)
    if pos = this.pool_count then (JVM_ERROR w this, -1, this)
    else
      (w.emit (Event.vkFreeMemory pool.memory), 0, { this with pools := this.pools.eraseIdx pos })

/-- The function `jvm_deallocate`. The pool `chunk->pool` is looked up by address among the
pools of the allocator; `none` when it is not one of them (the pool is then no part of the
modelled state). -/
def jvm_deallocate (w : World) (allocator : jvm_allocator) (chunk : chunk_ptr) :
    Option allocator_result :=
  let k := allocator.pools.findIdx (fun p => p.addr == chunk.pool)
  match allocator.pools[k]? with
  | none => none
  | some pool =>
    match deallocate_from_pool pool chunk with
    | (dealloc_res, pool1) =>
      let allocator1 := { allocator with pools := allocator.pools.set k pool1 }
      if dealloc_res < 0 then some ⟨JVM_ERROR w allocator1, VK_ERROR_UNKNOWN, allocator1⟩
      else if pool1.chunk_count = 1 ∧ allocator1.automatically_free_unused ≠ 0 then
        match remove_pool w allocator1 pool1 with
        | (w1, remove_res, allocator2) =>
          if remove_res < 0 then some ⟨JVM_ERROR w1 allocator2, VK_SUCCESS, allocator2⟩
          else some ⟨w1, VK_SUCCESS, allocator2⟩
      else some ⟨w, VK_SUCCESS, allocator1⟩

/-! ## Allocator: memory type selection and `jvm_allocate` -/

/-- A counting loop `for (unsigned i = 0; i < n; ++i) body`, as a state transformer. -/
def for_loop {σ : Type} (n : Nat) (body : Nat → σ → σ) (init : σ) : σ :=
  match n with
  | 0 => init
  | n + 1 => body n (for_loop n body init)

/-- The test `type_bits & (1 << i)` on a `uint32_t`. -/
def type_bit (type_bits i : Nat) : Nat :=
  type_bits &&& ((1 <<< i) % U32)

/-- The heap size term `memoryHeaps[memoryTypes[i].heapIndex].size >> 10` of both scorers. -/
def heap_score (mp : VkPhysicalDeviceMemoryProperties) (i : Nat) : Int :=
  (((mp.memoryHeap (mp.memoryType i).heapIndex).size >>> 10 : Nat) : Int)

/-- The selection loop shared by both scorers: `(best_score, idx)` after the scan. -/
def best_of (scores : List Int) (mem_type_count : Nat) : Int × Nat :=
  for_loop mem_type_count
    (fun i best => if scores.getD i 0 > best.1 then (scores.getD i 0, i) else best)
    (0, mem_type_count)

/-- The `scores` array of `jvm_allocate` after the four scoring loops, with the final
`valid_count`; `none` when the function returns inside the block on undesired flags. -/
def jvm_allocate.scores (mp : VkPhysicalDeviceMemoryProperties)
    (type_bits desired_flags undesired_flags : Nat) : Option (List Int × Nat) :=
  let mem_type_count := mp.memoryTypeCount
  let scores : List Int := List.replicate VK_MAX_MEMORY_TYPES 0
  let scores := for_loop mem_type_count (fun i scores => scores.set i 1) scores
  let st : List Int × Nat :=
    if undesired_flags ≠ 0 then
      for_loop mem_type_count
        (fun i st =>
          ((if (mp.memoryType i).propertyFlags &&& undesired_flags ≠ 0 then st.1.set i 0
            else st.1), st.2 + 1))
        (scores, 0)
    else (scores, 0)
  if undesired_flags ≠ 0 ∧ st.2 = 0 then none
  else
    let scores :=
      for_loop mem_type_count
        (fun i scores => if type_bit type_bits i = 0 then scores.set i 0 else scores) st.1
    some (for_loop mem_type_count
      (fun i st =>
        if st.1.getD i 0 = -1 then st
        else if (mp.memoryType i).propertyFlags &&& desired_flags = desired_flags then
          let v := st.1.getD i 0 * heap_score mp i
          (st.1.set i v, st.2 + (if v ≠ 0 then 1 else 0))
        else st)
      (scores, 0))

/-- The part of `jvm_allocate` that picks the memory type: the index `idx`, or `none` when the
function returns `VK_ERROR_OUT_OF_DEVICE_MEMORY`. -/
def jvm_allocate.memory_type (mp : VkPhysicalDeviceMemoryProperties)
    (type_bits desired_flags undesired_flags : Nat) : Option Nat :=
  match jvm_allocate.scores mp type_bits desired_flags undesired_flags with
  | none => none
  | some (scores, valid_count) =>
    if valid_count = 0 then none
    else
      let best := best_of scores mp.memoryTypeCount
      if best.1 = 0 then none else some best.2

/-- The `scores` array of `jvm_allocate_dedicated` after its scoring loops, with the final
`valid_count`; `none` when the function returns inside the block on undesired flags. -/
def jvm_allocate_dedicated.scores (mp : VkPhysicalDeviceMemoryProperties)
    (type_bits desired_flags undesired_flags : Nat) : Option (List Int × Nat) :=
  let mem_type_count := mp.memoryTypeCount
  let scores : List Int := List.replicate VK_MAX_MEMORY_TYPES 0
  let st : List Int × Nat :=
    if undesired_flags ≠ 0 then
      for_loop mem_type_count
        (fun i st =>
          ((if (mp.memoryType i).propertyFlags &&& undesired_flags ≠ 0 then st.1.set i (-1)
            else st.1), st.2 + 1))
        (scores, 0)
    else (scores, 0)
  if undesired_flags ≠ 0 ∧ st.2 = 0 then none
  else
    let scores :=
      for_loop mem_type_count
        (fun i scores => if type_bit type_bits i = 0 then scores.set i (-2) else scores) st.1
    some (for_loop mem_type_count
      (fun i st =>
        if st.1.getD i 0 = -1 then st
        else if (mp.memoryType i).propertyFlags &&& desired_flags = desired_flags then
          (st.1.set i (heap_score mp i), st.2 + 1)
        else st)
      (scores, 0))

/-- The part of `jvm_allocate_dedicated` that picks the memory type. -/
def jvm_allocate_dedicated.memory_type (mp : VkPhysicalDeviceMemoryProperties)
    (type_bits desired_flags undesired_flags : Nat) : Option Nat :=
  match jvm_allocate_dedicated.scores mp type_bits desired_flags undesired_flags with
  | none => none
  | some (scores, valid_count) =>
    if valid_count = 0 then none
    else
      let best := best_of scores mp.memoryTypeCount
      if best.1 = 0 then none else some best.2

/-- The block "check for need to map" of both allocation functions: the new `(size,
alignment)`. -/
def need_to_map (allocator : jvm_allocator) (idx desired_flags size alignment : Nat) :
    Nat × Nat :=
  if ((allocator.memory_properties.memoryType idx).propertyFlags &&& desired_flags) &&&
      VK_MEMORY_PROPERTY_HOST_VISIBLE_BIT ≠ 0 then
    let alignment :=
      if alignment < allocator.min_map_alignment then allocator.min_map_alignment else alignment
    let size := if size < alignment then alignment else size
    (size, alignment)
  else (size, alignment)

/-- The size normalisation at the head of both allocation functions. -/
def normalized_size (allocator : jvm_allocator) (size alignment : Nat) : Nat :=
  let size := if size < allocator.min_allocation_size then allocator.min_allocation_size else size
  if size < alignment then alignment else size

/-- The loop of `jvm_allocate` over the existing pools, from index `i`: `some` when the
function returns from inside the loop, `none` when the loop runs to its end. A call of
`allocate_from_pool` that returns a positive value changes neither the pool nor the world
(`allocate_from_pool_no_fit`), so the loop goes on with the state it had. -/
def jvm_allocate.pools_loop (w : World) (allocator : jvm_allocator)
    (size alignment idx : Nat) : Nat → Nat → Option jvm_result
  | 0, _ => none
  | fuel + 1, i =>
    match allocator.pools[i]? with
    | none => none
    | some pool =>
      if pool.memory_type_index ≠ idx then
        jvm_allocate.pools_loop w allocator size alignment idx fuel (i + 1)
      else
        let r := allocate_from_pool w allocator pool size alignment
        if r.result = 0 then
          some ⟨r.world, VK_SUCCESS, { allocator with pools := allocator.pools.set i r.pool },
            r.p_out⟩
        else if r.result < 0 then
          some ⟨r.world, VK_ERROR_OUT_OF_HOST_MEMORY,
            { allocator with pools := allocator.pools.set i r.pool }, none⟩
        else jvm_allocate.pools_loop w allocator size alignment idx fuel (i + 1)

/-- The tail shared by `jvm_allocate` and `jvm_allocate_dedicated`: create a pool of
`new_pool_size` bytes and allocate from it, the last pool of the list. -/
def allocate_in_new_pool (w : World) (allocator : jvm_allocator)
    (new_pool_size size alignment idx : Nat) : jvm_result :=
  let c := create_new_pool w allocator new_pool_size idx
    (allocator.memory_properties.memoryType idx)
  if c.result ≠ VK_SUCCESS then ⟨JVM_ERROR c.world c.allocator, c.result, c.allocator, none⟩
  else
    match c.allocator.pools[c.allocator.pool_count - 1]? with
    | none => ⟨c.world, VK_ERROR_OUT_OF_HOST_MEMORY, c.allocator, none⟩
    | some pool =>
      let r := allocate_from_pool c.world c.allocator pool size alignment
      let allocator1 : jvm_allocator :=
        { c.allocator with pools := c.allocator.pools.set (c.allocator.pool_count - 1) r.pool }
      if r.result ≠ 0 then ⟨r.world, VK_ERROR_OUT_OF_HOST_MEMORY, allocator1, none⟩
      else ⟨r.world, VK_SUCCESS, allocator1, r.p_out⟩

/-- The function `jvm_allocate`. -/
def jvm_allocate (w : World) (allocator : jvm_allocator)
    (size alignment type_bits desired_flags undesired_flags : Nat) : jvm_result :=
  let size := normalized_size allocator size alignment
  match jvm_allocate.memory_type allocator.memory_properties type_bits desired_flags
      undesired_flags with
  | none => ⟨JVM_ERROR w allocator, VK_ERROR_OUT_OF_DEVICE_MEMORY, allocator, none⟩
  | some idx =>
    match need_to_map allocator idx desired_flags size alignment with
    | (size, alignment) =>
      match jvm_allocate.pools_loop w allocator size alignment idx allocator.pool_count 0 with
      | some r => r
      | none =>
        let new_pool_size :=
          if allocator.min_pool_size < size then size else allocator.min_pool_size
        allocate_in_new_pool w allocator new_pool_size size alignment idx

/-- The function `jvm_allocate_dedicated`. -/
def jvm_allocate_dedicated (w : World) (allocator : jvm_allocator)
    (size alignment type_bits desired_flags undesired_flags : Nat) : jvm_result :=
  let size := normalized_size allocator size alignment
  match jvm_allocate_dedicated.memory_type allocator.memory_properties type_bits desired_flags
      undesired_flags with
  | none => ⟨JVM_ERROR w allocator, VK_ERROR_OUT_OF_DEVICE_MEMORY, allocator, none⟩
  | some idx =>
    match need_to_map allocator idx desired_flags size alignment with
    | (size, alignment) => allocate_in_new_pool w allocator size size alignment idx

/-! ## Allocator: creation, unused pools, teardown -/

/-- What the driver answers to the two queries of `jvm_allocator_create` on the physical
device: the limits read from `vkGetPhysicalDeviceProperties` and the table of
`vkGetPhysicalDeviceMemoryProperties`. -/
structure VkPhysicalDevice where
  minMemoryMapAlignment : Nat
  nonCoherentAtomSize : Nat
  memory_properties : VkPhysicalDeviceMemoryProperties
deriving DecidableEq, Repr

/-- The members of `jvm_allocator_create_info` that reach the model. The host allocation
callbacks, given or default, are the host heap of the world. -/
structure jvm_allocator_create_info where
  min_pool_size : Nat
  automatically_free_unused : Nat
  min_allocation_size : Nat
  /-- NULL is `none`; otherwise whether the member `report` is not NULL -/
  error_callbacks : Option Bool
  physical_device : VkPhysicalDevice
deriving DecidableEq, Repr

/-- The function `jvm_allocator_create`: the return value and `*p_out`. -/
def jvm_allocator_create (w : World) (create_info : jvm_allocator_create_info)
    (vk_allocation_callbacks : Bool) : World × VkResult × Option jvm_allocator :=
  match jvm_alloc w with
  | (w1, none) => (w1, VK_ERROR_OUT_OF_HOST_MEMORY, none)
  | (w1, some _) =>
    (w1, VK_SUCCESS,
      some
        { has_report :=
            match create_info.error_callbacks with
            | none => true
            | some report => report
          has_vk_alloc := vk_allocation_callbacks
          pool_capacity := 0
          pools := []
          min_map_alignment := create_info.physical_device.minMemoryMapAlignment
          automatically_free_unused := create_info.automatically_free_unused
          min_allocation_size :=
            if create_info.min_allocation_size = 0 then
              create_info.physical_device.nonCoherentAtomSize
            else create_info.min_allocation_size
          min_pool_size :=
            if create_info.min_pool_size = 0 then 1 <<< 20 else create_info.min_pool_size
          memory_properties := create_info.physical_device.memory_properties })

/-- The function `free_pool`. -/
def free_pool (w : World) (pool : jvm_allocation_pool) : World :=
  w.emit (Event.vkFreeMemory pool.memory)

/-- The function `jvm_allocator_destroy`: what it does to the world. -/
def jvm_allocator_destroy (w : World) (allocator : jvm_allocator) : World :=
  allocator.pools.foldl
    (fun w pool => free_pool (if pool.chunk_count > 1 then JVM_ERROR w allocator else w) pool) w

/-- The loop of `jvm_allocator_free_unused`, from index `i`, with `fuel` iterations left. -/
def jvm_allocator_free_unused.loop : Nat → World → jvm_allocator → Nat → World × jvm_allocator
  | 0, w, allocator, _ => (w, allocator)
  | fuel + 1, w, allocator, i =>
    match allocator.pools[i]? with
    | none => (w, allocator)
    | some pool =>
      if pool.chunk_count > 1 ∨ (pool.chunks.map (fun c => c.used)).headD 0 ≠ 0 then
        jvm_allocator_free_unused.loop fuel w allocator (i + 1)
      else
        match remove_pool w allocator pool with
        | (w1, _, allocator1) => jvm_allocator_free_unused.loop fuel w1 allocator1 (i + 1)

/-- The function `jvm_allocator_free_unused`. The index grows in every round and the pool list
never does, so `pool_count` rounds are enough fuel. -/
def jvm_allocator_free_unused (w : World) (allocator : jvm_allocator) : World × jvm_allocator :=
  if allocator.automatically_free_unused ≠ 0 then (w, allocator)
  else jvm_allocator_free_unused.loop allocator.pool_count w allocator 0

/-! ## Mapping -/

/-- Result of `map_pool_memory`: return value, the pool after the call, `*p_ptr`, `*p_first`. -/
structure map_pool_result where
  world : World
  result : VkResult
  pool : jvm_allocation_pool
  p_ptr : Option Nat
  p_first : Nat
deriving DecidableEq, Repr

/-- The function `map_pool_memory`. A successful `vkMapMemory` returns a new host address.
The driver is handed `&pool->map_ptr`, so after a failed call the field holds what the driver
left there. -/
def map_pool_memory (w : World) (allocator : jvm_allocator) (pool : jvm_allocation_pool) :
    map_pool_result :=
  if pool.map_count ≠ 0 then
    ⟨w, VK_SUCCESS, { pool with map_count := pool.map_count + 1 }, pool.map_ptr, 0⟩
  else
    match (w.emit (Event.vkMapMemory pool.memory 0 pool.size)).driver_call with
    | (w1, res) =>
      if res ≠ VK_SUCCESS then
        ⟨JVM_ERROR (w1.stray_write pool.map_ptr).1 allocator, res,
          { pool with map_ptr := (w1.stray_write pool.map_ptr).2 }, none, 0⟩
      else
        ⟨{ w1 with next := w1.next + 1 }, VK_SUCCESS,
          { pool with map_ptr := some w1.next, map_count := pool.map_count + 1 },
          some w1.next, 1⟩

/-- Result of `unmap_pool_memory`: return value, the pool after the call, `*p_last`. -/
structure unmap_pool_result where
  world : World
  result : VkResult
  pool : jvm_allocation_pool
  p_last : Nat
deriving DecidableEq, Repr

/-- The function `unmap_pool_memory`. -/
def unmap_pool_memory (w : World) (allocator : jvm_allocator) (pool : jvm_allocation_pool) :
    unmap_pool_result :=
  if pool.map_count = 0 then ⟨JVM_ERROR w allocator, VK_ERROR_UNKNOWN, pool, 0⟩
  else if pool.map_count - 1 ≠ 0 then
    ⟨w, VK_SUCCESS, { pool with map_count := pool.map_count - 1 }, 0⟩
  else
    ⟨w.emit (Event.vkUnmapMemory pool.memory), VK_SUCCESS,
      { pool with map_count := pool.map_count - 1, map_ptr := none }, 1⟩

/-- The function `jvm_chunk_mapped_flush`, for the record `chunk` of the pool `pool`. -/
def jvm_chunk_mapped_flush (w : World) (pool : jvm_allocation_pool) (chunk : jvm_chunk) :
    World × VkResult :=
  (w.emit (Event.vkFlushMappedMemoryRanges pool.memory chunk.chunk_offset chunk.size)).driver_call

/-- The function `jvm_chunk_mapped_invalidate`, for the record `chunk` of the pool `pool`. -/
def jvm_chunk_mapped_invalidate (w : World) (pool : jvm_allocation_pool) (chunk : jvm_chunk) :
    World × VkResult :=
  (w.emit
    (Event.vkInvalidateMappedMemoryRanges pool.memory chunk.chunk_offset chunk.size)).driver_call

/-- Result of `jvm_chunk_map`: return value, the allocator after the call, `*p_size` and
`*p_out` (`none` when not written). -/
structure map_result where
  world : World
  result : VkResult
  allocator : jvm_allocator
  p_size : Option Nat
  p_out : Option Nat
deriving DecidableEq, Repr

/-- The function `jvm_chunk_map`. The pointer is followed to the pool `chunk->pool` among the
pools of the allocator and to the record at `chunk` in its chunk list; `none` when there is no
such pool or record (a pointer to no part of the modelled state). -/
def jvm_chunk_map (w : World) (allocator : jvm_allocator) (chunk : chunk_ptr) :
    Option map_result :=
  let k := allocator.pools.findIdx (fun p => p.addr == chunk.pool)
  match allocator.pools[k]? with
  | none => none
  | some pool =>
    let j := pool.chunks.findIdx (fun c => c.addr == chunk.addr)
    match pool.chunks[j]? with
    | none => none
    | some c =>
      if c.mapped ≠ 0 then some ⟨w, VK_ERROR_MEMORY_MAP_FAILED, allocator, none, none⟩
      else
        let m := map_pool_memory w allocator pool
        if m.result ≠ VK_SUCCESS then
          some ⟨JVM_ERROR m.world allocator, m.result,
            { allocator with pools := allocator.pools.set k m.pool }, none, none⟩
        else
          let c1 : jvm_chunk := { c with mapped := 1 }
          let pool1 : jvm_allocation_pool := { m.pool with chunks := m.pool.chunks.set j c1 }
          let allocator1 : jvm_allocator :=
            { allocator with pools := allocator.pools.set k pool1 }
          let p_out := u64_add (u64_add (m.p_ptr.getD 0) c.chunk_offset) c.padding
          let p_size := u64_sub c.size c.padding
          if m.p_first = 0 then
            match jvm_chunk_mapped_invalidate m.world pool1 c1 with
            | (w1, res) => some ⟨w1, res, allocator1, some p_size, some p_out⟩
          else some ⟨m.world, VK_SUCCESS, allocator1, some p_size, some p_out⟩

/-- The function `jvm_chunk_unmap`; the pointer is followed as in `jvm_chunk_map`. -/
def jvm_chunk_unmap (w : World) (allocator : jvm_allocator) (chunk : chunk_ptr) :
    Option allocator_result :=
  let k := allocator.pools.findIdx (fun p => p.addr == chunk.pool)
  match allocator.pools[k]? with
  | none => none
  | some pool =>
    let j := pool.chunks.findIdx (fun c => c.addr == chunk.addr)
    match pool.chunks[j]? with
    | none => none
    | some c =>
      if c.mapped = 0 then some ⟨w, VK_ERROR_MEMORY_MAP_FAILED, allocator⟩
      else
        let u := unmap_pool_memory w allocator pool
        if u.result = VK_SUCCESS then
          let c1 : jvm_chunk := { c with mapped := 0 }
          let pool1 : jvm_allocation_pool := { u.pool with chunks := u.pool.chunks.set j c1 }
          let allocator1 : jvm_allocator :=
            { allocator with pools := allocator.pools.set k pool1 }
          if u.p_last = 0 then
            match jvm_chunk_mapped_flush u.world pool1 c1 with
            | (w1, res) => some ⟨w1, res, allocator1⟩
          else some ⟨u.world, u.result, allocator1⟩
        else
          some ⟨u.world, u.result, { allocator with pools := allocator.pools.set k u.pool }⟩

/-- A `jvm_buffer_allocation` (or `jvm_image_allocation`): the chunk and the driver handle of
the resource. The allocator it names is the one passed to the functions. -/
structure jvm_buffer_allocation where
  allocation : chunk_ptr
  buffer : Nat
deriving DecidableEq, Repr

/-- The part shared by `jvm_buffer_destroy` and `jvm_image_destroy` after the resource is
destroyed: unmap the chunk when it is mapped, dropping the result, then `jvm_deallocate`. -/
def destroy_allocation (w : World) (allocator : jvm_allocator) (chunk : chunk_ptr) :
    Option allocator_result :=
  let k := allocator.pools.findIdx (fun p => p.addr == chunk.pool)
  match allocator.pools[k]? with
  | none => none
  | some pool =>
    let j := pool.chunks.findIdx (fun c => c.addr == chunk.addr)
    match pool.chunks[j]? with
    | none => none
    | some c =>
      if c.mapped ≠ 0 then
        match jvm_chunk_unmap w allocator chunk with
        | none => none
        | some r => jvm_deallocate r.world r.allocator chunk
      else jvm_deallocate w allocator chunk

/-- The function `jvm_buffer_destroy`. -/
def jvm_buffer_destroy (w : World) (allocator : jvm_allocator)
    (buffer_allocation : jvm_buffer_allocation) : Option allocator_result :=
  destroy_allocation (w.emit (Event.vkDestroyBuffer buffer_allocation.buffer)) allocator
    buffer_allocation.allocation

/-- The function `jvm_image_destroy`. -/
def jvm_image_destroy (w : World) (allocator : jvm_allocator)
    (image_allocation : jvm_buffer_allocation) : Option allocator_result :=
  destroy_allocation (w.emit (Event.vkDestroyImage image_allocation.buffer)) allocator
    image_allocation.allocation

/-! ## Auxiliary definitions used in the statements and proofs -/

/-- A chunk the loop of `allocate_from_pool` does not skip. -/
def allocate_from_pool.fits (size alignment : Nat) (chunk : jvm_chunk) : Prop :=
  chunk.used ≠ 1 ∧
    ¬ chunk.size < u64_add (allocate_from_pool.padding chunk.chunk_offset alignment) size

instance (size alignment : Nat) (chunk : jvm_chunk) :
    Decidable (allocate_from_pool.fits size alignment chunk) := by
  unfold allocate_from_pool.fits; infer_instance

/-- The chunk list after a split of the chunk at index `i`, the new record at address `a`. -/
def allocate_from_pool.split_chunks (pool : jvm_allocation_pool) (i : Nat) (chunk : jvm_chunk)
    (size padding left_over a : Nat) : List jvm_chunk :=
  pool.chunks.take i ++
    { chunk with size := u64_add size padding, padding := padding, used := 1 } ::
    { addr := a, size := left_over,
      chunk_offset := u64_add (u64_add chunk.chunk_offset padding) size,
      pool := pool.addr, memory := pool.memory, used := 0, padding := 0, mapped := 0 } ::
    pool.chunks.drop (i + 1)

/-- A world in which every host allocation and driver call succeeds. -/
def sample_world : World := ⟨100, [], [], [], []⟩

/-- A pool of 4096 bytes, one unused chunk. -/
def sample_pool : jvm_allocation_pool :=
  { addr := 1, memory_type_index := 0, memory := 2, chunk_capacity := 32, map_count := 0,
    map_ptr := none, memory_type_info := ⟨1, 0⟩, size := 4096,
    chunks := [{ addr := 3, mapped := 0, used := 0, size := 4096, memory := 2,
                 chunk_offset := 0, padding := 0, pool := 1 }] }

/-- An allocator with one device-local memory type on a heap of 1 GiB, holding `sample_pool`. -/
def sample_allocator : jvm_allocator :=
  { has_report := true, has_vk_alloc := false,
    memory_properties := ⟨[⟨1, 0⟩], [⟨1073741824, 0⟩]⟩,
    min_pool_size := 4096, automatically_free_unused := 0, min_allocation_size := 64,
    min_map_alignment := 64, pool_capacity := 16, pools := [sample_pool] }

/-- The record `c1` after `merge_chunks` added the size of `c2` to it. -/
def jvm_chunk.absorb (c1 c2 : jvm_chunk) : jvm_chunk :=
  { c1 with size := u64_add c1.size c2.size }

/-- The record after `deallocate_from_pool` cleared `used` and `padding`. -/
def jvm_chunk.release (c : jvm_chunk) : jvm_chunk :=
  { c with used := 0, padding := 0 }

/-- The chunk `x` and the chunks `post` after it, once the loop "merge with blocks after" ran
on `x`. -/
def merge_right (x : jvm_chunk) : List jvm_chunk → jvm_chunk × List jvm_chunk
  | [] => (x, [])
  | d :: r => if x.used = 0 ∧ d.used = 0 then merge_right (x.absorb d) r else (x, d :: r)

/-- The chunks before `x` (given last first) followed by `x`, once the loop "merge with blocks
before" ran on `x`. -/
def merge_left : List jvm_chunk → jvm_chunk → List jvm_chunk
  | [], x => [x]
  | l :: r, x => if l.used = 0 ∧ x.used = 0 then merge_left r (l.absorb x) else r.reverse ++ [l, x]

/-- One step of `coalesce`: put `c` in front of a list, merging it with the head when both
are unused. -/
def coalesce_step (c : jvm_chunk) : List jvm_chunk → List jvm_chunk
  | [] => [c]
  | d :: r => if c.used = 0 ∧ d.used = 0 then c.absorb d :: r else c :: d :: r

/-- Merge every run of adjacent unused chunks into its first chunk. -/
def coalesce : List jvm_chunk → List jvm_chunk
  | [] => []
  | c :: rest => coalesce_step c (coalesce rest)

/-- The chunks of `l` lie one after the other from offset `o` to offset `e`. -/
def chain (o : Nat) (l : List jvm_chunk) (e : Nat) : Prop :=
  match l with
  | [] => o = e
  | c :: r => c.chunk_offset = o ∧ chain (o + c.size) r e

/-- No two adjacent chunks are both unused. -/
def no_adjacent_free (l : List jvm_chunk) : Prop :=
  List.Chain' (fun c d => ¬ (c.used = 0 ∧ d.used = 0)) l

/-- Decide `chain` along the list. -/
def chain.decide : (o : Nat) → (l : List jvm_chunk) → (e : Nat) → Decidable (chain o l e)
  | o, [], e => inferInstanceAs (Decidable (o = e))
  | o, c :: r, e =>
    @instDecidableAnd (c.chunk_offset = o) (chain (o + c.size) r e) _
      (chain.decide (o + c.size) r e)

instance (o : Nat) (l : List jvm_chunk) (e : Nat) : Decidable (chain o l e) :=
  chain.decide o l e

/-- The invariant of the chunk list of a pool: the chunks partition `[0, size)` in order, no
two adjacent chunks are unused, `used` is 0 or 1, and unused chunks have no padding. -/
structure pool_inv (pool : jvm_allocation_pool) : Prop where
  size_lt : pool.size < U64
  nonempty : pool.chunks ≠ []
  chained : chain 0 pool.chunks pool.size
  coalesced : no_adjacent_free pool.chunks
  used_bool : ∀ c ∈ pool.chunks, c.used = 0 ∨ c.used = 1
  free_padding : ∀ c ∈ pool.chunks, c.used = 0 → c.padding = 0

/-- A pool as `create_new_pool` makes it: one unused chunk without padding that covers the
pool, whose size is a `VkDeviceSize`. -/
def fresh_pool (pool : jvm_allocation_pool) : Prop :=
  pool.size < U64 ∧
    ∃ c : jvm_chunk, pool.chunks = [c] ∧ c.chunk_offset = 0 ∧ c.size = pool.size ∧
      c.used = 0 ∧ c.padding = 0

/-- A call on a pool: `allocate_from_pool` (for any allocator, size and alignment) or
`deallocate_from_pool` (for any chunk pointer). -/
inductive pool_op where
  | allocate (allocator : jvm_allocator) (size alignment : Nat)
  | deallocate (chunk : chunk_ptr)

/-- Run one call; the return value is dropped, the pool and the world are kept. -/
def pool_op.run (st : World × jvm_allocation_pool) : pool_op → World × jvm_allocation_pool
  | pool_op.allocate allocator size alignment =>
    ((allocate_from_pool st.1 allocator st.2 size alignment).world,
      (allocate_from_pool st.1 allocator st.2 size alignment).pool)
  | pool_op.deallocate chunk => (st.1, (deallocate_from_pool st.2 chunk).2)

/-- Run a sequence of calls on a pool. -/
def run_pool_ops (st : World × jvm_allocation_pool) (ops : List pool_op) :
    World × jvm_allocation_pool :=
  ops.foldl pool_op.run st

/-- Two allocations from a pool, then the release of the first chunk. -/
def sample_ops : List pool_op :=
  [pool_op.allocate sample_allocator 100 64, pool_op.allocate sample_allocator 200 64,
    pool_op.deallocate ⟨3, 1⟩]

/-- A call of `allocate_from_pool`: the allocator (for `min_allocation_size`), the size and the
alignment. -/
structure alloc_request where
  allocator : jvm_allocator
  size : Nat
  alignment : Nat

/-- Run `allocate_from_pool` for each request in turn. `none` as soon as a call does not
return 0; otherwise the world and the pool after the calls and the pointers handed out, in
order. -/
def allocate_all : World → jvm_allocation_pool → List alloc_request →
    Option (World × jvm_allocation_pool × List chunk_ptr)
  | w, pool, [] => some (w, pool, [])
  | w, pool, r :: rest =>
    if (allocate_from_pool w r.allocator pool r.size r.alignment).result = 0 then
      match (allocate_from_pool w r.allocator pool r.size r.alignment).p_out,
        allocate_all (allocate_from_pool w r.allocator pool r.size r.alignment).world
          (allocate_from_pool w r.allocator pool r.size r.alignment).pool rest with
      | some p, some (w1, pool1, ps) => some (w1, pool1, p :: ps)
      | _, _ => none
    else none

/-- Run `jvm_deallocate` for each pointer in turn: the world and the allocator after the calls
and the values returned, in order; `none` when a pointer names a pool the allocator does not
hold. -/
def deallocate_all : World → jvm_allocator → List chunk_ptr →
    Option (World × jvm_allocator × List VkResult)
  | w, allocator, [] => some (w, allocator, [])
  | w, allocator, p :: rest =>
    match jvm_deallocate w allocator p with
    | none => none
    | some r =>
      match deallocate_all r.world r.allocator rest with
      | none => none
      | some (w1, allocator1, results) => some (w1, allocator1, r.result :: results)

/-- The addresses of the chunks in use, in list order. -/
def used_addrs (l : List jvm_chunk) : List Nat :=
  (l.filter (fun c => decide (c.used ≠ 0))).map (fun c => c.addr)

/-- A pool as `create_new_pool` leaves it in world `w`: fresh, its chunk record at an address
the host heap has handed out, with the back-reference to the pool. -/
def created_pool (w : World) (pool : jvm_allocation_pool) : Prop :=
  fresh_pool pool ∧ ∀ c ∈ pool.chunks, c.addr < w.next ∧ c.pool = pool.addr

/-- The pool satisfies its invariant, its chunk records lie at distinct addresses handed out
by the host heap of world `w`, and each record points back to the pool. -/
structure pool_owned (w : World) (pool : jvm_allocation_pool) : Prop where
  inv : pool_inv pool
  nodup : (pool.chunks.map (fun c => c.addr)).Nodup
  below : ∀ c ∈ pool.chunks, c.addr < w.next
  back : ∀ c ∈ pool.chunks, c.pool = pool.addr

/-- Three requests of 100, 200 and 300 bytes at alignment 64. -/
def sample_reqs : List alloc_request :=
  [⟨sample_allocator, 100, 64⟩, ⟨sample_allocator, 200, 64⟩, ⟨sample_allocator, 300, 64⟩]

/-- The pool `sample_pool` after the three allocations of `sample_reqs`: chunks A, B, C and
the unused rest. -/
def sample_pool_abc : jvm_allocation_pool :=
  { sample_pool with
    chunks :=
      [{ addr := 3, mapped := 0, used := 1, size := 100, memory := 2, chunk_offset := 0,
         padding := 0, pool := 1 },
       { addr := 100, mapped := 0, used := 1, size := 228, memory := 2, chunk_offset := 100,
         padding := 28, pool := 1 },
       { addr := 101, mapped := 0, used := 1, size := 356, memory := 2, chunk_offset := 328,
         padding := 56, pool := 1 },
       { addr := 102, mapped := 0, used := 0, size := 3412, memory := 2, chunk_offset := 684,
         padding := 0, pool := 1 }] }

/-- Clear `used` and `padding` of the first chunk at address `a`. -/
def mark_free (a : Nat) : List jvm_chunk → List jvm_chunk
  | [] => []
  | c :: r => if c.addr = a then c.release :: r else c :: mark_free a r

/-- The memory type `j` is acceptable: inside the mask `type_bits`, free of undesired flags
and carrying all desired flags. -/
def qualifies (mp : VkPhysicalDeviceMemoryProperties)
    (type_bits desired_flags undesired_flags j : Nat) : Prop :=
  j < mp.memoryTypeCount ∧ type_bits.testBit j = true ∧
    (mp.memoryType j).propertyFlags &&& undesired_flags = 0 ∧
    (mp.memoryType j).propertyFlags &&& desired_flags = desired_flags

instance (mp : VkPhysicalDeviceMemoryProperties) (type_bits desired_flags undesired_flags j : Nat) :
    Decidable (qualifies mp type_bits desired_flags undesired_flags j) := by
  unfold qualifies; infer_instance

/-- The entry `scores[j]` of `jvm_allocate` when the selection loop starts, in closed form. -/
def jvm_allocate.score (mp : VkPhysicalDeviceMemoryProperties)
    (type_bits desired_flags undesired_flags j : Nat) : Int :=
  if j < mp.memoryTypeCount ∧ j < VK_MAX_MEMORY_TYPES then
    if (mp.memoryType j).propertyFlags &&& undesired_flags ≠ 0 ∨ type_bit type_bits j = 0 then 0
    else if (mp.memoryType j).propertyFlags &&& desired_flags = desired_flags then
      heap_score mp j
    else 1
  else 0

/-- An allocator without pools on a device with two memory types on one heap of 1536 bytes:
type 0 has no property flag, type 1 is device-local. -/
def small_heap_allocator : jvm_allocator :=
  { has_report := true, has_vk_alloc := false,
    memory_properties := ⟨[⟨0, 0⟩, ⟨1, 0⟩], [⟨1536, 0⟩]⟩,
    min_pool_size := 1024, automatically_free_unused := 0, min_allocation_size := 64,
    min_map_alignment := 64, pool_capacity := 0, pools := [] }

/-- An allocator without pools on a device with three memory types: type 0 without property
flags and type 1, device-local, on a heap of 1024 bytes, type 2, device-local, on a heap of
2047 bytes. -/
def small_heaps_allocator : jvm_allocator :=
  { has_report := true, has_vk_alloc := false,
    memory_properties := ⟨[⟨0, 0⟩, ⟨1, 0⟩, ⟨1, 1⟩], [⟨1024, 0⟩, ⟨2047, 0⟩]⟩,
    min_pool_size := 1024, automatically_free_unused := 0, min_allocation_size := 64,
    min_map_alignment := 64, pool_capacity := 0, pools := [] }

/-- An allocator without pools on a device with two device-local memory types: type 0 on a
heap of 8 GiB, type 1 on a heap of 256 MiB. -/
def two_heaps_allocator : jvm_allocator :=
  { has_report := true, has_vk_alloc := false,
    memory_properties := ⟨[⟨1, 0⟩, ⟨1, 1⟩], [⟨8589934592, 0⟩, ⟨268435456, 0⟩]⟩,
    min_pool_size := 1048576, automatically_free_unused := 0, min_allocation_size := 64,
    min_map_alignment := 64, pool_capacity := 0, pools := [] }

/-- Follow a chunk pointer as `jvm_chunk_map` does: the pool at the address `chunk->pool`
and, in its chunk list, the record at the address of the chunk. -/
def jvm_allocator.deref (allocator : jvm_allocator) (chunk : chunk_ptr) :
    Option (jvm_allocation_pool × jvm_chunk) :=
  match allocator.pools[allocator.pools.findIdx (fun p => p.addr == chunk.pool)]? with
  | none => none
  | some pool =>
    match pool.chunks[pool.chunks.findIdx (fun c => c.addr == chunk.addr)]? with
    | none => none
    | some c => some (pool, c)

/-- A second pool of 4096 bytes, one unused chunk. -/
def sample_pool_b : jvm_allocation_pool :=
  { addr := 5, memory_type_index := 0, memory := 6, chunk_capacity := 32, map_count := 0,
    map_ptr := none, memory_type_info := ⟨1, 0⟩, size := 4096,
    chunks := [{ addr := 7, mapped := 0, used := 0, size := 4096, memory := 6,
                 chunk_offset := 0, padding := 0, pool := 5 }] }

/-- The allocator `sample_allocator` holding two pools, each one unused chunk. -/
def two_unused_pools_allocator : jvm_allocator :=
  { sample_allocator with pools := [sample_pool, sample_pool_b] }

/-- The allocator `two_heaps_allocator` after one dedicated allocation of 100 bytes: one pool
of 100 bytes that is one used chunk. -/
def one_used_pool_allocator : jvm_allocator :=
  (jvm_allocate_dedicated sample_world two_heaps_allocator 100 64 3 1 0).allocator

/-- A creation request that leaves `min_pool_size` and `min_allocation_size` at 0. -/
def sample_create_info : jvm_allocator_create_info :=
  { min_pool_size := 0, automatically_free_unused := 0, min_allocation_size := 0,
    error_callbacks := none,
    physical_device :=
      { minMemoryMapAlignment := 64, nonCoherentAtomSize := 256,
        memory_properties := ⟨[⟨1, 0⟩], [⟨1073741824, 0⟩]⟩ } }

/-- Write the record `c1` over the chunk record that `chunk` points to, and the pool record
`pool1` (with that chunk list) over its pool: the stores `chunk->mapped = ...` and
`pool->map_count = ...` of the map functions. -/
def jvm_allocator.store (allocator : jvm_allocator) (chunk : chunk_ptr)
    (pool1 : jvm_allocation_pool) (c1 : jvm_chunk) : jvm_allocator :=
  { allocator with
    pools :=
      allocator.pools.set (allocator.pools.findIdx (fun p => p.addr == chunk.pool))
        { pool1 with
          chunks :=
            pool1.chunks.set (pool1.chunks.findIdx (fun c => c.addr == chunk.addr)) c1 } }

/-- The number of chunks of a list with `mapped != 0`. -/
def mapped_count (l : List jvm_chunk) : Nat :=
  (l.filter (fun c => decide (c.mapped ≠ 0))).length

/-- The sequence `map(c1), map(c2), unmap(c2), unmap(c1)`: the world and the allocator at the
end and the four values returned; `none` when a pointer leads to no chunk record. -/
def map_map_unmap_unmap (w : World) (allocator : jvm_allocator) (c1 c2 : chunk_ptr) :
    Option (World × jvm_allocator × List VkResult) :=
  match jvm_chunk_map w allocator c1 with
  | none => none
  | some r1 =>
    match jvm_chunk_map r1.world r1.allocator c2 with
    | none => none
    | some r2 =>
      match jvm_chunk_unmap r2.world r2.allocator c2 with
      | none => none
      | some r3 =>
        match jvm_chunk_unmap r3.world r3.allocator c1 with
        | none => none
        | some r4 => some (r4.world, r4.allocator, [r1.result, r2.result, r3.result, r4.result])

/-- The allocator `sample_allocator` holding the pool `sample_pool_abc`. -/
def abc_allocator : jvm_allocator :=
  { sample_allocator with pools := [sample_pool_abc] }

/-- The allocator `abc_allocator` after chunk A was mapped. -/
def abc_mapped_allocator : jvm_allocator :=
  ((jvm_chunk_map sample_world abc_allocator ⟨3, 1⟩).map (fun r => r.allocator)).getD
    abc_allocator

/-- The allocator `two_heaps_allocator` with `automatically_free_unused` set. -/
def auto_free_allocator : jvm_allocator :=
  { two_heaps_allocator with automatically_free_unused := 1 }

/-- An allocator without pools on a device with one memory type, host-visible, on a heap of
1 GiB; memory maps need an alignment of 64. -/
def host_visible_allocator : jvm_allocator :=
  { has_report := true, has_vk_alloc := false,
    memory_properties := ⟨[⟨2, 0⟩], [⟨1073741824, 0⟩]⟩,
    min_pool_size := 4096, automatically_free_unused := 0, min_allocation_size := 8,
    min_map_alignment := 64, pool_capacity := 0, pools := [] }

/-- A world in which the fifth host allocation fails and every driver call succeeds. -/
def fifth_alloc_fails_world : World := ⟨100, [true, true, true, true, false], [], [], []⟩

/-- The operations of a run on an allocator: the two allocation functions, map and unmap of
a chunk, and the destruction of a buffer or an image. -/
inductive allocator_op where
  | allocate (size alignment type_bits desired_flags undesired_flags : Nat)
  | allocate_dedicated (size alignment type_bits desired_flags undesired_flags : Nat)
  | map (chunk : chunk_ptr)
  | unmap (chunk : chunk_ptr)
  | buffer_destroy (buffer_allocation : jvm_buffer_allocation)
  | image_destroy (image_allocation : jvm_buffer_allocation)
deriving DecidableEq, Repr

/-- A chunk pointer that is an allocation of the allocator: it leads to a chunk record of a
pool of the allocator, and the record is marked used. -/
def jvm_allocator.live (allocator : jvm_allocator) (chunk : chunk_ptr) : Bool :=
  match allocator.deref chunk with
  | some (_, c) => c.used != 0
  | none => false

/-- One operation of a run; `none` when the operation is given a pointer that is not an
allocation of the allocator. -/
def allocator_op.run (w : World) (allocator : jvm_allocator) :
    allocator_op → Option (World × jvm_allocator)
  | allocator_op.allocate size alignment type_bits desired_flags undesired_flags =>
    some ((jvm_allocate w allocator size alignment type_bits desired_flags undesired_flags).world,
      (jvm_allocate w allocator size alignment type_bits desired_flags
        undesired_flags).allocator)
  | allocator_op.allocate_dedicated size alignment type_bits desired_flags undesired_flags =>
    some ((jvm_allocate_dedicated w allocator size alignment type_bits desired_flags
        undesired_flags).world,
      (jvm_allocate_dedicated w allocator size alignment type_bits desired_flags
        undesired_flags).allocator)
  | allocator_op.map chunk =>
    if allocator.live chunk then
      (jvm_chunk_map w allocator chunk).map (fun r => (r.world, r.allocator))
    else none
  | allocator_op.unmap chunk =>
    if allocator.live chunk then
      (jvm_chunk_unmap w allocator chunk).map (fun r => (r.world, r.allocator))
    else none
  | allocator_op.buffer_destroy buffer_allocation =>
    if allocator.live buffer_allocation.allocation then
      (jvm_buffer_destroy w allocator buffer_allocation).map (fun r => (r.world, r.allocator))
    else none
  | allocator_op.image_destroy image_allocation =>
    if allocator.live image_allocation.allocation then
      (jvm_image_destroy w allocator image_allocation).map (fun r => (r.world, r.allocator))
    else none

/-- A run: the operations of a list, in order. -/
def run_allocator_ops : World × jvm_allocator → List allocator_op →
    Option (World × jvm_allocator)
  | s, [] => some s
  | s, op :: ops =>
    match op.run s.1 s.2 with
    | none => none
    | some s1 => run_allocator_ops s1 ops

/-- The invariant behind the map reference count of a pool: `map_count` is the number of
chunks with `mapped != 0`, and a chunk that is not in use is not mapped. -/
def map_count_inv (pool : jvm_allocation_pool) : Prop :=
  pool.map_count = mapped_count pool.chunks ∧ ∀ c ∈ pool.chunks, c.used = 0 → c.mapped = 0

instance (pool : jvm_allocation_pool) : Decidable (map_count_inv pool) := by
  unfold map_count_inv; infer_instance

/-- A world in which every host allocation succeeds and the third driver call fails. -/
def third_call_fails_world : World :=
  ⟨100, [], [VK_SUCCESS, VK_SUCCESS, VK_ERROR_UNKNOWN], [], []⟩

/-- A run on `host_visible_allocator`: two allocations from one pool and a dedicated one,
maps, unmaps and destructions. -/
def sample_run : List allocator_op :=
  [allocator_op.allocate 100 64 1 2 0,
   allocator_op.allocate 200 64 1 2 0,
   allocator_op.map ⟨103, 100⟩,
   allocator_op.map ⟨105, 100⟩,
   allocator_op.allocate_dedicated 300 64 1 2 0,
   allocator_op.unmap ⟨103, 100⟩,
   allocator_op.buffer_destroy ⟨⟨105, 100⟩, 7⟩,
   allocator_op.map ⟨103, 100⟩,
   allocator_op.image_destroy ⟨⟨103, 100⟩, 8⟩]

/-- A chunk that suits a request in the words of the specification: it is unused and its
size is at least the padding to the alignment plus the size asked for. -/
def allocate_from_pool.suitable (size alignment : Nat) (chunk : jvm_chunk) : Prop :=
  chunk.used = 0 ∧
    allocate_from_pool.padding chunk.chunk_offset alignment + size ≤ chunk.size

instance (size alignment : Nat) (chunk : jvm_chunk) :
    Decidable (allocate_from_pool.suitable size alignment chunk) := by
  unfold allocate_from_pool.suitable; infer_instance

/-- A world in which the first host allocation fails. -/
def first_alloc_fails_world : World := ⟨100, [false], [], [], []⟩

/-- The log of `w1` is the log of `w` with events added in front (the log is latest first). -/
def World.grown (w w1 : World) : Prop :=
  ∃ evs : List Event, w1.log = evs ++ w.log

/-- From `w` to `w1` events were added to the log, none of them `jvm_error` or `report`: the
macro `JVM_ERROR` was not reached and the error callback was not called. -/
def World.silent (w w1 : World) : Prop :=
  ∃ evs : List Event, w1.log = evs ++ w.log ∧ Event.jvm_error ∉ evs ∧ Event.report ∉ evs

/-- From `w` to `w1` events were added to the log, `jvm_error` among them: the macro
`JVM_ERROR` was reached at least once. -/
def World.reported (w w1 : World) : Prop :=
  ∃ evs : List Event, w1.log = evs ++ w.log ∧ Event.jvm_error ∈ evs

/-- A world in which the first driver call fails. -/
def first_call_fails_world : World := ⟨100, [], [VK_ERROR_UNKNOWN], [], []⟩

/-- The allocator `abc_mapped_allocator` after chunk B was mapped as well. -/
def ab_mapped_allocator : jvm_allocator :=
  ((jvm_chunk_map sample_world abc_mapped_allocator ⟨100, 1⟩).map (fun r => r.allocator)).getD
    abc_mapped_allocator

/-- The allocator `abc_mapped_allocator` with the map count of its pool cleared: chunk A is
still marked mapped, the pool is not. -/
def stale_map_allocator : jvm_allocator :=
  { abc_mapped_allocator with
    pools := abc_mapped_allocator.pools.map (fun p => { p with map_count := 0 }) }

/-- The padding in the words of the specification,
`(alignment - (offset & (alignment - 1))) & (alignment - 1)`, in `VkDeviceSize` arithmetic. -/
def padding_formula (offset alignment : Nat) : Nat :=
  u64_sub alignment (offset &&& u64_sub alignment 1) &&& u64_sub alignment 1

/-- The `scores` array of `jvm_allocate` in the course of the four scoring loops: after `n1`
rounds of the loop that seeds the scores, `n2` rounds of the loop on undesired flags (when
there are undesired flags), `n3` rounds of the loop on `type_bits` and `n4` rounds of the
loop on desired flags. -/
def jvm_allocate.scores_at (mp : VkPhysicalDeviceMemoryProperties)
    (type_bits desired_flags undesired_flags n1 n2 n3 n4 : Nat) : List Int :=
  let scores : List Int := List.replicate VK_MAX_MEMORY_TYPES 0
  let scores := for_loop n1 (fun i scores => scores.set i 1) scores
  let st : List Int × Nat :=
    if undesired_flags ≠ 0 then
      for_loop n2
        (fun i st =>
          ((if (mp.memoryType i).propertyFlags &&& undesired_flags ≠ 0 then st.1.set i 0
            else st.1), st.2 + 1))
        (scores, 0)
    else (scores, 0)
  let scores :=
    for_loop n3
      (fun i scores => if type_bit type_bits i = 0 then scores.set i 0 else scores) st.1
  (for_loop n4
    (fun i st =>
      if st.1.getD i 0 = -1 then st
      else if (mp.memoryType i).propertyFlags &&& desired_flags = desired_flags then
        let v := st.1.getD i 0 * heap_score mp i
        (st.1.set i v, st.2 + (if v ≠ 0 then 1 else 0))
      else st)
    (scores, 0)).1

/-- The pool `sample_pool` after 64 bytes were handed out: a used chunk `[0, 64)` and an
unused chunk `[64, 4096)`. -/
def offset_pool : jvm_allocation_pool :=
  (allocate_from_pool sample_world sample_allocator sample_pool 64 64).pool

/-- The world after the call that made `offset_pool`. -/
def offset_world : World :=
  (allocate_from_pool sample_world sample_allocator sample_pool 64 64).world

/-- The invariant of the map pointer of a pool: `map_ptr` is NULL whenever `map_count` is
0. -/
def map_ptr_inv (pool : jvm_allocation_pool) : Prop :=
  pool.map_count = 0 → pool.map_ptr = none

instance (pool : jvm_allocation_pool) : Decidable (map_ptr_inv pool) := by
  unfold map_ptr_inv; infer_instance

/-- The partition invariant of the chunk list of a pool: there is a first chunk, it starts at
offset 0, every chunk ends where the next one starts, and the last one ends at
`pool.size`. -/
def partition_inv (pool : jvm_allocation_pool) : Prop :=
  pool.chunks ≠ [] ∧ chain 0 pool.chunks pool.size

instance (pool : jvm_allocation_pool) : Decidable (partition_inv pool) := by
  unfold partition_inv; infer_instance

/-- A world in which the first driver call succeeds and the second fails with
`VK_ERROR_MEMORY_MAP_FAILED`; the failing `vkMapMemory` leaves the address 7 in `*ppData`. -/
def stray_map_world : World :=
  ⟨100, [], [VK_SUCCESS, VK_ERROR_MEMORY_MAP_FAILED], [], [some 7]⟩

/-! # Theorems -/

/-! ## Machine arithmetic and the padding -/

theorem pow2_lt_U64 {k : Nat} (hk : k < 64) : 2 ^ k < U64 := by
  have : (2:Nat) ^ k < 2 ^ 64 := Nat.pow_lt_pow_right (by decide) hk
  simpa [U64] using this

theorem u64_sub_one {a : Nat} (h1 : 1 ≤ a) (h2 : a < U64) : u64_sub a 1 = a - 1 := by
  unfold u64_sub U64 at *; omega

theorem padding_eq {off k : Nat} (hk : k < 64) :
    allocate_from_pool.padding off (2 ^ k) =
      if off % 2 ^ k = 0 then 0 else 2 ^ k - off % 2 ^ k := by
  have ha := pow2_lt_U64 hk
  have hpos : 0 < 2 ^ k := Nat.pos_pow_of_pos k (by decide)
  have hr : off % 2 ^ k < 2 ^ k := Nat.mod_lt _ hpos
  unfold allocate_from_pool.padding
  rw [u64_sub_one hpos ha, Nat.and_pow_two_sub_one_eq_mod]
  generalize off % 2 ^ k = r at hr
  generalize 2 ^ k = a at *
  unfold u64_sub U64 at *
  simp only []
  split_ifs <;> omega

theorem padding_aligned {off k : Nat} (hk : k < 64) :
    (off + allocate_from_pool.padding off (2 ^ k)) % 2 ^ k = 0 := by
  rw [padding_eq hk]
  have hpos : 0 < 2 ^ k := Nat.pos_pow_of_pos k (by decide)
  have hr : off % 2 ^ k < 2 ^ k := Nat.mod_lt _ hpos
  split_ifs with h
  · simpa using h
  · rw [Nat.add_mod, Nat.mod_eq_of_lt (show 2 ^ k - off % 2 ^ k < 2 ^ k by omega)]
    rw [show off % 2 ^ k + (2 ^ k - off % 2 ^ k) = 2 ^ k by omega]
    simp

theorem padding_lt {off k : Nat} (hk : k < 64) :
    allocate_from_pool.padding off (2 ^ k) < 2 ^ k := by
  rw [padding_eq hk]
  have hpos : 0 < 2 ^ k := Nat.pos_pow_of_pos k (by decide)
  split_ifs <;> omega

theorem u64_add_of_lt {a b : Nat} (h : a + b < U64) : u64_add a b = a + b := by
  unfold u64_add; exact Nat.mod_eq_of_lt h

/-! ## Facts on the world -/

theorem jvm_alloc_cases (w : World) :
    (∃ w1, jvm_alloc w = (w1, none) ∧ w1.next = w.next ∧ w1.log = w.log) ∨
    (∃ w1, jvm_alloc w = (w1, some w.next) ∧ w1.next = w.next + 1 ∧ w1.log = w.log) := by
  unfold jvm_alloc
  rcases h : w.host with _ | ⟨b, rest⟩
  · right; exact ⟨_, rfl, rfl, rfl⟩
  · cases b
    · left; exact ⟨_, rfl, rfl, rfl⟩
    · right; exact ⟨_, rfl, rfl, rfl⟩

theorem jvm_report_error_next (w : World) (alc : jvm_allocator) :
    w.next ≤ (jvm_report_error w alc).next := by
  unfold jvm_report_error
  split_ifs
  · exact Nat.le_refl _
  · rcases jvm_alloc_cases w with ⟨w1, h, hn, -⟩ | ⟨w1, h, hn, -⟩ <;> rw [h] <;>
      simp [World.emit, hn]

theorem JVM_ERROR_next (w : World) (alc : jvm_allocator) : w.next ≤ (JVM_ERROR w alc).next := by
  unfold JVM_ERROR
  exact jvm_report_error_next (w.emit Event.jvm_error) alc

/-! ## `allocate_from_pool` case by case -/

theorem split_cases (w : World) (allocator : jvm_allocator) (pool : jvm_allocation_pool)
    (i : Nat) (chunk : jvm_chunk) (size padding left_over : Nat) :
    (∃ w1, allocate_from_pool.split w allocator pool i chunk size padding left_over =
        ⟨w1, -1, pool, none⟩ ∧ w.next ≤ w1.next) ∨
    (∃ w1, allocate_from_pool.split w allocator pool i chunk size padding left_over =
        ⟨w1, 0,
          { pool with chunks :=
              allocate_from_pool.split_chunks pool i chunk size padding left_over w.next },
          some chunk.ptr⟩ ∧ w1.next = w.next + 1) := by
  unfold allocate_from_pool.split
  rcases jvm_alloc_cases w with ⟨w1, h, hn, -⟩ | ⟨w1, h, hn, -⟩
  · left; rw [h]; exact ⟨_, rfl, hn ▸ JVM_ERROR_next w1 allocator⟩
  · right; rw [h]; exact ⟨w1, rfl, hn⟩

theorem carve_cases (w : World) (allocator : jvm_allocator) (pool : jvm_allocation_pool)
    (i : Nat) (chunk : jvm_chunk) (size padding : Nat) :
    (allocator.min_allocation_size < u64_sub chunk.size (u64_add padding size) ∧
      ∃ w1 cap, allocate_from_pool.carve w allocator pool i chunk size padding =
        ⟨w1, -1, { pool with chunk_capacity := cap }, none⟩ ∧ w.next ≤ w1.next) ∨
    (allocator.min_allocation_size < u64_sub chunk.size (u64_add padding size) ∧
      ∃ w1 cap a, allocate_from_pool.carve w allocator pool i chunk size padding =
        ⟨w1, 0,
          { pool with
            chunk_capacity := cap
            chunks := allocate_from_pool.split_chunks pool i chunk size padding
              (u64_sub chunk.size (u64_add padding size)) a },
          some chunk.ptr⟩ ∧ w.next ≤ a ∧ a < w1.next) ∨
    (¬ allocator.min_allocation_size < u64_sub chunk.size (u64_add padding size) ∧
      allocate_from_pool.carve w allocator pool i chunk size padding =
        ⟨w, 0,
          { pool with chunks := pool.chunks.set i { chunk with padding := padding, used := 1 } },
          some chunk.ptr⟩) := by
  unfold allocate_from_pool.carve
  simp only [gt_iff_lt]
  by_cases hl : allocator.min_allocation_size < u64_sub chunk.size (u64_add padding size)
  · rw [if_pos hl]
    by_cases hc : pool.chunk_count = pool.chunk_capacity
    · rw [if_pos hc]
      unfold jvm_realloc
      rcases jvm_alloc_cases w with ⟨w1, h, hn, -⟩ | ⟨w1, h, hn, -⟩
      · left; rw [h]
        exact ⟨hl, _, pool.chunk_capacity, rfl, hn ▸ JVM_ERROR_next w1 allocator⟩
      · rw [h]; simp only []
        rcases split_cases w1 allocator
            { pool with chunk_capacity :=
                ((if pool.chunk_capacity ≠ 0 then pool.chunk_capacity else 8) <<< 1) % U32 }
            i chunk size padding (u64_sub chunk.size (u64_add padding size))
          with ⟨w2, h2, hn2⟩ | ⟨w2, h2, hn2⟩
        · left; rw [h2]; exact ⟨hl, w2, _, rfl, by omega⟩
        · right; left; rw [h2]
          exact ⟨hl, w2, _, w1.next, rfl, by omega, by omega⟩
    · rw [if_neg hc]
      rcases split_cases w allocator pool i chunk size padding
          (u64_sub chunk.size (u64_add padding size)) with ⟨w2, h2, hn2⟩ | ⟨w2, h2, hn2⟩
      · left; rw [h2]; exact ⟨hl, w2, pool.chunk_capacity, rfl, hn2⟩
      · right; left; rw [h2]
        exact ⟨hl, w2, pool.chunk_capacity, w.next, rfl, Nat.le_refl _, by omega⟩
  · right; right; rw [if_neg hl]; exact ⟨hl, rfl⟩

/-- The loop of `allocate_from_pool` either skips every chunk from `i` on and returns 1, or
carves the first chunk from `i` on that fits. -/
theorem loop_cases (w : World) (allocator : jvm_allocator) (pool : jvm_allocation_pool)
    (size alignment : Nat) (fuel i : Nat) (hf : i + fuel = pool.chunks.length) :
    ((∀ j c, i ≤ j → pool.chunks[j]? = some c → ¬ allocate_from_pool.fits size alignment c) ∧
      allocate_from_pool.loop w allocator pool size alignment fuel i = ⟨w, 1, pool, none⟩) ∨
    (∃ (j : Nat) (chunk : jvm_chunk), i ≤ j ∧ pool.chunks[j]? = some chunk ∧
      allocate_from_pool.fits size alignment chunk ∧
      (∀ j' c, i ≤ j' → j' < j → pool.chunks[j']? = some c →
        ¬ allocate_from_pool.fits size alignment c) ∧
      allocate_from_pool.loop w allocator pool size alignment fuel i =
        allocate_from_pool.carve w allocator pool j chunk size
          (allocate_from_pool.padding chunk.chunk_offset alignment)) := by
  induction fuel generalizing i with
  | zero =>
    left
    refine ⟨?_, rfl⟩
    intro j c hij hc
    have := (List.getElem?_eq_some_iff.mp hc).1
    omega
  | succ fuel ih =>
    have hi : i < pool.chunks.length := by omega
    have hc : pool.chunks[i]? = some pool.chunks[i] := List.getElem?_eq_getElem hi
    have hstep : ∀ (_ : ¬ allocate_from_pool.fits size alignment pool.chunks[i]),
        allocate_from_pool.loop w allocator pool size alignment (fuel + 1) i =
          allocate_from_pool.loop w allocator pool size alignment fuel (i + 1) := by
      intro hnf
      rw [allocate_from_pool.loop, hc]
      simp only []
      by_cases hu : pool.chunks[i].used = 1
      · rw [if_pos hu]
      · rw [if_neg hu, if_pos]
        by_contra hlt
        exact hnf ⟨hu, hlt⟩
    by_cases hfit : allocate_from_pool.fits size alignment pool.chunks[i]
    · right
      refine ⟨i, _, Nat.le_refl _, hc, hfit, ?_, ?_⟩
      · intro j' c h1 h2; omega
      · rw [allocate_from_pool.loop, hc]
        simp only []
        rw [if_neg hfit.1, if_neg hfit.2]
    · rw [hstep hfit]
      rcases ih (i + 1) (by omega) with ⟨hall, heq⟩ | ⟨j, chunk, hij, hj, hjfit, hbefore, heq⟩
      · left
        refine ⟨?_, heq⟩
        intro j c hij hjc
        rcases Nat.eq_or_lt_of_le hij with rfl | hlt
        · rw [hc] at hjc; cases hjc; exact hfit
        · exact hall j c hlt hjc
      · right
        refine ⟨j, chunk, by omega, hj, hjfit, ?_, heq⟩
        intro j' c h1 h2 hj'
        rcases Nat.eq_or_lt_of_le h1 with rfl | hlt
        · rw [hc] at hj'; cases hj'; exact hfit
        · exact hbefore j' c hlt h2 hj'

/-! ## C1: what `allocate_from_pool` hands out -/

theorem getElem?_take_append_cons {α : Type} (l : List α) (i : Nat) (x : α) (r : List α)
    (hi : i < l.length) : (l.take i ++ x :: r)[i]? = some x := by
  rw [List.getElem?_append_right (by simp [Nat.min_eq_left hi.le])]
  simp [Nat.min_eq_left hi.le]

/-- C1: for every pool, every power-of-two alignment `2 ^ k` (a `VkDeviceSize`) and every
size: when `allocate_from_pool` returns 0, the pool holds a chunk whose pointer is the one
handed out, this chunk is marked used, `chunk_offset + padding` is a multiple of the alignment
and, when `padding + size` does not exceed `2 ^ 64 - 1`, `size - padding` is at least the
requested size. -/
theorem allocate_from_pool_aligned (w : World) (allocator : jvm_allocator)
    (pool : jvm_allocation_pool) (size k : Nat) (hk : k < 64)
    (h0 : (allocate_from_pool w allocator pool size (2 ^ k)).result = 0) :
    ∃ (i : Nat) (chunk : jvm_chunk),
      (allocate_from_pool w allocator pool size (2 ^ k)).pool.chunks[i]? = some chunk ∧
      (allocate_from_pool w allocator pool size (2 ^ k)).p_out = some chunk.ptr ∧
      chunk.used = 1 ∧
      (chunk.chunk_offset + chunk.padding) % 2 ^ k = 0 ∧
      (chunk.padding + size < U64 →
        chunk.padding ≤ chunk.size ∧ size ≤ chunk.size - chunk.padding) := by
  unfold allocate_from_pool at h0 ⊢
  rcases loop_cases w allocator pool size (2 ^ k) pool.chunk_count 0
      (by simp [jvm_allocation_pool.chunk_count]) with
    ⟨-, heq⟩ | ⟨j, chunk, -, hj, hfit, -, heq⟩
  · rw [heq] at h0; simp at h0
  · rw [heq] at h0 ⊢
    have hjl : j < pool.chunks.length := (List.getElem?_eq_some_iff.mp hj).1
    rcases carve_cases w allocator pool j chunk size
        (allocate_from_pool.padding chunk.chunk_offset (2 ^ k)) with
      ⟨-, w1, cap, h, -⟩ | ⟨-, w1, cap, a, h, -, -⟩ | ⟨-, h⟩
    · rw [h] at h0; simp at h0
    · rw [h]
      refine ⟨j, _, getElem?_take_append_cons _ _ _ _ hjl, rfl, rfl, padding_aligned hk, ?_⟩
      intro hlt
      simp only [] at hlt ⊢
      rw [Nat.add_comm] at hlt
      rw [u64_add_of_lt hlt]
      omega
    · rw [h]
      refine ⟨j, { chunk with
          padding := allocate_from_pool.padding chunk.chunk_offset (2 ^ k), used := 1 },
        by simp [hjl], rfl, rfl, padding_aligned hk, ?_⟩
      intro hlt
      have h2 := hfit.2
      simp only [] at hlt ⊢
      rw [u64_add_of_lt hlt] at h2
      omega

/-- C1, witness: 100 bytes at alignment 64 from `sample_pool`. -/
theorem allocate_from_pool_aligned_witness :
    ∃ (i : Nat) (chunk : jvm_chunk),
      (allocate_from_pool sample_world sample_allocator sample_pool 100 (2 ^ 6)).pool.chunks[i]?
        = some chunk ∧
      (allocate_from_pool sample_world sample_allocator sample_pool 100 (2 ^ 6)).p_out
        = some chunk.ptr ∧
      chunk.used = 1 ∧
      (chunk.chunk_offset + chunk.padding) % 2 ^ 6 = 0 ∧
      (chunk.padding + 100 < U64 →
        chunk.padding ≤ chunk.size ∧ 100 ≤ chunk.size - chunk.padding) :=
  allocate_from_pool_aligned sample_world sample_allocator sample_pool 100 6 (by decide)
    (by decide)

/-! ## `merge_chunks` and `deallocate_from_pool` on a split chunk list -/

theorem merge_chunks_zip (pool : jvm_allocation_pool) (pre post : List jvm_chunk)
    (c1 c2 : jvm_chunk) (h : pool.chunks = pre ++ c1 :: c2 :: post) :
    merge_chunks pool pre.length (pre.length + 1) =
      if c1.used = 0 ∧ c2.used = 0 then
        (1, { pool with chunks := pre ++ c1.absorb c2 :: post })
      else (0, pool) := by
  unfold merge_chunks
  have h1 : pool.chunks[pre.length]? = some c1 := by
    rw [h, List.getElem?_append_right (Nat.le_refl _)]; simp
  have h2 : pool.chunks[pre.length + 1]? = some c2 := by
    rw [h, List.getElem?_append_right (by omega)]; simp
  rw [h1, h2]
  simp only []
  by_cases hu : c1.used = 0 ∧ c2.used = 0
  · rw [if_pos hu, if_neg (by omega)]
    congr 2
    rw [h]
    simp [jvm_chunk.absorb, List.eraseIdx_append_of_length_le]
  · rw [if_neg hu, if_pos (by omega)]

theorem pool_with_chunks {pool : jvm_allocation_pool} {l : List jvm_chunk}
    (h : pool.chunks = l) : pool = { pool with chunks := l } := by
  cases pool; simp only at h; subst h; rfl

theorem merge_after_zip (fuel : Nat) (pool : jvm_allocation_pool) (pre : List jvm_chunk)
    (x : jvm_chunk) (post : List jvm_chunk) (h : pool.chunks = pre ++ x :: post)
    (hf : post.length ≤ fuel) :
    deallocate_from_pool.merge_after fuel pool pre.length =
      { pool with chunks := pre ++ (merge_right x post).1 :: (merge_right x post).2 } := by
  induction fuel generalizing pool x post with
  | zero =>
    have : post = [] := List.eq_nil_of_length_eq_zero (by omega)
    subst this
    simpa [deallocate_from_pool.merge_after, merge_right] using pool_with_chunks h
  | succ fuel ih =>
    rw [deallocate_from_pool.merge_after]
    cases post with
    | nil =>
      rw [if_neg (by simp [jvm_allocation_pool.chunk_count, h])]
      simpa [merge_right] using pool_with_chunks h
    | cons d r =>
      rw [if_pos (by simp [jvm_allocation_pool.chunk_count, h])]
      rw [merge_chunks_zip pool pre r x d h]
      by_cases hu : x.used = 0 ∧ d.used = 0
      · rw [if_pos hu]
        simp only [one_ne_zero, if_false]
        rw [ih _ (x.absorb d) r rfl (by simpa using hf)]
        simp [merge_right, hu]
      · rw [if_neg hu]
        simpa [merge_right, hu] using pool_with_chunks h

theorem merge_before_zip (fuel : Nat) (pool : jvm_allocation_pool) (rpre : List jvm_chunk)
    (x : jvm_chunk) (post : List jvm_chunk) (h : pool.chunks = rpre.reverse ++ x :: post)
    (hf : rpre.length ≤ fuel) :
    deallocate_from_pool.merge_before fuel pool rpre.length =
      { pool with chunks := merge_left rpre x ++ post } := by
  induction fuel generalizing pool x rpre with
  | zero =>
    have : rpre = [] := List.eq_nil_of_length_eq_zero (by omega)
    subst this
    simpa [deallocate_from_pool.merge_before, merge_left] using pool_with_chunks h
  | succ fuel ih =>
    rw [deallocate_from_pool.merge_before]
    cases rpre with
    | nil =>
      simpa [merge_left] using pool_with_chunks h
    | cons l r =>
      rw [if_pos (by simp)]
      have h' : pool.chunks = r.reverse ++ l :: x :: post := by simp [h]
      have hz := merge_chunks_zip pool r.reverse post l x h'
      simp only [List.length_reverse] at hz
      simp only [List.length_cons, Nat.add_sub_cancel]
      rw [hz]
      by_cases hu : l.used = 0 ∧ x.used = 0
      · rw [if_pos hu]
        simp only [one_ne_zero, if_false]
        rw [ih _ r (l.absorb x) rfl (by simpa using hf)]
        simp [merge_left, hu]
      · rw [if_neg hu]
        simpa [merge_left, hu] using pool_with_chunks h

theorem deallocate_from_pool_cases (pool : jvm_allocation_pool) (p : chunk_ptr) :
    ((∀ c ∈ pool.chunks, c.addr ≠ p.addr) ∧ deallocate_from_pool pool p = (-1, pool)) ∨
    (∃ (pre : List jvm_chunk) (x : jvm_chunk) (post : List jvm_chunk),
      pool.chunks = pre ++ x :: post ∧ x.addr = p.addr ∧ (∀ c ∈ pre, c.addr ≠ p.addr) ∧
      deallocate_from_pool pool p =
        (0, { pool with
              chunks := merge_left pre.reverse (merge_right x.release post).1 ++
                (merge_right x.release post).2 })) := by
  unfold deallocate_from_pool
  simp only [jvm_allocation_pool.chunk_count]
  by_cases hidx : pool.chunks.findIdx (fun c => c.addr == p.addr) = pool.chunks.length
  · left
    rw [if_pos hidx]
    refine ⟨?_, rfl⟩
    intro c hc
    have := List.findIdx_eq_length.mp hidx c hc
    simpa using this
  · right
    rw [if_neg hidx]
    have hlt : pool.chunks.findIdx (fun c => c.addr == p.addr) < pool.chunks.length :=
      lt_of_le_of_ne (List.findIdx_le_length _) hidx
    generalize hi : pool.chunks.findIdx (fun c => c.addr == p.addr) = idx at hlt
    have hx : (pool.chunks[idx]).addr = p.addr := by
      have := @List.findIdx_getElem _ (fun c : jvm_chunk => c.addr == p.addr) pool.chunks
        (hi ▸ hlt)
      simp only [hi] at this
      simpa using this
    have hdec : pool.chunks =
        pool.chunks.take idx ++ pool.chunks[idx] :: pool.chunks.drop (idx + 1) := by
      simp
    have hlen : (pool.chunks.take idx).length = idx := by simp [Nat.min_eq_left hlt.le]
    refine ⟨pool.chunks.take idx, pool.chunks[idx], pool.chunks.drop (idx + 1), hdec, hx, ?_, ?_⟩
    · intro c hc
      rcases List.getElem_of_mem hc with ⟨j, hj, rfl⟩
      rw [hlen] at hj
      have := @List.not_of_lt_findIdx _ (fun c : jvm_chunk => c.addr == p.addr) pool.chunks j
        (by omega)
      simpa using this
    · have h1 : pool.chunks.modify (fun c => { c with used := 0, padding := 0 }) idx =
          pool.chunks.take idx ++ (pool.chunks[idx]).release :: pool.chunks.drop (idx + 1) :=
        List.modify_eq_take_cons_drop hlt
      have ha := merge_after_zip (pool.chunks.modify
          (fun c => { c with used := 0, padding := 0 }) idx).length
        { pool with chunks := pool.chunks.modify (fun c => { c with used := 0, padding := 0 }) idx }
        (pool.chunks.take idx) (pool.chunks[idx]).release (pool.chunks.drop (idx + 1)) h1
        (by simp)
      rw [hlen] at ha
      rw [ha]
      have hb := merge_before_zip
        ((pool.chunks.take idx) ++
          (merge_right (pool.chunks[idx]).release (pool.chunks.drop (idx + 1))).1 ::
          (merge_right (pool.chunks[idx]).release (pool.chunks.drop (idx + 1))).2).length
        { pool with chunks := (pool.chunks.take idx) ++
          (merge_right (pool.chunks[idx]).release (pool.chunks.drop (idx + 1))).1 ::
          (merge_right (pool.chunks[idx]).release (pool.chunks.drop (idx + 1))).2 }
        (pool.chunks.take idx).reverse
        (merge_right (pool.chunks[idx]).release (pool.chunks.drop (idx + 1))).1
        (merge_right (pool.chunks[idx]).release (pool.chunks.drop (idx + 1))).2
        (by simp) (by simp)
      rw [List.length_reverse, hlen] at hb
      rw [hb]

/-! ## Coalescing -/

@[simp] theorem absorb_used (c d : jvm_chunk) : (c.absorb d).used = c.used := rfl
@[simp] theorem absorb_addr (c d : jvm_chunk) : (c.absorb d).addr = c.addr := rfl
@[simp] theorem absorb_padding (c d : jvm_chunk) : (c.absorb d).padding = c.padding := rfl
@[simp] theorem absorb_chunk_offset (c d : jvm_chunk) :
    (c.absorb d).chunk_offset = c.chunk_offset := rfl
@[simp] theorem absorb_size (c d : jvm_chunk) :
    (c.absorb d).size = u64_add c.size d.size := rfl
@[simp] theorem release_used (c : jvm_chunk) : c.release.used = 0 := rfl
@[simp] theorem release_padding (c : jvm_chunk) : c.release.padding = 0 := rfl
@[simp] theorem release_addr (c : jvm_chunk) : c.release.addr = c.addr := rfl
@[simp] theorem release_size (c : jvm_chunk) : c.release.size = c.size := rfl
@[simp] theorem release_chunk_offset (c : jvm_chunk) :
    c.release.chunk_offset = c.chunk_offset := rfl

theorem coalesce_step_cons (c d : jvm_chunk) (r : List jvm_chunk) :
    coalesce_step c (d :: r) =
      if c.used = 0 ∧ d.used = 0 then c.absorb d :: r else c :: d :: r := rfl

theorem merge_right_cons (x d : jvm_chunk) (r : List jvm_chunk) :
    merge_right x (d :: r) =
      if x.used = 0 ∧ d.used = 0 then merge_right (x.absorb d) r else (x, d :: r) := rfl

theorem merge_left_cons (l x : jvm_chunk) (r : List jvm_chunk) :
    merge_left (l :: r) x =
      if l.used = 0 ∧ x.used = 0 then merge_left r (l.absorb x) else r.reverse ++ [l, x] := rfl

theorem coalesce_cons (c : jvm_chunk) (r : List jvm_chunk) :
    coalesce (c :: r) = coalesce_step c (coalesce r) := rfl

theorem naf_cons_cons {c d : jvm_chunk} {r : List jvm_chunk} :
    no_adjacent_free (c :: d :: r) ↔ ¬ (c.used = 0 ∧ d.used = 0) ∧ no_adjacent_free (d :: r) :=
  List.chain'_cons

theorem naf_tail {c : jvm_chunk} {r : List jvm_chunk} (h : no_adjacent_free (c :: r)) :
    no_adjacent_free r :=
  List.Chain'.tail h

/-- Replacing the head by a chunk with the same `used` flag keeps the property. -/
theorem naf_head_congr {c c' : jvm_chunk} {r : List jvm_chunk} (hu : c'.used = c.used)
    (h : no_adjacent_free (c :: r)) : no_adjacent_free (c' :: r) := by
  cases r with
  | nil => exact List.chain'_singleton _
  | cons d r => rw [naf_cons_cons] at h ⊢; rw [hu]; exact h

theorem coalesce_step_naf (c : jvm_chunk) {l : List jvm_chunk} (h : no_adjacent_free l) :
    no_adjacent_free (coalesce_step c l) := by
  cases l with
  | nil => exact List.chain'_singleton _
  | cons d r =>
    rw [coalesce_step_cons]
    split_ifs with hu
    · cases r with
      | nil => exact List.chain'_singleton _
      | cons e r' =>
        rw [naf_cons_cons] at h ⊢
        refine ⟨?_, h.2⟩
        have := h.1
        simp only [absorb_used]
        tauto
    · exact naf_cons_cons.mpr ⟨hu, h⟩

theorem coalesce_naf (l : List jvm_chunk) : no_adjacent_free (coalesce l) := by
  induction l with
  | nil => exact List.chain'_nil
  | cons c rest ih => exact coalesce_step_naf c ih

theorem coalesce_step_of_naf {c : jvm_chunk} {l : List jvm_chunk}
    (h : no_adjacent_free (c :: l)) : coalesce_step c l = c :: l := by
  cases l with
  | nil => rfl
  | cons d r => rw [coalesce_step_cons, if_neg (naf_cons_cons.mp h).1]

theorem coalesce_of_naf {l : List jvm_chunk} (h : no_adjacent_free l) : coalesce l = l := by
  induction l with
  | nil => rfl
  | cons c rest ih =>
    rw [coalesce, ih (naf_tail h)]
    exact coalesce_step_of_naf h

theorem coalesce_idem (l : List jvm_chunk) : coalesce (coalesce l) = coalesce l :=
  coalesce_of_naf (coalesce_naf l)

theorem coalesce_append (l1 l2 : List jvm_chunk) :
    coalesce (l1 ++ l2) = coalesce (l1 ++ coalesce l2) := by
  induction l1 with
  | nil => simp [coalesce_idem]
  | cons c r ih => rw [List.cons_append, List.cons_append, coalesce_cons, coalesce_cons, ih]

theorem merge_right_eq {x : jvm_chunk} {post : List jvm_chunk} (h : no_adjacent_free post) :
    (merge_right x post).1 :: (merge_right x post).2 = coalesce (x :: post) := by
  rw [coalesce_cons, coalesce_of_naf h]
  cases post with
  | nil => rfl
  | cons d r =>
    rw [merge_right_cons, coalesce_step_cons]
    split_ifs with hu
    · cases r with
      | nil => rfl
      | cons e r' =>
        rw [merge_right_cons, if_neg]
        have := (naf_cons_cons.mp h).1
        simp only [absorb_used]
        tauto
    · rfl

theorem merge_left_eq (rpre : List jvm_chunk) (y : jvm_chunk) (post : List jvm_chunk)
    (h1 : no_adjacent_free rpre.reverse) (h2 : no_adjacent_free (y :: post)) :
    merge_left rpre y ++ post = coalesce (rpre.reverse ++ y :: post) := by
  induction rpre generalizing y post with
  | nil => simpa [merge_left] using (coalesce_of_naf h2).symm
  | cons l r ih =>
    have hr : no_adjacent_free r.reverse := by
      rw [List.reverse_cons] at h1
      exact (List.chain'_append.mp h1).1
    have hsplit : (l :: r).reverse ++ y :: post = r.reverse ++ l :: y :: post := by simp
    rw [hsplit, coalesce_append, coalesce_cons, coalesce_of_naf h2, merge_left_cons,
      coalesce_step_cons]
    split_ifs with hu
    · exact ih (l.absorb y) post hr (naf_head_congr (by simp [hu.1, hu.2]) h2)
    · have hall : no_adjacent_free (r.reverse ++ l :: y :: post) := by
        rw [List.reverse_cons] at h1
        have h3 : no_adjacent_free (l :: y :: post) := naf_cons_cons.mpr ⟨hu, h2⟩
        have := List.chain'_append.mp h1
        refine List.chain'_append.mpr ⟨this.1, h3, ?_⟩
        intro a ha b hb
        simp only [List.head?_cons, Option.mem_def, Option.some.injEq] at hb
        exact this.2.2 a ha b (by simpa using hb)
      rw [coalesce_of_naf hall]
      simp

/-- On a pool without adjacent unused chunks `deallocate_from_pool` releases the chunk and
coalesces the list. -/
theorem deallocate_from_pool_coalesce (pool : jvm_allocation_pool) (p : chunk_ptr)
    (hnaf : no_adjacent_free pool.chunks) :
    ((∀ c ∈ pool.chunks, c.addr ≠ p.addr) ∧ deallocate_from_pool pool p = (-1, pool)) ∨
    (∃ (pre : List jvm_chunk) (x : jvm_chunk) (post : List jvm_chunk),
      pool.chunks = pre ++ x :: post ∧ x.addr = p.addr ∧ (∀ c ∈ pre, c.addr ≠ p.addr) ∧
      deallocate_from_pool pool p =
        (0, { pool with chunks := coalesce (pre ++ x.release :: post) })) := by
  rcases deallocate_from_pool_cases pool p with h | ⟨pre, x, post, hdec, hx, hpre, heq⟩
  · exact Or.inl h
  · right
    refine ⟨pre, x, post, hdec, hx, hpre, ?_⟩
    rw [heq]
    rw [hdec] at hnaf
    have hn := List.chain'_append.mp hnaf
    have hpost : no_adjacent_free post := naf_tail hn.2.1
    have hm := merge_right_eq (x := x.release) hpost
    have hl := merge_left_eq pre.reverse (merge_right x.release post).1
      (merge_right x.release post).2 (by rw [List.reverse_reverse]; exact hn.1) (by rw [hm]; exact coalesce_naf _)
    rw [hl, hm, List.reverse_reverse, ← coalesce_append]

/-! ## The pool invariant -/

theorem chain_nil {o e : Nat} : chain o [] e ↔ o = e := Iff.rfl

theorem chain_cons {o e : Nat} {c : jvm_chunk} {r : List jvm_chunk} :
    chain o (c :: r) e ↔ c.chunk_offset = o ∧ chain (o + c.size) r e := Iff.rfl

theorem chain_le {o e : Nat} {l : List jvm_chunk} (h : chain o l e) : o ≤ e := by
  induction l generalizing o with
  | nil => exact Nat.le_of_eq h
  | cons c r ih => have := ih h.2; omega

theorem chain_append {o e : Nat} {l1 l2 : List jvm_chunk} :
    chain o (l1 ++ l2) e ↔ ∃ m, chain o l1 m ∧ chain m l2 e := by
  induction l1 generalizing o with
  | nil => simp [chain_nil]
  | cons c r ih =>
    rw [List.cons_append, chain_cons]
    simp only [chain_cons, ih]
    constructor
    · rintro ⟨h1, m, h2, h3⟩; exact ⟨m, ⟨h1, h2⟩, h3⟩
    · rintro ⟨m, ⟨h1, h2⟩, h3⟩; exact ⟨h1, m, h2, h3⟩

theorem chain_coalesce_step {o e : Nat} {c : jvm_chunk} {l : List jvm_chunk} (he : e < U64)
    (h : chain o (c :: l) e) : chain o (coalesce_step c l) e := by
  cases l with
  | nil => exact h
  | cons d r =>
    rw [coalesce_step_cons]
    split_ifs with hu
    · obtain ⟨h1, h2, h3⟩ := h
      refine ⟨h1, ?_⟩
      have := chain_le h3
      rw [absorb_size, u64_add_of_lt (by omega), ← Nat.add_assoc]
      exact h3
    · exact h

theorem chain_coalesce {o e : Nat} {l : List jvm_chunk} (he : e < U64) (h : chain o l e) :
    chain o (coalesce l) e := by
  induction l generalizing o with
  | nil => exact h
  | cons c r ih =>
    rw [coalesce_cons]
    exact chain_coalesce_step he ⟨h.1, ih h.2⟩

theorem coalesce_ne_nil {l : List jvm_chunk} (h : l ≠ []) : coalesce l ≠ [] := by
  cases l with
  | nil => exact absurd rfl h
  | cons c r =>
    rw [coalesce_cons]
    cases coalesce r with
    | nil => simp [coalesce_step]
    | cons d r' => rw [coalesce_step_cons]; split_ifs <;> simp

/-- Each chunk of the coalesced list has the address, `used` flag and padding of a chunk of
the list. -/
theorem coalesce_mem {l : List jvm_chunk} {c : jvm_chunk} (h : c ∈ coalesce l) :
    ∃ c' ∈ l, c'.addr = c.addr ∧ c'.used = c.used ∧ c'.padding = c.padding := by
  induction l generalizing c with
  | nil => simp [coalesce] at h
  | cons a r ih =>
    rw [coalesce_cons] at h
    cases hr : coalesce r with
    | nil =>
      rw [hr] at h
      simp only [coalesce_step, List.mem_singleton] at h
      subst h
      exact ⟨c, by simp, rfl, rfl, rfl⟩
    | cons d r' =>
      rw [hr, coalesce_step_cons] at h
      split_ifs at h with hu
      · rcases List.mem_cons.mp h with rfl | h
        · exact ⟨a, by simp, rfl, rfl, rfl⟩
        · obtain ⟨c', hc', h'⟩ := ih (c := c) (by rw [hr]; exact List.mem_cons_of_mem _ h)
          exact ⟨c', List.mem_cons_of_mem _ hc', h'⟩
      · rcases List.mem_cons.mp h with rfl | h
        · exact ⟨c, by simp, rfl, rfl, rfl⟩
        · obtain ⟨c', hc', h'⟩ := ih (c := c) (by rw [hr]; exact h)
          exact ⟨c', List.mem_cons_of_mem _ hc', h'⟩

theorem list_split_at {α : Type} {l : List α} {j : Nat} {x : α} (h : l[j]? = some x) :
    l = l.take j ++ x :: l.drop (j + 1) := by
  obtain ⟨hj, rfl⟩ := List.getElem?_eq_some_iff.mp h
  simp

theorem fresh_pool_inv {pool : jvm_allocation_pool} (h : fresh_pool pool) : pool_inv pool := by
  obtain ⟨hs, c, hc, ho, hsz, hu, hp⟩ := h
  refine ⟨hs, by simp [hc], ?_, ?_, ?_, ?_⟩
  · rw [hc]; exact ⟨ho, by simp [chain_nil, hsz]⟩
  · rw [hc]; exact List.chain'_singleton _
  · intro c' hc'; rw [hc] at hc'; simp at hc'; subst hc'; exact Or.inl hu
  · intro c' hc' _; rw [hc] at hc'; simp at hc'; subst hc'; exact hp

/-- Marking a chunk used keeps the list free of adjacent unused chunks. -/
theorem naf_set_used {pre post : List jvm_chunk} {x y : jvm_chunk} (hy : y.used ≠ 0)
    (h : no_adjacent_free (pre ++ x :: post)) : no_adjacent_free (pre ++ y :: post) := by
  have hn := List.chain'_append.mp h
  refine List.chain'_append.mpr ⟨hn.1, ?_, ?_⟩
  · cases post with
    | nil => exact List.chain'_singleton _
    | cons d r =>
      exact naf_cons_cons.mpr ⟨fun hh => hy hh.1, naf_tail hn.2.1⟩
  · intro a _ b hb
    simp only [List.head?_cons, Option.mem_def, Option.some.injEq] at hb
    subst hb
    exact fun hh => hy hh.2

theorem carve_inv (w : World) (allocator : jvm_allocator) (pool : jvm_allocation_pool)
    (size alignment j : Nat) (chunk : jvm_chunk) (hinv : pool_inv pool)
    (hj : pool.chunks[j]? = some chunk)
    (hfit : allocate_from_pool.fits size alignment chunk) :
    pool_inv (allocate_from_pool.carve w allocator pool j chunk size
      (allocate_from_pool.padding chunk.chunk_offset alignment)).pool := by
  have hdec := list_split_at hj
  have hmem : chunk ∈ pool.chunks := by
    obtain ⟨hj', rfl⟩ := List.getElem?_eq_some_iff.mp hj
    exact List.getElem_mem _
  have hu0 : chunk.used = 0 := by
    rcases hinv.used_bool chunk hmem with h | h
    · exact h
    · exact absurd h hfit.1
  have hch := hinv.chained
  rw [hdec, chain_append] at hch
  obtain ⟨m, hc1, hc2⟩ := hch
  rw [chain_cons] at hc2
  have hle := chain_le hc2.2
  have hsz := hinv.size_lt
  have hnaf := hinv.coalesced
  rw [hdec] at hnaf
  have hW := Nat.le_of_not_lt hfit.2
  generalize allocate_from_pool.padding chunk.chunk_offset alignment = P at *
  rcases carve_cases w allocator pool j chunk size P with
    ⟨-, w1, cap, h, -⟩ | ⟨-, w1, cap, a, h, -, -⟩ | ⟨-, h⟩
  · rw [h]
    exact ⟨hinv.size_lt, hinv.nonempty, hinv.chained, hinv.coalesced, hinv.used_bool,
      hinv.free_padding⟩
  · rw [h]
    refine ⟨hinv.size_lt, by simp [allocate_from_pool.split_chunks], ?_, ?_, ?_, ?_⟩
    · show chain 0 (allocate_from_pool.split_chunks pool j chunk size P _ a) pool.size
      unfold allocate_from_pool.split_chunks
      rw [chain_append]
      refine ⟨m, hc1, ?_⟩
      rw [chain_cons, chain_cons]
      refine ⟨hc2.1, ?_, ?_⟩
      · show u64_add (u64_add chunk.chunk_offset P) size = m + u64_add size P
        rw [hc2.1]
        unfold u64_add U64 at *
        omega
      · show chain (m + u64_add size P + u64_sub chunk.size (u64_add P size)) _ _
        have : m + u64_add size P + u64_sub chunk.size (u64_add P size) = m + chunk.size := by
          unfold u64_add u64_sub U64 at *
          omega
        rw [this]
        exact hc2.2
    · show no_adjacent_free (allocate_from_pool.split_chunks pool j chunk size P _ a)
      unfold allocate_from_pool.split_chunks
      have hn := List.chain'_append.mp hnaf
      refine List.chain'_append.mpr ⟨hn.1, ?_, ?_⟩
      · refine List.chain'_cons.mpr ⟨by simp, ?_⟩
        cases hd : pool.chunks.drop (j + 1) with
        | nil => exact List.chain'_singleton _
        | cons e r =>
          rw [hd] at hn
          have h2 := naf_cons_cons.mp hn.2.1
          exact naf_cons_cons.mpr ⟨fun hh => h2.1 ⟨hu0, hh.2⟩, h2.2⟩
      · intro x _ b hb
        simp only [List.head?_cons, Option.mem_def, Option.some.injEq] at hb
        subst hb
        simp
    · intro c hc
      show c.used = 0 ∨ c.used = 1
      simp only [allocate_from_pool.split_chunks, List.mem_append, List.mem_cons] at hc
      rcases hc with hc | rfl | rfl | hc
      · exact hinv.used_bool c (List.mem_of_mem_take hc)
      · exact Or.inr rfl
      · exact Or.inl rfl
      · exact hinv.used_bool c (List.mem_of_mem_drop hc)
    · intro c hc
      show c.used = 0 → c.padding = 0
      simp only [allocate_from_pool.split_chunks, List.mem_append, List.mem_cons] at hc
      rcases hc with hc | rfl | rfl | hc
      · exact hinv.free_padding c (List.mem_of_mem_take hc)
      · intro hh; simp at hh
      · intro _; rfl
      · exact hinv.free_padding c (List.mem_of_mem_drop hc)
  · rw [h]
    have hset : pool.chunks.set j { chunk with padding := P, used := 1 } =
        pool.chunks.take j ++ { chunk with padding := P, used := 1 } :: pool.chunks.drop (j + 1) :=
      List.set_eq_take_append_cons_drop.trans
        (by rw [if_pos (List.getElem?_eq_some_iff.mp hj).1])
    refine ⟨hinv.size_lt, ?_, ?_, ?_, ?_, ?_⟩
    · show pool.chunks.set j _ ≠ []
      rw [hset]; simp
    · show chain 0 (pool.chunks.set j _) pool.size
      rw [hset, chain_append]
      exact ⟨m, hc1, hc2⟩
    · show no_adjacent_free (pool.chunks.set j _)
      rw [hset]
      exact naf_set_used (by simp) hnaf
    · intro c hc
      show c.used = 0 ∨ c.used = 1
      have hc' : c ∈ pool.chunks.set j { chunk with padding := P, used := 1 } := hc
      rw [hset] at hc'
      simp only [List.mem_append, List.mem_cons] at hc'
      rcases hc' with hc' | rfl | hc'
      · exact hinv.used_bool c (List.mem_of_mem_take hc')
      · exact Or.inr rfl
      · exact hinv.used_bool c (List.mem_of_mem_drop hc')
    · intro c hc
      show c.used = 0 → c.padding = 0
      have hc' : c ∈ pool.chunks.set j { chunk with padding := P, used := 1 } := hc
      rw [hset] at hc'
      simp only [List.mem_append, List.mem_cons] at hc'
      rcases hc' with hc' | rfl | hc'
      · exact hinv.free_padding c (List.mem_of_mem_take hc')
      · intro hh; simp at hh
      · exact hinv.free_padding c (List.mem_of_mem_drop hc')

theorem allocate_from_pool_inv (w : World) (allocator : jvm_allocator)
    (pool : jvm_allocation_pool) (size alignment : Nat) (hinv : pool_inv pool) :
    pool_inv (allocate_from_pool w allocator pool size alignment).pool := by
  unfold allocate_from_pool
  rcases loop_cases w allocator pool size alignment pool.chunk_count 0
      (by simp [jvm_allocation_pool.chunk_count]) with
    ⟨-, heq⟩ | ⟨j, chunk, -, hj, hfit, -, heq⟩
  · rw [heq]; exact hinv
  · rw [heq]; exact carve_inv w allocator pool size alignment j chunk hinv hj hfit

theorem allocate_from_pool_size (w : World) (allocator : jvm_allocator)
    (pool : jvm_allocation_pool) (size alignment : Nat) :
    (allocate_from_pool w allocator pool size alignment).pool.size = pool.size ∧
    (allocate_from_pool w allocator pool size alignment).pool.addr = pool.addr := by
  unfold allocate_from_pool
  rcases loop_cases w allocator pool size alignment pool.chunk_count 0
      (by simp [jvm_allocation_pool.chunk_count]) with
    ⟨-, heq⟩ | ⟨j, chunk, -, hj, hfit, -, heq⟩
  · rw [heq]; exact ⟨rfl, rfl⟩
  · rw [heq]
    rcases carve_cases w allocator pool j chunk size
        (allocate_from_pool.padding chunk.chunk_offset alignment) with
      ⟨-, w1, cap, h, -⟩ | ⟨-, w1, cap, a, h, -, -⟩ | ⟨-, h⟩ <;> rw [h] <;> exact ⟨rfl, rfl⟩

theorem deallocate_from_pool_size (pool : jvm_allocation_pool) (p : chunk_ptr) :
    (deallocate_from_pool pool p).2.size = pool.size ∧
    (deallocate_from_pool pool p).2.addr = pool.addr := by
  rcases deallocate_from_pool_cases pool p with ⟨-, h⟩ | ⟨pre, x, post, -, -, -, h⟩ <;>
    rw [h] <;> exact ⟨rfl, rfl⟩

theorem chain_release {o e : Nat} {pre post : List jvm_chunk} {x : jvm_chunk}
    (h : chain o (pre ++ x :: post) e) : chain o (pre ++ x.release :: post) e := by
  rw [chain_append] at h ⊢
  obtain ⟨m, h1, h2⟩ := h
  exact ⟨m, h1, h2⟩

theorem deallocate_from_pool_inv (pool : jvm_allocation_pool) (p : chunk_ptr)
    (hinv : pool_inv pool) : pool_inv (deallocate_from_pool pool p).2 := by
  rcases deallocate_from_pool_coalesce pool p hinv.coalesced with
    ⟨-, h⟩ | ⟨pre, x, post, hdec, -, -, h⟩
  · rw [h]; exact hinv
  · rw [h]
    have hmem : ∀ c ∈ pre ++ x.release :: post, c = x.release ∨ c ∈ pool.chunks := by
      intro c hc
      rw [hdec]
      simp only [List.mem_append, List.mem_cons] at hc ⊢
      tauto
    refine ⟨hinv.size_lt, coalesce_ne_nil (by simp), ?_, coalesce_naf _, ?_, ?_⟩
    · exact chain_coalesce hinv.size_lt (chain_release (hdec ▸ hinv.chained))
    · intro c hc
      obtain ⟨c', hc', -, hu, -⟩ := coalesce_mem hc
      rw [← hu]
      rcases hmem c' hc' with rfl | hm
      · exact Or.inl rfl
      · exact hinv.used_bool c' hm
    · intro c hc
      obtain ⟨c', hc', -, hu, hp⟩ := coalesce_mem hc
      rw [← hu, ← hp]
      rcases hmem c' hc' with rfl | hm
      · exact fun _ => rfl
      · exact hinv.free_padding c' hm

theorem pool_op_run_inv (st : World × jvm_allocation_pool) (op : pool_op)
    (hinv : pool_inv st.2) :
    pool_inv (op.run st).2 ∧ (op.run st).2.size = st.2.size ∧ (op.run st).2.addr = st.2.addr := by
  cases op with
  | allocate allocator size alignment =>
    exact ⟨allocate_from_pool_inv _ _ _ _ _ hinv, allocate_from_pool_size _ _ _ _ _⟩
  | deallocate chunk =>
    exact ⟨deallocate_from_pool_inv _ _ hinv, deallocate_from_pool_size _ _⟩

theorem run_pool_ops_inv (st : World × jvm_allocation_pool) (ops : List pool_op)
    (hinv : pool_inv st.2) :
    pool_inv (run_pool_ops st ops).2 ∧ (run_pool_ops st ops).2.size = st.2.size ∧
      (run_pool_ops st ops).2.addr = st.2.addr := by
  induction ops generalizing st with
  | nil => exact ⟨hinv, rfl, rfl⟩
  | cons op rest ih =>
    have h1 := pool_op_run_inv st op hinv
    have h2 := ih (op.run st) h1.1
    exact ⟨h2.1, h2.2.1.trans h1.2.1, h2.2.2.trans h1.2.2⟩

theorem chain_adjacent {o e : Nat} {l : List jvm_chunk} (h : chain o l e) (i : Nat)
    (c d : jvm_chunk) (hc : l[i]? = some c) (hd : l[i + 1]? = some d) :
    c.chunk_offset + c.size = d.chunk_offset := by
  induction l generalizing o i with
  | nil => simp at hc
  | cons a r ih =>
    cases i with
    | zero =>
      cases r with
      | nil => simp at hd
      | cons b r' =>
        simp only [List.getElem?_cons_zero, Option.some.injEq, zero_add,
          List.getElem?_cons_succ] at hc hd
        subst hc; subst hd
        rw [h.1, h.2.1]
    | succ i =>
      simp only [List.getElem?_cons_succ] at hc hd
      exact ih h.2 i hc hd

theorem chain_sum {o e : Nat} {l : List jvm_chunk} (h : chain o l e) :
    o + (l.map (fun c => c.size)).sum = e := by
  induction l generalizing o with
  | nil => simpa using h
  | cons a r ih =>
    have := ih h.2
    simp only [List.map_cons, List.sum_cons]
    omega

theorem chain_getLast {o e : Nat} {l : List jvm_chunk} (h : chain o l e) (x : jvm_chunk)
    (hx : l.getLast? = some x) : x.chunk_offset + x.size = e := by
  induction l generalizing o with
  | nil => simp at hx
  | cons a r ih =>
    cases r with
    | nil =>
      simp only [List.getLast?_singleton, Option.some.injEq] at hx
      subst hx
      have h1 := h.1
      have h2 : o + a.size = e := h.2
      omega
    | cons b r' =>
      rw [List.getLast?_cons_cons] at hx
      exact ih h.2 hx

theorem naf_adjacent {l : List jvm_chunk} (h : no_adjacent_free l) (i : Nat)
    (c d : jvm_chunk) (hc : l[i]? = some c) (hd : l[i + 1]? = some d) :
    ¬ (c.used = 0 ∧ d.used = 0) := by
  induction l generalizing i with
  | nil => simp at hc
  | cons a r ih =>
    cases i with
    | zero =>
      cases r with
      | nil => simp at hd
      | cons b r' =>
        simp only [List.getElem?_cons_zero, Option.some.injEq, zero_add,
          List.getElem?_cons_succ] at hc hd
        subst hc; subst hd
        exact (naf_cons_cons.mp h).1
    | succ i =>
      simp only [List.getElem?_cons_succ] at hc hd
      exact ih (naf_tail h) i hc hd

/-! ## C2 and C3: the partition and coalescing invariants -/

/-- C2: starting from a freshly created pool, after any sequence of `allocate_from_pool` and
`deallocate_from_pool` calls, whatever they return, the first chunk starts at offset 0, each
chunk ends where the next one starts, the last chunk ends at `pool.size`, and the chunk sizes
sum to `pool.size`, which has not changed. -/
theorem pool_partition (w : World) (pool : jvm_allocation_pool) (ops : List pool_op)
    (hfresh : fresh_pool pool) :
    (∃ c : jvm_chunk, (run_pool_ops (w, pool) ops).2.chunks[0]? = some c ∧ c.chunk_offset = 0) ∧
    (∀ (i : Nat) (c d : jvm_chunk),
      (run_pool_ops (w, pool) ops).2.chunks[i]? = some c →
      (run_pool_ops (w, pool) ops).2.chunks[i + 1]? = some d →
      c.chunk_offset + c.size = d.chunk_offset) ∧
    (∃ l : jvm_chunk, (run_pool_ops (w, pool) ops).2.chunks.getLast? = some l ∧
      l.chunk_offset + l.size = (run_pool_ops (w, pool) ops).2.size) ∧
    ((run_pool_ops (w, pool) ops).2.chunks.map (fun c => c.size)).sum =
      (run_pool_ops (w, pool) ops).2.size ∧
    (run_pool_ops (w, pool) ops).2.size = pool.size := by
  obtain ⟨hinv, hsize, -⟩ := run_pool_ops_inv (w, pool) ops (fresh_pool_inv hfresh)
  generalize (run_pool_ops (w, pool) ops).2 = q at hinv hsize ⊢
  have hch := hinv.chained
  refine ⟨?_, fun i c d => chain_adjacent hch i c d, ?_, ?_, hsize⟩
  · cases hq : q.chunks with
    | nil => exact absurd hq hinv.nonempty
    | cons a r => rw [hq] at hch; exact ⟨a, by simp, hch.1⟩
  · cases hq : q.chunks.getLast? with
    | none => exact absurd (List.getLast?_eq_none_iff.mp hq) hinv.nonempty
    | some x => exact ⟨x, rfl, chain_getLast hch x hq⟩
  · simpa using chain_sum hch

/-- C3: starting from a freshly created pool, after any sequence of `allocate_from_pool` and
`deallocate_from_pool` calls no two adjacent chunks of the pool are both unused. -/
theorem pool_coalesced (w : World) (pool : jvm_allocation_pool) (ops : List pool_op)
    (hfresh : fresh_pool pool) (i : Nat) (c d : jvm_chunk)
    (hc : (run_pool_ops (w, pool) ops).2.chunks[i]? = some c)
    (hd : (run_pool_ops (w, pool) ops).2.chunks[i + 1]? = some d) :
    ¬ (c.used = 0 ∧ d.used = 0) :=
  naf_adjacent (run_pool_ops_inv (w, pool) ops (fresh_pool_inv hfresh)).1.coalesced i c d hc hd

theorem sample_pool_fresh : fresh_pool sample_pool :=
  ⟨by decide, _, rfl, rfl, rfl, rfl, rfl⟩

/-- C2, witness: the invariant after `sample_ops` on `sample_pool`. -/
theorem pool_partition_witness :
    fresh_pool sample_pool ∧
    (∃ c : jvm_chunk, (run_pool_ops (sample_world, sample_pool) sample_ops).2.chunks[0]? = some c ∧
      c.chunk_offset = 0) ∧
    (∀ (i : Nat) (c d : jvm_chunk),
      (run_pool_ops (sample_world, sample_pool) sample_ops).2.chunks[i]? = some c →
      (run_pool_ops (sample_world, sample_pool) sample_ops).2.chunks[i + 1]? = some d →
      c.chunk_offset + c.size = d.chunk_offset) ∧
    (∃ l : jvm_chunk,
      (run_pool_ops (sample_world, sample_pool) sample_ops).2.chunks.getLast? = some l ∧
      l.chunk_offset + l.size = (run_pool_ops (sample_world, sample_pool) sample_ops).2.size) ∧
    ((run_pool_ops (sample_world, sample_pool) sample_ops).2.chunks.map (fun c => c.size)).sum =
      (run_pool_ops (sample_world, sample_pool) sample_ops).2.size ∧
    (run_pool_ops (sample_world, sample_pool) sample_ops).2.size = sample_pool.size :=
  ⟨sample_pool_fresh, pool_partition sample_world sample_pool sample_ops sample_pool_fresh⟩

/-- C3, witness: the first two chunks after `sample_ops` on `sample_pool`. -/
theorem pool_coalesced_witness :
    fresh_pool sample_pool ∧
    ∃ c d : jvm_chunk,
      (run_pool_ops (sample_world, sample_pool) sample_ops).2.chunks[0]? = some c ∧
      (run_pool_ops (sample_world, sample_pool) sample_ops).2.chunks[0 + 1]? = some d ∧
      ¬ (c.used = 0 ∧ d.used = 0) :=
  ⟨sample_pool_fresh,
    { addr := 3, mapped := 0, used := 0, size := 100, memory := 2, chunk_offset := 0,
      padding := 0, pool := 1 },
    { addr := 100, mapped := 0, used := 1, size := 228, memory := 2, chunk_offset := 100,
      padding := 28, pool := 1 },
    by decide, by decide,
    pool_coalesced sample_world sample_pool sample_ops sample_pool_fresh 0 _ _ (by decide)
      (by decide)⟩

/-! ## C4: freeing everything restores the pool -/

theorem used_addrs_nil : used_addrs [] = [] := rfl

theorem used_addrs_cons (c : jvm_chunk) (l : List jvm_chunk) :
    used_addrs (c :: l) = if c.used ≠ 0 then c.addr :: used_addrs l else used_addrs l := by
  unfold used_addrs
  by_cases h : c.used ≠ 0
  · rw [List.filter_cons_of_pos (by simpa using h), if_pos h]; rfl
  · rw [List.filter_cons_of_neg (by simpa using h), if_neg h]

theorem used_addrs_append (l1 l2 : List jvm_chunk) :
    used_addrs (l1 ++ l2) = used_addrs l1 ++ used_addrs l2 := by
  unfold used_addrs; simp

theorem used_addrs_coalesce_step (c : jvm_chunk) (l : List jvm_chunk) :
    used_addrs (coalesce_step c l) = used_addrs (c :: l) := by
  cases l with
  | nil => rfl
  | cons d r =>
    rw [coalesce_step_cons]
    split_ifs with hu
    · simp [used_addrs_cons, hu.1, hu.2]
    · rfl

theorem used_addrs_coalesce (l : List jvm_chunk) : used_addrs (coalesce l) = used_addrs l := by
  induction l with
  | nil => rfl
  | cons c r ih =>
    rw [coalesce_cons, used_addrs_coalesce_step, used_addrs_cons, used_addrs_cons, ih]

theorem coalesce_step_addr_sublist (c : jvm_chunk) (l : List jvm_chunk) :
    ((coalesce_step c l).map (fun c => c.addr)).Sublist ((c :: l).map (fun c => c.addr)) := by
  cases l with
  | nil => exact List.Sublist.refl _
  | cons d r =>
    rw [coalesce_step_cons]
    split_ifs with hu
    · simp only [List.map_cons, absorb_addr]
      exact List.Sublist.cons₂ _ (List.sublist_cons_self _ _)
    · exact List.Sublist.refl _

theorem coalesce_addr_sublist (l : List jvm_chunk) :
    ((coalesce l).map (fun c => c.addr)).Sublist (l.map (fun c => c.addr)) := by
  induction l with
  | nil => exact List.Sublist.refl _
  | cons c r ih =>
    rw [coalesce_cons]
    exact (coalesce_step_addr_sublist c (coalesce r)).trans (List.Sublist.cons₂ _ ih)

theorem mem_used_addrs {l : List jvm_chunk} {a : Nat} :
    a ∈ used_addrs l ↔ ∃ c ∈ l, c.used ≠ 0 ∧ c.addr = a := by
  unfold used_addrs
  simp [and_assoc]

/-- In a pool without used chunks that satisfies the invariant there is one chunk, unused
and without padding, that covers the pool. -/
theorem pool_inv_all_free {pool : jvm_allocation_pool} (hinv : pool_inv pool)
    (hfree : used_addrs pool.chunks = []) :
    ∃ c : jvm_chunk, pool.chunks = [c] ∧ c.chunk_offset = 0 ∧ c.size = pool.size ∧
      c.used = 0 ∧ c.padding = 0 := by
  have hall : ∀ c ∈ pool.chunks, c.used = 0 := by
    intro c hc
    by_contra hne
    have : c.addr ∈ used_addrs pool.chunks := mem_used_addrs.mpr ⟨c, hc, hne, rfl⟩
    rw [hfree] at this
    simp at this
  have hch := hinv.chained
  have hnaf := hinv.coalesced
  cases hq : pool.chunks with
  | nil => exact absurd hq hinv.nonempty
  | cons c r =>
    rw [hq] at hall hch hnaf
    cases r with
    | nil =>
      have hc0 := hall c (by simp)
      refine ⟨c, rfl, hch.1, ?_, hc0, hinv.free_padding c (by simp [hq]) hc0⟩
      have : 0 + c.size = pool.size := hch.2
      omega
    | cons d r' =>
      exact absurd ⟨hall c (by simp), hall d (by simp)⟩ (naf_cons_cons.mp hnaf).1

theorem created_pool_owned {w : World} {pool : jvm_allocation_pool} (h : created_pool w pool) :
    pool_owned w pool ∧ used_addrs pool.chunks = [] := by
  obtain ⟨hf, hb⟩ := h
  have hinv := fresh_pool_inv hf
  obtain ⟨-, c, hc, -, -, hu, -⟩ := hf
  refine ⟨⟨hinv, ?_, fun c hc => (hb c hc).1, fun c hc => (hb c hc).2⟩, ?_⟩
  · rw [hc]; simp
  · rw [hc, used_addrs_cons, if_neg (by simp [hu])]; rfl

theorem carve_owned (w : World) (allocator : jvm_allocator) (pool : jvm_allocation_pool)
    (size alignment j : Nat) (chunk : jvm_chunk) (hown : pool_owned w pool)
    (hj : pool.chunks[j]? = some chunk)
    (hfit : allocate_from_pool.fits size alignment chunk)
    (h0 : (allocate_from_pool.carve w allocator pool j chunk size
      (allocate_from_pool.padding chunk.chunk_offset alignment)).result = 0) :
    (allocate_from_pool.carve w allocator pool j chunk size
      (allocate_from_pool.padding chunk.chunk_offset alignment)).p_out = some chunk.ptr ∧
    chunk.pool = pool.addr ∧
    pool_owned
      (allocate_from_pool.carve w allocator pool j chunk size
        (allocate_from_pool.padding chunk.chunk_offset alignment)).world
      (allocate_from_pool.carve w allocator pool j chunk size
        (allocate_from_pool.padding chunk.chunk_offset alignment)).pool ∧
    (used_addrs (allocate_from_pool.carve w allocator pool j chunk size
      (allocate_from_pool.padding chunk.chunk_offset alignment)).pool.chunks).Perm
      (chunk.addr :: used_addrs pool.chunks) := by
  have hinv' := carve_inv w allocator pool size alignment j chunk hown.inv hj hfit
  have hdec := list_split_at hj
  have hmem : chunk ∈ pool.chunks := by
    obtain ⟨hj', rfl⟩ := List.getElem?_eq_some_iff.mp hj
    exact List.getElem_mem _
  have hu0 : chunk.used = 0 := by
    rcases hown.inv.used_bool chunk hmem with h | h
    · exact h
    · exact absurd h hfit.1
  have hnd := hown.nodup
  have hbelow := hown.below
  have hback := hown.back
  have hold : used_addrs pool.chunks =
      used_addrs (pool.chunks.take j) ++ used_addrs (pool.chunks.drop (j + 1)) := by
    conv_lhs => rw [hdec]
    rw [used_addrs_append, used_addrs_cons, if_neg (by simp [hu0])]
  have hset : ∀ y : jvm_chunk, pool.chunks.set j y =
      pool.chunks.take j ++ y :: pool.chunks.drop (j + 1) := fun y =>
    List.set_eq_take_append_cons_drop.trans
      (by rw [if_pos (List.getElem?_eq_some_iff.mp hj).1])
  rw [hold]
  rw [hdec] at hnd hbelow hback
  generalize allocate_from_pool.padding chunk.chunk_offset alignment = P at *
  rcases carve_cases w allocator pool j chunk size P with
    ⟨-, w1, cap, h, -⟩ | ⟨-, w1, cap, a, h, ha1, ha2⟩ | ⟨-, h⟩
  · rw [h] at h0; simp at h0
  · rw [h] at hinv' ⊢
    simp only [allocate_from_pool.split_chunks] at hinv' ⊢
    generalize pool.chunks.take j = pre at *
    generalize pool.chunks.drop (j + 1) = post at *
    refine ⟨trivial, hback chunk (by simp), ⟨hinv', ?_, ?_, ?_⟩, ?_⟩
    · simp only [List.map_append, List.map_cons, List.nodup_append, List.nodup_cons,
        List.mem_cons, List.mem_map, List.mem_append] at hnd ⊢
      have hfresh : ∀ c ∈ pre ++ chunk :: post, c.addr ≠ a := by
        intro c hc; have := hbelow c hc; omega
      refine ⟨hnd.1, ⟨?_, ?_, hnd.2.1.2⟩, ?_⟩
      · rintro (h1 | ⟨c, hc, h2⟩)
        · exact hfresh chunk (by simp) h1
        · exact hnd.2.1.1 ⟨c, hc, h2⟩
      · rintro ⟨c, hc, h2⟩
        exact hfresh c (by simp [hc]) h2
      · intro x hx hy
        simp only [List.mem_cons] at hy
        rcases hy with rfl | rfl | hy
        · exact hnd.2.2 hx (List.mem_cons_self _ _)
        · obtain ⟨c, hc, hca⟩ := List.mem_map.mp hx
          exact hfresh c (by simp [hc]) hca
        · exact hnd.2.2 hx (List.mem_cons_of_mem _ hy)
    · intro c hc
      simp only [List.mem_append, List.mem_cons] at hc
      rcases hc with hc | rfl | rfl | hc
      · have := hbelow c (by simp [hc]); show c.addr < w1.next; omega
      · have := hbelow chunk (by simp); show chunk.addr < w1.next; omega
      · exact ha2
      · have := hbelow c (by simp [hc]); show c.addr < w1.next; omega
    · intro c hc
      simp only [List.mem_append, List.mem_cons] at hc
      rcases hc with hc | rfl | rfl | hc
      · exact hback c (by simp [hc])
      · exact hback chunk (by simp)
      · rfl
      · exact hback c (by simp [hc])
    · rw [used_addrs_append, used_addrs_cons, used_addrs_cons, if_pos (by simp),
        if_neg (by simp)]
      exact List.perm_middle
  · rw [h] at hinv' ⊢
    simp only [hset] at hinv' ⊢
    generalize pool.chunks.take j = pre at *
    generalize pool.chunks.drop (j + 1) = post at *
    refine ⟨trivial, hback chunk (by simp), ⟨hinv', ?_, ?_, ?_⟩, ?_⟩
    · simpa using hnd
    · intro c hc
      simp only [List.mem_append, List.mem_cons] at hc
      rcases hc with hc | rfl | hc
      · exact hbelow c (by simp [hc])
      · exact hbelow chunk (by simp)
      · exact hbelow c (by simp [hc])
    · intro c hc
      simp only [List.mem_append, List.mem_cons] at hc
      rcases hc with hc | rfl | hc
      · exact hback c (by simp [hc])
      · exact hback chunk (by simp)
      · exact hback c (by simp [hc])
    · rw [used_addrs_append, used_addrs_cons, if_pos (by simp)]
      exact List.perm_middle

theorem allocate_from_pool_owned (w : World) (allocator : jvm_allocator)
    (pool : jvm_allocation_pool) (size alignment : Nat) (hown : pool_owned w pool)
    (h0 : (allocate_from_pool w allocator pool size alignment).result = 0) :
    ∃ p : chunk_ptr, (allocate_from_pool w allocator pool size alignment).p_out = some p ∧
      p.pool = pool.addr ∧
      pool_owned (allocate_from_pool w allocator pool size alignment).world
        (allocate_from_pool w allocator pool size alignment).pool ∧
      (used_addrs (allocate_from_pool w allocator pool size alignment).pool.chunks).Perm
        (p.addr :: used_addrs pool.chunks) := by
  unfold allocate_from_pool at h0 ⊢
  rcases loop_cases w allocator pool size alignment pool.chunk_count 0
      (by simp [jvm_allocation_pool.chunk_count]) with
    ⟨-, heq⟩ | ⟨j, chunk, -, hj, hfit, -, heq⟩
  · rw [heq] at h0; simp at h0
  · rw [heq] at h0 ⊢
    obtain ⟨h1, h2, h3, h4⟩ := carve_owned w allocator pool size alignment j chunk hown hj hfit h0
    exact ⟨chunk.ptr, h1, h2, h3, h4⟩

theorem allocate_all_owned (reqs : List alloc_request) (w : World) (pool : jvm_allocation_pool)
    (w1 : World) (pool1 : jvm_allocation_pool) (ps : List chunk_ptr)
    (hall : allocate_all w pool reqs = some (w1, pool1, ps)) (hown : pool_owned w pool) :
    pool_owned w1 pool1 ∧
      (used_addrs pool1.chunks).Perm (ps.map (fun p => p.addr) ++ used_addrs pool.chunks) ∧
      (∀ p ∈ ps, p.pool = pool.addr) ∧ pool1.addr = pool.addr ∧ pool1.size = pool.size ∧
      ps.length = reqs.length := by
  induction reqs generalizing w pool ps with
  | nil =>
    simp only [allocate_all, Option.some.injEq, Prod.mk.injEq] at hall
    obtain ⟨rfl, rfl, rfl⟩ := hall
    exact ⟨hown, by simp, by simp, rfl, rfl, rfl⟩
  | cons r rest ih =>
    rw [allocate_all] at hall
    by_cases h0 : (allocate_from_pool w r.allocator pool r.size r.alignment).result = 0
    · rw [if_pos h0] at hall
      obtain ⟨p, hp, hpp, hown', hperm⟩ :=
        allocate_from_pool_owned w r.allocator pool r.size r.alignment hown h0
      obtain ⟨hsz, haddr⟩ := allocate_from_pool_size w r.allocator pool r.size r.alignment
      rw [hp] at hall
      rcases hrest : allocate_all (allocate_from_pool w r.allocator pool r.size r.alignment).world
          (allocate_from_pool w r.allocator pool r.size r.alignment).pool rest with
        _ | ⟨w', pool', ps'⟩
      · rw [hrest] at hall; simp at hall
      · rw [hrest] at hall
        simp only [Option.some.injEq, Prod.mk.injEq] at hall
        obtain ⟨rfl, rfl, rfl⟩ := hall
        obtain ⟨i1, i2, i3, i4, i5, i6⟩ := ih _ _ _ hrest hown'
        refine ⟨i1, ?_, ?_, i4.trans haddr, i5.trans hsz, by simp [i6]⟩
        · refine i2.trans ?_
          simp only [List.map_cons, List.cons_append]
          exact (List.Perm.append_left _ hperm).trans List.perm_middle
        · intro q hq
          rcases List.mem_cons.mp hq with rfl | hq
          · exact hpp
          · exact (i3 q hq).trans haddr
    · rw [if_neg h0] at hall; simp at hall

theorem findIdx_append_cons {α : Type} (f : α → Bool) (l1 : List α) (x : α) (l2 : List α)
    (h1 : ∀ q ∈ l1, f q = false) (hx : f x = true) :
    (l1 ++ x :: l2).findIdx f = l1.length := by
  induction l1 with
  | nil => simp [List.findIdx_cons, hx]
  | cons a r ih =>
    rw [List.cons_append, List.findIdx_cons, h1 a (by simp)]
    simp [ih (fun q hq => h1 q (List.mem_cons_of_mem _ hq))]

theorem jvm_deallocate_found (w : World) (allocator : jvm_allocator) (p : chunk_ptr)
    (pool : jvm_allocation_pool) (l1 l2 : List jvm_allocation_pool)
    (hpools : allocator.pools = l1 ++ pool :: l2) (hl1 : ∀ q ∈ l1, q.addr ≠ pool.addr)
    (hp : p.pool = pool.addr) (hauto : allocator.automatically_free_unused = 0)
    (hmem : ∃ c ∈ pool.chunks, c.addr = p.addr) :
    jvm_deallocate w allocator p =
      some ⟨w, VK_SUCCESS,
        { allocator with pools := l1 ++ (deallocate_from_pool pool p).2 :: l2 }⟩ := by
  unfold jvm_deallocate
  have hk : allocator.pools.findIdx (fun q => q.addr == p.pool) = l1.length := by
    rw [hpools]
    exact findIdx_append_cons _ l1 pool l2 (by intro q hq; simpa [hp] using hl1 q hq)
      (by simp [hp])
  have hget : allocator.pools[l1.length]? = some pool := by
    rw [hpools, List.getElem?_append_right (Nat.le_refl _)]; simp
  have hres : (deallocate_from_pool pool p).1 = 0 := by
    rcases deallocate_from_pool_cases pool p with ⟨hnone, -⟩ | ⟨pre, x, post, -, -, -, h⟩
    · obtain ⟨c, hc, hca⟩ := hmem
      exact absurd hca (hnone c hc)
    · rw [h]
  simp only [hk, hget]
  rcases hd : deallocate_from_pool pool p with ⟨res, pool1⟩
  rw [hd] at hres
  simp only at hres
  subst hres
  simp only [lt_self_iff_false, if_false, hauto, ne_eq, not_true_eq_false, and_false]
  congr 2
  rw [hpools]
  simp

/-- Releasing a used chunk of a pool whose records lie at distinct addresses: the invariant
holds again, the addresses stay distinct and the chunk leaves the list of used chunks. -/
theorem deallocate_from_pool_used (pool : jvm_allocation_pool) (p : chunk_ptr)
    (rest : List Nat) (hinv : pool_inv pool)
    (hnd : (pool.chunks.map (fun c => c.addr)).Nodup)
    (hperm : (p.addr :: rest).Perm (used_addrs pool.chunks)) :
    ∃ l : List jvm_chunk, (deallocate_from_pool pool p).2 = { pool with chunks := l } ∧
      (l.map (fun c => c.addr)).Nodup ∧ rest.Perm (used_addrs l) := by
  have hin : p.addr ∈ used_addrs pool.chunks := hperm.subset (List.mem_cons_self _ _)
  obtain ⟨y, hy, hyu, hya⟩ := mem_used_addrs.mp hin
  rcases deallocate_from_pool_coalesce pool p hinv.coalesced with
    ⟨hnone, -⟩ | ⟨pre, x, post, hdec, hx, hpre, h⟩
  · exact absurd hya (hnone y hy)
  · rw [h]
    refine ⟨_, rfl, ?_, ?_⟩
    · refine List.Nodup.sublist (coalesce_addr_sublist _) ?_
      rw [hdec] at hnd
      simpa using hnd
    · rw [used_addrs_coalesce, used_addrs_append, used_addrs_cons, if_neg (by simp)]
      have hxu : x.used ≠ 0 := by
        rw [hdec] at hy hnd
        simp only [List.mem_append, List.mem_cons] at hy
        rcases hy with hy | rfl | hy
        · exact absurd hya (hpre y hy)
        · exact hyu
        · exfalso
          simp only [List.map_append, List.map_cons, List.nodup_append, List.nodup_cons,
            List.mem_map] at hnd
          exact hnd.2.1.1 ⟨y, hy, hya.trans hx.symm⟩
      rw [hdec, used_addrs_append, used_addrs_cons, if_pos hxu, hx] at hperm
      exact (hperm.trans List.perm_middle).cons_inv

theorem deallocate_all_owned (order : List chunk_ptr) (w : World) (allocator : jvm_allocator)
    (pool : jvm_allocation_pool) (l1 l2 : List jvm_allocation_pool)
    (hinv : pool_inv pool) (hnd : (pool.chunks.map (fun c => c.addr)).Nodup)
    (hpools : allocator.pools = l1 ++ pool :: l2) (hl1 : ∀ q ∈ l1, q.addr ≠ pool.addr)
    (hauto : allocator.automatically_free_unused = 0)
    (hperm : (order.map (fun p => p.addr)).Perm (used_addrs pool.chunks))
    (hback : ∀ p ∈ order, p.pool = pool.addr) :
    ∃ (w3 : World) (l : List jvm_chunk),
      deallocate_all w allocator order =
        some (w3, { allocator with pools := l1 ++ { pool with chunks := l } :: l2 },
          List.replicate order.length VK_SUCCESS) ∧
      pool_inv { pool with chunks := l } ∧ used_addrs l = [] := by
  induction order generalizing w allocator pool with
  | nil =>
    refine ⟨w, pool.chunks, ?_, hinv, ?_⟩
    · simp only [deallocate_all, List.length_nil, List.replicate_zero, Option.some.injEq,
        Prod.mk.injEq, and_true, true_and]
      cases allocator
      simp only at hpools
      subst hpools
      rfl
    · simpa using hperm.symm
  | cons p rest ih =>
    rw [List.map_cons] at hperm
    have hin : p.addr ∈ used_addrs pool.chunks := hperm.subset (List.mem_cons_self _ _)
    obtain ⟨y, hy, -, hya⟩ := mem_used_addrs.mp hin
    obtain ⟨l, hl, hnd', hperm'⟩ := deallocate_from_pool_used pool p _ hinv hnd hperm
    have hinv' := deallocate_from_pool_inv pool p hinv
    rw [hl] at hinv'
    have hstep := jvm_deallocate_found w allocator p pool l1 l2 hpools hl1
      (hback p (List.mem_cons_self _ _)) hauto ⟨y, hy, hya⟩
    rw [hl] at hstep
    obtain ⟨w3, l', h1, h2, h3⟩ := ih w
      { allocator with pools := l1 ++ { pool with chunks := l } :: l2 }
      { pool with chunks := l } hinv' hnd' rfl hl1 hauto hperm'
      (fun q hq => hback q (List.mem_cons_of_mem _ hq))
    refine ⟨w3, l', ?_, h2, h3⟩
    rw [deallocate_all, hstep]
    simp only []
    rw [h1]
    rfl

/-- C4: with auto-free off, allocate any number of chunks from a freshly created pool (every
call returning 0) and hand all the pointers to `jvm_deallocate`, in any order, on an allocator
that holds the pool: every call returns `VK_SUCCESS` and the pool is left with exactly one
chunk, at offset 0, of the size of the pool, unused and without padding. -/
theorem free_all_restores_pool (w : World) (pool : jvm_allocation_pool)
    (reqs : List alloc_request) (w1 : World) (pool1 : jvm_allocation_pool)
    (ps : List chunk_ptr) (w2 : World) (allocator : jvm_allocator)
    (l1 l2 : List jvm_allocation_pool) (order : List chunk_ptr)
    (hcreated : created_pool w pool)
    (hallocs : allocate_all w pool reqs = some (w1, pool1, ps))
    (hauto : allocator.automatically_free_unused = 0)
    (hpools : allocator.pools = l1 ++ pool1 :: l2)
    (hl1 : ∀ q ∈ l1, q.addr ≠ pool1.addr)
    (horder : order.Perm ps) :
    ∃ (w3 : World) (c : jvm_chunk),
      deallocate_all w2 allocator order =
        some (w3, { allocator with pools := l1 ++ { pool1 with chunks := [c] } :: l2 },
          List.replicate reqs.length VK_SUCCESS) ∧
      c.chunk_offset = 0 ∧ c.size = pool.size ∧ c.used = 0 ∧ c.padding = 0 := by
  obtain ⟨hown, hfree⟩ := created_pool_owned hcreated
  obtain ⟨hown1, hperm, hback, -, hsize, hlen⟩ := allocate_all_owned reqs w pool w1 pool1 ps
    hallocs hown
  rw [hfree, List.append_nil] at hperm
  obtain ⟨w3, l, h1, h2, h3⟩ := deallocate_all_owned order w2 allocator pool1 l1 l2 hown1.inv
    hown1.nodup hpools hl1 hauto ((horder.map _).trans hperm.symm)
    (fun p hp => by
      have := hback p (horder.subset hp)
      obtain ⟨-, -, -, haddr, -, -⟩ := allocate_all_owned reqs w pool w1 pool1 ps hallocs hown
      rw [haddr]; exact this)
  obtain ⟨c, hc, hc1, hc2, hc3, hc4⟩ := pool_inv_all_free h2 h3
  simp only at hc hc2
  subst hc
  refine ⟨w3, c, ?_, hc1, hc2.trans hsize, hc3, hc4⟩
  rw [h1, horder.length_eq, hlen]

theorem sample_pool_created : created_pool sample_world sample_pool :=
  ⟨sample_pool_fresh, by decide⟩

/-- C4, witness: allocate A, B, C from `sample_pool`, then free A, free C, free B. -/
theorem free_all_restores_pool_witness :
    ∃ (w3 : World) (c : jvm_chunk),
      deallocate_all sample_world { sample_allocator with pools := [] ++ sample_pool_abc :: [] }
          [⟨3, 1⟩, ⟨101, 1⟩, ⟨100, 1⟩] =
        some (w3,
          { sample_allocator with pools := [] ++ { sample_pool_abc with chunks := [c] } :: [] },
          List.replicate sample_reqs.length VK_SUCCESS) ∧
      c.chunk_offset = 0 ∧ c.size = sample_pool.size ∧ c.used = 0 ∧ c.padding = 0 :=
  free_all_restores_pool sample_world sample_pool sample_reqs ⟨103, [], [], [], []⟩
    sample_pool_abc [⟨3, 1⟩, ⟨100, 1⟩, ⟨101, 1⟩] sample_world
    { sample_allocator with pools := [] ++ sample_pool_abc :: [] } [] []
    [⟨3, 1⟩, ⟨101, 1⟩, ⟨100, 1⟩] sample_pool_created (by decide) (by decide) rfl (by simp)
    (List.Perm.cons _ (List.Perm.swap _ _ _))

theorem vkAllocateMemory_cases (w : World) (size idx : Nat) :
    (∃ w1 r, vkAllocateMemory w size idx = (w1, r, 0) ∧ r ≠ VK_SUCCESS ∧ w1.next = w.next) ∨
    (∃ w1, vkAllocateMemory w size idx = (w1, VK_SUCCESS, w.next) ∧ w1.next = w.next + 1) := by
  unfold vkAllocateMemory World.driver_call World.emit
  rcases hd : w.driver with _ | ⟨r, rest⟩
  · right; exact ⟨_, rfl, rfl⟩
  · simp only []
    by_cases hr : r = VK_SUCCESS
    · right; subst hr; exact ⟨_, rfl, rfl⟩
    · left; rw [if_neg hr]; exact ⟨_, r, rfl, hr, rfl⟩

theorem create_new_pool_fill_success (w : World) (this : jvm_allocator)
    (pool_addr mem_size idx : Nat) (mem_info : VkMemoryType)
    (h : (create_new_pool.fill w this pool_addr mem_size idx mem_info).result = VK_SUCCESS) :
    ∃ (pool : jvm_allocation_pool) (c : jvm_chunk),
      (create_new_pool.fill w this pool_addr mem_size idx mem_info).allocator =
        { this with pools := this.pools ++ [pool] } ∧
      pool.chunks = [c] ∧ c.chunk_offset = 0 ∧ c.size = mem_size ∧ c.used = 0 ∧
      c.padding = 0 ∧ c.mapped = 0 ∧ c.pool = pool_addr ∧
      c.addr < (create_new_pool.fill w this pool_addr mem_size idx mem_info).world.next ∧
      pool.addr = pool_addr ∧ pool.size = mem_size ∧ pool.memory_type_index = idx ∧
      pool.memory_type_info = mem_info ∧ pool.map_count = 0 ∧ pool.map_ptr = none := by
  unfold create_new_pool.fill at h ⊢
  rcases jvm_alloc_cases w with ⟨w1, h1, hn1, -⟩ | ⟨w1, h1, hn1, -⟩
  · rw [h1] at h; simp [VK_ERROR_OUT_OF_HOST_MEMORY, VK_SUCCESS] at h
  · rw [h1] at h ⊢
    simp only [] at h ⊢
    rcases jvm_alloc_cases w1 with ⟨w2, h2, hn2, -⟩ | ⟨w2, h2, hn2, -⟩
    · rw [h2] at h; simp [VK_ERROR_OUT_OF_HOST_MEMORY, VK_SUCCESS] at h
    · rw [h2] at h ⊢
      simp only [] at h ⊢
      rcases vkAllocateMemory_cases w2 mem_size idx with ⟨w3, r, h3, hr, hn3⟩ | ⟨w3, h3, hn3⟩
      · rw [h3] at h; simp only [] at h; rw [if_pos hr] at h; exact absurd h hr
      · rw [h3]
        simp only [ne_eq, not_true_eq_false, if_false]
        exact ⟨_, _, rfl, rfl, rfl, rfl, rfl, rfl, rfl, rfl, by show w1.next < w3.next; omega,
          rfl, rfl, rfl, rfl, rfl, rfl⟩

/-- A successful `create_new_pool` appends one pool to the pool list: a single unused chunk
that covers it, of the size, memory type index and memory type asked for, not mapped. -/
theorem create_new_pool_success (w : World) (this : jvm_allocator) (mem_size idx : Nat)
    (mem_info : VkMemoryType)
    (h : (create_new_pool w this mem_size idx mem_info).result = VK_SUCCESS) :
    ∃ (pool : jvm_allocation_pool) (c : jvm_chunk),
      (create_new_pool w this mem_size idx mem_info).allocator.pools = this.pools ++ [pool] ∧
      pool.chunks = [c] ∧ c.chunk_offset = 0 ∧ c.size = mem_size ∧ c.used = 0 ∧
      c.padding = 0 ∧ c.mapped = 0 ∧ c.pool = pool.addr ∧
      c.addr < (create_new_pool w this mem_size idx mem_info).world.next ∧
      pool.size = mem_size ∧ pool.memory_type_index = idx ∧
      pool.memory_type_info = mem_info ∧ pool.map_count = 0 ∧ pool.map_ptr = none := by
  unfold create_new_pool at h ⊢
  rcases jvm_alloc_cases w with ⟨w1, h1, hn1, -⟩ | ⟨w1, h1, hn1, -⟩
  · rw [h1] at h; simp [VK_ERROR_OUT_OF_HOST_MEMORY, VK_SUCCESS] at h
  · rw [h1] at h ⊢
    simp only [] at h ⊢
    by_cases hcap : this.pool_capacity = this.pool_count
    · rw [if_pos hcap] at h ⊢
      unfold jvm_realloc at h ⊢
      rcases jvm_alloc_cases w1 with ⟨w2, h2, hn2, -⟩ | ⟨w2, h2, hn2, -⟩
      · rw [h2] at h; simp [VK_ERROR_OUT_OF_HOST_MEMORY, VK_SUCCESS] at h
      · rw [h2] at h ⊢
        simp only [] at h ⊢
        obtain ⟨pool, c, e1, e2, e3, e4, e5, e6, e7, e8, e9, e10, e11, e12, e13, e14, e15⟩ :=
          create_new_pool_fill_success _ _ _ _ _ _ h
        exact ⟨pool, c, by rw [e1], e2, e3, e4, e5, e6, e7, e8.trans e10.symm, e9, e11, e12,
          e13, e14, e15⟩
    · rw [if_neg hcap] at h ⊢
      obtain ⟨pool, c, e1, e2, e3, e4, e5, e6, e7, e8, e9, e10, e11, e12, e13, e14, e15⟩ :=
        create_new_pool_fill_success _ _ _ _ _ _ h
      exact ⟨pool, c, by rw [e1], e2, e3, e4, e5, e6, e7, e8.trans e10.symm, e9, e11, e12,
        e13, e14, e15⟩

/-- A pool made by `create_new_pool` with a size below `2 ^ 64` is `created_pool` in the world
after the call. -/
theorem create_new_pool_created (w : World) (this : jvm_allocator) (mem_size idx : Nat)
    (mem_info : VkMemoryType) (hs : mem_size < U64)
    (h : (create_new_pool w this mem_size idx mem_info).result = VK_SUCCESS) :
    ∃ pool : jvm_allocation_pool,
      (create_new_pool w this mem_size idx mem_info).allocator.pools = this.pools ++ [pool] ∧
      created_pool (create_new_pool w this mem_size idx mem_info).world pool := by
  obtain ⟨pool, c, e1, e2, e3, e4, e5, e6, -, e8, e9, e10, -⟩ :=
    create_new_pool_success w this mem_size idx mem_info h
  refine ⟨pool, e1, ⟨by rw [e10]; exact hs, c, e2, e3, e4.trans e10.symm, e5, e6⟩, ?_⟩
  intro c' hc'
  rw [e2] at hc'
  simp only [List.mem_singleton] at hc'
  subst hc'
  exact ⟨e9, e8⟩

/-! ## C5: frees commute -/

theorem mark_free_cons (a : Nat) (c : jvm_chunk) (r : List jvm_chunk) :
    mark_free a (c :: r) = if c.addr = a then c.release :: r else c :: mark_free a r := rfl

theorem mark_free_split (a : Nat) (pre : List jvm_chunk) (x : jvm_chunk)
    (post : List jvm_chunk) (hx : x.addr = a) (hpre : ∀ c ∈ pre, c.addr ≠ a) :
    mark_free a (pre ++ x :: post) = pre ++ x.release :: post := by
  induction pre with
  | nil => simp [mark_free_cons, hx]
  | cons c r ih =>
    rw [List.cons_append, mark_free_cons, if_neg (hpre c (by simp)),
      ih (fun q hq => hpre q (List.mem_cons_of_mem _ hq))]
    rfl

theorem mark_free_mem {a : Nat} {l : List jvm_chunk} {c : jvm_chunk}
    (h : c ∈ mark_free a l) : c ∈ l ∨ ∃ c' ∈ l, c'.addr = a ∧ c = c'.release := by
  induction l with
  | nil => simp [mark_free] at h
  | cons d r ih =>
    rw [mark_free_cons] at h
    split_ifs at h with hd
    · rcases List.mem_cons.mp h with rfl | h
      · exact Or.inr ⟨d, by simp, hd, rfl⟩
      · exact Or.inl (List.mem_cons_of_mem _ h)
    · rcases List.mem_cons.mp h with rfl | h
      · exact Or.inl (by simp)
      · rcases ih h with h | ⟨c', hc', h1, h2⟩
        · exact Or.inl (List.mem_cons_of_mem _ h)
        · exact Or.inr ⟨c', List.mem_cons_of_mem _ hc', h1, h2⟩

theorem mark_free_comm (a b : Nat) (hab : a ≠ b) (l : List jvm_chunk) :
    mark_free a (mark_free b l) = mark_free b (mark_free a l) := by
  induction l with
  | nil => rfl
  | cons c r ih =>
    by_cases ha : c.addr = a
    · have hb : c.addr ≠ b := fun h => hab (ha.symm.trans h)
      rw [mark_free_cons b, if_neg hb, mark_free_cons a, if_pos ha, mark_free_cons a,
        if_pos ha, mark_free_cons b, if_neg (by simpa using hb)]
    · by_cases hb : c.addr = b
      · rw [mark_free_cons b, if_pos hb, mark_free_cons a, if_neg (by simpa using ha),
          mark_free_cons a, if_neg ha, mark_free_cons b, if_pos hb]
      · rw [mark_free_cons b, if_neg hb, mark_free_cons a, if_neg ha, mark_free_cons a,
          if_neg ha, mark_free_cons b, if_neg hb, ih]

theorem u64_add_assoc (a b c : Nat) : u64_add (u64_add a b) c = u64_add a (u64_add b c) := by
  unfold u64_add U64; omega

theorem absorb_assoc (c d e : jvm_chunk) : (c.absorb d).absorb e = c.absorb (d.absorb e) := by
  simp [jvm_chunk.absorb, u64_add_assoc]

theorem coalesce_step_used {c : jvm_chunk} (l : List jvm_chunk) (h : c.used ≠ 0) :
    coalesce_step c l = c :: l := by
  cases l with
  | nil => rfl
  | cons d r => rw [coalesce_step_cons, if_neg (fun hh => h hh.1)]

theorem coalesce_step_absorb {c d : jvm_chunk} (hc : c.used = 0) (hd : d.used = 0)
    (l : List jvm_chunk) :
    coalesce_step (c.absorb d) l = coalesce_step c (coalesce_step d l) := by
  cases l with
  | nil => simp [coalesce_step, coalesce_step_cons, hc, hd]
  | cons e r =>
    by_cases he : e.used = 0
    · simp [coalesce_step_cons, hc, hd, he, absorb_assoc]
    · simp [coalesce_step_cons, hc, hd, he]

/-- Releasing a used chunk after coalescing, and coalescing again, is releasing it and
coalescing once. -/
theorem coalesce_mark_free (a : Nat) (l : List jvm_chunk)
    (h : ∀ c ∈ l, c.addr = a → c.used ≠ 0) :
    coalesce (mark_free a (coalesce l)) = coalesce (mark_free a l) := by
  induction l with
  | nil => rfl
  | cons c rest ih =>
    have hrest : ∀ q ∈ rest, q.addr = a → q.used ≠ 0 :=
      fun q hq => h q (List.mem_cons_of_mem _ hq)
    have hN : ∀ q ∈ coalesce rest, q.addr = a → q.used ≠ 0 := by
      intro q hq hqa
      obtain ⟨q', hq', h1, h2, -⟩ := coalesce_mem hq
      rw [← h2]
      exact hrest q' hq' (h1.trans hqa)
    by_cases hc : c.addr = a
    · have hcu := h c (by simp) hc
      rw [coalesce_cons, coalesce_step_used _ hcu, mark_free_cons, if_pos hc, mark_free_cons,
        if_pos hc, coalesce_cons, coalesce_cons, coalesce_idem]
    · rw [mark_free_cons a c rest, if_neg hc, coalesce_cons (c := c) (r := mark_free a rest),
        ← ih hrest, coalesce_cons]
      generalize coalesce rest = N at hN
      cases N with
      | nil => simp [coalesce_step, mark_free, mark_free_cons, hc, coalesce]
      | cons d r =>
        rw [coalesce_step_cons]
        split_ifs with hu
        · have hd : d.addr ≠ a := fun hda => hN d (by simp) hda hu.2
          rw [mark_free_cons, if_neg (by simpa using hc), coalesce_cons, mark_free_cons,
            if_neg hd, coalesce_cons, coalesce_step_absorb hu.1 hu.2]
        · rw [mark_free_cons, if_neg hc, coalesce_cons]

theorem deallocate_from_pool_mark (pool : jvm_allocation_pool) (p : chunk_ptr)
    (hnaf : no_adjacent_free pool.chunks) (hmem : ∃ c ∈ pool.chunks, c.addr = p.addr) :
    deallocate_from_pool pool p =
      (0, { pool with chunks := coalesce (mark_free p.addr pool.chunks) }) := by
  rcases deallocate_from_pool_coalesce pool p hnaf with
    ⟨hnone, -⟩ | ⟨pre, x, post, hdec, hx, hpre, h⟩
  · obtain ⟨c, hc, hca⟩ := hmem
    exact absurd hca (hnone c hc)
  · rw [h, hdec, mark_free_split p.addr pre x post hx hpre]

/-- Two releases in a row, the second chunk being in use and at another address than the
first. -/
theorem deallocate_twice (pool : jvm_allocation_pool) (x y : chunk_ptr)
    (hnaf : no_adjacent_free pool.chunks)
    (hnd : (pool.chunks.map (fun c => c.addr)).Nodup)
    (hx : ∃ c ∈ pool.chunks, c.addr = x.addr)
    (hy : ∃ c ∈ pool.chunks, c.addr = y.addr ∧ c.used ≠ 0)
    (hxy : x.addr ≠ y.addr) :
    deallocate_from_pool (deallocate_from_pool pool x).2 y =
      (0, { pool with chunks := coalesce (mark_free y.addr (mark_free x.addr pool.chunks)) }) := by
  rw [deallocate_from_pool_mark pool x hnaf hx]
  obtain ⟨cy, hcy, hcya, hcyu⟩ := hy
  -- every chunk at the address of `y` is in use, before and after the first release
  have hall : ∀ c ∈ pool.chunks, c.addr = y.addr → c.used ≠ 0 := by
    intro c hc hca
    have : c = cy := by
      have hinj := List.inj_on_of_nodup_map hnd
      exact hinj hc hcy (hca.trans hcya.symm)
    rw [this]; exact hcyu
  have hall' : ∀ c ∈ mark_free x.addr pool.chunks, c.addr = y.addr → c.used ≠ 0 := by
    intro c hc hca
    rcases mark_free_mem hc with h | ⟨c', -, h1, h2⟩
    · exact hall c h hca
    · rw [h2, release_addr] at hca
      exact absurd (h1.symm.trans hca) hxy
  have hmem' : ∃ c ∈ coalesce (mark_free x.addr pool.chunks), c.addr = y.addr := by
    have h1 : y.addr ∈ used_addrs (mark_free x.addr pool.chunks) := by
      obtain ⟨pre, z, post, hdec, hz, hpre⟩ : ∃ pre z post, pool.chunks = pre ++ z :: post ∧
          z.addr = x.addr ∧ ∀ c ∈ pre, c.addr ≠ x.addr := by
        rcases deallocate_from_pool_cases pool x with ⟨hnone, -⟩ | ⟨pre, z, post, h1, h2, h3, -⟩
        · obtain ⟨c, hc, hca⟩ := hx
          exact absurd hca (hnone c hc)
        · exact ⟨pre, z, post, h1, h2, h3⟩
      rw [hdec, mark_free_split x.addr pre z post hz hpre]
      rw [hdec] at hcy
      refine mem_used_addrs.mpr ⟨cy, ?_, hcyu, hcya⟩
      simp only [List.mem_append, List.mem_cons] at hcy ⊢
      rcases hcy with h | rfl | h
      · exact Or.inl h
      · exact absurd (hz.symm.trans hcya) hxy
      · exact Or.inr (Or.inr h)
    rw [← used_addrs_coalesce] at h1
    obtain ⟨c, hc, -, hca⟩ := mem_used_addrs.mp h1
    exact ⟨c, hc, hca⟩
  rw [deallocate_from_pool_mark _ y (coalesce_naf _) hmem']
  simp only [coalesce_mark_free y.addr _ hall']

/-- C5: in a pool that satisfies the partition and the coalescing invariant, whose chunk
records lie at distinct addresses, deallocating two distinct used chunks `x` and `y` in either
order gives the same return values and the same pool, so the same chunk list. -/
theorem frees_commute (pool : jvm_allocation_pool) (x y : chunk_ptr)
    (_hpart : chain 0 pool.chunks pool.size)
    (hnaf : no_adjacent_free pool.chunks)
    (hnd : (pool.chunks.map (fun c => c.addr)).Nodup)
    (hx : ∃ c ∈ pool.chunks, c.addr = x.addr ∧ c.used ≠ 0)
    (hy : ∃ c ∈ pool.chunks, c.addr = y.addr ∧ c.used ≠ 0)
    (hxy : x.addr ≠ y.addr) :
    deallocate_from_pool (deallocate_from_pool pool x).2 y =
      deallocate_from_pool (deallocate_from_pool pool y).2 x := by
  have hx' : ∃ c ∈ pool.chunks, c.addr = x.addr := by
    obtain ⟨c, hc, h, -⟩ := hx; exact ⟨c, hc, h⟩
  have hy' : ∃ c ∈ pool.chunks, c.addr = y.addr := by
    obtain ⟨c, hc, h, -⟩ := hy; exact ⟨c, hc, h⟩
  rw [deallocate_twice pool x y hnaf hnd hx' hy hxy,
    deallocate_twice pool y x hnaf hnd hy' hx (Ne.symm hxy),
    mark_free_comm y.addr x.addr (Ne.symm hxy)]

/-- C5, witness: chunks A and C of `sample_pool_abc`. -/
theorem frees_commute_witness :
    deallocate_from_pool (deallocate_from_pool sample_pool_abc ⟨3, 1⟩).2 ⟨101, 1⟩ =
      deallocate_from_pool (deallocate_from_pool sample_pool_abc ⟨101, 1⟩).2 ⟨3, 1⟩ :=
  frees_commute sample_pool_abc ⟨3, 1⟩ ⟨101, 1⟩ (by decide)
    (List.chain'_cons.mpr ⟨by decide, List.chain'_cons.mpr ⟨by decide,
      List.chain'_cons.mpr ⟨by decide, List.chain'_singleton _⟩⟩⟩)
    (by decide)
    ⟨_, List.mem_cons_self _ _, rfl, by decide⟩
    ⟨_, List.mem_cons_of_mem _ (List.mem_cons_of_mem _ (List.mem_cons_self _ _)), rfl,
      by decide⟩
    (by decide)

/-! ## Counting loops over the `scores` array -/

theorem for_loop_succ {σ : Type} (n : Nat) (body : Nat → σ → σ) (init : σ) :
    for_loop (n + 1) body init = body n (for_loop n body init) := rfl

theorem set_getD_self (s : List Int) (i : Nat) : s.set i (s.getD i 0) = s := by
  by_cases h : i < s.length
  · apply List.ext_getElem (by simp)
    intro j h1 h2
    by_cases hij : i = j
    · subst hij; simp [List.getD_eq_getElem?_getD, h]
    · simp [List.getElem_set_ne hij]
  · exact List.set_eq_of_length_le (Nat.le_of_not_lt h)

theorem getD_set (s : List Int) (i j : Nat) (v : Int) :
    (s.set i v).getD j 0 = if j = i ∧ j < s.length then v else s.getD j 0 := by
  simp only [List.getD_eq_getElem?_getD, List.getElem?_set]
  by_cases hij : i = j
  · subst hij
    by_cases h : i < s.length
    · simp [h]
    · simp [h, List.getElem?_eq_none (Nat.le_of_not_lt h)]
  · rw [if_neg hij, if_neg (fun hh => hij hh.1.symm)]

/-- A loop whose body writes `f i scores[i]` to `scores[i]` and adds `inc i scores[i]` to a
counter: the scores after `n` rounds, and the counter when no round adds to it. -/
theorem for_loop_pointwise (body : Nat → List Int × Nat → List Int × Nat)
    (f : Nat → Int → Int) (inc : Nat → Int → Nat)
    (hbody : ∀ i st, body i st = (st.1.set i (f i (st.1.getD i 0)), st.2 + inc i (st.1.getD i 0)))
    (s : List Int) (c : Nat) (n : Nat) :
    (for_loop n body (s, c)).1.length = s.length ∧
    (∀ j, (for_loop n body (s, c)).1.getD j 0 =
      if j < n ∧ j < s.length then f j (s.getD j 0) else s.getD j 0) ∧
    ((∀ i, i < n → inc i (s.getD i 0) = 0) → (for_loop n body (s, c)).2 = c) := by
  induction n with
  | zero => exact ⟨rfl, fun j => by simp [for_loop], fun _ => rfl⟩
  | succ n ih =>
    obtain ⟨h1, h2, h3⟩ := ih
    rw [for_loop_succ, hbody]
    refine ⟨by simp [h1], ?_, ?_⟩
    · intro j
      simp only [getD_set, h1, h2]
      by_cases hj : j = n
      · subst hj; simp
      · by_cases hjn : j < n
        · simp [hj, hjn, Nat.lt_succ_of_lt hjn]
        · have : ¬ j < n + 1 := by omega
          simp [hj, hjn, this]
    · intro hall
      show (for_loop n body (s, c)).2 + inc n ((for_loop n body (s, c)).1.getD n 0) = c
      rw [h3 (fun i hi => hall i (Nat.lt_succ_of_lt hi)), h2 n,
        if_neg (fun h => Nat.lt_irrefl _ h.1), hall n (Nat.lt_succ_self n), Nat.add_zero]

/-- A loop whose body writes `f i scores[i]` to `scores[i]`. -/
theorem for_loop_pointwise_scores (body : Nat → List Int → List Int) (f : Nat → Int → Int)
    (hbody : ∀ i s, body i s = s.set i (f i (s.getD i 0))) (s : List Int) (n : Nat) :
    (for_loop n body s).length = s.length ∧
    (∀ j, (for_loop n body s).getD j 0 =
      if j < n ∧ j < s.length then f j (s.getD j 0) else s.getD j 0) := by
  induction n with
  | zero => exact ⟨rfl, fun j => by simp [for_loop]⟩
  | succ n ih =>
    obtain ⟨h1, h2⟩ := ih
    rw [for_loop_succ, hbody]
    refine ⟨by simp [h1], ?_⟩
    intro j
    simp only [getD_set, h1, h2]
    by_cases hj : j = n
    · subst hj; simp
    · by_cases hjn : j < n
      · simp [hj, hjn, Nat.lt_succ_of_lt hjn]
      · have : ¬ j < n + 1 := by omega
        simp [hj, hjn, this]

/-- The selection loop: `best_score` bounds every score; it is 0 and `idx` keeps the value it
started with, or it is positive and `idx` is the first index that holds it. -/
theorem best_of_spec (scores : List Int) (n : Nat) :
    (∀ i, i < n → scores.getD i 0 ≤ (best_of scores n).1) ∧
    (((best_of scores n).1 = 0 ∧ (best_of scores n).2 = n) ∨
      (0 < (best_of scores n).1 ∧ (best_of scores n).2 < n ∧
        scores.getD (best_of scores n).2 0 = (best_of scores n).1 ∧
        ∀ i, i < (best_of scores n).2 → scores.getD i 0 < (best_of scores n).1)) := by
  unfold best_of
  generalize hm : n = m
  have hgen : ∀ k, (∀ i, i < k → scores.getD i 0 ≤
        (for_loop k (fun i best => if scores.getD i 0 > best.1 then (scores.getD i 0, i)
          else best) ((0 : Int), m)).1) ∧
      (((for_loop k (fun i best => if scores.getD i 0 > best.1 then (scores.getD i 0, i)
          else best) ((0 : Int), m)).1 = 0 ∧
        (for_loop k (fun i best => if scores.getD i 0 > best.1 then (scores.getD i 0, i)
          else best) ((0 : Int), m)).2 = m) ∨
      (0 < (for_loop k (fun i best => if scores.getD i 0 > best.1 then (scores.getD i 0, i)
          else best) ((0 : Int), m)).1 ∧
        (for_loop k (fun i best => if scores.getD i 0 > best.1 then (scores.getD i 0, i)
          else best) ((0 : Int), m)).2 < k ∧
        scores.getD (for_loop k (fun i best => if scores.getD i 0 > best.1 then
          (scores.getD i 0, i) else best) ((0 : Int), m)).2 0 =
          (for_loop k (fun i best => if scores.getD i 0 > best.1 then (scores.getD i 0, i)
            else best) ((0 : Int), m)).1 ∧
        ∀ i, i < (for_loop k (fun i best => if scores.getD i 0 > best.1 then
          (scores.getD i 0, i) else best) ((0 : Int), m)).2 → scores.getD i 0 <
          (for_loop k (fun i best => if scores.getD i 0 > best.1 then (scores.getD i 0, i)
            else best) ((0 : Int), m)).1)) := by
    intro k
    induction k with
    | zero => exact ⟨fun i hi => absurd hi (Nat.not_lt_zero i), Or.inl ⟨rfl, rfl⟩⟩
    | succ k ih =>
      rw [for_loop_succ]
      generalize for_loop k (fun i best => if scores.getD i 0 > best.1 then (scores.getD i 0, i)
          else best) ((0 : Int), m) = b at ih
      obtain ⟨hle, hcase⟩ := ih
      by_cases hgt : scores.getD k 0 > b.1
      · rw [if_pos hgt]
        refine ⟨?_, Or.inr ⟨?_, Nat.lt_succ_self k, rfl, ?_⟩⟩
        · intro i hi
          rcases Nat.lt_succ_iff_lt_or_eq.mp hi with h | rfl
          · exact le_of_lt (lt_of_le_of_lt (hle i h) hgt)
          · exact le_refl _
        · rcases hcase with ⟨h0, -⟩ | ⟨hpos, -⟩
          · rw [h0] at hgt; exact hgt
          · exact lt_trans hpos hgt
        · intro i hi
          exact lt_of_le_of_lt (hle i hi) hgt
      · rw [if_neg hgt]
        refine ⟨?_, ?_⟩
        · intro i hi
          rcases Nat.lt_succ_iff_lt_or_eq.mp hi with h | rfl
          · exact hle i h
          · exact le_of_not_lt hgt
        · rcases hcase with h | ⟨h1, h2, h3, h4⟩
          · exact Or.inl h
          · exact Or.inr ⟨h1, Nat.lt_succ_of_lt h2, h3, h4⟩
  exact hgen m

/-! ## Memory type selection -/

theorem and_two_pow_ne_zero (a i : Nat) : a &&& 2 ^ i ≠ 0 ↔ a.testBit i = true := by
  constructor
  · intro h
    obtain ⟨j, hj⟩ := Nat.ne_zero_implies_bit_true h
    rw [Nat.testBit_and, Nat.testBit_two_pow] at hj
    simp only [Bool.and_eq_true, decide_eq_true_eq] at hj
    rw [hj.2]; exact hj.1
  · intro h h0
    have : (a &&& 2 ^ i).testBit i = true := by
      rw [Nat.testBit_and, Nat.testBit_two_pow]; simp [h]
    rw [h0] at this
    simp at this

theorem type_bit_ne_zero (type_bits i : Nat) :
    type_bit type_bits i ≠ 0 ↔ i < 32 ∧ type_bits.testBit i = true := by
  unfold type_bit
  rw [Nat.one_shiftLeft]
  by_cases hi : i < 32
  · have hlt : 2 ^ i < U32 := by
      have : (2 : Nat) ^ i < 2 ^ 32 := Nat.pow_lt_pow_right (by decide) hi
      simpa [U32] using this
    rw [Nat.mod_eq_of_lt hlt, and_two_pow_ne_zero]
    simp [hi]
  · have hdvd : U32 ∣ 2 ^ i := by
      have : (2 : Nat) ^ 32 ∣ 2 ^ i := Nat.pow_dvd_pow 2 (by omega)
      simpa [U32] using this
    rw [Nat.mod_eq_zero_of_dvd hdvd]
    simp [hi]

theorem getD_replicate_zero (n j : Nat) : (List.replicate n (0 : Int)).getD j 0 = 0 := by
  rw [List.getD_eq_getElem?_getD, List.getElem?_replicate]
  split_ifs <;> rfl

/-- The scoring loops of `jvm_allocate` compute `jvm_allocate.score`, and they leave
`valid_count` at 0 when no memory type qualifies. -/
theorem jvm_allocate_scores_spec (mp : VkPhysicalDeviceMemoryProperties)
    (type_bits desired_flags undesired_flags : Nat) (sc : List Int) (vc : Nat)
    (h : jvm_allocate.scores mp type_bits desired_flags undesired_flags = some (sc, vc)) :
    (∀ j, sc.getD j 0 = jvm_allocate.score mp type_bits desired_flags undesired_flags j) ∧
    ((∀ j, ¬ qualifies mp type_bits desired_flags undesired_flags j) → vc = 0) := by
  unfold jvm_allocate.scores at h
  simp only [] at h
  -- the first three loops
  obtain ⟨l1, g1⟩ := for_loop_pointwise_scores (fun i scores => scores.set i 1) (fun _ _ => 1)
    (fun _ _ => rfl) (List.replicate VK_MAX_MEMORY_TYPES 0) mp.memoryTypeCount
  generalize for_loop mp.memoryTypeCount (fun i scores => scores.set i 1)
    (List.replicate VK_MAX_MEMORY_TYPES (0 : Int)) = s1 at h l1 g1
  obtain ⟨l2, g2, -⟩ := for_loop_pointwise
    (fun i st => ((if (mp.memoryType i).propertyFlags &&& undesired_flags ≠ 0 then st.1.set i 0
      else st.1), st.2 + 1))
    (fun i x => if (mp.memoryType i).propertyFlags &&& undesired_flags ≠ 0 then 0 else x)
    (fun _ _ => 1)
    (by
      intro i st
      by_cases hc : (mp.memoryType i).propertyFlags &&& undesired_flags ≠ 0
      · simp only [if_pos hc]
      · simp only [if_neg hc, set_getD_self])
    s1 0 mp.memoryTypeCount
  generalize for_loop mp.memoryTypeCount
    (fun i st => ((if (mp.memoryType i).propertyFlags &&& undesired_flags ≠ 0 then st.1.set i 0
      else st.1), st.2 + 1)) (s1, 0) = st2 at h l2 g2
  -- the scores after the block on undesired flags
  obtain ⟨s2, hs2l, hs2, hh⟩ : ∃ s2 : List Int, s2.length = s1.length ∧
      (∀ j, s2.getD j 0 = if j < mp.memoryTypeCount ∧ j < s1.length then
        (if (mp.memoryType j).propertyFlags &&& undesired_flags ≠ 0 then 0 else s1.getD j 0)
        else s1.getD j 0) ∧
      some (for_loop mp.memoryTypeCount
        (fun i st =>
          if st.1.getD i 0 = -1 then st
          else if (mp.memoryType i).propertyFlags &&& desired_flags = desired_flags then
            (st.1.set i (st.1.getD i 0 * heap_score mp i),
              st.2 + (if st.1.getD i 0 * heap_score mp i ≠ 0 then 1 else 0))
          else st)
        (for_loop mp.memoryTypeCount
          (fun i scores => if type_bit type_bits i = 0 then scores.set i 0 else scores) s2, 0))
        = some (sc, vc) := by
    by_cases hu : undesired_flags ≠ 0
    · rw [if_pos hu] at h
      split_ifs at h with h0
      exact ⟨st2.1, l2, g2, h⟩
    · rw [if_neg hu] at h
      rw [if_neg (fun hh => hu hh.1)] at h
      refine ⟨s1, rfl, ?_, h⟩
      intro j
      have : undesired_flags = 0 := by simpa using hu
      simp [this]
  clear h g2 l2 st2
  obtain ⟨l3, g3⟩ := for_loop_pointwise_scores
    (fun i scores => if type_bit type_bits i = 0 then scores.set i 0 else scores)
    (fun i x => if type_bit type_bits i = 0 then 0 else x)
    (by
      intro i s
      by_cases hc : type_bit type_bits i = 0
      · simp only [if_pos hc]
      · simp only [if_neg hc, set_getD_self])
    s2 mp.memoryTypeCount
  generalize for_loop mp.memoryTypeCount
    (fun i scores => if type_bit type_bits i = 0 then scores.set i 0 else scores) s2 = s3
    at hh l3 g3
  obtain ⟨-, g4, c4⟩ := for_loop_pointwise
    (fun i st =>
      if st.1.getD i 0 = -1 then st
      else if (mp.memoryType i).propertyFlags &&& desired_flags = desired_flags then
        (st.1.set i (st.1.getD i 0 * heap_score mp i),
          st.2 + (if st.1.getD i 0 * heap_score mp i ≠ 0 then 1 else 0))
      else st)
    (fun i x => if x = -1 then x
      else if (mp.memoryType i).propertyFlags &&& desired_flags = desired_flags then
        x * heap_score mp i else x)
    (fun i x => if x = -1 then 0
      else if (mp.memoryType i).propertyFlags &&& desired_flags = desired_flags then
        (if x * heap_score mp i ≠ 0 then 1 else 0) else 0)
    (by
      intro i st
      by_cases h1 : st.1.getD i 0 = -1
      · simp only [if_pos h1, set_getD_self, Nat.add_zero]
      · by_cases h2 : (mp.memoryType i).propertyFlags &&& desired_flags = desired_flags
        · simp only [if_neg h1, if_pos h2]
        · simp only [if_neg h1, if_neg h2, set_getD_self, Nat.add_zero])
    s3 0 mp.memoryTypeCount
  simp only [Option.some.injEq] at hh
  rw [hh] at g4 c4
  simp only [] at g4 c4
  -- the value of `scores[j]` before the last loop
  have hs3 : ∀ j, s3.getD j 0 =
      if j < mp.memoryTypeCount ∧ j < VK_MAX_MEMORY_TYPES then
        (if (mp.memoryType j).propertyFlags &&& undesired_flags ≠ 0 ∨ type_bit type_bits j = 0
          then 0 else 1)
      else 0 := by
    intro j
    have hlen1 : s1.length = VK_MAX_MEMORY_TYPES := by rw [l1]; simp
    rw [g3 j, hs2 j, g1 j, hs2l, hlen1, getD_replicate_zero]
    simp only [List.length_replicate]
    by_cases hj : j < mp.memoryTypeCount ∧ j < VK_MAX_MEMORY_TYPES
    · simp only [if_pos hj]
      by_cases hb : type_bit type_bits j = 0
      · simp [hb]
      · simp only [if_neg hb, hb, or_false, if_false]
    · simp only [if_neg hj]
  have hl3 : s3.length = VK_MAX_MEMORY_TYPES := by
    rw [l3, hs2l, l1]; simp
  constructor
  · intro j
    rw [g4 j, hs3 j, hl3]
    unfold jvm_allocate.score
    by_cases hj : j < mp.memoryTypeCount ∧ j < VK_MAX_MEMORY_TYPES
    · simp only [if_pos hj]
      by_cases hd : (mp.memoryType j).propertyFlags &&& undesired_flags ≠ 0 ∨
          type_bit type_bits j = 0
      · simp only [if_pos hd]
        by_cases h2 : (mp.memoryType j).propertyFlags &&& desired_flags = desired_flags <;>
          simp [h2]
      · simp only [if_neg hd]
        by_cases h2 : (mp.memoryType j).propertyFlags &&& desired_flags = desired_flags <;>
          simp [h2]
    · simp only [if_neg hj]
  · intro hnone
    apply c4
    intro i hi
    rw [hs3 i]
    by_cases h2 : (mp.memoryType i).propertyFlags &&& desired_flags = desired_flags
    · have hz : (if i < mp.memoryTypeCount ∧ i < VK_MAX_MEMORY_TYPES then
          (if (mp.memoryType i).propertyFlags &&& undesired_flags ≠ 0 ∨
            type_bit type_bits i = 0 then (0 : Int) else 1) else 0) = 0 := by
        by_cases hj : i < mp.memoryTypeCount ∧ i < VK_MAX_MEMORY_TYPES
        · rw [if_pos hj, if_pos]
          by_contra hcon
          simp only [not_or, not_not] at hcon
          exact hnone i ⟨hi, ((type_bit_ne_zero _ _).mp hcon.2).2, hcon.1, h2⟩
        · rw [if_neg hj]
      rw [hz]
      simp
    · simp only [if_neg h2]
      split_ifs <;> rfl

/-- What `jvm_allocate.memory_type` returns, in terms of `jvm_allocate.score`: a type of
positive score that no type beats and no type of lower index equals. -/
theorem jvm_allocate_memory_type_some (mp : VkPhysicalDeviceMemoryProperties)
    (type_bits desired_flags undesired_flags idx : Nat)
    (h : jvm_allocate.memory_type mp type_bits desired_flags undesired_flags = some idx) :
    idx < mp.memoryTypeCount ∧
    0 < jvm_allocate.score mp type_bits desired_flags undesired_flags idx ∧
    (∀ i, i < mp.memoryTypeCount →
      jvm_allocate.score mp type_bits desired_flags undesired_flags i ≤
        jvm_allocate.score mp type_bits desired_flags undesired_flags idx) ∧
    (∀ i, i < idx →
      jvm_allocate.score mp type_bits desired_flags undesired_flags i <
        jvm_allocate.score mp type_bits desired_flags undesired_flags idx) := by
  unfold jvm_allocate.memory_type at h
  rcases hs : jvm_allocate.scores mp type_bits desired_flags undesired_flags with _ | ⟨sc, vc⟩
  · rw [hs] at h; simp at h
  · rw [hs] at h
    simp only [] at h
    obtain ⟨hsc, -⟩ := jvm_allocate_scores_spec mp type_bits desired_flags undesired_flags sc vc hs
    split_ifs at h with h1 h2
    simp only [Option.some.injEq] at h
    obtain ⟨hle, hcase⟩ := best_of_spec sc mp.memoryTypeCount
    rcases hcase with ⟨h0, -⟩ | ⟨hpos, hlt, heq, hfirst⟩
    · exact absurd h0 h2
    · rw [h] at hlt heq hfirst
      rw [hsc] at heq
      rw [← heq] at hpos hle hfirst
      refine ⟨hlt, hpos, ?_, ?_⟩
      · intro i hi; rw [← hsc]; exact hle i hi
      · intro i hi; rw [← hsc]; exact hfirst i hi

theorem jvm_allocate_memory_type_none (mp : VkPhysicalDeviceMemoryProperties)
    (type_bits desired_flags undesired_flags : Nat)
    (hnone : ∀ j, ¬ qualifies mp type_bits desired_flags undesired_flags j) :
    jvm_allocate.memory_type mp type_bits desired_flags undesired_flags = none := by
  unfold jvm_allocate.memory_type
  rcases hs : jvm_allocate.scores mp type_bits desired_flags undesired_flags with _ | ⟨sc, vc⟩
  · rfl
  · simp only []
    obtain ⟨-, hvc⟩ := jvm_allocate_scores_spec mp type_bits desired_flags undesired_flags sc vc hs
    rw [if_pos (hvc hnone)]

/-- A positive score means: inside the mask and free of undesired flags. -/
theorem jvm_allocate_score_pos (mp : VkPhysicalDeviceMemoryProperties)
    (type_bits desired_flags undesired_flags j : Nat)
    (h : 0 < jvm_allocate.score mp type_bits desired_flags undesired_flags j) :
    j < mp.memoryTypeCount ∧ type_bits.testBit j = true ∧
      (mp.memoryType j).propertyFlags &&& undesired_flags = 0 := by
  unfold jvm_allocate.score at h
  split_ifs at h with h1 h2 h3
  · exact absurd h (lt_irrefl _)
  · simp only [not_or, not_not] at h2
    exact ⟨h1.1, ((type_bit_ne_zero _ _).mp h2.2).2, h2.1⟩
  · simp only [not_or, not_not] at h2
    exact ⟨h1.1, ((type_bit_ne_zero _ _).mp h2.2).2, h2.1⟩
  · exact absurd h (lt_irrefl _)

/-! ## The shape of `allocate_from_pool` and `jvm_allocate` -/

/-- The function `allocate_from_pool` changes nothing of the pool but the chunk list and the
capacity of the chunk array. -/
theorem allocate_from_pool_frame (w : World) (allocator : jvm_allocator)
    (pool : jvm_allocation_pool) (size alignment : Nat) :
    ∃ (cap : Nat) (l : List jvm_chunk),
      (allocate_from_pool w allocator pool size alignment).pool =
        { pool with chunk_capacity := cap, chunks := l } := by
  unfold allocate_from_pool
  rcases loop_cases w allocator pool size alignment pool.chunk_count 0
      (by simp [jvm_allocation_pool.chunk_count]) with
    ⟨-, heq⟩ | ⟨j, chunk, -, hj, hfit, -, heq⟩
  · rw [heq]; exact ⟨pool.chunk_capacity, pool.chunks, rfl⟩
  · rw [heq]
    rcases carve_cases w allocator pool j chunk size
        (allocate_from_pool.padding chunk.chunk_offset alignment) with
      ⟨-, w1, cap, h, -⟩ | ⟨-, w1, cap, a, h, -, -⟩ | ⟨-, h⟩ <;> rw [h]
    · exact ⟨cap, pool.chunks, rfl⟩
    · exact ⟨cap, _, rfl⟩
    · exact ⟨pool.chunk_capacity, _, rfl⟩

/-- When `allocate_from_pool` returns 0 the chunk handed out is in the pool and marked
used. -/
theorem allocate_from_pool_handed (w : World) (allocator : jvm_allocator)
    (pool : jvm_allocation_pool) (size alignment : Nat)
    (h0 : (allocate_from_pool w allocator pool size alignment).result = 0) :
    ∃ chunk ∈ (allocate_from_pool w allocator pool size alignment).pool.chunks,
      (allocate_from_pool w allocator pool size alignment).p_out = some chunk.ptr ∧
      chunk.used = 1 := by
  unfold allocate_from_pool at h0 ⊢
  rcases loop_cases w allocator pool size alignment pool.chunk_count 0
      (by simp [jvm_allocation_pool.chunk_count]) with
    ⟨-, heq⟩ | ⟨j, chunk, -, hj, hfit, -, heq⟩
  · rw [heq] at h0; simp at h0
  · rw [heq] at h0 ⊢
    have hjl : j < pool.chunks.length := (List.getElem?_eq_some_iff.mp hj).1
    rcases carve_cases w allocator pool j chunk size
        (allocate_from_pool.padding chunk.chunk_offset alignment) with
      ⟨-, w1, cap, h, -⟩ | ⟨-, w1, cap, a, h, -, -⟩ | ⟨-, h⟩
    · rw [h] at h0; simp at h0
    · rw [h]
      refine ⟨{ chunk with
        size := u64_add size (allocate_from_pool.padding chunk.chunk_offset alignment),
        padding := allocate_from_pool.padding chunk.chunk_offset alignment, used := 1 },
        ?_, rfl, rfl⟩
      simp [allocate_from_pool.split_chunks]
    · rw [h]
      refine ⟨{ chunk with
        padding := allocate_from_pool.padding chunk.chunk_offset alignment, used := 1 },
        ?_, rfl, rfl⟩
      exact List.mem_iff_getElem?.mpr ⟨j, by simp [hjl]⟩

/-- A success of the loop of `jvm_allocate` over the pools comes from a pool of memory type
index `idx` and leaves the chunk handed out, marked used, in that pool. -/
theorem pools_loop_success (w : World) (allocator : jvm_allocator)
    (size alignment idx : Nat) (fuel i : Nat) (r : jvm_result)
    (h : jvm_allocate.pools_loop w allocator size alignment idx fuel i = some r)
    (hr : r.result = VK_SUCCESS) :
    ∃ (pool : jvm_allocation_pool) (chunk : jvm_chunk), pool ∈ r.allocator.pools ∧
      pool.memory_type_index = idx ∧ chunk ∈ pool.chunks ∧ r.p_out = some chunk.ptr ∧
      chunk.used = 1 ∧ r.allocator.pools.length = allocator.pools.length := by
  induction fuel generalizing i with
  | zero => simp [jvm_allocate.pools_loop] at h
  | succ fuel ih =>
    rw [jvm_allocate.pools_loop] at h
    rcases hp : allocator.pools[i]? with _ | pool
    · rw [hp] at h; simp at h
    · rw [hp] at h
      simp only [] at h
      have hi : i < allocator.pools.length := (List.getElem?_eq_some_iff.mp hp).1
      by_cases ht : pool.memory_type_index ≠ idx
      · rw [if_pos ht] at h; exact ih _ h
      · rw [if_neg ht] at h
        by_cases h0 : (allocate_from_pool w allocator pool size alignment).result = 0
        · rw [if_pos h0] at h
          simp only [Option.some.injEq] at h
          subst h
          obtain ⟨chunk, hc, hpo, hu⟩ := allocate_from_pool_handed w allocator pool size alignment h0
          obtain ⟨cap, l, hfr⟩ := allocate_from_pool_frame w allocator pool size alignment
          refine ⟨_, chunk, List.mem_iff_getElem?.mpr ⟨i, ?_⟩, ?_, hc, hpo, hu, by simp⟩
          · simp only [List.getElem?_set_self hi]
          · rw [hfr]; simpa using ht
        · rw [if_neg h0] at h
          by_cases hneg : (allocate_from_pool w allocator pool size alignment).result < 0
          · rw [if_pos hneg] at h
            simp only [Option.some.injEq] at h
            subst h
            simp [VK_ERROR_OUT_OF_HOST_MEMORY, VK_SUCCESS] at hr
          · rw [if_neg hneg] at h; exact ih _ h

theorem allocate_in_new_pool_success (w : World) (allocator : jvm_allocator)
    (new_pool_size size alignment idx : Nat)
    (hr : (allocate_in_new_pool w allocator new_pool_size size alignment idx).result =
      VK_SUCCESS) :
    ∃ (pool : jvm_allocation_pool) (chunk : jvm_chunk),
      pool ∈ (allocate_in_new_pool w allocator new_pool_size size alignment idx).allocator.pools ∧
      pool.memory_type_index = idx ∧ chunk ∈ pool.chunks ∧
      (allocate_in_new_pool w allocator new_pool_size size alignment idx).p_out =
        some chunk.ptr ∧
      chunk.used = 1 := by
  unfold allocate_in_new_pool at hr ⊢
  simp only [] at hr ⊢
  by_cases hc : (create_new_pool w allocator new_pool_size idx
      (allocator.memory_properties.memoryType idx)).result ≠ VK_SUCCESS
  · rw [if_pos hc] at hr; exact absurd hr hc
  · rw [if_neg hc] at hr ⊢
    obtain ⟨pool, c, e1, -, -, -, -, -, -, -, -, -, e11, -⟩ :=
      create_new_pool_success w allocator new_pool_size idx _ (not_not.mp hc)
    generalize create_new_pool w allocator new_pool_size idx
      (allocator.memory_properties.memoryType idx) = cr at e1 hr ⊢
    have hlast : cr.allocator.pools[cr.allocator.pool_count - 1]? = some pool := by
      simp [jvm_allocator.pool_count, e1]
    rw [hlast] at hr ⊢
    simp only [] at hr ⊢
    by_cases h0 : (allocate_from_pool cr.world cr.allocator pool size alignment).result ≠ 0
    · rw [if_pos h0] at hr
      simp [VK_ERROR_OUT_OF_HOST_MEMORY, VK_SUCCESS] at hr
    · rw [if_neg h0]
      obtain ⟨chunk, hch, hpo, hu⟩ :=
        allocate_from_pool_handed cr.world cr.allocator pool size alignment (not_not.mp h0)
      obtain ⟨cap, l, hfr⟩ := allocate_from_pool_frame cr.world cr.allocator pool size alignment
      refine ⟨_, chunk, List.mem_iff_getElem?.mpr ⟨cr.allocator.pool_count - 1, ?_⟩, ?_, hch,
        hpo, hu⟩
      · have : cr.allocator.pool_count - 1 < cr.allocator.pools.length := by
          simp [jvm_allocator.pool_count, e1]
        simp only [List.getElem?_set_self this]
      · rw [hfr]; exact e11

/-- A successful `jvm_allocate` hands out a chunk, marked used, of a pool whose memory type
index is the one picked by the scorer. -/
theorem jvm_allocate_success (w : World) (allocator : jvm_allocator)
    (size alignment type_bits desired_flags undesired_flags : Nat)
    (hr : (jvm_allocate w allocator size alignment type_bits desired_flags
      undesired_flags).result = VK_SUCCESS) :
    ∃ (idx : Nat) (pool : jvm_allocation_pool) (chunk : jvm_chunk),
      jvm_allocate.memory_type allocator.memory_properties type_bits desired_flags
        undesired_flags = some idx ∧
      pool ∈ (jvm_allocate w allocator size alignment type_bits desired_flags
        undesired_flags).allocator.pools ∧
      pool.memory_type_index = idx ∧ chunk ∈ pool.chunks ∧
      (jvm_allocate w allocator size alignment type_bits desired_flags
        undesired_flags).p_out = some chunk.ptr ∧
      chunk.used = 1 := by
  unfold jvm_allocate at hr ⊢
  simp only [] at hr ⊢
  rcases hm : jvm_allocate.memory_type allocator.memory_properties type_bits desired_flags
      undesired_flags with _ | idx
  · rw [hm] at hr; simp [VK_ERROR_OUT_OF_DEVICE_MEMORY, VK_SUCCESS] at hr
  · rw [hm] at hr
    simp only [] at hr ⊢
    rcases hl : jvm_allocate.pools_loop w allocator
        (need_to_map allocator idx desired_flags (normalized_size allocator size alignment)
          alignment).1
        (need_to_map allocator idx desired_flags (normalized_size allocator size alignment)
          alignment).2 idx allocator.pool_count 0 with _ | r
    · rw [hl] at hr
      simp only [] at hr ⊢
      obtain ⟨pool, chunk, h1, h2, h3, h4, h5⟩ := allocate_in_new_pool_success _ _ _ _ _ _ hr
      exact ⟨idx, pool, chunk, rfl, h1, h2, h3, h4, h5⟩
    · rw [hl] at hr
      simp only [] at hr ⊢
      obtain ⟨pool, chunk, h1, h2, h3, h4, h5, -⟩ := pools_loop_success _ _ _ _ _ _ _ r hl hr
      exact ⟨idx, pool, chunk, rfl, h1, h2, h3, h4, h5⟩

/-! ## C6 to C10: the memory type picked by `jvm_allocate` and `jvm_allocate_dedicated` -/

/-- C6, the code at a failing input: type 0 carries no flag, type 1 is device-local, both on
a heap of 1536 bytes, and device-local memory is desired. Type 1 qualifies, yet `jvm_allocate`
succeeds with a chunk of a new pool of memory type 0, which lacks the desired flag. -/
theorem jvm_allocate_small_heap_ignores_desired :
    qualifies small_heap_allocator.memory_properties 3 1 0 1 ∧
    (jvm_allocate sample_world small_heap_allocator 100 64 3 1 0).result = VK_SUCCESS ∧
    (jvm_allocate sample_world small_heap_allocator 100 64 3 1 0).p_out = some ⟨103, 100⟩ ∧
    (jvm_allocate sample_world small_heap_allocator 100 64 3 1 0).allocator.pools.map
      (fun pool => (pool.addr, pool.memory_type_index, pool.chunks.map (fun c => c.addr))) =
      [(100, 0, [103, 105])] ∧
    (small_heap_allocator.memory_properties.memoryType 0).propertyFlags &&& 1 ≠ 1 := by
  decide

/-- What holds of the desired flags in `jvm_allocate`: when some qualifying memory type lies on
a heap of at least 2048 bytes, the memory type of the pool of the chunk handed out carries all
desired flags. -/
theorem jvm_allocate_desired_of_large_heap (w : World) (allocator : jvm_allocator)
    (size alignment type_bits desired_flags undesired_flags j : Nat)
    (hcount : allocator.memory_properties.memoryTypeCount ≤ VK_MAX_MEMORY_TYPES)
    (hj : qualifies allocator.memory_properties type_bits desired_flags undesired_flags j)
    (hheap : 2 ≤ heap_score allocator.memory_properties j)
    (hr : (jvm_allocate w allocator size alignment type_bits desired_flags
      undesired_flags).result = VK_SUCCESS) :
    ∃ (pool : jvm_allocation_pool) (chunk : jvm_chunk),
      pool ∈ (jvm_allocate w allocator size alignment type_bits desired_flags
        undesired_flags).allocator.pools ∧
      chunk ∈ pool.chunks ∧
      (jvm_allocate w allocator size alignment type_bits desired_flags
        undesired_flags).p_out = some chunk.ptr ∧
      (allocator.memory_properties.memoryType pool.memory_type_index).propertyFlags &&&
        desired_flags = desired_flags := by
  obtain ⟨idx, pool, chunk, hm, hp, hpi, hc, hpo, -⟩ :=
    jvm_allocate_success w allocator size alignment type_bits desired_flags undesired_flags hr
  refine ⟨pool, chunk, hp, hc, hpo, ?_⟩
  obtain ⟨-, -, hmax, -⟩ := jvm_allocate_memory_type_some _ _ _ _ _ hm
  have hsj : jvm_allocate.score allocator.memory_properties type_bits desired_flags
      undesired_flags j = heap_score allocator.memory_properties j := by
    obtain ⟨h1, h2, h3, h4⟩ := hj
    unfold jvm_allocate.score
    rw [if_pos ⟨h1, lt_of_lt_of_le h1 hcount⟩, if_neg, if_pos h4]
    rw [not_or]
    refine ⟨by simp [h3], ?_⟩
    have := (type_bit_ne_zero type_bits j).mpr
      ⟨by have := lt_of_lt_of_le h1 hcount; simpa [VK_MAX_MEMORY_TYPES] using this, h2⟩
    exact this
  have h2 := hmax j hj.1
  rw [hsj] at h2
  rw [hpi]
  by_contra hnd
  have : jvm_allocate.score allocator.memory_properties type_bits desired_flags
      undesired_flags idx ≤ 1 := by
    unfold jvm_allocate.score
    split_ifs <;> simp
  omega

/-- C7, the code at a failing input: two device-local memory types, type 0 on the larger
heap, and a resource that only allows type 1 (`type_bits = 2`). `jvm_allocate_dedicated`
succeeds with a pool of memory type 0, whose bit is not set in `type_bits`, while `jvm_allocate`
on the same input takes memory type 1. -/
theorem jvm_allocate_dedicated_ignores_type_bits :
    (jvm_allocate_dedicated sample_world two_heaps_allocator 100 64 2 1 0).result =
      VK_SUCCESS ∧
    (jvm_allocate_dedicated sample_world two_heaps_allocator 100 64 2 1 0).p_out =
      some ⟨103, 100⟩ ∧
    (jvm_allocate_dedicated sample_world two_heaps_allocator 100 64 2 1 0).allocator.pools.map
      (fun pool => (pool.addr, pool.memory_type_index, pool.chunks.map (fun c => c.addr))) =
      [(100, 0, [103])] ∧
    Nat.testBit 2 0 = false ∧
    (jvm_allocate sample_world two_heaps_allocator 100 64 2 1 0).allocator.pools.map
      (fun pool => pool.memory_type_index) = [1] := by
  decide

/-- C8: whenever `jvm_allocate` succeeds, the memory type index `i` of the pool that holds the
chunk handed out is one of the table, has bit `i` set in `type_bits`, and its property flags
do not intersect `undesired_flags`. -/
theorem jvm_allocate_type_allowed (w : World) (allocator : jvm_allocator)
    (size alignment type_bits desired_flags undesired_flags : Nat)
    (hr : (jvm_allocate w allocator size alignment type_bits desired_flags
      undesired_flags).result = VK_SUCCESS) :
    ∃ (pool : jvm_allocation_pool) (chunk : jvm_chunk),
      pool ∈ (jvm_allocate w allocator size alignment type_bits desired_flags
        undesired_flags).allocator.pools ∧
      chunk ∈ pool.chunks ∧
      (jvm_allocate w allocator size alignment type_bits desired_flags
        undesired_flags).p_out = some chunk.ptr ∧
      pool.memory_type_index < allocator.memory_properties.memoryTypeCount ∧
      type_bits.testBit pool.memory_type_index = true ∧
      (allocator.memory_properties.memoryType pool.memory_type_index).propertyFlags &&&
        undesired_flags = 0 := by
  obtain ⟨idx, pool, chunk, hm, hp, hpi, hc, hpo, -⟩ :=
    jvm_allocate_success w allocator size alignment type_bits desired_flags undesired_flags hr
  obtain ⟨-, hpos, -, -⟩ := jvm_allocate_memory_type_some _ _ _ _ _ hm
  obtain ⟨h1, h2, h3⟩ := jvm_allocate_score_pos _ _ _ _ _ hpos
  rw [← hpi] at h1 h2 h3
  exact ⟨pool, chunk, hp, hc, hpo, h1, h2, h3⟩

/-- C8, witness: a device-local request on `sample_allocator`. -/
theorem jvm_allocate_type_allowed_witness :
    ∃ (pool : jvm_allocation_pool) (chunk : jvm_chunk),
      pool ∈ (jvm_allocate sample_world sample_allocator 100 64 1 1 6).allocator.pools ∧
      chunk ∈ pool.chunks ∧
      (jvm_allocate sample_world sample_allocator 100 64 1 1 6).p_out = some chunk.ptr ∧
      pool.memory_type_index < sample_allocator.memory_properties.memoryTypeCount ∧
      Nat.testBit 1 pool.memory_type_index = true ∧
      (sample_allocator.memory_properties.memoryType pool.memory_type_index).propertyFlags &&&
        6 = 0 :=
  jvm_allocate_type_allowed sample_world sample_allocator 100 64 1 1 6 (by decide)

/-- C9, the code at a failing input: type 0 carries no flag, types 1 and 2 are device-local,
on heaps of 1024 and 2047 bytes, and device-local memory is desired. Types 1 and 2 qualify,
both with heap size `>> 10` equal to 1, so type 1 is the qualifying type of largest heap and
lowest index; `jvm_allocate` succeeds with a pool of memory type 0, which does not qualify. -/
theorem jvm_allocate_small_heaps_picks_unqualified :
    (∀ j, qualifies small_heaps_allocator.memory_properties 7 1 0 j ↔ j = 1 ∨ j = 2) ∧
    heap_score small_heaps_allocator.memory_properties 1 = 1 ∧
    heap_score small_heaps_allocator.memory_properties 2 = 1 ∧
    (jvm_allocate sample_world small_heaps_allocator 100 64 7 1 0).result = VK_SUCCESS ∧
    (jvm_allocate sample_world small_heaps_allocator 100 64 7 1 0).p_out = some ⟨103, 100⟩ ∧
    (jvm_allocate sample_world small_heaps_allocator 100 64 7 1 0).allocator.pools.map
      (fun pool => (pool.addr, pool.memory_type_index, pool.chunks.map (fun c => c.addr))) =
      [(100, 0, [103, 105])] := by
  refine ⟨?_, by decide, by decide, by decide, by decide, by decide⟩
  intro j
  constructor
  · rintro ⟨h1, -, -, h4⟩
    have hj : j < 3 := h1
    interval_cases j
    · exact absurd h4 (by decide)
    · exact Or.inl rfl
    · exact Or.inr rfl
  · rintro (rfl | rfl) <;> decide

/-- C10: if no memory type is at once inside the mask `type_bits`, free of undesired flags
and carrying all desired flags, `jvm_allocate` reports one error, returns
`VK_ERROR_OUT_OF_DEVICE_MEMORY`, hands out no chunk and leaves the allocator, with its pool
list and every chunk list, as it was. -/
theorem jvm_allocate_no_type (w : World) (allocator : jvm_allocator)
    (size alignment type_bits desired_flags undesired_flags : Nat)
    (hnone : ∀ j, ¬ qualifies allocator.memory_properties type_bits desired_flags
      undesired_flags j) :
    jvm_allocate w allocator size alignment type_bits desired_flags undesired_flags =
      ⟨JVM_ERROR w allocator, VK_ERROR_OUT_OF_DEVICE_MEMORY, allocator, none⟩ := by
  unfold jvm_allocate
  simp only []
  rw [jvm_allocate_memory_type_none _ _ _ _ hnone]

/-- C10, witness: `sample_allocator` has one memory type, device-local; host-visible memory
is desired. -/
theorem jvm_allocate_no_type_witness :
    jvm_allocate sample_world sample_allocator 100 64 1 2 0 =
      ⟨JVM_ERROR sample_world sample_allocator, VK_ERROR_OUT_OF_DEVICE_MEMORY, sample_allocator,
        none⟩ :=
  jvm_allocate_no_type sample_world sample_allocator 100 64 1 2 0 (by
    rintro j ⟨h1, -, -, h4⟩
    have hj : j < 1 := h1
    interval_cases j
    exact absurd h4 (by decide))

/-! ## A call without fit changes nothing -/

/-- A call of `allocate_from_pool` that returns a positive value returns 1 and changes neither
the pool nor the world; this is why the loop of `jvm_allocate` over the pools can go on with
the state it had. -/
theorem allocate_from_pool_no_fit (w : World) (allocator : jvm_allocator)
    (pool : jvm_allocation_pool) (size alignment : Nat)
    (h : 0 < (allocate_from_pool w allocator pool size alignment).result) :
    allocate_from_pool w allocator pool size alignment = ⟨w, 1, pool, none⟩ := by
  unfold allocate_from_pool at h ⊢
  rcases loop_cases w allocator pool size alignment pool.chunk_count 0
      (by simp [jvm_allocation_pool.chunk_count]) with
    ⟨-, heq⟩ | ⟨j, chunk, -, hj, hfit, -, heq⟩
  · exact heq
  · rw [heq] at h
    rcases carve_cases w allocator pool j chunk size
        (allocate_from_pool.padding chunk.chunk_offset alignment) with
      ⟨-, w1, cap, h1, -⟩ | ⟨-, w1, cap, a, h1, -, -⟩ | ⟨-, h1⟩ <;>
      rw [h1] at h <;> simp at h

/-! ## C12, C15, C19: creation, unused pools, teardown -/

/-- C12, the code at a failing input: `jvm_allocator_create` with `min_pool_size == 0`
succeeds and stores `1 << 20`, 1 MiB, not the 4 MiB of the documentation. -/
theorem jvm_allocator_create_default_pool_size :
    (jvm_allocator_create sample_world sample_create_info false).2.1 = VK_SUCCESS ∧
    (jvm_allocator_create sample_world sample_create_info false).2.2.map
      (fun allocator => allocator.min_pool_size) = some 1048576 ∧
    (1048576 : Nat) ≠ 4194304 := by
  decide

/-- The value `jvm_allocator_create` stores in `min_pool_size`: the one asked for, or
`1 << 20` when that is 0. -/
theorem jvm_allocator_create_min_pool_size (w : World)
    (create_info : jvm_allocator_create_info) (vk_allocation_callbacks : Bool)
    (allocator : jvm_allocator)
    (h : (jvm_allocator_create w create_info vk_allocation_callbacks).2.2 = some allocator) :
    allocator.min_pool_size =
      if create_info.min_pool_size = 0 then 1048576 else create_info.min_pool_size := by
  unfold jvm_allocator_create at h
  rcases jvm_alloc_cases w with ⟨w1, h1, -, -⟩ | ⟨w1, h1, -, -⟩
  · rw [h1] at h; simp at h
  · rw [h1] at h
    simp only [Option.some.injEq] at h
    rw [← h]
    rfl

/-- C15, the code at a failing input: two pools, each one unused chunk, auto-free off. The loop
removes the pool at index 0, which moves the second pool to index 0, and goes on at index 1:
the second pool, one unused chunk, stays in the allocator. -/
theorem jvm_allocator_free_unused_skips_a_pool :
    two_unused_pools_allocator.automatically_free_unused = 0 ∧
    two_unused_pools_allocator.pools.map
      (fun pool => (pool.addr, pool.chunks.map (fun c => c.used))) = [(1, [0]), (5, [0])] ∧
    (jvm_allocator_free_unused sample_world two_unused_pools_allocator).2.pools.map
      (fun pool => (pool.addr, pool.chunks.map (fun c => c.used))) = [(5, [0])] := by
  decide

/-- C19, the code at a failing input: one pool that is one used chunk, as a dedicated
allocation leaves it. `jvm_allocator_destroy` frees the memory of the pool and reaches no
`JVM_ERROR`, so the error callback is not called. -/
theorem jvm_allocator_destroy_silent_on_used_pool :
    one_used_pool_allocator.pools.map (fun pool => pool.chunks.map (fun c => c.used)) =
      [[1]] ∧
    (jvm_allocator_destroy sample_world one_used_pool_allocator).log =
      [Event.vkFreeMemory 104] := by
  decide

/-! ## Following chunk pointers -/

theorem deref_some {allocator : jvm_allocator} {chunk : chunk_ptr}
    {pool : jvm_allocation_pool} {c : jvm_chunk}
    (h : allocator.deref chunk = some (pool, c)) :
    allocator.pools[allocator.pools.findIdx (fun p => p.addr == chunk.pool)]? = some pool ∧
    pool.chunks[pool.chunks.findIdx (fun c => c.addr == chunk.addr)]? = some c := by
  unfold jvm_allocator.deref at h
  rcases hp : allocator.pools[allocator.pools.findIdx (fun p => p.addr == chunk.pool)]? with
    _ | pool'
  · rw [hp] at h; simp at h
  · rw [hp] at h
    simp only [] at h
    rcases hc : pool'.chunks[pool'.chunks.findIdx (fun c => c.addr == chunk.addr)]? with _ | c'
    · rw [hc] at h; simp at h
    · rw [hc] at h
      simp only [Option.some.injEq, Prod.mk.injEq] at h
      obtain ⟨rfl, rfl⟩ := h
      exact ⟨hp, hc⟩

/-! ## C17: mapping a mapped chunk, unmapping an unmapped chunk -/

/-- C17: for a pointer to a chunk record `c` of a pool of the allocator, `jvm_chunk_map`
returns `VK_ERROR_MEMORY_MAP_FAILED` when `c.mapped != 0` and `jvm_chunk_unmap` returns
`VK_ERROR_MEMORY_MAP_FAILED` when `c.mapped == 0`; in both cases the world is as before (no
driver call, no report) and so is the allocator (the `mapped` flag, `map_count`, `map_ptr`). -/
theorem map_failed_keeps_state (w : World) (allocator : jvm_allocator) (chunk : chunk_ptr)
    (pool : jvm_allocation_pool) (c : jvm_chunk)
    (hderef : allocator.deref chunk = some (pool, c)) :
    (c.mapped ≠ 0 →
      jvm_chunk_map w allocator chunk =
        some ⟨w, VK_ERROR_MEMORY_MAP_FAILED, allocator, none, none⟩) ∧
    (c.mapped = 0 →
      jvm_chunk_unmap w allocator chunk = some ⟨w, VK_ERROR_MEMORY_MAP_FAILED, allocator⟩) := by
  obtain ⟨hp, hc⟩ := deref_some hderef
  constructor
  · intro hm
    unfold jvm_chunk_map
    simp only [hp, hc]
    rw [if_pos hm]
  · intro hm
    unfold jvm_chunk_unmap
    simp only [hp, hc]
    rw [if_pos hm]

theorem findIdx_key_congr {α : Type} (key : α → Nat) (a : Nat) :
    ∀ (l l' : List α), l.map key = l'.map key →
      l.findIdx (fun x => key x == a) = l'.findIdx (fun x => key x == a) := by
  intro l
  induction l with
  | nil => intro l' h; cases l' with
    | nil => rfl
    | cons b r => simp at h
  | cons x r ih =>
    intro l' h
    cases l' with
    | nil => simp at h
    | cons b r' =>
      simp only [List.map_cons, List.cons.injEq] at h
      rw [List.findIdx_cons, List.findIdx_cons, h.1, ih r' h.2]

theorem map_set_key {α : Type} (key : α → Nat) (l : List α) (j : Nat) (x y : α)
    (hj : l[j]? = some x) (hk : key y = key x) : (l.set j y).map key = l.map key := by
  rw [List.map_set]
  apply List.ext_getElem?
  intro i
  rw [List.getElem?_set]
  split_ifs with h1 h2
  · subst h1
    rw [List.getElem?_map, hj, hk]; rfl
  · subst h1
    simp only [List.length_map, not_lt] at h2
    have := (List.getElem?_eq_some_iff.mp hj).1
    omega
  · rfl

theorem findIdx_set_key {α : Type} (key : α → Nat) (a : Nat) (l : List α) (j : Nat) (x y : α)
    (hj : l[j]? = some x) (hk : key y = key x) :
    (l.set j y).findIdx (fun x => key x == a) = l.findIdx (fun x => key x == a) :=
  findIdx_key_congr key a _ _ (map_set_key key l j x y hj hk)

/-- After `store`, the pointer leads to the records stored. -/
theorem store_deref_same (allocator : jvm_allocator) (chunk : chunk_ptr)
    (pool pool1 : jvm_allocation_pool) (c c1 : jvm_chunk)
    (hderef : allocator.deref chunk = some (pool, c))
    (hpa : pool1.addr = pool.addr) (hpc : pool1.chunks = pool.chunks) (hca : c1.addr = c.addr) :
    (allocator.store chunk pool1 c1).deref chunk =
      some ({ pool1 with
              chunks := pool1.chunks.set
                (pool1.chunks.findIdx (fun c => c.addr == chunk.addr)) c1 }, c1) := by
  obtain ⟨hp, hc⟩ := deref_some hderef
  have hk := (List.getElem?_eq_some_iff.mp hp).1
  have hj := (List.getElem?_eq_some_iff.mp hc).1
  unfold jvm_allocator.deref jvm_allocator.store
  simp only []
  rw [findIdx_set_key (fun p : jvm_allocation_pool => p.addr) chunk.pool allocator.pools _ pool _
    hp (by simpa using hpa)]
  rw [List.getElem?_set_self hk]
  simp only []
  rw [hpc]
  rw [findIdx_set_key (fun c : jvm_chunk => c.addr) chunk.addr pool.chunks _ c c1 hc hca]
  rw [List.getElem?_set_self hj]

/-- After `store`, a pointer to another record of the same pool leads to the pool stored and
to the record it led to before. -/
theorem store_deref_other (allocator : jvm_allocator) (chunk other : chunk_ptr)
    (pool pool1 : jvm_allocation_pool) (c c1 d : jvm_chunk)
    (hderef : allocator.deref chunk = some (pool, c))
    (hother : allocator.deref other = some (pool, d))
    (hsame : other.pool = chunk.pool)
    (hne : pool.chunks.findIdx (fun c => c.addr == other.addr) ≠
      pool.chunks.findIdx (fun c => c.addr == chunk.addr))
    (hpa : pool1.addr = pool.addr) (hpc : pool1.chunks = pool.chunks) (hca : c1.addr = c.addr) :
    (allocator.store chunk pool1 c1).deref other =
      some ({ pool1 with
              chunks := pool1.chunks.set
                (pool1.chunks.findIdx (fun c => c.addr == chunk.addr)) c1 }, d) := by
  obtain ⟨hp, hc⟩ := deref_some hderef
  obtain ⟨-, hd⟩ := deref_some hother
  have hk := (List.getElem?_eq_some_iff.mp hp).1
  have hj := (List.getElem?_eq_some_iff.mp hc).1
  unfold jvm_allocator.deref jvm_allocator.store
  simp only []
  rw [hsame]
  rw [findIdx_set_key (fun p : jvm_allocation_pool => p.addr) chunk.pool allocator.pools _ pool _
    hp (by simpa using hpa)]
  rw [List.getElem?_set_self hk]
  simp only []
  rw [hpc]
  rw [findIdx_set_key (fun c : jvm_chunk => c.addr) other.addr pool.chunks _ c c1 hc hca]
  rw [List.getElem?_set_ne (Ne.symm hne), hd]

theorem set_getElem?_self {α : Type} {l : List α} {k : Nat} {x : α} (h : l[k]? = some x) :
    l.set k x = l := by
  apply List.ext_getElem?
  intro i
  rw [List.getElem?_set]
  split_ifs with h1 h2
  · subst h1; exact h.symm
  · subst h1
    exact (List.getElem?_eq_none (Nat.le_of_not_lt h2)).symm
  · rfl

theorem allocator_with_pools {allocator : jvm_allocator} {l : List jvm_allocation_pool}
    (h : allocator.pools = l) : { allocator with pools := l } = allocator := by
  cases allocator; simp only at h; subst h; rfl

/-! ## `jvm_chunk_map` and `jvm_chunk_unmap` case by case -/

theorem map_pool_memory_shared (w : World) (allocator : jvm_allocator)
    (pool : jvm_allocation_pool) (hcount : pool.map_count ≠ 0) :
    map_pool_memory w allocator pool =
      ⟨w, VK_SUCCESS, { pool with map_count := pool.map_count + 1 }, pool.map_ptr, 0⟩ := by
  unfold map_pool_memory
  rw [if_pos hcount]

theorem map_pool_memory_first_ok (w w1 : World) (allocator : jvm_allocator)
    (pool : jvm_allocation_pool) (hcount : pool.map_count = 0)
    (hd : (w.emit (Event.vkMapMemory pool.memory 0 pool.size)).driver_call = (w1, VK_SUCCESS)) :
    map_pool_memory w allocator pool =
      ⟨{ w1 with next := w1.next + 1 }, VK_SUCCESS,
        { pool with map_ptr := some w1.next, map_count := pool.map_count + 1 },
        some w1.next, 1⟩ := by
  unfold map_pool_memory
  rw [if_neg (not_not.mpr hcount), hd]
  show (if VK_SUCCESS ≠ VK_SUCCESS then _ else _) = _
  rw [if_neg (not_not.mpr rfl)]

theorem map_pool_memory_first_fail (w w1 : World) (res : VkResult) (allocator : jvm_allocator)
    (pool : jvm_allocation_pool) (hcount : pool.map_count = 0)
    (hd : (w.emit (Event.vkMapMemory pool.memory 0 pool.size)).driver_call = (w1, res))
    (hres : res ≠ VK_SUCCESS) :
    map_pool_memory w allocator pool =
      ⟨JVM_ERROR (w1.stray_write pool.map_ptr).1 allocator, res,
        { pool with map_ptr := (w1.stray_write pool.map_ptr).2 }, none, 0⟩ := by
  unfold map_pool_memory
  rw [if_neg (not_not.mpr hcount), hd]
  show (if res ≠ VK_SUCCESS then _ else _) = _
  rw [if_pos hres]

theorem stray_write_log (w : World) (old : Option Nat) : (w.stray_write old).1.log = w.log := by
  unfold World.stray_write
  rcases w.stray with _ | ⟨p, rest⟩ <;> rfl

theorem stray_write_nil (w : World) (old : Option Nat) (h : w.stray = []) :
    w.stray_write old = (w, old) := by
  unfold World.stray_write
  rw [h]

/-- Mapping a chunk of a pool that is mapped already: no driver map, the range of the chunk
is invalidated. -/
theorem jvm_chunk_map_shared (w : World) (allocator : jvm_allocator) (chunk : chunk_ptr)
    (pool : jvm_allocation_pool) (c : jvm_chunk)
    (hderef : allocator.deref chunk = some (pool, c)) (hm : c.mapped = 0)
    (hcount : pool.map_count ≠ 0) :
    jvm_chunk_map w allocator chunk =
      some ⟨(jvm_chunk_mapped_invalidate w
              { pool with
                map_count := pool.map_count + 1
                chunks := pool.chunks.set
                  (pool.chunks.findIdx (fun c => c.addr == chunk.addr)) { c with mapped := 1 } }
              { c with mapped := 1 }).1,
            (jvm_chunk_mapped_invalidate w
              { pool with
                map_count := pool.map_count + 1
                chunks := pool.chunks.set
                  (pool.chunks.findIdx (fun c => c.addr == chunk.addr)) { c with mapped := 1 } }
              { c with mapped := 1 }).2,
            allocator.store chunk { pool with map_count := pool.map_count + 1 }
              { c with mapped := 1 },
            some (u64_sub c.size c.padding),
            some (u64_add (u64_add (pool.map_ptr.getD 0) c.chunk_offset) c.padding)⟩ := by
  obtain ⟨hp, hc⟩ := deref_some hderef
  unfold jvm_chunk_map
  simp only [hp, hc]
  rw [if_neg (not_not.mpr hm), map_pool_memory_shared w allocator pool hcount]
  rfl

/-- Mapping a chunk of a pool that is not mapped: the driver maps the whole pool; when it
fails, nothing changes but the world and the field `map_ptr` of the pool, which holds what
the driver left there. -/
theorem jvm_chunk_map_first (w : World) (allocator : jvm_allocator) (chunk : chunk_ptr)
    (pool : jvm_allocation_pool) (c : jvm_chunk)
    (hderef : allocator.deref chunk = some (pool, c)) (hm : c.mapped = 0)
    (hcount : pool.map_count = 0) :
    (∃ w1 res, (w.emit (Event.vkMapMemory pool.memory 0 pool.size)).driver_call = (w1, res) ∧
      res ≠ VK_SUCCESS ∧
      jvm_chunk_map w allocator chunk =
        some ⟨JVM_ERROR (JVM_ERROR (w1.stray_write pool.map_ptr).1 allocator) allocator, res,
          { allocator with
            pools := allocator.pools.set (allocator.pools.findIdx (fun p => p.addr == chunk.pool))
              { pool with map_ptr := (w1.stray_write pool.map_ptr).2 } },
          none, none⟩) ∨
    (∃ w1, (w.emit (Event.vkMapMemory pool.memory 0 pool.size)).driver_call =
        (w1, VK_SUCCESS) ∧
      jvm_chunk_map w allocator chunk =
        some ⟨{ w1 with next := w1.next + 1 }, VK_SUCCESS,
          allocator.store chunk
            { pool with map_ptr := some w1.next, map_count := pool.map_count + 1 }
            { c with mapped := 1 },
          some (u64_sub c.size c.padding),
          some (u64_add (u64_add w1.next c.chunk_offset) c.padding)⟩) := by
  obtain ⟨hp, hc⟩ := deref_some hderef
  unfold jvm_chunk_map
  simp only [hp, hc]
  rw [if_neg (not_not.mpr hm)]
  rcases hd : (w.emit (Event.vkMapMemory pool.memory 0 pool.size)).driver_call with ⟨w1, res⟩
  by_cases hres : res = VK_SUCCESS
  · right
    subst hres
    refine ⟨w1, rfl, ?_⟩
    rw [map_pool_memory_first_ok w w1 allocator pool hcount hd]
    rfl
  · left
    refine ⟨w1, res, rfl, hres, ?_⟩
    rw [map_pool_memory_first_fail w w1 res allocator pool hcount hd hres]
    show (if res ≠ VK_SUCCESS then _ else _) = _
    rw [if_pos hres]

/-- Unmapping a chunk while other chunks of the pool stay mapped: no driver unmap, the range
of the chunk is flushed. -/
theorem jvm_chunk_unmap_shared (w : World) (allocator : jvm_allocator) (chunk : chunk_ptr)
    (pool : jvm_allocation_pool) (c : jvm_chunk)
    (hderef : allocator.deref chunk = some (pool, c)) (hm : c.mapped ≠ 0)
    (hcount : pool.map_count - 1 ≠ 0) :
    jvm_chunk_unmap w allocator chunk =
      some ⟨(jvm_chunk_mapped_flush w
              { pool with
                map_count := pool.map_count - 1
                chunks := pool.chunks.set
                  (pool.chunks.findIdx (fun c => c.addr == chunk.addr)) { c with mapped := 0 } }
              { c with mapped := 0 }).1,
            (jvm_chunk_mapped_flush w
              { pool with
                map_count := pool.map_count - 1
                chunks := pool.chunks.set
                  (pool.chunks.findIdx (fun c => c.addr == chunk.addr)) { c with mapped := 0 } }
              { c with mapped := 0 }).2,
            allocator.store chunk { pool with map_count := pool.map_count - 1 }
              { c with mapped := 0 }⟩ := by
  obtain ⟨hp, hc⟩ := deref_some hderef
  unfold jvm_chunk_unmap
  simp only [hp, hc]
  rw [if_neg hm]
  have hu : unmap_pool_memory w allocator pool =
      ⟨w, VK_SUCCESS, { pool with map_count := pool.map_count - 1 }, 0⟩ := by
    unfold unmap_pool_memory
    rw [if_neg (by omega), if_pos hcount]
  rw [hu]
  rfl

/-- Unmapping the last mapped chunk of a pool: the driver unmaps the pool. -/
theorem jvm_chunk_unmap_last (w : World) (allocator : jvm_allocator) (chunk : chunk_ptr)
    (pool : jvm_allocation_pool) (c : jvm_chunk)
    (hderef : allocator.deref chunk = some (pool, c)) (hm : c.mapped ≠ 0)
    (hcount : pool.map_count = 1) :
    jvm_chunk_unmap w allocator chunk =
      some ⟨w.emit (Event.vkUnmapMemory pool.memory), VK_SUCCESS,
        allocator.store chunk { pool with map_count := pool.map_count - 1, map_ptr := none }
          { c with mapped := 0 }⟩ := by
  obtain ⟨hp, hc⟩ := deref_some hderef
  unfold jvm_chunk_unmap
  simp only [hp, hc]
  rw [if_neg hm]
  have hu : unmap_pool_memory w allocator pool =
      ⟨w.emit (Event.vkUnmapMemory pool.memory), VK_SUCCESS,
        { pool with map_count := pool.map_count - 1, map_ptr := none }, 1⟩ := by
    unfold unmap_pool_memory
    rw [if_neg (by omega), if_neg (by omega)]
  rw [hu]
  rfl

/-- Unmapping a mapped chunk of a pool whose `map_count` is 0: an error, nothing changes. -/
theorem jvm_chunk_unmap_unknown (w : World) (allocator : jvm_allocator) (chunk : chunk_ptr)
    (pool : jvm_allocation_pool) (c : jvm_chunk)
    (hderef : allocator.deref chunk = some (pool, c)) (hm : c.mapped ≠ 0)
    (hcount : pool.map_count = 0) :
    jvm_chunk_unmap w allocator chunk =
      some ⟨JVM_ERROR w allocator, VK_ERROR_UNKNOWN, allocator⟩ := by
  obtain ⟨hp, hc⟩ := deref_some hderef
  unfold jvm_chunk_unmap
  simp only [hp, hc]
  rw [if_neg hm]
  have hu : unmap_pool_memory w allocator pool =
      ⟨JVM_ERROR w allocator, VK_ERROR_UNKNOWN, pool, 0⟩ := by
    unfold unmap_pool_memory
    rw [if_pos hcount]
  rw [hu]
  show (if VK_ERROR_UNKNOWN = VK_SUCCESS then _ else _) = _
  rw [if_neg (by decide)]
  show some (allocator_result.mk _ _ { allocator with pools := allocator.pools.set _ pool }) = _
  rw [set_getElem?_self hp, allocator_with_pools rfl]

theorem findIdx_getElem?_key {α : Type} (key : α → Nat) (a : Nat) (l : List α) (x : α)
    (h : l[l.findIdx (fun x => key x == a)]? = some x) : key x = a := by
  obtain ⟨hlt, hx⟩ := List.getElem?_eq_some_iff.mp h
  have := @List.findIdx_getElem _ (fun x => key x == a) l hlt
  rw [hx] at this
  simpa using this

/-- A pointer that leads to a record carries the addresses of the record and of its pool. -/
theorem deref_addr {allocator : jvm_allocator} {chunk : chunk_ptr}
    {pool : jvm_allocation_pool} {c : jvm_chunk}
    (h : allocator.deref chunk = some (pool, c)) : pool.addr = chunk.pool ∧ c.addr = chunk.addr := by
  obtain ⟨hp, hc⟩ := deref_some h
  exact ⟨findIdx_getElem?_key (fun p : jvm_allocation_pool => p.addr) _ _ _ hp,
    findIdx_getElem?_key (fun c : jvm_chunk => c.addr) _ _ _ hc⟩

/-- Two pointers into one pool, to records at different addresses: after a `store` through
the first, the first leads to the record stored and the second to its record as before, both
in the pool stored. -/
theorem store_pair (allocator : jvm_allocator) (c1 c2 : chunk_ptr)
    (pool pool1 : jvm_allocation_pool) (x y x1 : jvm_chunk)
    (h1 : allocator.deref c1 = some (pool, x)) (h2 : allocator.deref c2 = some (pool, y))
    (hne : c1.addr ≠ c2.addr)
    (hpa : pool1.addr = pool.addr) (hpc : pool1.chunks = pool.chunks) (hca : x1.addr = x.addr) :
    (allocator.store c1 pool1 x1).deref c1 =
      some ({ pool1 with
              chunks := pool1.chunks.set
                (pool1.chunks.findIdx (fun c => c.addr == c1.addr)) x1 }, x1) ∧
    (allocator.store c1 pool1 x1).deref c2 =
      some ({ pool1 with
              chunks := pool1.chunks.set
                (pool1.chunks.findIdx (fun c => c.addr == c1.addr)) x1 }, y) := by
  refine ⟨store_deref_same allocator c1 pool pool1 x x1 h1 hpa hpc hca,
    store_deref_other allocator c1 c2 pool pool1 x x1 y h1 h2 ?_ ?_ hpa hpc hca⟩
  · rw [← (deref_addr h1).1, (deref_addr h2).1]
  · intro heq
    obtain ⟨-, hx⟩ := deref_some h1
    obtain ⟨-, hy⟩ := deref_some h2
    rw [heq, hx] at hy
    simp only [Option.some.injEq] at hy
    apply hne
    rw [← (deref_addr h1).2, ← (deref_addr h2).2, hy]

/-- A driver that never fails: a call returns `VK_SUCCESS` and leaves the log alone. -/
theorem driver_call_ok (w : World) (h : ∀ r ∈ w.driver, r = VK_SUCCESS) :
    ∃ w1, w.driver_call = (w1, VK_SUCCESS) ∧ w1.log = w.log ∧ w1.next = w.next ∧
      w1.host = w.host ∧ ∀ r ∈ w1.driver, r = VK_SUCCESS := by
  unfold World.driver_call
  rcases hd : w.driver with _ | ⟨r, rest⟩
  · exact ⟨w, rfl, rfl, rfl, rfl, by rw [hd]; simp⟩
  · have hr : r = VK_SUCCESS := h r (by rw [hd]; simp)
    subst hr
    refine ⟨{ w with driver := rest }, rfl, rfl, rfl, rfl, ?_⟩
    intro r hr
    exact h r (by rw [hd]; exact List.mem_cons_of_mem _ hr)

/-- First map of a pool by a driver that never fails, seen from the pointer mapped and from
a pointer to another chunk of the pool. -/
theorem map_pair_first (w : World) (allocator : jvm_allocator) (c1 c2 : chunk_ptr)
    (pool : jvm_allocation_pool) (x y : jvm_chunk)
    (h1 : allocator.deref c1 = some (pool, x)) (h2 : allocator.deref c2 = some (pool, y))
    (hne : c1.addr ≠ c2.addr) (hx : x.mapped = 0) (hcount : pool.map_count = 0)
    (hdrv : ∀ r ∈ w.driver, r = VK_SUCCESS) :
    ∃ (r : map_result) (pool1 : jvm_allocation_pool),
      jvm_chunk_map w allocator c1 = some r ∧ r.result = VK_SUCCESS ∧
      r.world.log = Event.vkMapMemory pool.memory 0 pool.size :: w.log ∧
      (∀ v ∈ r.world.driver, v = VK_SUCCESS) ∧
      r.allocator.deref c1 = some (pool1, { x with mapped := 1 }) ∧
      r.allocator.deref c2 = some (pool1, y) ∧
      pool1.map_count = 1 ∧ pool1.memory = pool.memory ∧ pool1.size = pool.size := by
  obtain ⟨w1, hd, hlog, -, -, hdrv1⟩ :=
    driver_call_ok (w.emit (Event.vkMapMemory pool.memory 0 pool.size)) hdrv
  rcases jvm_chunk_map_first w allocator c1 pool x h1 hx hcount with
    ⟨w1', res, hd', hres, -⟩ | ⟨w1', hd', heq⟩
  · rw [hd] at hd'
    simp only [Prod.mk.injEq] at hd'
    exact absurd hd'.2.symm hres
  · rw [hd] at hd'
    simp only [Prod.mk.injEq, and_true] at hd'
    subst hd'
    obtain ⟨ha, hb⟩ := store_pair allocator c1 c2 pool
      { pool with map_ptr := some w1.next, map_count := pool.map_count + 1 } x y
      { x with mapped := 1 } h1 h2 hne rfl rfl rfl
    exact ⟨_, _, heq, rfl, hlog, hdrv1, ha, hb, by simp [hcount], rfl, rfl⟩

/-- Map of a chunk of a pool that is mapped already, driver never failing. -/
theorem map_pair_shared (w : World) (allocator : jvm_allocator) (c1 c2 : chunk_ptr)
    (pool : jvm_allocation_pool) (x y : jvm_chunk)
    (h1 : allocator.deref c1 = some (pool, x)) (h2 : allocator.deref c2 = some (pool, y))
    (hne : c1.addr ≠ c2.addr) (hx : x.mapped = 0) (hcount : pool.map_count ≠ 0)
    (hdrv : ∀ r ∈ w.driver, r = VK_SUCCESS) :
    ∃ (r : map_result) (pool1 : jvm_allocation_pool),
      jvm_chunk_map w allocator c1 = some r ∧ r.result = VK_SUCCESS ∧
      r.world.log =
        Event.vkInvalidateMappedMemoryRanges pool.memory x.chunk_offset x.size :: w.log ∧
      (∀ v ∈ r.world.driver, v = VK_SUCCESS) ∧
      r.allocator.deref c1 = some (pool1, { x with mapped := 1 }) ∧
      r.allocator.deref c2 = some (pool1, y) ∧
      pool1.map_count = pool.map_count + 1 ∧ pool1.memory = pool.memory ∧
      pool1.size = pool.size := by
  obtain ⟨w1, hd, hlog, -, -, hdrv1⟩ :=
    driver_call_ok
      (w.emit (Event.vkInvalidateMappedMemoryRanges pool.memory x.chunk_offset x.size)) hdrv
  have heq := jvm_chunk_map_shared w allocator c1 pool x h1 hx hcount
  unfold jvm_chunk_mapped_invalidate at heq
  simp only [] at heq
  rw [hd] at heq
  obtain ⟨ha, hb⟩ := store_pair allocator c1 c2 pool
    { pool with map_count := pool.map_count + 1 } x y
    { x with mapped := 1 } h1 h2 hne rfl rfl rfl
  exact ⟨_, _, heq, rfl, hlog, hdrv1, ha, hb, rfl, rfl, rfl⟩

/-- Unmap of a chunk while another chunk of the pool stays mapped, driver never failing. -/
theorem unmap_pair_shared (w : World) (allocator : jvm_allocator) (c1 c2 : chunk_ptr)
    (pool : jvm_allocation_pool) (x y : jvm_chunk)
    (h1 : allocator.deref c1 = some (pool, x)) (h2 : allocator.deref c2 = some (pool, y))
    (hne : c1.addr ≠ c2.addr) (hx : x.mapped ≠ 0) (hcount : pool.map_count - 1 ≠ 0)
    (hdrv : ∀ r ∈ w.driver, r = VK_SUCCESS) :
    ∃ (r : allocator_result) (pool1 : jvm_allocation_pool),
      jvm_chunk_unmap w allocator c1 = some r ∧ r.result = VK_SUCCESS ∧
      r.world.log = Event.vkFlushMappedMemoryRanges pool.memory x.chunk_offset x.size :: w.log ∧
      (∀ v ∈ r.world.driver, v = VK_SUCCESS) ∧
      r.allocator.deref c1 = some (pool1, { x with mapped := 0 }) ∧
      r.allocator.deref c2 = some (pool1, y) ∧
      pool1.map_count = pool.map_count - 1 ∧ pool1.memory = pool.memory ∧
      pool1.size = pool.size := by
  obtain ⟨w1, hd, hlog, -, -, hdrv1⟩ :=
    driver_call_ok
      (w.emit (Event.vkFlushMappedMemoryRanges pool.memory x.chunk_offset x.size)) hdrv
  have heq := jvm_chunk_unmap_shared w allocator c1 pool x h1 hx hcount
  unfold jvm_chunk_mapped_flush at heq
  simp only [] at heq
  rw [hd] at heq
  obtain ⟨ha, hb⟩ := store_pair allocator c1 c2 pool
    { pool with map_count := pool.map_count - 1 } x y
    { x with mapped := 0 } h1 h2 hne rfl rfl rfl
  exact ⟨_, _, heq, rfl, hlog, hdrv1, ha, hb, rfl, rfl, rfl⟩

/-- Unmap of the last mapped chunk of a pool. -/
theorem unmap_pair_last (w : World) (allocator : jvm_allocator) (c1 c2 : chunk_ptr)
    (pool : jvm_allocation_pool) (x y : jvm_chunk)
    (h1 : allocator.deref c1 = some (pool, x)) (h2 : allocator.deref c2 = some (pool, y))
    (hne : c1.addr ≠ c2.addr) (hx : x.mapped ≠ 0) (hcount : pool.map_count = 1)
    (hdrv : ∀ r ∈ w.driver, r = VK_SUCCESS) :
    ∃ (r : allocator_result) (pool1 : jvm_allocation_pool),
      jvm_chunk_unmap w allocator c1 = some r ∧ r.result = VK_SUCCESS ∧
      r.world.log = Event.vkUnmapMemory pool.memory :: w.log ∧
      (∀ v ∈ r.world.driver, v = VK_SUCCESS) ∧
      r.allocator.deref c1 = some (pool1, { x with mapped := 0 }) ∧
      r.allocator.deref c2 = some (pool1, y) ∧
      pool1.map_count = 0 ∧ pool1.memory = pool.memory ∧ pool1.size = pool.size := by
  have heq := jvm_chunk_unmap_last w allocator c1 pool x h1 hx hcount
  obtain ⟨ha, hb⟩ := store_pair allocator c1 c2 pool
    { pool with map_count := pool.map_count - 1, map_ptr := none } x y
    { x with mapped := 0 } h1 h2 hne rfl rfl rfl
  exact ⟨_, _, heq, rfl, rfl, hdrv, ha, hb, by simp [hcount], rfl, rfl⟩

/-! ## C18: the refcounted map protocol -/

/-- C18: let `c1` and `c2` point to two chunk records at different addresses of one pool of
the allocator, both with `mapped == 0`, the pool with `map_count == 0`, and let no driver
call fail. Then `map(c1), map(c2), unmap(c2), unmap(c1)` all return `VK_SUCCESS`, the events
added to the log are, in order, `vkMapMemory(pool.memory, 0, pool.size)`,
`vkInvalidateMappedMemoryRanges` and `vkFlushMappedMemoryRanges` over
`(pool.memory, c2.chunk_offset, c2.size)` and `vkUnmapMemory(pool.memory)` (the log is latest
first), and at the end the pool has `map_count == 0` and both chunks `mapped == 0`. -/
theorem map_protocol (w : World) (allocator : jvm_allocator) (c1 c2 : chunk_ptr)
    (pool : jvm_allocation_pool) (x y : jvm_chunk)
    (h1 : allocator.deref c1 = some (pool, x)) (h2 : allocator.deref c2 = some (pool, y))
    (hne : c1.addr ≠ c2.addr) (hx : x.mapped = 0) (hy : y.mapped = 0)
    (hcount : pool.map_count = 0) (hdrv : ∀ r ∈ w.driver, r = VK_SUCCESS) :
    ∃ (w1 : World) (allocator1 : jvm_allocator) (pool1 : jvm_allocation_pool),
      map_map_unmap_unmap w allocator c1 c2 =
        some (w1, allocator1, [VK_SUCCESS, VK_SUCCESS, VK_SUCCESS, VK_SUCCESS]) ∧
      w1.log =
        [Event.vkUnmapMemory pool.memory,
         Event.vkFlushMappedMemoryRanges pool.memory y.chunk_offset y.size,
         Event.vkInvalidateMappedMemoryRanges pool.memory y.chunk_offset y.size,
         Event.vkMapMemory pool.memory 0 pool.size] ++ w.log ∧
      allocator1.deref c1 = some (pool1, x) ∧ allocator1.deref c2 = some (pool1, y) ∧
      pool1.map_count = 0 := by
  obtain ⟨r1, p1, e1, s1, l1, d1, a1, b1, m1, mem1, sz1⟩ :=
    map_pair_first w allocator c1 c2 pool x y h1 h2 hne hx hcount hdrv
  obtain ⟨r2, p2, e2, s2, l2, d2, a2, b2, m2, mem2, sz2⟩ :=
    map_pair_shared r1.world r1.allocator c2 c1 p1 y { x with mapped := 1 } b1 a1 (Ne.symm hne)
      hy (by omega) d1
  obtain ⟨r3, p3, e3, s3, l3, d3, a3, b3, m3, mem3, sz3⟩ :=
    unmap_pair_shared r2.world r2.allocator c2 c1 p2 { y with mapped := 1 }
      { x with mapped := 1 } a2 b2 (Ne.symm hne) (by simp) (by omega) d2
  obtain ⟨r4, p4, e4, s4, l4, d4, a4, b4, m4, mem4, sz4⟩ :=
    unmap_pair_last r3.world r3.allocator c1 c2 p3 { x with mapped := 1 }
      { ({ y with mapped := 1 } : jvm_chunk) with mapped := 0 } b3 a3 hne (by simp) (by omega) d3
  refine ⟨r4.world, r4.allocator, p4, ?_, ?_, ?_, ?_, m4⟩
  · unfold map_map_unmap_unmap
    rw [e1]; simp only []
    rw [e2]; simp only []
    rw [e3]; simp only []
    rw [e4]; simp only []
    rw [s1, s2, s3, s4]
  · rw [l4, l3, l2, l1, mem3, mem2, mem1]
    rfl
  · rw [a4]
    cases x
    simp only at hx
    subst hx
    rfl
  · rw [b4]
    cases y
    simp only at hy
    subst hy
    rfl

/-- C18, witness: chunks A and B of `sample_pool_abc`. -/
theorem map_protocol_witness :
    ∃ (w1 : World) (allocator1 : jvm_allocator) (pool1 : jvm_allocation_pool),
      map_map_unmap_unmap sample_world abc_allocator ⟨3, 1⟩ ⟨100, 1⟩ =
        some (w1, allocator1, [VK_SUCCESS, VK_SUCCESS, VK_SUCCESS, VK_SUCCESS]) ∧
      w1.log =
        [Event.vkUnmapMemory 2,
         Event.vkFlushMappedMemoryRanges 2 100 228,
         Event.vkInvalidateMappedMemoryRanges 2 100 228,
         Event.vkMapMemory 2 0 4096] ++ sample_world.log ∧
      allocator1.deref ⟨3, 1⟩ =
        some (pool1, ⟨3, 0, 1, 100, 2, 0, 0, 1⟩) ∧
      allocator1.deref ⟨100, 1⟩ =
        some (pool1, ⟨100, 0, 1, 228, 2, 100, 28, 1⟩) ∧
      pool1.map_count = 0 :=
  map_protocol sample_world abc_allocator ⟨3, 1⟩ ⟨100, 1⟩ sample_pool_abc
    ⟨3, 0, 1, 100, 2, 0, 0, 1⟩ ⟨100, 0, 1, 228, 2, 100, 28, 1⟩ (by rfl) (by rfl) (by decide)
    rfl rfl rfl (by decide)

/-- C17, witness: in `abc_mapped_allocator` chunk A is mapped and chunk B is not; mapping A
again and unmapping B both fail and change nothing. -/
theorem map_failed_keeps_state_witness :
    jvm_chunk_map sample_world abc_mapped_allocator ⟨3, 1⟩ =
      some ⟨sample_world, VK_ERROR_MEMORY_MAP_FAILED, abc_mapped_allocator, none, none⟩ ∧
    jvm_chunk_unmap sample_world abc_mapped_allocator ⟨100, 1⟩ =
      some ⟨sample_world, VK_ERROR_MEMORY_MAP_FAILED, abc_mapped_allocator⟩ :=
  ⟨(map_failed_keeps_state sample_world abc_mapped_allocator ⟨3, 1⟩
      { sample_pool_abc with
        map_count := 1, map_ptr := some 100,
        chunks := sample_pool_abc.chunks.set 0 ⟨3, 1, 1, 100, 2, 0, 0, 1⟩ }
      ⟨3, 1, 1, 100, 2, 0, 0, 1⟩ (by rfl)).1 (by decide),
   (map_failed_keeps_state sample_world abc_mapped_allocator ⟨100, 1⟩
      { sample_pool_abc with
        map_count := 1, map_ptr := some 100,
        chunks := sample_pool_abc.chunks.set 0 ⟨3, 1, 1, 100, 2, 0, 0, 1⟩ }
      ⟨100, 0, 1, 228, 2, 100, 28, 1⟩ (by rfl)).2 rfl⟩

/-- The outcomes of `allocate_from_pool` on a pool of one chunk that is not in use. -/
theorem allocate_from_pool_single (w : World) (allocator : jvm_allocator)
    (pool : jvm_allocation_pool) (c : jvm_chunk) (size alignment : Nat)
    (hc : pool.chunks = [c]) :
    (allocate_from_pool w allocator pool size alignment = ⟨w, 1, pool, none⟩) ∨
    (∃ w1 cap, allocate_from_pool w allocator pool size alignment =
        ⟨w1, -1, { pool with chunk_capacity := cap }, none⟩) ∨
    (allocate_from_pool.fits size alignment c ∧
      allocator.min_allocation_size <
        u64_sub c.size (u64_add (allocate_from_pool.padding c.chunk_offset alignment) size) ∧
      ∃ w1 cap a, allocate_from_pool w allocator pool size alignment =
        ⟨w1, 0,
          { pool with
            chunk_capacity := cap
            chunks :=
              [{ c with
                 size := u64_add size (allocate_from_pool.padding c.chunk_offset alignment)
                 padding := allocate_from_pool.padding c.chunk_offset alignment
                 used := 1 },
               { addr := a
                 size := u64_sub c.size
                   (u64_add (allocate_from_pool.padding c.chunk_offset alignment) size)
                 chunk_offset := u64_add
                   (u64_add c.chunk_offset
                     (allocate_from_pool.padding c.chunk_offset alignment)) size
                 pool := pool.addr, memory := pool.memory, used := 0, padding := 0,
                 mapped := 0 }] },
          some c.ptr⟩) ∨
    (allocate_from_pool.fits size alignment c ∧
      ¬ allocator.min_allocation_size <
        u64_sub c.size (u64_add (allocate_from_pool.padding c.chunk_offset alignment) size) ∧
      allocate_from_pool w allocator pool size alignment =
        ⟨w, 0,
          { pool with
            chunks :=
              [{ c with
                 padding := allocate_from_pool.padding c.chunk_offset alignment
                 used := 1 }] },
          some c.ptr⟩) := by
  unfold allocate_from_pool
  rcases loop_cases w allocator pool size alignment pool.chunk_count 0
      (by simp [jvm_allocation_pool.chunk_count]) with ⟨-, h⟩ | ⟨j, chunk, -, hj, hfit, -, h⟩
  · exact Or.inl h
  · rw [hc] at hj
    have hj0 : j = 0 := by
      have := (List.getElem?_eq_some_iff.mp hj).1
      simpa using this
    subst hj0
    simp only [List.getElem?_cons_zero, Option.some.injEq] at hj
    subst hj
    rw [h]
    rcases carve_cases w allocator pool 0 c size
        (allocate_from_pool.padding c.chunk_offset alignment) with
      ⟨-, w1, cap, e, -⟩ | ⟨hl, w1, cap, a, e, -, -⟩ | ⟨hl, e⟩
    · exact Or.inr (Or.inl ⟨w1, cap, e⟩)
    · refine Or.inr (Or.inr (Or.inl ⟨hfit, hl, w1, cap, a, ?_⟩))
      rw [e]
      simp [allocate_from_pool.split_chunks, hc]
    · refine Or.inr (Or.inr (Or.inr ⟨hfit, hl, ?_⟩))
      rw [e]
      simp [hc]

theorem create_new_pool_fill_failure (w : World) (this : jvm_allocator)
    (pool_addr mem_size idx : Nat) (mem_info : VkMemoryType)
    (h : (create_new_pool.fill w this pool_addr mem_size idx mem_info).result ≠ VK_SUCCESS) :
    (create_new_pool.fill w this pool_addr mem_size idx mem_info).allocator = this := by
  unfold create_new_pool.fill at h ⊢
  rcases jvm_alloc_cases w with ⟨w1, h1, -, -⟩ | ⟨w1, h1, -, -⟩
  · rw [h1]
  · rw [h1] at h ⊢
    simp only [] at h ⊢
    rcases jvm_alloc_cases w1 with ⟨w2, h2, -, -⟩ | ⟨w2, h2, -, -⟩
    · rw [h2]
    · rw [h2] at h ⊢
      simp only [] at h ⊢
      rcases vkAllocateMemory_cases w2 mem_size idx with ⟨w3, r, h3, hr, -⟩ | ⟨w3, h3, -⟩
      · rw [h3]; simp only []; rw [if_pos hr]
      · rw [h3] at h
        simp only [ne_eq, not_true_eq_false, if_false] at h

/-- A failed `create_new_pool` leaves the allocator as it was, but for `pool_capacity`. -/
theorem create_new_pool_failure (w : World) (this : jvm_allocator) (mem_size idx : Nat)
    (mem_info : VkMemoryType)
    (h : (create_new_pool w this mem_size idx mem_info).result ≠ VK_SUCCESS) :
    ∃ cap, (create_new_pool w this mem_size idx mem_info).allocator =
      { this with pool_capacity := cap } := by
  unfold create_new_pool at h ⊢
  rcases jvm_alloc_cases w with ⟨w1, h1, -, -⟩ | ⟨w1, h1, -, -⟩
  · rw [h1]; exact ⟨this.pool_capacity, rfl⟩
  · rw [h1] at h ⊢
    simp only [] at h ⊢
    by_cases hcap : this.pool_capacity = this.pool_count
    · rw [if_pos hcap] at h ⊢
      unfold jvm_realloc at h ⊢
      rcases jvm_alloc_cases w1 with ⟨w2, h2, -, -⟩ | ⟨w2, h2, -, -⟩
      · rw [h2]; exact ⟨this.pool_capacity, rfl⟩
      · rw [h2] at h ⊢
        simp only [] at h ⊢
        exact ⟨_, create_new_pool_fill_failure _ _ _ _ _ _ h⟩
    · rw [if_neg hcap] at h ⊢
      exact ⟨this.pool_capacity, create_new_pool_fill_failure _ _ _ _ _ _ h⟩

/-- A successful `create_new_pool`, with the whole allocator after the call. -/
theorem create_new_pool_success_frame (w : World) (this : jvm_allocator) (mem_size idx : Nat)
    (mem_info : VkMemoryType)
    (h : (create_new_pool w this mem_size idx mem_info).result = VK_SUCCESS) :
    ∃ (cap : Nat) (pool : jvm_allocation_pool) (c : jvm_chunk),
      (create_new_pool w this mem_size idx mem_info).allocator =
        { this with pool_capacity := cap, pools := this.pools ++ [pool] } ∧
      pool.chunks = [c] ∧ c.chunk_offset = 0 ∧ c.size = mem_size ∧ c.used = 0 ∧
      c.padding = 0 ∧ c.mapped = 0 ∧ c.pool = pool.addr ∧
      pool.size = mem_size ∧ pool.memory_type_index = idx ∧
      pool.memory_type_info = mem_info ∧ pool.map_count = 0 ∧ pool.map_ptr = none := by
  unfold create_new_pool at h ⊢
  rcases jvm_alloc_cases w with ⟨w1, h1, hn1, -⟩ | ⟨w1, h1, hn1, -⟩
  · rw [h1] at h; simp [VK_ERROR_OUT_OF_HOST_MEMORY, VK_SUCCESS] at h
  · rw [h1] at h ⊢
    simp only [] at h ⊢
    by_cases hcap : this.pool_capacity = this.pool_count
    · rw [if_pos hcap] at h ⊢
      unfold jvm_realloc at h ⊢
      rcases jvm_alloc_cases w1 with ⟨w2, h2, hn2, -⟩ | ⟨w2, h2, hn2, -⟩
      · rw [h2] at h; simp [VK_ERROR_OUT_OF_HOST_MEMORY, VK_SUCCESS] at h
      · rw [h2] at h ⊢
        simp only [] at h ⊢
        obtain ⟨pool, c, e1, e2, e3, e4, e5, e6, e7, e8, e9, e10, e11, e12, e13, e14, e15⟩ :=
          create_new_pool_fill_success _ _ _ _ _ _ h
        exact ⟨_, pool, c, e1, e2, e3, e4, e5, e6, e7, e8.trans e10.symm, e11, e12,
          e13, e14, e15⟩
    · rw [if_neg hcap] at h ⊢
      obtain ⟨pool, c, e1, e2, e3, e4, e5, e6, e7, e8, e9, e10, e11, e12, e13, e14, e15⟩ :=
        create_new_pool_fill_success _ _ _ _ _ _ h
      exact ⟨this.pool_capacity, pool, c, e1, e2, e3, e4, e5, e6, e7, e8.trans e10.symm, e11,
        e12, e13, e14, e15⟩

/-- The two outcomes of `allocate_in_new_pool`: the pool could not be created and the
allocator is as before (but for `pool_capacity`), or a pool of one unused chunk was appended
and `allocate_from_pool` ran on it. -/
theorem allocate_in_new_pool_cases (w : World) (allocator : jvm_allocator)
    (new_pool_size size alignment idx : Nat) :
    (∃ (w1 : World) (res : VkResult) (cap : Nat), res ≠ VK_SUCCESS ∧
      allocate_in_new_pool w allocator new_pool_size size alignment idx =
        ⟨w1, res, { allocator with pool_capacity := cap }, none⟩) ∨
    (∃ (w1 : World) (cap : Nat) (pool : jvm_allocation_pool) (c : jvm_chunk),
      pool.chunks = [c] ∧ c.chunk_offset = 0 ∧ c.size = new_pool_size ∧ c.used = 0 ∧
      c.padding = 0 ∧ c.mapped = 0 ∧ c.pool = pool.addr ∧
      pool.size = new_pool_size ∧ pool.memory_type_index = idx ∧
      pool.map_count = 0 ∧ pool.map_ptr = none ∧
      allocate_in_new_pool w allocator new_pool_size size alignment idx =
        ⟨(allocate_from_pool w1
            { allocator with pool_capacity := cap, pools := allocator.pools ++ [pool] }
            pool size alignment).world,
          if (allocate_from_pool w1
            { allocator with pool_capacity := cap, pools := allocator.pools ++ [pool] }
            pool size alignment).result ≠ 0 then VK_ERROR_OUT_OF_HOST_MEMORY else VK_SUCCESS,
          { allocator with
            pool_capacity := cap
            pools := allocator.pools ++ [(allocate_from_pool w1
              { allocator with pool_capacity := cap, pools := allocator.pools ++ [pool] }
              pool size alignment).pool] },
          if (allocate_from_pool w1
            { allocator with pool_capacity := cap, pools := allocator.pools ++ [pool] }
            pool size alignment).result ≠ 0 then none
          else (allocate_from_pool w1
            { allocator with pool_capacity := cap, pools := allocator.pools ++ [pool] }
            pool size alignment).p_out⟩) := by
  unfold allocate_in_new_pool
  simp only []
  by_cases hc : (create_new_pool w allocator new_pool_size idx
      (allocator.memory_properties.memoryType idx)).result ≠ VK_SUCCESS
  · left
    rw [if_pos hc]
    obtain ⟨cap, hcap⟩ := create_new_pool_failure w allocator new_pool_size idx _ hc
    exact ⟨_, _, cap, hc, by rw [hcap]⟩
  · right
    rw [if_neg hc]
    obtain ⟨cap, pool, c, e1, e2, e3, e4, e5, e6, e7, e8, e9, e10, -, e12, e13⟩ :=
      create_new_pool_success_frame w allocator new_pool_size idx _ (not_not.mp hc)
    generalize create_new_pool w allocator new_pool_size idx
      (allocator.memory_properties.memoryType idx) = cr at e1
    refine ⟨cr.world, cap, pool, c, e2, e3, e4, e5, e6, e7, e8, e9, e10, e12, e13, ?_⟩
    rw [e1]
    have hlast : (allocator.pools ++ [pool])[(allocator.pools ++ [pool]).length - 1]? =
        some pool := by simp
    simp only [jvm_allocator.pool_count, hlast]
    by_cases h0 : (allocate_from_pool cr.world
        { allocator with pool_capacity := cap, pools := allocator.pools ++ [pool] }
        pool size alignment).result ≠ 0
    · rw [if_pos h0, if_pos h0, if_pos h0]
      simp
    · rw [if_neg h0, if_neg h0, if_neg h0]
      simp

theorem padding_zero_offset (alignment : Nat) (h : alignment < U64) :
    allocate_from_pool.padding 0 alignment = 0 := by
  unfold allocate_from_pool.padding
  simp only [Nat.zero_and]
  have : u64_sub alignment 0 = alignment := by
    unfold u64_sub
    simp [U64] at h ⊢
    omega
  rw [this]
  simp

theorem need_to_map_alignment_lt (allocator : jvm_allocator)
    (idx desired_flags size alignment : Nat) (halign : alignment < U64)
    (hmap : allocator.min_map_alignment < U64) :
    (need_to_map allocator idx desired_flags size alignment).2 < U64 := by
  unfold need_to_map
  simp only []
  split_ifs <;> assumption

theorem normalized_size_lt (allocator : jvm_allocator) (size alignment : Nat)
    (hsize : size < U64) (halign : alignment < U64)
    (hmin : allocator.min_allocation_size < U64) :
    normalized_size allocator size alignment < U64 := by
  unfold normalized_size
  simp only []
  split_ifs <;> assumption

theorem need_to_map_size_eq (allocator : jvm_allocator) (idx desired_flags size alignment : Nat) :
    (need_to_map allocator idx desired_flags (normalized_size allocator size alignment)
        alignment).1 =
      max (max size allocator.min_allocation_size)
        (need_to_map allocator idx desired_flags (normalized_size allocator size alignment)
          alignment).2 := by
  unfold need_to_map normalized_size
  simp only []
  split_ifs <;> simp only [] <;> omega

/-- The whole-pool allocation: `allocate_from_pool` for `size` bytes on a fresh pool of one
unused chunk of `size` bytes at offset 0 either fails or marks that chunk used, with padding
0, splitting nothing. -/
theorem allocate_from_pool_whole (w : World) (allocator : jvm_allocator)
    (pool : jvm_allocation_pool) (c : jvm_chunk) (size alignment : Nat)
    (hc : pool.chunks = [c]) (hoff : c.chunk_offset = 0) (hcs : c.size = size)
    (halign : alignment < U64)
    (h0 : (allocate_from_pool w allocator pool size alignment).result = 0) :
    allocate_from_pool w allocator pool size alignment =
      ⟨w, 0, { pool with chunks := [{ c with padding := 0, used := 1 }] }, some c.ptr⟩ := by
  have hpad := padding_zero_offset alignment halign
  have hleft : u64_sub c.size (u64_add 0 size) = 0 := by
    unfold u64_sub u64_add
    rw [hcs]
    simp only [U64]
    omega
  rcases allocate_from_pool_single w allocator pool c size alignment hc with
    e | ⟨w1, cap, e⟩ | ⟨-, hl, -⟩ | ⟨-, -, e⟩
  · rw [e] at h0; simp at h0
  · rw [e] at h0; simp at h0
  · rw [hoff, hpad, hleft] at hl
    exact absurd hl (Nat.not_lt_zero _)
  · rw [e, hoff, hpad]

/-! ## C13: the pool of a dedicated allocation -/

/-- C13: for a 64-bit `alignment` and `min_map_alignment`, when `jvm_allocate_dedicated` succeeds the pool
list is the old one with one pool appended; that pool is of the memory type chosen, its size
is the request size after normalisation and the host-visible bump, which is the largest of
`size`, `min_allocation_size` and the alignment after the bump, and its chunk list is one
chunk: the one returned, at offset 0, with padding 0, `used == 1` and the size of the
pool. -/
theorem jvm_allocate_dedicated_whole_pool (w : World) (allocator : jvm_allocator)
    (size alignment type_bits desired_flags undesired_flags : Nat)
    (halign : alignment < U64) (hmap : allocator.min_map_alignment < U64)
    (hok : (jvm_allocate_dedicated w allocator size alignment type_bits desired_flags
      undesired_flags).result = VK_SUCCESS) :
    ∃ (idx : Nat) (pool : jvm_allocation_pool) (chunk : jvm_chunk),
      jvm_allocate_dedicated.memory_type allocator.memory_properties type_bits desired_flags
        undesired_flags = some idx ∧
      (jvm_allocate_dedicated w allocator size alignment type_bits desired_flags
        undesired_flags).allocator.pools = allocator.pools ++ [pool] ∧
      (jvm_allocate_dedicated w allocator size alignment type_bits desired_flags
        undesired_flags).allocator.pool_count = allocator.pool_count + 1 ∧
      pool.memory_type_index = idx ∧
      pool.size =
        (need_to_map allocator idx desired_flags (normalized_size allocator size alignment)
          alignment).1 ∧
      pool.size =
        max (max size allocator.min_allocation_size)
          (need_to_map allocator idx desired_flags (normalized_size allocator size alignment)
            alignment).2 ∧
      pool.chunks = [chunk] ∧
      (jvm_allocate_dedicated w allocator size alignment type_bits desired_flags
        undesired_flags).p_out = some chunk.ptr ∧
      chunk.pool = pool.addr ∧ chunk.chunk_offset = 0 ∧ chunk.padding = 0 ∧ chunk.used = 1 ∧
      chunk.size = pool.size := by
  rcases hmt : jvm_allocate_dedicated.memory_type allocator.memory_properties type_bits
      desired_flags undesired_flags with _ | idx
  · unfold jvm_allocate_dedicated at hok
    rw [hmt] at hok
    simp [VK_ERROR_OUT_OF_DEVICE_MEMORY, VK_SUCCESS] at hok
  · have hr : jvm_allocate_dedicated w allocator size alignment type_bits desired_flags
        undesired_flags =
        allocate_in_new_pool w allocator
          (need_to_map allocator idx desired_flags (normalized_size allocator size alignment)
            alignment).1
          (need_to_map allocator idx desired_flags (normalized_size allocator size alignment)
            alignment).1
          (need_to_map allocator idx desired_flags (normalized_size allocator size alignment)
            alignment).2 idx := by
      unfold jvm_allocate_dedicated
      simp only [hmt]
    rw [hr] at hok ⊢
    refine ⟨idx, ?_⟩
    have ha1 := need_to_map_alignment_lt allocator idx desired_flags
      (normalized_size allocator size alignment) alignment halign hmap
    have hmax := need_to_map_size_eq allocator idx desired_flags size alignment
    generalize need_to_map allocator idx desired_flags
      (normalized_size allocator size alignment) alignment = nm at hok ha1 hmax ⊢
    obtain ⟨size1, alignment1⟩ := nm
    simp only [] at hok ha1 hmax ⊢
    rcases allocate_in_new_pool_cases w allocator size1 size1 alignment1 idx with
      ⟨w1, res, cap, hres, e⟩ | ⟨w1, cap, pool, c, e1, e2, e3, e4, e5, e6, e7, e8, e9, -, -, e⟩
    · rw [e] at hok; exact absurd hok hres
    · rw [e] at hok ⊢
      simp only [] at hok ⊢
      by_cases h0 : (allocate_from_pool w1
          { allocator with pool_capacity := cap, pools := allocator.pools ++ [pool] }
          pool size1 alignment1).result ≠ 0
      · rw [if_pos h0] at hok
        simp [VK_ERROR_OUT_OF_HOST_MEMORY, VK_SUCCESS] at hok
      · rw [if_neg h0]
        have hw := allocate_from_pool_whole w1
          { allocator with pool_capacity := cap, pools := allocator.pools ++ [pool] }
          pool c size1 alignment1 e1 e2 e3 ha1 (not_not.mp h0)
        rw [hw]
        refine ⟨{ pool with chunks := [{ c with padding := 0, used := 1 }] },
          { c with padding := 0, used := 1 }, trivial, rfl, ?_, e9, e8, e8.trans hmax, rfl, rfl,
          e7, e2, rfl, rfl, e3.trans e8.symm⟩
        simp [jvm_allocator.pool_count]

/-- C13, witness: a dedicated allocation of 100 bytes on `two_heaps_allocator`. -/
theorem jvm_allocate_dedicated_whole_pool_witness :
    ∃ (idx : Nat) (pool : jvm_allocation_pool) (chunk : jvm_chunk),
      jvm_allocate_dedicated.memory_type two_heaps_allocator.memory_properties 3 1 0 =
        some idx ∧
      (jvm_allocate_dedicated sample_world two_heaps_allocator 100 64 3 1 0).allocator.pools =
        two_heaps_allocator.pools ++ [pool] ∧
      (jvm_allocate_dedicated sample_world two_heaps_allocator 100 64 3 1
        0).allocator.pool_count = two_heaps_allocator.pool_count + 1 ∧
      pool.memory_type_index = idx ∧
      pool.size =
        (need_to_map two_heaps_allocator idx 1 (normalized_size two_heaps_allocator 100 64)
          64).1 ∧
      pool.size =
        max (max 100 two_heaps_allocator.min_allocation_size)
          (need_to_map two_heaps_allocator idx 1 (normalized_size two_heaps_allocator 100 64)
            64).2 ∧
      pool.chunks = [chunk] ∧
      (jvm_allocate_dedicated sample_world two_heaps_allocator 100 64 3 1 0).p_out =
        some chunk.ptr ∧
      chunk.pool = pool.addr ∧ chunk.chunk_offset = 0 ∧ chunk.padding = 0 ∧ chunk.used = 1 ∧
      chunk.size = pool.size :=
  jvm_allocate_dedicated_whole_pool sample_world two_heaps_allocator 100 64 3 1 0 (by decide)
    (by decide) (by decide)

/-- Freeing the first chunk of a pool whose other chunks, if any, are one unused chunk:
one unused chunk is left. -/
theorem deallocate_from_pool_head (pool : jvm_allocation_pool) (c : jvm_chunk)
    (rest : List jvm_chunk) (hchunks : pool.chunks = c :: rest)
    (hrest : rest = [] ∨ ∃ n, rest = [n] ∧ n.used = 0) :
    ∃ x : jvm_chunk, x.used = 0 ∧
      deallocate_from_pool pool c.ptr = (0, { pool with chunks := [x] }) := by
  rcases deallocate_from_pool_cases pool c.ptr with ⟨h, -⟩ | ⟨pre, x, post, hdec, hx, hpre, heq⟩
  · exact absurd rfl (h c (by rw [hchunks]; simp))
  · have hpre0 : pre = [] := by
      cases pre with
      | nil => rfl
      | cons a l =>
        rw [hchunks] at hdec
        simp only [List.cons_append, List.cons.injEq] at hdec
        exact absurd (by rw [← hdec.1]; rfl) (hpre a (by simp))
    subst hpre0
    rw [hchunks] at hdec
    simp only [List.nil_append, List.cons.injEq] at hdec
    obtain ⟨rfl, rfl⟩ := hdec
    rw [heq]
    rcases hrest with rfl | ⟨n, rfl, hn⟩
    · exact ⟨c.release, rfl, by simp [merge_right, merge_left]⟩
    · refine ⟨c.release.absorb n, rfl, ?_⟩
      simp [merge_right, merge_left, hn, jvm_chunk.release]

/-- On an allocator with automatic freeing whose only pool holds the chunk `c` first and, at
most, one unused chunk after it, `jvm_deallocate` of `c` removes the pool. -/
theorem jvm_deallocate_sole_pool (w : World) (allocator : jvm_allocator)
    (pool : jvm_allocation_pool) (c : jvm_chunk) (rest : List jvm_chunk)
    (hpools : allocator.pools = [pool]) (hchunks : pool.chunks = c :: rest)
    (hrest : rest = [] ∨ ∃ n, rest = [n] ∧ n.used = 0) (hcp : c.pool = pool.addr)
    (hauto : allocator.automatically_free_unused ≠ 0) :
    jvm_deallocate w allocator c.ptr =
      some ⟨w.emit (Event.vkFreeMemory pool.memory), VK_SUCCESS,
        { allocator with pools := [] }⟩ := by
  obtain ⟨x, hx, hd⟩ := deallocate_from_pool_head pool c rest hchunks hrest
  unfold jvm_deallocate
  simp only [hpools, jvm_chunk.ptr, hcp, List.findIdx_cons, beq_self_eq_true, cond_true,
    List.getElem?_cons_zero]
  simp only [jvm_chunk.ptr, hcp] at hd
  rw [hd]
  simp [remove_pool, jvm_allocation_pool.chunk_count, jvm_allocator.pool_count, hauto, hx,
    List.findIdx_cons]

/-- With automatic freeing and no pool before, the chunk handed out by a successful
`allocate_in_new_pool` is in the only pool, and `jvm_deallocate` of it removes that pool. -/
theorem allocate_in_new_pool_then_free (w : World) (allocator : jvm_allocator)
    (new_pool_size size alignment idx : Nat)
    (hpools : allocator.pools = []) (hauto : allocator.automatically_free_unused ≠ 0)
    (hok : (allocate_in_new_pool w allocator new_pool_size size alignment idx).result =
      VK_SUCCESS) :
    ∃ (p : chunk_ptr) (r : allocator_result),
      (allocate_in_new_pool w allocator new_pool_size size alignment idx).p_out = some p ∧
      jvm_deallocate (allocate_in_new_pool w allocator new_pool_size size alignment idx).world
        (allocate_in_new_pool w allocator new_pool_size size alignment idx).allocator p =
        some r ∧
      r.result = VK_SUCCESS ∧ r.allocator.pools = [] := by
  rcases allocate_in_new_pool_cases w allocator new_pool_size size alignment idx with
    ⟨w1, res, cap, hres, e⟩ | ⟨w1, cap, pool, c, e1, e2, e3, e4, e5, e6, e7, e8, e9, -, -, e⟩
  · rw [e] at hok; exact absurd hok hres
  · rw [e] at hok ⊢
    simp only [] at hok ⊢
    rcases allocate_from_pool_single w1
        { allocator with pool_capacity := cap, pools := allocator.pools ++ [pool] }
        pool c size alignment e1 with
      h | ⟨w2, cap2, h⟩ | ⟨-, -, w2, cap2, a, h⟩ | ⟨-, -, h⟩
    · rw [h] at hok; simp [VK_ERROR_OUT_OF_HOST_MEMORY, VK_SUCCESS] at hok
    · rw [h] at hok; simp [VK_ERROR_OUT_OF_HOST_MEMORY, VK_SUCCESS] at hok
    · rw [h]
      simp only [ne_eq, not_true_eq_false, if_false]
      have hd := jvm_deallocate_sole_pool w2
        { allocator with
          pool_capacity := cap
          pools := allocator.pools ++
            [{ pool with
               chunk_capacity := cap2
               chunks :=
                 [{ c with
                    size := u64_add size (allocate_from_pool.padding c.chunk_offset alignment)
                    padding := allocate_from_pool.padding c.chunk_offset alignment
                    used := 1 },
                  { addr := a
                    size := u64_sub c.size
                      (u64_add (allocate_from_pool.padding c.chunk_offset alignment) size)
                    chunk_offset := u64_add
                      (u64_add c.chunk_offset
                        (allocate_from_pool.padding c.chunk_offset alignment)) size
                    pool := pool.addr, memory := pool.memory, used := 0, padding := 0,
                    mapped := 0 }] }] }
        { pool with
          chunk_capacity := cap2
          chunks :=
            [{ c with
               size := u64_add size (allocate_from_pool.padding c.chunk_offset alignment)
               padding := allocate_from_pool.padding c.chunk_offset alignment
               used := 1 },
             { addr := a
               size := u64_sub c.size
                 (u64_add (allocate_from_pool.padding c.chunk_offset alignment) size)
               chunk_offset := u64_add
                 (u64_add c.chunk_offset
                   (allocate_from_pool.padding c.chunk_offset alignment)) size
               pool := pool.addr, memory := pool.memory, used := 0, padding := 0,
               mapped := 0 }] }
        { c with
          size := u64_add size (allocate_from_pool.padding c.chunk_offset alignment)
          padding := allocate_from_pool.padding c.chunk_offset alignment
          used := 1 } _ (by simp [hpools]) rfl (Or.inr ⟨_, rfl, rfl⟩) e7 hauto
      exact ⟨c.ptr, _, rfl, hd, rfl, rfl⟩
    · rw [h]
      simp only [ne_eq, not_true_eq_false, if_false]
      have hd := jvm_deallocate_sole_pool w1
        { allocator with
          pool_capacity := cap
          pools := allocator.pools ++
            [{ pool with
               chunks :=
                 [{ c with
                    padding := allocate_from_pool.padding c.chunk_offset alignment
                    used := 1 }] }] }
        { pool with
          chunks :=
            [{ c with
               padding := allocate_from_pool.padding c.chunk_offset alignment
               used := 1 }] }
        { c with
          padding := allocate_from_pool.padding c.chunk_offset alignment
          used := 1 } _ (by simp [hpools]) rfl (Or.inl rfl) e7 hauto
      exact ⟨c.ptr, _, rfl, hd, rfl, rfl⟩

/-- On an allocator without pools `jvm_allocate` goes to the new-pool path, if a memory type
is found. -/
theorem jvm_allocate_no_pools (w : World) (allocator : jvm_allocator)
    (size alignment type_bits desired_flags undesired_flags : Nat)
    (hpools : allocator.pools = []) :
    (jvm_allocate w allocator size alignment type_bits desired_flags undesired_flags =
      ⟨JVM_ERROR w allocator, VK_ERROR_OUT_OF_DEVICE_MEMORY, allocator, none⟩) ∨
    (∃ new_pool_size size1 alignment1 idx,
      jvm_allocate w allocator size alignment type_bits desired_flags undesired_flags =
        allocate_in_new_pool w allocator new_pool_size size1 alignment1 idx) := by
  unfold jvm_allocate
  simp only []
  rcases jvm_allocate.memory_type allocator.memory_properties type_bits desired_flags
      undesired_flags with _ | idx
  · exact Or.inl rfl
  · right
    simp only [jvm_allocator.pool_count, hpools, List.length_nil, jvm_allocate.pools_loop]
    exact ⟨_, _, _, _, rfl⟩

theorem jvm_allocate_dedicated_new_pool (w : World) (allocator : jvm_allocator)
    (size alignment type_bits desired_flags undesired_flags : Nat) :
    (jvm_allocate_dedicated w allocator size alignment type_bits desired_flags undesired_flags =
      ⟨JVM_ERROR w allocator, VK_ERROR_OUT_OF_DEVICE_MEMORY, allocator, none⟩) ∨
    (∃ size1 alignment1 idx,
      jvm_allocate_dedicated w allocator size alignment type_bits desired_flags
        undesired_flags =
        allocate_in_new_pool w allocator size1 size1 alignment1 idx) := by
  unfold jvm_allocate_dedicated
  simp only []
  rcases jvm_allocate_dedicated.memory_type allocator.memory_properties type_bits desired_flags
      undesired_flags with _ | idx
  · exact Or.inl rfl
  · right
    exact ⟨_, _, _, rfl⟩

/-! ## C14: allocate, then free, with automatic freeing -/

/-- C14: on an allocator with `automatically_free_unused != 0` and no pools, when
`jvm_allocate` succeeds, `jvm_deallocate` of the chunk it returned returns `VK_SUCCESS` and
leaves `pool_count == 0`; the same holds for `jvm_allocate_dedicated`. -/
theorem allocate_free_leaves_no_pool (w : World) (allocator : jvm_allocator)
    (size alignment type_bits desired_flags undesired_flags : Nat)
    (hpools : allocator.pools = []) (hauto : allocator.automatically_free_unused ≠ 0) :
    ((jvm_allocate w allocator size alignment type_bits desired_flags undesired_flags).result =
        VK_SUCCESS →
      ∃ (p : chunk_ptr) (r : allocator_result),
        (jvm_allocate w allocator size alignment type_bits desired_flags undesired_flags).p_out =
          some p ∧
        jvm_deallocate
          (jvm_allocate w allocator size alignment type_bits desired_flags undesired_flags).world
          (jvm_allocate w allocator size alignment type_bits desired_flags
            undesired_flags).allocator p = some r ∧
        r.result = VK_SUCCESS ∧ r.allocator.pool_count = 0) ∧
    ((jvm_allocate_dedicated w allocator size alignment type_bits desired_flags
        undesired_flags).result = VK_SUCCESS →
      ∃ (p : chunk_ptr) (r : allocator_result),
        (jvm_allocate_dedicated w allocator size alignment type_bits desired_flags
          undesired_flags).p_out = some p ∧
        jvm_deallocate
          (jvm_allocate_dedicated w allocator size alignment type_bits desired_flags
            undesired_flags).world
          (jvm_allocate_dedicated w allocator size alignment type_bits desired_flags
            undesired_flags).allocator p = some r ∧
        r.result = VK_SUCCESS ∧ r.allocator.pool_count = 0) := by
  constructor
  · intro hok
    rcases jvm_allocate_no_pools w allocator size alignment type_bits desired_flags
        undesired_flags hpools with e | ⟨n, s, a, idx, e⟩
    · rw [e] at hok; simp [VK_ERROR_OUT_OF_DEVICE_MEMORY, VK_SUCCESS] at hok
    · rw [e] at hok ⊢
      obtain ⟨p, r, h1, h2, h3, h4⟩ :=
        allocate_in_new_pool_then_free w allocator n s a idx hpools hauto hok
      exact ⟨p, r, h1, h2, h3, by simp [jvm_allocator.pool_count, h4]⟩
  · intro hok
    rcases jvm_allocate_dedicated_new_pool w allocator size alignment type_bits desired_flags
        undesired_flags with e | ⟨s, a, idx, e⟩
    · rw [e] at hok; simp [VK_ERROR_OUT_OF_DEVICE_MEMORY, VK_SUCCESS] at hok
    · rw [e] at hok ⊢
      obtain ⟨p, r, h1, h2, h3, h4⟩ :=
        allocate_in_new_pool_then_free w allocator s s a idx hpools hauto hok
      exact ⟨p, r, h1, h2, h3, by simp [jvm_allocator.pool_count, h4]⟩

/-- C14, witness: 100 bytes on `auto_free_allocator`, by both functions. -/
theorem allocate_free_leaves_no_pool_witness :
    (∃ (p : chunk_ptr) (r : allocator_result),
        (jvm_allocate sample_world auto_free_allocator 100 64 3 1 0).p_out = some p ∧
        jvm_deallocate (jvm_allocate sample_world auto_free_allocator 100 64 3 1 0).world
          (jvm_allocate sample_world auto_free_allocator 100 64 3 1 0).allocator p = some r ∧
        r.result = VK_SUCCESS ∧ r.allocator.pool_count = 0) ∧
    (∃ (p : chunk_ptr) (r : allocator_result),
        (jvm_allocate_dedicated sample_world auto_free_allocator 100 64 3 1 0).p_out = some p ∧
        jvm_deallocate
          (jvm_allocate_dedicated sample_world auto_free_allocator 100 64 3 1 0).world
          (jvm_allocate_dedicated sample_world auto_free_allocator 100 64 3 1 0).allocator p =
          some r ∧
        r.result = VK_SUCCESS ∧ r.allocator.pool_count = 0) :=
  ⟨(allocate_free_leaves_no_pool sample_world auto_free_allocator 100 64 3 1 0 rfl
      (by decide)).1 (by decide),
   (allocate_free_leaves_no_pool sample_world auto_free_allocator 100 64 3 1 0 rfl
      (by decide)).2 (by decide)⟩

/-- The four outcomes of `allocate_from_pool`: no chunk fits; a host allocation failed and
only `chunk_capacity` may differ; a chunk was split; a chunk was taken whole. -/
theorem allocate_from_pool_outcome (w : World) (allocator : jvm_allocator)
    (pool : jvm_allocation_pool) (size alignment : Nat) :
    (allocate_from_pool w allocator pool size alignment = ⟨w, 1, pool, none⟩) ∨
    (∃ w1 cap, allocate_from_pool w allocator pool size alignment =
        ⟨w1, -1, { pool with chunk_capacity := cap }, none⟩) ∨
    (∃ (j : Nat) (chunk : jvm_chunk) (w1 : World) (cap a : Nat),
      pool.chunks[j]? = some chunk ∧ allocate_from_pool.fits size alignment chunk ∧
      allocate_from_pool w allocator pool size alignment =
        ⟨w1, 0,
          { pool with
            chunk_capacity := cap
            chunks := allocate_from_pool.split_chunks pool j chunk size
              (allocate_from_pool.padding chunk.chunk_offset alignment)
              (u64_sub chunk.size
                (u64_add (allocate_from_pool.padding chunk.chunk_offset alignment) size)) a },
          some chunk.ptr⟩) ∨
    (∃ (j : Nat) (chunk : jvm_chunk),
      pool.chunks[j]? = some chunk ∧ allocate_from_pool.fits size alignment chunk ∧
      allocate_from_pool w allocator pool size alignment =
        ⟨w, 0,
          { pool with
            chunks := pool.chunks.set j
              { chunk with
                padding := allocate_from_pool.padding chunk.chunk_offset alignment
                used := 1 } },
          some chunk.ptr⟩) := by
  unfold allocate_from_pool
  rcases loop_cases w allocator pool size alignment pool.chunk_count 0
      (by simp [jvm_allocation_pool.chunk_count]) with ⟨-, h⟩ | ⟨j, chunk, -, hj, hfit, -, h⟩
  · exact Or.inl h
  · rw [h]
    rcases carve_cases w allocator pool j chunk size
        (allocate_from_pool.padding chunk.chunk_offset alignment) with
      ⟨-, w1, cap, e, -⟩ | ⟨-, w1, cap, a, e, -, -⟩ | ⟨-, e⟩
    · exact Or.inr (Or.inl ⟨w1, cap, e⟩)
    · exact Or.inr (Or.inr (Or.inl ⟨j, chunk, w1, cap, a, hj, hfit, e⟩))
    · exact Or.inr (Or.inr (Or.inr ⟨j, chunk, hj, hfit, e⟩))

/-- The loop of `jvm_allocate` over the pools runs to its end, or returns what
`allocate_from_pool` made of one pool of the memory type, with a result that is not
positive. -/
theorem pools_loop_cases (w : World) (allocator : jvm_allocator)
    (size alignment idx : Nat) (fuel i : Nat) :
    jvm_allocate.pools_loop w allocator size alignment idx fuel i = none ∨
    ∃ (j : Nat) (pool : jvm_allocation_pool),
      allocator.pools[j]? = some pool ∧ pool.memory_type_index = idx ∧
      (allocate_from_pool w allocator pool size alignment).result ≤ 0 ∧
      jvm_allocate.pools_loop w allocator size alignment idx fuel i =
        some ⟨(allocate_from_pool w allocator pool size alignment).world,
          if (allocate_from_pool w allocator pool size alignment).result = 0 then VK_SUCCESS
          else VK_ERROR_OUT_OF_HOST_MEMORY,
          { allocator with
            pools := allocator.pools.set j
              (allocate_from_pool w allocator pool size alignment).pool },
          if (allocate_from_pool w allocator pool size alignment).result = 0 then
            (allocate_from_pool w allocator pool size alignment).p_out
          else none⟩ := by
  induction fuel generalizing i with
  | zero => left; rfl
  | succ fuel ih =>
    rw [jvm_allocate.pools_loop]
    rcases hp : allocator.pools[i]? with _ | pool
    · left; rfl
    · simp only []
      by_cases ht : pool.memory_type_index ≠ idx
      · rw [if_pos ht]; exact ih (i + 1)
      · rw [if_neg ht]
        by_cases h0 : (allocate_from_pool w allocator pool size alignment).result = 0
        · right
          refine ⟨i, pool, hp, not_not.mp ht, by omega, ?_⟩
          rw [if_pos h0, if_pos h0, if_pos h0]
        · rw [if_neg h0]
          by_cases hneg : (allocate_from_pool w allocator pool size alignment).result < 0
          · right
            refine ⟨i, pool, hp, not_not.mp ht, by omega, ?_⟩
            rw [if_pos hneg, if_neg h0, if_neg h0]
          · rw [if_neg hneg]; exact ih (i + 1)

/-- The three outcomes of `jvm_allocate`: no memory type; `allocate_from_pool` ran on a pool
of the list; a new pool. -/
theorem jvm_allocate_outcome (w : World) (allocator : jvm_allocator)
    (size alignment type_bits desired_flags undesired_flags : Nat) :
    (jvm_allocate.memory_type allocator.memory_properties type_bits desired_flags
        undesired_flags = none ∧
      jvm_allocate w allocator size alignment type_bits desired_flags undesired_flags =
        ⟨JVM_ERROR w allocator, VK_ERROR_OUT_OF_DEVICE_MEMORY, allocator, none⟩) ∨
    (∃ (idx j : Nat) (pool : jvm_allocation_pool),
      jvm_allocate.memory_type allocator.memory_properties type_bits desired_flags
        undesired_flags = some idx ∧
      allocator.pools[j]? = some pool ∧ pool.memory_type_index = idx ∧
      (allocate_from_pool w allocator pool
        (need_to_map allocator idx desired_flags (normalized_size allocator size alignment)
          alignment).1
        (need_to_map allocator idx desired_flags (normalized_size allocator size alignment)
          alignment).2).result ≤ 0 ∧
      jvm_allocate w allocator size alignment type_bits desired_flags undesired_flags =
        ⟨(allocate_from_pool w allocator pool
            (need_to_map allocator idx desired_flags (normalized_size allocator size alignment)
              alignment).1
            (need_to_map allocator idx desired_flags (normalized_size allocator size alignment)
              alignment).2).world,
          if (allocate_from_pool w allocator pool
            (need_to_map allocator idx desired_flags (normalized_size allocator size alignment)
              alignment).1
            (need_to_map allocator idx desired_flags (normalized_size allocator size alignment)
              alignment).2).result = 0 then VK_SUCCESS
          else VK_ERROR_OUT_OF_HOST_MEMORY,
          { allocator with
            pools := allocator.pools.set j
              (allocate_from_pool w allocator pool
                (need_to_map allocator idx desired_flags
                  (normalized_size allocator size alignment) alignment).1
                (need_to_map allocator idx desired_flags
                  (normalized_size allocator size alignment) alignment).2).pool },
          if (allocate_from_pool w allocator pool
            (need_to_map allocator idx desired_flags (normalized_size allocator size alignment)
              alignment).1
            (need_to_map allocator idx desired_flags (normalized_size allocator size alignment)
              alignment).2).result = 0 then
            (allocate_from_pool w allocator pool
              (need_to_map allocator idx desired_flags
                (normalized_size allocator size alignment) alignment).1
              (need_to_map allocator idx desired_flags
                (normalized_size allocator size alignment) alignment).2).p_out
          else none⟩) ∨
    (∃ (idx new_pool_size : Nat),
      jvm_allocate.memory_type allocator.memory_properties type_bits desired_flags
        undesired_flags = some idx ∧
      jvm_allocate w allocator size alignment type_bits desired_flags undesired_flags =
        allocate_in_new_pool w allocator new_pool_size
          (need_to_map allocator idx desired_flags (normalized_size allocator size alignment)
            alignment).1
          (need_to_map allocator idx desired_flags (normalized_size allocator size alignment)
            alignment).2 idx) := by
  unfold jvm_allocate
  simp only []
  rcases hm : jvm_allocate.memory_type allocator.memory_properties type_bits desired_flags
      undesired_flags with _ | idx
  · exact Or.inl ⟨rfl, rfl⟩
  · right
    simp only []
    rcases pools_loop_cases w allocator
        (need_to_map allocator idx desired_flags (normalized_size allocator size alignment)
          alignment).1
        (need_to_map allocator idx desired_flags (normalized_size allocator size alignment)
          alignment).2 idx allocator.pool_count 0 with h | ⟨j, pool, h1, h2, h3, h⟩
    · right
      rw [h]
      exact ⟨idx, _, rfl, rfl⟩
    · left
      rw [h]
      exact ⟨idx, j, pool, rfl, h1, h2, h3, rfl⟩

/-- The two outcomes of `jvm_allocate_dedicated`: no memory type, or a new pool of the size
of the request. -/
theorem jvm_allocate_dedicated_outcome (w : World) (allocator : jvm_allocator)
    (size alignment type_bits desired_flags undesired_flags : Nat) :
    (jvm_allocate_dedicated.memory_type allocator.memory_properties type_bits desired_flags
        undesired_flags = none ∧
      jvm_allocate_dedicated w allocator size alignment type_bits desired_flags
        undesired_flags =
        ⟨JVM_ERROR w allocator, VK_ERROR_OUT_OF_DEVICE_MEMORY, allocator, none⟩) ∨
    (∃ (idx : Nat),
      jvm_allocate_dedicated.memory_type allocator.memory_properties type_bits desired_flags
        undesired_flags = some idx ∧
      jvm_allocate_dedicated w allocator size alignment type_bits desired_flags
        undesired_flags =
        allocate_in_new_pool w allocator
          (need_to_map allocator idx desired_flags (normalized_size allocator size alignment)
            alignment).1
          (need_to_map allocator idx desired_flags (normalized_size allocator size alignment)
            alignment).1
          (need_to_map allocator idx desired_flags (normalized_size allocator size alignment)
            alignment).2 idx) := by
  unfold jvm_allocate_dedicated
  simp only []
  rcases hm : jvm_allocate_dedicated.memory_type allocator.memory_properties type_bits
      desired_flags undesired_flags with _ | idx
  · exact Or.inl ⟨rfl, rfl⟩
  · right
    exact ⟨idx, rfl, rfl⟩

/-- When `allocate_from_pool` returns 0 for a power-of-two alignment, the chunk handed out is
in the pool, starts aligned after a padding below the alignment, and holds padding and size
when their sum is a `VkDeviceSize`. -/
theorem allocate_from_pool_aligned_chunk (w : World) (allocator : jvm_allocator)
    (pool : jvm_allocation_pool) (size k : Nat) (hk : k < 64)
    (h0 : (allocate_from_pool w allocator pool size (2 ^ k)).result = 0) :
    ∃ chunk ∈ (allocate_from_pool w allocator pool size (2 ^ k)).pool.chunks,
      (allocate_from_pool w allocator pool size (2 ^ k)).p_out = some chunk.ptr ∧
      (chunk.chunk_offset + chunk.padding) % 2 ^ k = 0 ∧ chunk.padding < 2 ^ k ∧
      (chunk.padding + size < U64 → chunk.padding + size ≤ chunk.size) := by
  rcases allocate_from_pool_outcome w allocator pool size (2 ^ k) with
    e | ⟨w1, cap, e⟩ | ⟨j, chunk, w1, cap, a, hj, hfit, e⟩ | ⟨j, chunk, hj, hfit, e⟩
  · rw [e] at h0; simp at h0
  · rw [e] at h0; simp at h0
  · rw [e]
    refine ⟨{ chunk with
        size := u64_add size (allocate_from_pool.padding chunk.chunk_offset (2 ^ k))
        padding := allocate_from_pool.padding chunk.chunk_offset (2 ^ k)
        used := 1 }, ?_, rfl, padding_aligned hk, padding_lt hk, ?_⟩
    · simp [allocate_from_pool.split_chunks]
    · intro hlt
      simp only [] at hlt ⊢
      rw [Nat.add_comm] at hlt
      rw [u64_add_of_lt hlt]
      omega
  · rw [e]
    have hjl : j < pool.chunks.length := (List.getElem?_eq_some_iff.mp hj).1
    refine ⟨{ chunk with
        padding := allocate_from_pool.padding chunk.chunk_offset (2 ^ k)
        used := 1 }, ?_, rfl, padding_aligned hk, padding_lt hk, ?_⟩
    · exact List.mem_iff_getElem?.mpr ⟨j, by simp [hjl]⟩
    · intro hlt
      have h2 := hfit.2
      simp only [] at hlt ⊢
      rw [u64_add_of_lt hlt] at h2
      omega

/-- The same for a successful `allocate_in_new_pool`. -/
theorem allocate_in_new_pool_aligned_chunk (w : World) (allocator : jvm_allocator)
    (new_pool_size size k idx : Nat) (hk : k < 64)
    (hok : (allocate_in_new_pool w allocator new_pool_size size (2 ^ k) idx).result =
      VK_SUCCESS) :
    ∃ (pool : jvm_allocation_pool) (chunk : jvm_chunk),
      pool ∈ (allocate_in_new_pool w allocator new_pool_size size (2 ^ k) idx).allocator.pools ∧
      chunk ∈ pool.chunks ∧
      (allocate_in_new_pool w allocator new_pool_size size (2 ^ k) idx).p_out =
        some chunk.ptr ∧
      (chunk.chunk_offset + chunk.padding) % 2 ^ k = 0 ∧ chunk.padding < 2 ^ k ∧
      (chunk.padding + size < U64 → chunk.padding + size ≤ chunk.size) := by
  rcases allocate_in_new_pool_cases w allocator new_pool_size size (2 ^ k) idx with
    ⟨w1, res, cap, hres, e⟩ | ⟨w1, cap, pool, c, -, -, -, -, -, -, -, -, -, -, -, e⟩
  · rw [e] at hok; exact absurd hok hres
  · rw [e] at hok ⊢
    simp only [] at hok ⊢
    by_cases h0 : (allocate_from_pool w1
        { allocator with pool_capacity := cap, pools := allocator.pools ++ [pool] }
        pool size (2 ^ k)).result ≠ 0
    · rw [if_pos h0] at hok
      simp [VK_ERROR_OUT_OF_HOST_MEMORY, VK_SUCCESS] at hok
    · rw [if_neg h0]
      obtain ⟨chunk, hmem, hp, h1, h2, h3⟩ := allocate_from_pool_aligned_chunk w1
        { allocator with pool_capacity := cap, pools := allocator.pools ++ [pool] }
        pool size k hk (not_not.mp h0)
      exact ⟨_, chunk, by simp, hmem, hp, h1, h2, h3⟩

/-- The block "check for need to map" when the type chosen and the desired flags both carry
`HOST_VISIBLE`, for power-of-two alignments: the alignment is the larger of the two powers,
the size is at least that. -/
theorem need_to_map_host_visible (allocator : jvm_allocator)
    (idx desired_flags size k m : Nat) (hm : allocator.min_map_alignment = 2 ^ m)
    (hv : ((allocator.memory_properties.memoryType idx).propertyFlags &&& desired_flags) &&&
      VK_MEMORY_PROPERTY_HOST_VISIBLE_BIT ≠ 0) :
    (need_to_map allocator idx desired_flags size (2 ^ k)).2 = 2 ^ max k m ∧
    2 ^ max k m ≤ (need_to_map allocator idx desired_flags size (2 ^ k)).1 ∧
    (need_to_map allocator idx desired_flags size (2 ^ k)).1 ≤ max size (2 ^ max k m) := by
  unfold need_to_map
  rw [if_pos hv, hm]
  simp only []
  have hpow : ∀ a b : Nat, a ≤ b → (2:Nat) ^ a ≤ 2 ^ b :=
    fun a b h => Nat.pow_le_pow_right (by decide) h
  have hal : (if 2 ^ k < 2 ^ m then 2 ^ m else 2 ^ k) = 2 ^ max k m := by
    split_ifs with h
    · have : k < m := (Nat.pow_lt_pow_iff_right (by decide)).mp h
      rw [max_eq_right this.le]
    · have : m ≤ k := by
        by_contra hc
        exact h (Nat.pow_lt_pow_right (by decide) (Nat.lt_of_not_le hc))
      rw [max_eq_left this]
  rw [hal]
  refine ⟨rfl, ?_, ?_⟩ <;> split_ifs <;> omega

theorem mod_two_pow_of_le {a k m : Nat} (h : a % 2 ^ max k m = 0) : a % 2 ^ m = 0 := by
  have hd : 2 ^ m ∣ 2 ^ max k m := Nat.pow_dvd_pow 2 (le_max_right k m)
  exact Nat.mod_eq_zero_of_dvd (Dvd.dvd.trans hd (Nat.dvd_of_mod_eq_zero h))

theorem normalized_size_le (allocator : jvm_allocator) (size alignment : Nat) :
    normalized_size allocator size alignment ≤
      max (max size allocator.min_allocation_size) alignment := by
  unfold normalized_size
  simp only []
  split_ifs <;> omega

/-- What the bump gives for one successful run of `allocate_from_pool` or
`allocate_in_new_pool` with the size and alignment after "check for need to map". -/
theorem host_visible_bounds (allocator : jvm_allocator)
    (idx desired_flags size k m : Nat) (hk : k < 64) (hm : m < 64)
    (hmap : allocator.min_map_alignment = 2 ^ m)
    (hsize : size < 2 ^ 63) (hmin : allocator.min_allocation_size < 2 ^ 63)
    (hv : ((allocator.memory_properties.memoryType idx).propertyFlags &&& desired_flags) &&&
      VK_MEMORY_PROPERTY_HOST_VISIBLE_BIT ≠ 0)
    (chunk : jvm_chunk)
    (h1 : (chunk.chunk_offset + chunk.padding) % 2 ^ max k m = 0)
    (h2 : chunk.padding < 2 ^ max k m)
    (h3 : chunk.padding +
        (need_to_map allocator idx desired_flags (normalized_size allocator size (2 ^ k))
          (2 ^ k)).1 < U64 →
      chunk.padding +
        (need_to_map allocator idx desired_flags (normalized_size allocator size (2 ^ k))
          (2 ^ k)).1 ≤ chunk.size) :
    (chunk.chunk_offset + chunk.padding) % allocator.min_map_alignment = 0 ∧
    chunk.padding ≤ chunk.size ∧
    allocator.min_map_alignment ≤ chunk.size - chunk.padding := by
  obtain ⟨-, hlo, hhi⟩ := need_to_map_host_visible allocator idx desired_flags
    (normalized_size allocator size (2 ^ k)) k m hmap hv
  have hn := normalized_size_le allocator size (2 ^ k)
  have hkm : max k m ≤ 63 := by
    rcases max_cases k m with ⟨h, -⟩ | ⟨h, -⟩ <;> omega
  have hp63 : (2:Nat) ^ max k m ≤ 2 ^ 63 := Nat.pow_le_pow_right (by decide) hkm
  have hk63 : (2:Nat) ^ k ≤ 2 ^ max k m := Nat.pow_le_pow_right (by decide) (le_max_left k m)
  have hm63 : (2:Nat) ^ m ≤ 2 ^ max k m := Nat.pow_le_pow_right (by decide) (le_max_right k m)
  have hU : U64 = 2 ^ 63 + 2 ^ 63 := by simp [U64]
  have hs1 : (need_to_map allocator idx desired_flags
      (normalized_size allocator size (2 ^ k)) (2 ^ k)).1 ≤ 2 ^ 63 := by
    refine le_trans hhi ?_
    rcases max_cases (normalized_size allocator size (2 ^ k)) (2 ^ max k m) with
      ⟨h, -⟩ | ⟨h, -⟩
    · rw [h]
      refine le_trans hn ?_
      rcases max_cases (max size allocator.min_allocation_size) (2 ^ k) with
        ⟨h', -⟩ | ⟨h', -⟩
      · rw [h']
        rcases max_cases size allocator.min_allocation_size with ⟨h'', -⟩ | ⟨h'', -⟩ <;>
          rw [h''] <;> omega
      · rw [h']; omega
    · rw [h]; exact hp63
  have hfit := h3 (by omega)
  rw [hmap]
  exact ⟨mod_two_pow_of_le h1, by omega, by omega⟩

/-! ## C11: host-visible memory and `min_map_alignment` -/

/-- C11 as stated is refuted: the only memory type of `host_visible_allocator` is
host-visible and `min_map_alignment` is 64, and no flag is desired. `jvm_allocate` of 8 bytes
at alignment 8 succeeds with a chunk of 8 bytes; a second call succeeds with a chunk at offset
8, not a multiple of 64; `jvm_allocate_dedicated` succeeds with a chunk of 8 bytes. -/
theorem jvm_allocate_host_visible_not_desired :
    (host_visible_allocator.memory_properties.memoryType 0).propertyFlags &&&
      VK_MEMORY_PROPERTY_HOST_VISIBLE_BIT ≠ 0 ∧
    host_visible_allocator.min_map_alignment = 64 ∧
    (jvm_allocate sample_world host_visible_allocator 8 8 1 0 0).result = VK_SUCCESS ∧
    (jvm_allocate sample_world host_visible_allocator 8 8 1 0 0).p_out = some ⟨103, 100⟩ ∧
    (jvm_allocate sample_world host_visible_allocator 8 8 1 0 0).allocator.pools.map
      (fun pool => (pool.addr, pool.memory_type_index,
        pool.chunks.map (fun c => (c.addr, c.chunk_offset, c.padding, c.size)))) =
      ([(100, 0, [(103, 0, 0, 8), (105, 8, 0, 4088)])] :
        List (Nat × Nat × List (Nat × Nat × Nat × Nat))) ∧
    (jvm_allocate (jvm_allocate sample_world host_visible_allocator 8 8 1 0 0).world
      (jvm_allocate sample_world host_visible_allocator 8 8 1 0 0).allocator 8 8 1 0
      0).result = VK_SUCCESS ∧
    (jvm_allocate (jvm_allocate sample_world host_visible_allocator 8 8 1 0 0).world
      (jvm_allocate sample_world host_visible_allocator 8 8 1 0 0).allocator 8 8 1 0
      0).p_out = some ⟨105, 100⟩ ∧
    (8 + 0) % 64 ≠ 0 ∧ 8 - 0 < 64 ∧
    (jvm_allocate_dedicated sample_world host_visible_allocator 8 8 1 0 0).result =
      VK_SUCCESS ∧
    (jvm_allocate_dedicated sample_world host_visible_allocator 8 8 1 0 0).p_out =
      some ⟨103, 100⟩ ∧
    (jvm_allocate_dedicated sample_world host_visible_allocator 8 8 1 0 0).allocator.pools.map
      (fun pool => (pool.addr, pool.memory_type_index,
        pool.chunks.map (fun c => (c.addr, c.chunk_offset, c.padding, c.size)))) =
      ([(100, 0, [(103, 0, 0, 8)])] : List (Nat × Nat × List (Nat × Nat × Nat × Nat))) := by
  refine ⟨by decide, by decide, by decide, by decide, by rfl, by decide, by decide,
    by decide, by decide, by decide, by decide, by rfl⟩

/-- C11, amended: let `alignment` and `min_map_alignment` be powers of two, `size` and
`min_allocation_size` below `2 ^ 63`. When `jvm_allocate` succeeds and both the memory type
it chose and `desired_flags` carry `HOST_VISIBLE`, the chunk returned satisfies
`(chunk_offset + padding) mod min_map_alignment == 0` and
`size - padding >= min_map_alignment`; the same holds for `jvm_allocate_dedicated`. -/
theorem host_visible_desired_alignment (w : World) (allocator : jvm_allocator)
    (size k m type_bits desired_flags undesired_flags : Nat) (hk : k < 64) (hm : m < 64)
    (hmap : allocator.min_map_alignment = 2 ^ m)
    (hsize : size < 2 ^ 63) (hmin : allocator.min_allocation_size < 2 ^ 63) :
    (∀ idx,
      jvm_allocate.memory_type allocator.memory_properties type_bits desired_flags
        undesired_flags = some idx →
      ((allocator.memory_properties.memoryType idx).propertyFlags &&& desired_flags) &&&
        VK_MEMORY_PROPERTY_HOST_VISIBLE_BIT ≠ 0 →
      (jvm_allocate w allocator size (2 ^ k) type_bits desired_flags undesired_flags).result =
        VK_SUCCESS →
      ∃ (pool : jvm_allocation_pool) (chunk : jvm_chunk),
        pool ∈ (jvm_allocate w allocator size (2 ^ k) type_bits desired_flags
          undesired_flags).allocator.pools ∧
        chunk ∈ pool.chunks ∧
        (jvm_allocate w allocator size (2 ^ k) type_bits desired_flags undesired_flags).p_out =
          some chunk.ptr ∧
        (chunk.chunk_offset + chunk.padding) % allocator.min_map_alignment = 0 ∧
        chunk.padding ≤ chunk.size ∧
        allocator.min_map_alignment ≤ chunk.size - chunk.padding) ∧
    (∀ idx,
      jvm_allocate_dedicated.memory_type allocator.memory_properties type_bits desired_flags
        undesired_flags = some idx →
      ((allocator.memory_properties.memoryType idx).propertyFlags &&& desired_flags) &&&
        VK_MEMORY_PROPERTY_HOST_VISIBLE_BIT ≠ 0 →
      (jvm_allocate_dedicated w allocator size (2 ^ k) type_bits desired_flags
        undesired_flags).result = VK_SUCCESS →
      ∃ (pool : jvm_allocation_pool) (chunk : jvm_chunk),
        pool ∈ (jvm_allocate_dedicated w allocator size (2 ^ k) type_bits desired_flags
          undesired_flags).allocator.pools ∧
        chunk ∈ pool.chunks ∧
        (jvm_allocate_dedicated w allocator size (2 ^ k) type_bits desired_flags
          undesired_flags).p_out = some chunk.ptr ∧
        (chunk.chunk_offset + chunk.padding) % allocator.min_map_alignment = 0 ∧
        chunk.padding ≤ chunk.size ∧
        allocator.min_map_alignment ≤ chunk.size - chunk.padding) := by
  have hkm : max k m < 64 := by
    rcases max_cases k m with ⟨h, -⟩ | ⟨h, -⟩ <;> omega
  constructor
  · intro idx hidx hv hok
    have hal := (need_to_map_host_visible allocator idx desired_flags
      (normalized_size allocator size (2 ^ k)) k m hmap hv).1
    rcases jvm_allocate_outcome w allocator size (2 ^ k) type_bits desired_flags
        undesired_flags with ⟨-, e⟩ | ⟨idx', j, pool, hidx', hj, -, -, e⟩ | ⟨idx', n, hidx', e⟩
    · rw [e] at hok; simp [VK_ERROR_OUT_OF_DEVICE_MEMORY, VK_SUCCESS] at hok
    · rw [hidx] at hidx'
      simp only [Option.some.injEq] at hidx'
      subst hidx'
      rw [e] at hok ⊢
      rw [hal] at hok ⊢
      simp only [] at hok ⊢
      by_cases h0 : (allocate_from_pool w allocator pool
          (need_to_map allocator idx desired_flags (normalized_size allocator size (2 ^ k))
            (2 ^ k)).1 (2 ^ max k m)).result = 0
      · rw [if_pos h0]
        obtain ⟨chunk, hmem, hp, h1, h2, h3⟩ := allocate_from_pool_aligned_chunk w allocator
          pool _ (max k m) hkm h0
        have hjl : j < allocator.pools.length := (List.getElem?_eq_some_iff.mp hj).1
        exact ⟨_, chunk, List.mem_iff_getElem?.mpr ⟨j, by simp [hjl]⟩, hmem, hp,
          host_visible_bounds allocator idx desired_flags size k m hk hm hmap hsize hmin hv
            chunk h1 h2 h3⟩
      · rw [if_neg h0] at hok
        simp [VK_ERROR_OUT_OF_HOST_MEMORY, VK_SUCCESS] at hok
    · rw [hidx] at hidx'
      simp only [Option.some.injEq] at hidx'
      subst hidx'
      rw [e] at hok ⊢
      rw [hal] at hok ⊢
      obtain ⟨pool, chunk, hpool, hmem, hp, h1, h2, h3⟩ :=
        allocate_in_new_pool_aligned_chunk w allocator n _ (max k m) idx hkm hok
      exact ⟨pool, chunk, hpool, hmem, hp,
        host_visible_bounds allocator idx desired_flags size k m hk hm hmap hsize hmin hv
          chunk h1 h2 h3⟩
  · intro idx hidx hv hok
    have hal := (need_to_map_host_visible allocator idx desired_flags
      (normalized_size allocator size (2 ^ k)) k m hmap hv).1
    rcases jvm_allocate_dedicated_outcome w allocator size (2 ^ k) type_bits desired_flags
        undesired_flags with ⟨-, e⟩ | ⟨idx', hidx', e⟩
    · rw [e] at hok; simp [VK_ERROR_OUT_OF_DEVICE_MEMORY, VK_SUCCESS] at hok
    · rw [hidx] at hidx'
      simp only [Option.some.injEq] at hidx'
      subst hidx'
      rw [e] at hok ⊢
      rw [hal] at hok ⊢
      obtain ⟨pool, chunk, hpool, hmem, hp, h1, h2, h3⟩ :=
        allocate_in_new_pool_aligned_chunk w allocator _ _ (max k m) idx hkm hok
      exact ⟨pool, chunk, hpool, hmem, hp,
        host_visible_bounds allocator idx desired_flags size k m hk hm hmap hsize hmin hv
          chunk h1 h2 h3⟩

/-- C11, amended, witness: 8 bytes at alignment 8 on `host_visible_allocator`, host-visible
memory desired. -/
theorem host_visible_desired_alignment_witness :
    (∃ (pool : jvm_allocation_pool) (chunk : jvm_chunk),
        pool ∈ (jvm_allocate sample_world host_visible_allocator 8 (2 ^ 3) 1 2
          0).allocator.pools ∧
        chunk ∈ pool.chunks ∧
        (jvm_allocate sample_world host_visible_allocator 8 (2 ^ 3) 1 2 0).p_out =
          some chunk.ptr ∧
        (chunk.chunk_offset + chunk.padding) % host_visible_allocator.min_map_alignment = 0 ∧
        chunk.padding ≤ chunk.size ∧
        host_visible_allocator.min_map_alignment ≤ chunk.size - chunk.padding) ∧
    (∃ (pool : jvm_allocation_pool) (chunk : jvm_chunk),
        pool ∈ (jvm_allocate_dedicated sample_world host_visible_allocator 8 (2 ^ 3) 1 2
          0).allocator.pools ∧
        chunk ∈ pool.chunks ∧
        (jvm_allocate_dedicated sample_world host_visible_allocator 8 (2 ^ 3) 1 2 0).p_out =
          some chunk.ptr ∧
        (chunk.chunk_offset + chunk.padding) % host_visible_allocator.min_map_alignment = 0 ∧
        chunk.padding ≤ chunk.size ∧
        host_visible_allocator.min_map_alignment ≤ chunk.size - chunk.padding) :=
  ⟨(host_visible_desired_alignment sample_world host_visible_allocator 8 3 6 1 2 0 (by decide)
      (by decide) (by decide) (by decide) (by decide)).1 0 (by decide) (by decide) (by decide),
   (host_visible_desired_alignment sample_world host_visible_allocator 8 3 6 1 2 0 (by decide)
      (by decide) (by decide) (by decide) (by decide)).2 0 (by decide) (by decide) (by decide)⟩

/-- When `allocate_from_pool` does not return 0, the pool is as before but for
`chunk_capacity`, and no chunk is handed out. -/
theorem allocate_from_pool_failure (w : World) (allocator : jvm_allocator)
    (pool : jvm_allocation_pool) (size alignment : Nat)
    (h : (allocate_from_pool w allocator pool size alignment).result ≠ 0) :
    (∃ cap, (allocate_from_pool w allocator pool size alignment).pool =
      { pool with chunk_capacity := cap }) ∧
    (allocate_from_pool w allocator pool size alignment).p_out = none := by
  rcases allocate_from_pool_outcome w allocator pool size alignment with
    e | ⟨w1, cap, e⟩ | ⟨j, chunk, w1, cap, a, -, -, e⟩ | ⟨j, chunk, -, -, e⟩
  · rw [e]; exact ⟨⟨pool.chunk_capacity, rfl⟩, rfl⟩
  · rw [e]; exact ⟨⟨cap, rfl⟩, rfl⟩
  · rw [e] at h; exact absurd rfl h
  · rw [e] at h; exact absurd rfl h

theorem forall2_capacity_refl (l : List jvm_allocation_pool) :
    List.Forall₂ (fun p q => ∃ cap, q = { p with chunk_capacity := cap }) l l := by
  induction l with
  | nil => exact List.Forall₂.nil
  | cons p l ih => exact List.Forall₂.cons ⟨p.chunk_capacity, rfl⟩ ih

theorem forall2_capacity_set (l : List jvm_allocation_pool) (j cap : Nat)
    (pool : jvm_allocation_pool) (hj : l[j]? = some pool) :
    List.Forall₂ (fun p q => ∃ cap, q = { p with chunk_capacity := cap }) l
      (l.set j { pool with chunk_capacity := cap }) := by
  induction l generalizing j with
  | nil => exact List.Forall₂.nil
  | cons p l ih =>
    cases j with
    | zero =>
      simp only [List.getElem?_cons_zero, Option.some.injEq] at hj
      subst hj
      exact List.Forall₂.cons ⟨cap, rfl⟩ (forall2_capacity_refl l)
    | succ j =>
      simp only [List.getElem?_cons_succ] at hj
      exact List.Forall₂.cons ⟨p.chunk_capacity, rfl⟩ (ih j hj)

/-- A failed `allocate_in_new_pool`: the pools of before are untouched, and at most one pool
of one unused chunk is appended. -/
theorem allocate_in_new_pool_failure (w : World) (allocator : jvm_allocator)
    (new_pool_size size alignment idx : Nat)
    (hfail : (allocate_in_new_pool w allocator new_pool_size size alignment idx).result ≠
      VK_SUCCESS) :
    ∃ (extra : List jvm_allocation_pool),
      (allocate_in_new_pool w allocator new_pool_size size alignment idx).allocator.pools =
        allocator.pools ++ extra ∧
      (extra = [] ∨
        ∃ (pool : jvm_allocation_pool) (c : jvm_chunk), extra = [pool] ∧ pool.chunks = [c] ∧
          c.used = 0 ∧ c.mapped = 0 ∧ c.chunk_offset = 0 ∧ c.size = pool.size ∧
          pool.size = new_pool_size ∧ pool.map_count = 0) ∧
      (allocate_in_new_pool w allocator new_pool_size size alignment idx).p_out = none := by
  rcases allocate_in_new_pool_cases w allocator new_pool_size size alignment idx with
    ⟨w1, res, cap, hres, e⟩ | ⟨w1, cap, pool, c, e1, e2, e3, e4, e5, e6, e7, e8, e9, e10, -, e⟩
  · rw [e]
    exact ⟨[], by simp, Or.inl rfl, rfl⟩
  · rw [e] at hfail ⊢
    simp only [] at hfail ⊢
    by_cases h0 : (allocate_from_pool w1
        { allocator with pool_capacity := cap, pools := allocator.pools ++ [pool] }
        pool size alignment).result ≠ 0
    · rw [if_pos h0]
      obtain ⟨⟨cap2, hp⟩, -⟩ := allocate_from_pool_failure _ _ _ _ _ h0
      rw [hp]
      exact ⟨[{ pool with chunk_capacity := cap2 }], rfl,
        Or.inr ⟨_, c, rfl, e1, e4, e6, e2, e3.trans e8.symm, e8, e10⟩, rfl⟩
    · rw [if_neg h0] at hfail
      exact absurd rfl hfail

/-! ## C20: the pool list after a failed `jvm_allocate` -/

/-- C20 as stated is refuted: on an allocator without pools, with a world whose fifth host
allocation fails (the one for the chunk record of the split), `jvm_allocate` returns
`VK_ERROR_OUT_OF_HOST_MEMORY`, and the pool it created stays in the pool list, its device
memory allocated and not freed. -/
theorem jvm_allocate_failure_keeps_new_pool :
    two_heaps_allocator.pools = [] ∧
    (jvm_allocate fifth_alloc_fails_world two_heaps_allocator 100 64 3 1 0).result =
      VK_ERROR_OUT_OF_HOST_MEMORY ∧
    (jvm_allocate fifth_alloc_fails_world two_heaps_allocator 100 64 3 1 0).result ≠
      VK_SUCCESS ∧
    (jvm_allocate fifth_alloc_fails_world two_heaps_allocator 100 64 3 1 0).allocator.pools.map
      (fun pool => (pool.addr, pool.size, pool.chunks.map (fun c => (c.addr, c.used, c.size)))) =
      ([(100, 1048576, [(103, 0, 1048576)])] : List (Nat × Nat × List (Nat × Nat × Nat))) ∧
    (jvm_allocate fifth_alloc_fails_world two_heaps_allocator 100 64 3 1 0).allocator.pool_count
      ≠ two_heaps_allocator.pool_count ∧
    (jvm_allocate fifth_alloc_fails_world two_heaps_allocator 100 64 3 1 0).world.log =
      [Event.report, Event.jvm_error, Event.vkAllocateMemory 1048576 0] := by
  refine ⟨by decide, by decide, by decide, by rfl, by decide, by decide⟩

/-- C20, amended: when `jvm_allocate` returns a result other than `VK_SUCCESS`, `*p_out` is
not written, every pool that was in the pool list is still there, at its index, the same but
for `chunk_capacity` (so with the same chunk list), and either nothing else is in the list or
one pool was appended that is one unused, unmapped chunk covering it. -/
theorem jvm_allocate_failure_frame (w : World) (allocator : jvm_allocator)
    (size alignment type_bits desired_flags undesired_flags : Nat)
    (hfail : (jvm_allocate w allocator size alignment type_bits desired_flags
      undesired_flags).result ≠ VK_SUCCESS) :
    ∃ (old extra : List jvm_allocation_pool),
      (jvm_allocate w allocator size alignment type_bits desired_flags
        undesired_flags).allocator.pools = old ++ extra ∧
      List.Forall₂ (fun p q => ∃ cap, q = { p with chunk_capacity := cap }) allocator.pools
        old ∧
      (extra = [] ∨
        ∃ (pool : jvm_allocation_pool) (c : jvm_chunk), extra = [pool] ∧ pool.chunks = [c] ∧
          c.used = 0 ∧ c.mapped = 0 ∧ c.chunk_offset = 0 ∧ c.size = pool.size ∧
          pool.map_count = 0) ∧
      (jvm_allocate w allocator size alignment type_bits desired_flags
        undesired_flags).p_out = none := by
  rcases jvm_allocate_outcome w allocator size alignment type_bits desired_flags
      undesired_flags with ⟨-, e⟩ | ⟨idx, j, pool, -, hj, -, -, e⟩ | ⟨idx, n, -, e⟩
  · rw [e]
    exact ⟨allocator.pools, [], by simp, forall2_capacity_refl _, Or.inl rfl, rfl⟩
  · rw [e] at hfail ⊢
    simp only [] at hfail ⊢
    by_cases h0 : (allocate_from_pool w allocator pool
        (need_to_map allocator idx desired_flags (normalized_size allocator size alignment)
          alignment).1
        (need_to_map allocator idx desired_flags (normalized_size allocator size alignment)
          alignment).2).result = 0
    · rw [if_pos h0] at hfail
      exact absurd rfl hfail
    · rw [if_neg h0]
      obtain ⟨⟨cap, hp⟩, -⟩ := allocate_from_pool_failure _ _ _ _ _ h0
      rw [hp]
      exact ⟨_, [], by simp, forall2_capacity_set _ j cap pool hj, Or.inl rfl, rfl⟩
  · rw [e] at hfail ⊢
    obtain ⟨extra, h1, h2, h3⟩ := allocate_in_new_pool_failure w allocator n _ _ idx hfail
    refine ⟨allocator.pools, extra, h1, forall2_capacity_refl _, ?_, h3⟩
    rcases h2 with h2 | ⟨pool, c, a1, a2, a3, a4, a5, a6, -, a8⟩
    · exact Or.inl h2
    · exact Or.inr ⟨pool, c, a1, a2, a3, a4, a5, a6, a8⟩

/-- C20, amended, witness: the run of the counterexample. -/
theorem jvm_allocate_failure_frame_witness :
    ∃ (old extra : List jvm_allocation_pool),
      (jvm_allocate fifth_alloc_fails_world two_heaps_allocator 100 64 3 1
        0).allocator.pools = old ++ extra ∧
      List.Forall₂ (fun p q => ∃ cap, q = { p with chunk_capacity := cap })
        two_heaps_allocator.pools old ∧
      (extra = [] ∨
        ∃ (pool : jvm_allocation_pool) (c : jvm_chunk), extra = [pool] ∧ pool.chunks = [c] ∧
          c.used = 0 ∧ c.mapped = 0 ∧ c.chunk_offset = 0 ∧ c.size = pool.size ∧
          pool.map_count = 0) ∧
      (jvm_allocate fifth_alloc_fails_world two_heaps_allocator 100 64 3 1 0).p_out = none :=
  jvm_allocate_failure_frame fifth_alloc_fails_world two_heaps_allocator 100 64 3 1 0
    (by decide)

/-! ## The map reference count -/

theorem mapped_count_nil : mapped_count [] = 0 := rfl

theorem mapped_count_cons (c : jvm_chunk) (l : List jvm_chunk) :
    mapped_count (c :: l) = (if c.mapped ≠ 0 then 1 else 0) + mapped_count l := by
  unfold mapped_count
  rw [List.filter_cons]
  by_cases h : c.mapped ≠ 0
  · simp [h]; omega
  · simp [h]

theorem mapped_count_append (l1 l2 : List jvm_chunk) :
    mapped_count (l1 ++ l2) = mapped_count l1 + mapped_count l2 := by
  unfold mapped_count
  rw [List.filter_append, List.length_append]

theorem mapped_count_reverse (l : List jvm_chunk) :
    mapped_count l.reverse = mapped_count l := by
  unfold mapped_count
  rw [List.filter_reverse, List.length_reverse]

theorem mapped_count_set (l : List jvm_chunk) (j : Nat) (c c1 : jvm_chunk)
    (hj : l[j]? = some c) :
    mapped_count (l.set j c1) + (if c.mapped ≠ 0 then 1 else 0) =
      mapped_count l + (if c1.mapped ≠ 0 then 1 else 0) := by
  induction l generalizing j with
  | nil => simp at hj
  | cons d l ih =>
    cases j with
    | zero =>
      simp only [List.getElem?_cons_zero, Option.some.injEq] at hj
      subst hj
      rw [List.set_cons_zero, mapped_count_cons, mapped_count_cons]
      omega
    | succ j =>
      simp only [List.getElem?_cons_succ] at hj
      rw [List.set_cons_succ, mapped_count_cons, mapped_count_cons]
      have := ih j hj
      omega

theorem merge_right_mapped (x : jvm_chunk) (post : List jvm_chunk)
    (hpost : ∀ c ∈ post, c.used = 0 → c.mapped = 0) :
    (merge_right x post).1.mapped = x.mapped ∧ (merge_right x post).1.used = x.used ∧
    mapped_count (merge_right x post).2 = mapped_count post ∧
    (∀ c ∈ (merge_right x post).2, c.used = 0 → c.mapped = 0) := by
  induction post generalizing x with
  | nil => exact ⟨rfl, rfl, rfl, by simp [merge_right]⟩
  | cons d r ih =>
    unfold merge_right
    by_cases h : x.used = 0 ∧ d.used = 0
    · rw [if_pos h]
      obtain ⟨h1, h2, h3, h4⟩ := ih (x.absorb d)
        (fun c hc => hpost c (List.mem_cons_of_mem _ hc))
      have hd : d.mapped = 0 := hpost d (List.mem_cons_self _ _) h.2
      refine ⟨h1, h2, ?_, h4⟩
      rw [h3, mapped_count_cons]
      simp [hd]
    · rw [if_neg h]
      exact ⟨rfl, rfl, rfl, hpost⟩

theorem merge_left_mapped (rl : List jvm_chunk) (x : jvm_chunk) (hx : x.mapped = 0)
    (hrl : ∀ c ∈ rl, c.used = 0 → c.mapped = 0) :
    mapped_count (merge_left rl x) = mapped_count rl ∧
    (∀ c ∈ merge_left rl x, c.used = 0 → c.mapped = 0) := by
  induction rl generalizing x with
  | nil =>
    unfold merge_left
    refine ⟨by rw [mapped_count_cons]; simp [hx, mapped_count_nil], ?_⟩
    intro c hc _
    simp only [List.mem_singleton] at hc
    rw [hc]; exact hx
  | cons l r ih =>
    unfold merge_left
    by_cases h : l.used = 0 ∧ x.used = 0
    · rw [if_pos h]
      have hl : l.mapped = 0 := hrl l (List.mem_cons_self _ _) h.1
      obtain ⟨h1, h2⟩ := ih (l.absorb x) hl (fun c hc => hrl c (List.mem_cons_of_mem _ hc))
      refine ⟨?_, h2⟩
      rw [h1, mapped_count_cons]
      simp [hl]
    · rw [if_neg h]
      constructor
      · rw [mapped_count_append, mapped_count_reverse, mapped_count_cons, mapped_count_cons,
          mapped_count_cons, mapped_count_nil]
        simp [hx]
        omega
      · intro c hc hu
        simp only [List.mem_append, List.mem_reverse, List.mem_cons, List.mem_singleton,
          List.not_mem_nil, or_false] at hc
        rcases hc with hc | rfl | rfl
        · exact hrl c (List.mem_cons_of_mem _ hc) hu
        · exact hrl c (List.mem_cons_self _ _) hu
        · exact hx

/-- The chunk list `deallocate_from_pool` makes of `pre ++ x :: post` keeps the count of
mapped chunks when `x` is not mapped and no unused chunk is. -/
theorem deallocate_chunks_mapped (pre post : List jvm_chunk) (x : jvm_chunk)
    (hx : x.mapped = 0) (hf : ∀ c ∈ pre ++ x :: post, c.used = 0 → c.mapped = 0) :
    mapped_count
        (merge_left pre.reverse (merge_right x.release post).1 ++
          (merge_right x.release post).2) =
      mapped_count (pre ++ x :: post) ∧
    (∀ c ∈ merge_left pre.reverse (merge_right x.release post).1 ++
          (merge_right x.release post).2, c.used = 0 → c.mapped = 0) := by
  have hpost : ∀ c ∈ post, c.used = 0 → c.mapped = 0 :=
    fun c hc => hf c (by simp [hc])
  have hpre : ∀ c ∈ pre.reverse, c.used = 0 → c.mapped = 0 :=
    fun c hc => hf c (by simp [List.mem_reverse.mp hc])
  obtain ⟨h1, -, h3, h4⟩ := merge_right_mapped x.release post hpost
  have hx1 : (merge_right x.release post).1.mapped = 0 := by rw [h1]; exact hx
  obtain ⟨h5, h6⟩ := merge_left_mapped pre.reverse _ hx1 hpre
  constructor
  · rw [mapped_count_append, h5, h3, mapped_count_reverse, mapped_count_append,
      mapped_count_cons]
    simp [hx]
  · intro c hc hu
    rcases List.mem_append.mp hc with hc | hc
    · exact h6 c hc hu
    · exact h4 c hc hu

theorem map_count_inv_capacity {pool : jvm_allocation_pool} (cap : Nat)
    (h : map_count_inv pool) : map_count_inv { pool with chunk_capacity := cap } := h

/-- Marking a chunk used keeps the invariant of the pool. -/
theorem map_count_inv_set_used {pool : jvm_allocation_pool} (h : map_count_inv pool)
    (j : Nat) (chunk c1 : jvm_chunk) (hj : pool.chunks[j]? = some chunk)
    (hm : c1.mapped = chunk.mapped) (hu : c1.used ≠ 0) :
    map_count_inv { pool with chunks := pool.chunks.set j c1 } := by
  obtain ⟨h1, h2⟩ := h
  constructor
  · have := mapped_count_set pool.chunks j chunk c1 hj
    rw [hm] at this
    show pool.map_count = mapped_count (pool.chunks.set j c1)
    omega
  · intro c hc hcu
    rcases List.mem_or_eq_of_mem_set hc with hc | rfl
    · exact h2 c hc hcu
    · exact absurd hcu hu

/-- `allocate_from_pool` keeps the invariant of the pool. -/
theorem allocate_from_pool_map_count_inv (w : World) (allocator : jvm_allocator)
    (pool : jvm_allocation_pool) (size alignment : Nat) (h : map_count_inv pool) :
    map_count_inv (allocate_from_pool w allocator pool size alignment).pool := by
  rcases allocate_from_pool_outcome w allocator pool size alignment with
    e | ⟨w1, cap, e⟩ | ⟨j, chunk, w1, cap, a, hj, -, e⟩ | ⟨j, chunk, hj, -, e⟩
  · rw [e]; exact h
  · rw [e]; exact h
  · rw [e]
    obtain ⟨h1, h2⟩ := h
    have hsplit := list_split_at hj
    have hcount : mapped_count pool.chunks =
        mapped_count (pool.chunks.take j) + ((if chunk.mapped ≠ 0 then 1 else 0) +
          mapped_count (pool.chunks.drop (j + 1))) := by
      conv_lhs => rw [hsplit]
      rw [mapped_count_append, mapped_count_cons]
    constructor
    · show pool.map_count = mapped_count (allocate_from_pool.split_chunks pool j chunk size _ _ a)
      unfold allocate_from_pool.split_chunks
      rw [mapped_count_append, mapped_count_cons, mapped_count_cons, h1, hcount]
      simp
    · intro c hc hcu
      unfold allocate_from_pool.split_chunks at hc
      simp only [List.mem_append, List.mem_cons] at hc
      rcases hc with hc | rfl | rfl | hc
      · exact h2 c (List.mem_of_mem_take hc) hcu
      · simp at hcu
      · rfl
      · exact h2 c (List.mem_of_mem_drop hc) hcu
  · rw [e]
    exact map_count_inv_set_used h j chunk _ hj rfl (by simp)

/-- Writing a pool that satisfies the invariant over a pool of the list keeps the invariant
of every pool. -/
theorem map_count_inv_set {l : List jvm_allocation_pool} (h : ∀ p ∈ l, map_count_inv p)
    (k : Nat) (pool1 : jvm_allocation_pool) (h1 : map_count_inv pool1) :
    ∀ p ∈ l.set k pool1, map_count_inv p := by
  intro p hp
  rcases List.mem_or_eq_of_mem_set hp with hp | rfl
  · exact h p hp
  · exact h1

/-- `allocate_in_new_pool` keeps the invariant of every pool. -/
theorem allocate_in_new_pool_map_count_inv (w : World) (allocator : jvm_allocator)
    (new_pool_size size alignment idx : Nat) (h : ∀ p ∈ allocator.pools, map_count_inv p) :
    ∀ p ∈ (allocate_in_new_pool w allocator new_pool_size size alignment idx).allocator.pools,
      map_count_inv p := by
  rcases allocate_in_new_pool_cases w allocator new_pool_size size alignment idx with
    ⟨w1, res, cap, -, e⟩ | ⟨w1, cap, pool, c, e1, -, -, -, -, e6, -, -, -, e10, -, e⟩
  · rw [e]; exact h
  · rw [e]
    intro p hp
    simp only [List.mem_append, List.mem_singleton] at hp
    rcases hp with hp | rfl
    · exact h p hp
    · apply allocate_from_pool_map_count_inv
      constructor
      · rw [e10, e1, mapped_count_cons, mapped_count_nil]; simp [e6]
      · intro c' hc' _
        rw [e1] at hc'
        simp only [List.mem_singleton] at hc'
        rw [hc']; exact e6

/-- `jvm_allocate` keeps the invariant of every pool, whatever it returns. -/
theorem jvm_allocate_map_count_inv (w : World) (allocator : jvm_allocator)
    (size alignment type_bits desired_flags undesired_flags : Nat)
    (h : ∀ p ∈ allocator.pools, map_count_inv p) :
    ∀ p ∈ (jvm_allocate w allocator size alignment type_bits desired_flags
      undesired_flags).allocator.pools, map_count_inv p := by
  rcases jvm_allocate_outcome w allocator size alignment type_bits desired_flags
      undesired_flags with ⟨-, e⟩ | ⟨idx, j, pool, -, hj, -, -, e⟩ | ⟨idx, n, -, e⟩
  · rw [e]; exact h
  · rw [e]
    exact map_count_inv_set h j _
      (allocate_from_pool_map_count_inv _ _ _ _ _
        (h pool (List.mem_iff_getElem?.mpr ⟨j, hj⟩)))
  · rw [e]
    exact allocate_in_new_pool_map_count_inv w allocator n _ _ idx h

/-- `jvm_allocate_dedicated` keeps the invariant of every pool, whatever it returns. -/
theorem jvm_allocate_dedicated_map_count_inv (w : World) (allocator : jvm_allocator)
    (size alignment type_bits desired_flags undesired_flags : Nat)
    (h : ∀ p ∈ allocator.pools, map_count_inv p) :
    ∀ p ∈ (jvm_allocate_dedicated w allocator size alignment type_bits desired_flags
      undesired_flags).allocator.pools, map_count_inv p := by
  rcases jvm_allocate_dedicated_outcome w allocator size alignment type_bits desired_flags
      undesired_flags with ⟨-, e⟩ | ⟨idx, -, e⟩
  · rw [e]; exact h
  · rw [e]
    exact allocate_in_new_pool_map_count_inv w allocator _ _ _ idx h

theorem mapped_count_pos {l : List jvm_chunk} {c : jvm_chunk} (hc : c ∈ l)
    (hm : c.mapped ≠ 0) : 0 < mapped_count l := by
  unfold mapped_count
  exact List.length_pos_of_mem (List.mem_filter.mpr ⟨hc, by simpa using hm⟩)

/-- The stores of the map functions keep the invariant of the pool when the count moves with
the flag. -/
theorem map_count_inv_store {pool pool1 : jvm_allocation_pool} {c c1 : jvm_chunk} {j : Nat}
    (hJ : map_count_inv pool) (hj : pool.chunks[j]? = some c)
    (hchunks : pool1.chunks = pool.chunks)
    (hcount : pool1.map_count + (if c.mapped ≠ 0 then 1 else 0) =
      pool.map_count + (if c1.mapped ≠ 0 then 1 else 0))
    (hfree : c1.used = 0 → c1.mapped = 0) :
    map_count_inv { pool1 with chunks := pool1.chunks.set j c1 } := by
  obtain ⟨h1, h2⟩ := hJ
  constructor
  · have := mapped_count_set pool.chunks j c c1 hj
    show pool1.map_count = mapped_count (pool1.chunks.set j c1)
    rw [hchunks]
    omega
  · intro d hd hdu
    rw [hchunks] at hd
    rcases List.mem_or_eq_of_mem_set hd with hd | rfl
    · exact h2 d hd hdu
    · exact hfree hdu

theorem store_map_count_inv {allocator : jvm_allocator} (chunk : chunk_ptr)
    (pool1 : jvm_allocation_pool) (c1 : jvm_chunk)
    (h : ∀ p ∈ allocator.pools, map_count_inv p)
    (h1 : map_count_inv
      { pool1 with
        chunks := pool1.chunks.set (pool1.chunks.findIdx (fun c => c.addr == chunk.addr)) c1 }) :
    ∀ p ∈ (allocator.store chunk pool1 c1).pools, map_count_inv p :=
  map_count_inv_set h _ _ h1

/-- `jvm_chunk_map` of an allocation returns, keeps the invariant of every pool, and leaves
the pointer an allocation. -/
theorem jvm_chunk_map_map_count_inv (w : World) (allocator : jvm_allocator)
    (chunk : chunk_ptr) (pool : jvm_allocation_pool) (c : jvm_chunk)
    (h : ∀ p ∈ allocator.pools, map_count_inv p)
    (hderef : allocator.deref chunk = some (pool, c)) (hu : c.used ≠ 0) :
    ∃ r, jvm_chunk_map w allocator chunk = some r ∧
      ∀ p ∈ r.allocator.pools, map_count_inv p := by
  obtain ⟨hp, hc⟩ := deref_some hderef
  have hJ : map_count_inv pool := h pool (List.mem_iff_getElem?.mpr ⟨_, hp⟩)
  by_cases hm : c.mapped = 0
  · have hstore : ∀ (ptr : Option Nat),
        ∀ p ∈ (allocator.store chunk
          { pool with map_ptr := ptr, map_count := pool.map_count + 1 }
          { c with mapped := 1 }).pools, map_count_inv p := by
      intro ptr
      apply store_map_count_inv chunk _ _ h
      exact map_count_inv_store hJ hc rfl (by simp [hm]) (fun h0 => absurd h0 hu)
    by_cases hcount : pool.map_count ≠ 0
    · rw [jvm_chunk_map_shared w allocator chunk pool c hderef hm hcount]
      exact ⟨_, rfl, hstore pool.map_ptr⟩
    · rcases jvm_chunk_map_first w allocator chunk pool c hderef hm (not_not.mp hcount) with
        ⟨w1, res, -, -, e⟩ | ⟨w1, -, e⟩
      · rw [e]
        exact ⟨_, rfl, map_count_inv_set h _ _
          (show map_count_inv { pool with map_ptr := (w1.stray_write pool.map_ptr).2 } from hJ)⟩
      · rw [e]; exact ⟨_, rfl, hstore (some w1.next)⟩
  · refine ⟨⟨w, VK_ERROR_MEMORY_MAP_FAILED, allocator, none, none⟩, ?_, h⟩
    unfold jvm_chunk_map
    simp only [hp, hc]
    rw [if_pos hm]

/-- `jvm_chunk_unmap` of an allocation returns and keeps the invariant of every pool; when
the chunk was mapped, the record is not mapped afterwards. -/
theorem jvm_chunk_unmap_map_count_inv (w : World) (allocator : jvm_allocator)
    (chunk : chunk_ptr) (pool : jvm_allocation_pool) (c : jvm_chunk)
    (h : ∀ p ∈ allocator.pools, map_count_inv p)
    (hderef : allocator.deref chunk = some (pool, c)) :
    ∃ r, jvm_chunk_unmap w allocator chunk = some r ∧
      (∀ p ∈ r.allocator.pools, map_count_inv p) ∧
      (c.mapped ≠ 0 →
        ∃ pool1, r.allocator.deref chunk = some (pool1, { c with mapped := 0 })) := by
  obtain ⟨hp, hc⟩ := deref_some hderef
  have hJ : map_count_inv pool := h pool (List.mem_iff_getElem?.mpr ⟨_, hp⟩)
  by_cases hm : c.mapped = 0
  · refine ⟨⟨w, VK_ERROR_MEMORY_MAP_FAILED, allocator⟩, ?_, h, fun h0 => absurd hm h0⟩
    unfold jvm_chunk_unmap
    simp only [hp, hc]
    rw [if_pos hm]
  · have hpos : 0 < pool.map_count := by
      rw [hJ.1]
      exact mapped_count_pos (List.mem_iff_getElem?.mpr ⟨_, hc⟩) hm
    have hstore : ∀ (ptr : Option Nat),
        (∀ p ∈ (allocator.store chunk
          { pool with map_count := pool.map_count - 1, map_ptr := ptr }
          { c with mapped := 0 }).pools, map_count_inv p) ∧
        ∃ pool1, (allocator.store chunk
          { pool with map_count := pool.map_count - 1, map_ptr := ptr }
          { c with mapped := 0 }).deref chunk = some (pool1, { c with mapped := 0 }) := by
      intro ptr
      constructor
      · apply store_map_count_inv chunk _ _ h
        refine map_count_inv_store hJ hc rfl ?_ (fun _ => rfl)
        simp only [hm, ne_eq, not_false_eq_true, if_true, not_true_eq_false, if_false]
        omega
      · exact ⟨_, store_deref_same allocator chunk pool _ c _ hderef rfl rfl rfl⟩
    by_cases hcount : pool.map_count - 1 ≠ 0
    · rw [jvm_chunk_unmap_shared w allocator chunk pool c hderef hm hcount]
      exact ⟨_, rfl, (hstore pool.map_ptr).1, fun _ => (hstore pool.map_ptr).2⟩
    · rw [jvm_chunk_unmap_last w allocator chunk pool c hderef hm (by omega)]
      exact ⟨_, rfl, (hstore none).1, fun _ => (hstore none).2⟩

/-- The pools after `remove_pool` are pools of before. -/
theorem remove_pool_pools (w : World) (this : jvm_allocator) (pool : jvm_allocation_pool) :
    ∀ p ∈ (remove_pool w this pool).2.2.pools, p ∈ this.pools := by
  unfold remove_pool
  simp only []
  by_cases h1 : pool.chunk_count > 1 ∨ (pool.chunks.map (fun c => c.used)).headD 0 ≠ 0
  · rw [if_pos h1]; exact fun p hp => hp
  · rw [if_neg h1]
    by_cases h2 : this.pools.findIdx (fun p => p.addr == pool.addr) = this.pool_count
    · rw [if_pos h2]; exact fun p hp => hp
    · rw [if_neg h2]; exact fun p hp => List.mem_of_mem_eraseIdx hp

/-- The pools after `jvm_deallocate` are pools of before, but for the pool of the chunk,
which is as `deallocate_from_pool` left it. -/
theorem jvm_deallocate_pools (w : World) (allocator : jvm_allocator) (chunk : chunk_ptr)
    (pool : jvm_allocation_pool)
    (hp : allocator.pools[allocator.pools.findIdx (fun p => p.addr == chunk.pool)]? =
      some pool) :
    ∃ r, jvm_deallocate w allocator chunk = some r ∧
      ∀ p ∈ r.allocator.pools,
        p ∈ allocator.pools.set (allocator.pools.findIdx (fun p => p.addr == chunk.pool))
          (deallocate_from_pool pool chunk).2 := by
  unfold jvm_deallocate
  simp only [hp]
  rcases deallocate_from_pool pool chunk with ⟨res, pool1⟩
  simp only []
  by_cases hneg : res < 0
  · rw [if_pos hneg]
    exact ⟨_, rfl, fun p hp => hp⟩
  · rw [if_neg hneg]
    by_cases h1 : pool1.chunk_count = 1 ∧ allocator.automatically_free_unused ≠ 0
    · rw [if_pos h1]
      have hsub := remove_pool_pools w
          { allocator with
            pools := allocator.pools.set
              (allocator.pools.findIdx (fun p => p.addr == chunk.pool)) pool1 }
          pool1
      generalize remove_pool w
          { allocator with
            pools := allocator.pools.set
              (allocator.pools.findIdx (fun p => p.addr == chunk.pool)) pool1 }
          pool1 = rp at hsub ⊢
      obtain ⟨w1, res1, allocator2⟩ := rp
      simp only [] at hsub ⊢
      by_cases h2 : res1 < 0
      · rw [if_pos h2]; exact ⟨_, rfl, hsub⟩
      · rw [if_neg h2]; exact ⟨_, rfl, hsub⟩
    · rw [if_neg h1]
      exact ⟨_, rfl, fun p hp => hp⟩

/-- `deallocate_from_pool` of a chunk that is not mapped keeps the invariant of the pool. -/
theorem deallocate_from_pool_map_count_inv (pool : jvm_allocation_pool) (chunk : chunk_ptr)
    (c : jvm_chunk) (hJ : map_count_inv pool)
    (hc : pool.chunks[pool.chunks.findIdx (fun c => c.addr == chunk.addr)]? = some c)
    (hm : c.mapped = 0) :
    map_count_inv (deallocate_from_pool pool chunk).2 := by
  rcases deallocate_from_pool_cases pool chunk with ⟨-, e⟩ | ⟨pre, x, post, hdec, hx, hpre, e⟩
  · rw [e]; exact hJ
  · rw [e]
    have hidx : pool.chunks.findIdx (fun c => c.addr == chunk.addr) = pre.length := by
      rw [hdec]
      exact findIdx_append_cons _ pre x post (by intro q hq; simpa using hpre q hq)
        (by simpa using hx)
    rw [hidx, hdec] at hc
    rw [List.getElem?_append_right (Nat.le_refl _)] at hc
    simp only [Nat.sub_self, List.getElem?_cons_zero, Option.some.injEq] at hc
    subst hc
    obtain ⟨h1, h2⟩ := hJ
    rw [hdec] at h1 h2
    obtain ⟨h3, h4⟩ := deallocate_chunks_mapped pre post x hm h2
    exact ⟨h1.trans h3.symm, h4⟩

/-- `jvm_deallocate` of a chunk that is not mapped returns and keeps the invariant of every
pool. -/
theorem jvm_deallocate_map_count_inv (w : World) (allocator : jvm_allocator)
    (chunk : chunk_ptr) (pool : jvm_allocation_pool) (c : jvm_chunk)
    (h : ∀ p ∈ allocator.pools, map_count_inv p)
    (hderef : allocator.deref chunk = some (pool, c)) (hm : c.mapped = 0) :
    ∃ r, jvm_deallocate w allocator chunk = some r ∧
      ∀ p ∈ r.allocator.pools, map_count_inv p := by
  obtain ⟨hp, hc⟩ := deref_some hderef
  have hJ : map_count_inv pool := h pool (List.mem_iff_getElem?.mpr ⟨_, hp⟩)
  obtain ⟨r, hr, hsub⟩ := jvm_deallocate_pools w allocator chunk pool hp
  exact ⟨r, hr, fun p hp' =>
    map_count_inv_set h _ _ (deallocate_from_pool_map_count_inv pool chunk c hJ hc hm) p
      (hsub p hp')⟩

/-- The destruction of a buffer or image returns and keeps the invariant of every pool. -/
theorem destroy_allocation_map_count_inv (w : World) (allocator : jvm_allocator)
    (chunk : chunk_ptr) (pool : jvm_allocation_pool) (c : jvm_chunk)
    (h : ∀ p ∈ allocator.pools, map_count_inv p)
    (hderef : allocator.deref chunk = some (pool, c)) :
    ∃ r, destroy_allocation w allocator chunk = some r ∧
      ∀ p ∈ r.allocator.pools, map_count_inv p := by
  obtain ⟨hp, hc⟩ := deref_some hderef
  unfold destroy_allocation
  simp only [hp, hc]
  by_cases hm : c.mapped ≠ 0
  · rw [if_pos hm]
    obtain ⟨r, hr, hI, hd⟩ := jvm_chunk_unmap_map_count_inv w allocator chunk pool c h hderef
    obtain ⟨pool1, hd1⟩ := hd hm
    rw [hr]
    exact jvm_deallocate_map_count_inv r.world r.allocator chunk pool1 _ hI hd1 rfl
  · rw [if_neg hm]
    exact jvm_deallocate_map_count_inv w allocator chunk pool c h hderef (not_not.mp hm)

theorem live_deref {allocator : jvm_allocator} {chunk : chunk_ptr}
    (h : allocator.live chunk = true) :
    ∃ pool c, allocator.deref chunk = some (pool, c) ∧ c.used ≠ 0 := by
  unfold jvm_allocator.live at h
  rcases hd : allocator.deref chunk with _ | ⟨pool, c⟩
  · rw [hd] at h; simp at h
  · rw [hd] at h
    exact ⟨pool, c, rfl, by simpa using h⟩

/-- Every operation of a run keeps the invariant of every pool. -/
theorem allocator_op_run_map_count_inv (w : World) (allocator : jvm_allocator)
    (op : allocator_op) (s : World × jvm_allocator)
    (h : ∀ p ∈ allocator.pools, map_count_inv p) (hrun : op.run w allocator = some s) :
    ∀ p ∈ s.2.pools, map_count_inv p := by
  cases op with
  | allocate size alignment type_bits desired_flags undesired_flags =>
    simp only [allocator_op.run, Option.some.injEq] at hrun
    rw [← hrun]
    exact jvm_allocate_map_count_inv w allocator _ _ _ _ _ h
  | allocate_dedicated size alignment type_bits desired_flags undesired_flags =>
    simp only [allocator_op.run, Option.some.injEq] at hrun
    rw [← hrun]
    exact jvm_allocate_dedicated_map_count_inv w allocator _ _ _ _ _ h
  | map chunk =>
    simp only [allocator_op.run] at hrun
    by_cases hl : allocator.live chunk = true
    · rw [if_pos hl] at hrun
      obtain ⟨pool, c, hd, hu⟩ := live_deref hl
      obtain ⟨r, hr, hI⟩ := jvm_chunk_map_map_count_inv w allocator chunk pool c h hd hu
      rw [hr] at hrun
      simp only [Option.map_some', Option.some.injEq] at hrun
      rw [← hrun]; exact hI
    · rw [if_neg hl] at hrun; simp at hrun
  | unmap chunk =>
    simp only [allocator_op.run] at hrun
    by_cases hl : allocator.live chunk = true
    · rw [if_pos hl] at hrun
      obtain ⟨pool, c, hd, -⟩ := live_deref hl
      obtain ⟨r, hr, hI, -⟩ := jvm_chunk_unmap_map_count_inv w allocator chunk pool c h hd
      rw [hr] at hrun
      simp only [Option.map_some', Option.some.injEq] at hrun
      rw [← hrun]; exact hI
    · rw [if_neg hl] at hrun; simp at hrun
  | buffer_destroy b =>
    simp only [allocator_op.run] at hrun
    by_cases hl : allocator.live b.allocation = true
    · rw [if_pos hl] at hrun
      obtain ⟨pool, c, hd, -⟩ := live_deref hl
      obtain ⟨r, hr, hI⟩ := destroy_allocation_map_count_inv
        (w.emit (Event.vkDestroyBuffer b.buffer)) allocator b.allocation pool c h hd
      unfold jvm_buffer_destroy at hrun
      rw [hr] at hrun
      simp only [Option.map_some', Option.some.injEq] at hrun
      rw [← hrun]; exact hI
    · rw [if_neg hl] at hrun; simp at hrun
  | image_destroy b =>
    simp only [allocator_op.run] at hrun
    by_cases hl : allocator.live b.allocation = true
    · rw [if_pos hl] at hrun
      obtain ⟨pool, c, hd, -⟩ := live_deref hl
      obtain ⟨r, hr, hI⟩ := destroy_allocation_map_count_inv
        (w.emit (Event.vkDestroyImage b.buffer)) allocator b.allocation pool c h hd
      unfold jvm_image_destroy at hrun
      rw [hr] at hrun
      simp only [Option.map_some', Option.some.injEq] at hrun
      rw [← hrun]; exact hI
    · rw [if_neg hl] at hrun; simp at hrun

/-- A run keeps the invariant of every pool. -/
theorem run_allocator_ops_map_count_inv (ops : List allocator_op) :
    ∀ (s s1 : World × jvm_allocator), (∀ p ∈ s.2.pools, map_count_inv p) →
      run_allocator_ops s ops = some s1 → ∀ p ∈ s1.2.pools, map_count_inv p := by
  induction ops with
  | nil =>
    intro s s1 h hrun
    simp only [run_allocator_ops, Option.some.injEq] at hrun
    rw [← hrun]; exact h
  | cons op ops ih =>
    intro s s1 h hrun
    rw [run_allocator_ops] at hrun
    rcases hop : op.run s.1 s.2 with _ | s2
    · rw [hop] at hrun; simp at hrun
    · rw [hop] at hrun
      exact ih s2 s1 (allocator_op_run_map_count_inv s.1 s.2 op s2 h hop) hrun

/-- A run in which every map, unmap and destruction is given an allocation of the allocator
goes through: it is not cut short. -/
theorem allocator_op_run_some (w : World) (allocator : jvm_allocator) (op : allocator_op)
    (h : ∀ p ∈ allocator.pools, map_count_inv p)
    (hlive : match op with
      | allocator_op.map chunk => allocator.live chunk = true
      | allocator_op.unmap chunk => allocator.live chunk = true
      | allocator_op.buffer_destroy b => allocator.live b.allocation = true
      | allocator_op.image_destroy b => allocator.live b.allocation = true
      | _ => True) :
    (op.run w allocator).isSome = true := by
  cases op with
  | allocate size alignment type_bits desired_flags undesired_flags => rfl
  | allocate_dedicated size alignment type_bits desired_flags undesired_flags => rfl
  | map chunk =>
    simp only [] at hlive
    obtain ⟨pool, c, hd, hu⟩ := live_deref hlive
    obtain ⟨r, hr, -⟩ := jvm_chunk_map_map_count_inv w allocator chunk pool c h hd hu
    simp [allocator_op.run, hlive, hr]
  | unmap chunk =>
    simp only [] at hlive
    obtain ⟨pool, c, hd, -⟩ := live_deref hlive
    obtain ⟨r, hr, -⟩ := jvm_chunk_unmap_map_count_inv w allocator chunk pool c h hd
    simp [allocator_op.run, hlive, hr]
  | buffer_destroy b =>
    simp only [] at hlive
    obtain ⟨pool, c, hd, -⟩ := live_deref hlive
    obtain ⟨r, hr, -⟩ := destroy_allocation_map_count_inv
      (w.emit (Event.vkDestroyBuffer b.buffer)) allocator b.allocation pool c h hd
    simp [allocator_op.run, hlive, jvm_buffer_destroy, hr]
  | image_destroy b =>
    simp only [] at hlive
    obtain ⟨pool, c, hd, -⟩ := live_deref hlive
    obtain ⟨r, hr, -⟩ := destroy_allocation_map_count_inv
      (w.emit (Event.vkDestroyImage b.buffer)) allocator b.allocation pool c h hd
    simp [allocator_op.run, hlive, jvm_image_destroy, hr]

/-! ## C16: map reference count -/

/-- C16: start from an allocator with no pools and run any list of `jvm_allocate`,
`jvm_allocate_dedicated`, `jvm_chunk_map`, `jvm_chunk_unmap`, `jvm_buffer_destroy` and
`jvm_image_destroy`, with any arguments, in any world (host allocations and driver calls fail
as the world says), each map, unmap and destruction being given a chunk that is an allocation
of the allocator at that point. Then every pool has `map_count` equal to the number of its
chunks with `mapped != 0`. -/
theorem map_refcount_sound (w : World) (allocator : jvm_allocator) (ops : List allocator_op)
    (s : World × jvm_allocator) (hempty : allocator.pools = [])
    (hrun : run_allocator_ops (w, allocator) ops = some s) :
    ∀ pool ∈ s.2.pools, pool.map_count = mapped_count pool.chunks := by
  intro pool hpool
  exact (run_allocator_ops_map_count_inv ops (w, allocator) s
    (by intro p hp; rw [hempty] at hp; simp at hp) hrun pool hpool).1

/-- C16, witness: the run `sample_run` in a world whose third driver call, the invalidation
of the second map, fails. -/
theorem map_refcount_sound_witness :
    (run_allocator_ops (third_call_fails_world, host_visible_allocator) sample_run).isSome =
      true ∧
    ∀ pool ∈ ((run_allocator_ops (third_call_fails_world, host_visible_allocator)
        sample_run).getD (third_call_fails_world, host_visible_allocator)).2.pools,
      pool.map_count = mapped_count pool.chunks :=
  ⟨by rfl,
    map_refcount_sound third_call_fails_world host_visible_allocator sample_run
      ((run_allocator_ops (third_call_fails_world, host_visible_allocator)
        sample_run).getD (third_call_fails_world, host_visible_allocator)) rfl (by rfl)⟩

/-- For chunks marked 0 or 1 and a request that cannot overflow, the test of the loop of
`allocate_from_pool` is the test of the specification. -/
theorem fits_iff_suitable {size k : Nat} {c : jvm_chunk} (hk : k < 64)
    (hsize : size + 2 ^ k ≤ U64) (hused : c.used = 0 ∨ c.used = 1) :
    allocate_from_pool.fits size (2 ^ k) c ↔ allocate_from_pool.suitable size (2 ^ k) c := by
  have hp := @padding_lt c.chunk_offset k hk
  have hadd : u64_add (allocate_from_pool.padding c.chunk_offset (2 ^ k)) size =
      allocate_from_pool.padding c.chunk_offset (2 ^ k) + size := u64_add_of_lt (by omega)
  unfold allocate_from_pool.fits allocate_from_pool.suitable
  rw [hadd]
  constructor
  · rintro ⟨h1, h2⟩
    exact ⟨by omega, by omega⟩
  · rintro ⟨h1, h2⟩
    exact ⟨by omega, by omega⟩

/-- A world whose host allocations all succeed: `jvm_alloc` returns an address. -/
theorem jvm_alloc_ok (w : World) (h : ∀ b ∈ w.host, b = true) :
    ∃ w1, jvm_alloc w = (w1, some w.next) ∧ w1.log = w.log ∧ w1.driver = w.driver ∧
      w1.next = w.next + 1 ∧ ∀ b ∈ w1.host, b = true := by
  unfold jvm_alloc
  rcases hh : w.host with _ | ⟨b, rest⟩
  · exact ⟨_, rfl, rfl, rfl, rfl, by simp [hh]⟩
  · have hb : b = true := h b (by rw [hh]; simp)
    subst hb
    refine ⟨_, rfl, rfl, rfl, rfl, ?_⟩
    intro b hb
    exact h b (by rw [hh]; exact List.mem_cons_of_mem _ hb)

/-- With host allocations that succeed, the body of the loop of `allocate_from_pool` returns
0 for a chunk that fits. -/
theorem carve_ok (w : World) (allocator : jvm_allocator) (pool : jvm_allocation_pool)
    (i : Nat) (chunk : jvm_chunk) (size padding : Nat) (h : ∀ b ∈ w.host, b = true) :
    (allocate_from_pool.carve w allocator pool i chunk size padding).result = 0 := by
  unfold allocate_from_pool.carve
  simp only [gt_iff_lt]
  by_cases hl : allocator.min_allocation_size < u64_sub chunk.size (u64_add padding size)
  · rw [if_pos hl]
    by_cases hc : pool.chunk_count = pool.chunk_capacity
    · rw [if_pos hc]
      unfold jvm_realloc
      obtain ⟨w1, e1, -, -, -, h1'⟩ := jvm_alloc_ok w h
      rw [e1]
      simp only []
      unfold allocate_from_pool.split
      obtain ⟨w2, e2, -⟩ := jvm_alloc_ok w1 h1'
      rw [e2]
    · rw [if_neg hc]
      unfold allocate_from_pool.split
      obtain ⟨w2, e2, -⟩ := jvm_alloc_ok w h
      rw [e2]
  · rw [if_neg hl]

/-- The result of the body of the loop of `allocate_from_pool` is 0 or -1, and it hands out
the chunk it was given when it is 0. -/
theorem carve_result (w : World) (allocator : jvm_allocator) (pool : jvm_allocation_pool)
    (i : Nat) (chunk : jvm_chunk) (size padding : Nat) :
    ((allocate_from_pool.carve w allocator pool i chunk size padding).result = -1 ∧
      (allocate_from_pool.carve w allocator pool i chunk size padding).p_out = none) ∨
    ((allocate_from_pool.carve w allocator pool i chunk size padding).result = 0 ∧
      (allocate_from_pool.carve w allocator pool i chunk size padding).p_out =
        some chunk.ptr) := by
  rcases carve_cases w allocator pool i chunk size padding with
    ⟨-, w1, cap, e, -⟩ | ⟨-, w1, cap, a, e, -, -⟩ | ⟨-, e⟩
  · left; rw [e]; exact ⟨rfl, rfl⟩
  · right; rw [e]; exact ⟨rfl, rfl⟩
  · right; rw [e]; exact ⟨rfl, rfl⟩

/-! ## C24: first fit -/

/-- For a chunk marked 0 or 1 and a request whose `padding + size` does not wrap, the test of
the loop of `allocate_from_pool` is the test of the specification. -/
theorem fits_iff_suitable_of_no_wrap {size alignment : Nat} {c : jvm_chunk}
    (hwrap : allocate_from_pool.padding c.chunk_offset alignment + size < U64)
    (hused : c.used = 0 ∨ c.used = 1) :
    allocate_from_pool.fits size alignment c ↔ allocate_from_pool.suitable size alignment c := by
  have hadd : u64_add (allocate_from_pool.padding c.chunk_offset alignment) size =
      allocate_from_pool.padding c.chunk_offset alignment + size := u64_add_of_lt hwrap
  unfold allocate_from_pool.fits allocate_from_pool.suitable
  rw [hadd]
  constructor
  · rintro ⟨h1, h2⟩
    exact ⟨by omega, by omega⟩
  · rintro ⟨h1, h2⟩
    exact ⟨by omega, by omega⟩

/-- C24 as stated is refuted: no chunk of `offset_pool` is unused with
`size >= padding + (2 ^ 64 - 64)` for the alignment `2 ^ 7`, yet `allocate_from_pool` does not
return +1: for the unused chunk at offset 64 the padding is 64 and `padding + size` wraps to
0, so the call returns 0 and hands that chunk out. -/
theorem allocate_from_pool_first_fit_wraps :
    2 ^ 64 - 64 < U64 ∧
    (∀ c ∈ offset_pool.chunks, c.used = 0 ∨ c.used = 1) ∧
    (∀ c ∈ offset_pool.chunks, ¬ allocate_from_pool.suitable (2 ^ 64 - 64) (2 ^ 7) c) ∧
    (allocate_from_pool offset_world sample_allocator offset_pool (2 ^ 64 - 64)
      (2 ^ 7)).result = 0 ∧
    (allocate_from_pool offset_world sample_allocator offset_pool (2 ^ 64 - 64)
      (2 ^ 7)).p_out = some ⟨100, 1⟩ := by
  refine ⟨by decide, by decide, by decide, by decide, by decide⟩

/-- First fit, for a request that does not wrap at any chunk. -/
theorem allocate_from_pool_first_fit_of_no_wrap (w : World) (allocator : jvm_allocator)
    (pool : jvm_allocation_pool) (size alignment : Nat)
    (hwrap : ∀ c ∈ pool.chunks,
      allocate_from_pool.padding c.chunk_offset alignment + size < U64)
    (hused : ∀ c ∈ pool.chunks, c.used = 0 ∨ c.used = 1) :
    ((allocate_from_pool w allocator pool size alignment).result = 1 ↔
      ∀ c ∈ pool.chunks, ¬ allocate_from_pool.suitable size alignment c) ∧
    ((allocate_from_pool w allocator pool size alignment).result = 1 →
      allocate_from_pool w allocator pool size alignment = ⟨w, 1, pool, none⟩) ∧
    ((allocate_from_pool w allocator pool size alignment).result = 0 →
      ∃ (i : Nat) (chunk : jvm_chunk), pool.chunks[i]? = some chunk ∧
        allocate_from_pool.suitable size alignment chunk ∧
        (∀ j c, j < i → pool.chunks[j]? = some c →
          ¬ allocate_from_pool.suitable size alignment c) ∧
        (allocate_from_pool w allocator pool size alignment).p_out = some chunk.ptr) ∧
    ((∃ c ∈ pool.chunks, allocate_from_pool.suitable size alignment c) →
      ((allocate_from_pool w allocator pool size alignment).result = 0 ∨
        (allocate_from_pool w allocator pool size alignment).result = -1) ∧
      ((∀ b ∈ w.host, b = true) →
        (allocate_from_pool w allocator pool size alignment).result = 0)) := by
  have hiff : ∀ c ∈ pool.chunks,
      (allocate_from_pool.fits size alignment c ↔ allocate_from_pool.suitable size alignment c) :=
    fun c hc => fits_iff_suitable_of_no_wrap (hwrap c hc) (hused c hc)
  have hget : ∀ {j : Nat} {c : jvm_chunk}, pool.chunks[j]? = some c → c ∈ pool.chunks :=
    fun h => List.mem_iff_getElem?.mpr ⟨_, h⟩
  unfold allocate_from_pool
  rcases loop_cases w allocator pool size alignment pool.chunk_count 0
      (by simp [jvm_allocation_pool.chunk_count]) with
    ⟨hno, e⟩ | ⟨j, chunk, -, hj, hfit, hlow, e⟩
  · have hnone : ∀ c ∈ pool.chunks, ¬ allocate_from_pool.suitable size alignment c := by
      intro c hc hs
      obtain ⟨i, hi⟩ := List.mem_iff_getElem?.mp hc
      exact hno i c (Nat.zero_le _) hi ((hiff c hc).mpr hs)
    rw [e]
    refine ⟨⟨fun _ => hnone, fun _ => rfl⟩, fun _ => rfl, ?_, ?_⟩
    · intro h; simp at h
    · rintro ⟨c, hc, hs⟩
      exact absurd hs (hnone c hc)
  · rw [e]
    have hsuit : allocate_from_pool.suitable size alignment chunk := (hiff chunk (hget hj)).mp hfit
    have hres := carve_result w allocator pool j chunk size
      (allocate_from_pool.padding chunk.chunk_offset alignment)
    refine ⟨⟨?_, ?_⟩, ?_, ?_, ?_⟩
    · intro h1
      rcases hres with ⟨h, -⟩ | ⟨h, -⟩ <;> rw [h] at h1 <;> simp at h1
    · intro hnone
      exact absurd hsuit (hnone chunk (hget hj))
    · intro h1
      rcases hres with ⟨h, -⟩ | ⟨h, -⟩ <;> rw [h] at h1 <;> simp at h1
    · intro h0
      refine ⟨j, chunk, hj, hsuit, ?_, ?_⟩
      · intro j' c hlt hc hs
        exact hlow j' c (Nat.zero_le _) hlt hc ((hiff c (hget hc)).mpr hs)
      · rcases hres with ⟨h, -⟩ | ⟨-, h⟩
        · rw [h] at h0; simp at h0
        · exact h
    · intro _
      refine ⟨?_, fun hhost => carve_ok w allocator pool j chunk size _ hhost⟩
      rcases hres with ⟨h, -⟩ | ⟨h, -⟩
      · exact Or.inr h
      · exact Or.inl h

/-- C24, amended: for a pool whose chunks are marked 0 or 1 and a request for which
`padding + size` stays below `2 ^ 64` at every chunk (no wrap-around):
`allocate_from_pool` returns +1 exactly when no chunk is unused with
`size >= padding + size`, and then nothing changes; when it returns 0 the chunk handed out is
the one at the lowest index that is unused with `size >= padding + size`; when such a chunk
exists the value returned is 0 or -1, and 0 if no host allocation fails. The condition on
`padding + size` holds for every power-of-two alignment `2 ^ k` with
`size + 2 ^ k <= 2 ^ 64`. -/
theorem allocate_from_pool_first_fit (w : World) (allocator : jvm_allocator)
    (pool : jvm_allocation_pool) (size alignment : Nat)
    (hwrap : ∀ c ∈ pool.chunks,
      allocate_from_pool.padding c.chunk_offset alignment + size < U64)
    (hused : ∀ c ∈ pool.chunks, c.used = 0 ∨ c.used = 1) :
    ((allocate_from_pool w allocator pool size alignment).result = 1 ↔
      ∀ c ∈ pool.chunks, ¬ allocate_from_pool.suitable size alignment c) ∧
    ((allocate_from_pool w allocator pool size alignment).result = 1 →
      allocate_from_pool w allocator pool size alignment = ⟨w, 1, pool, none⟩) ∧
    ((allocate_from_pool w allocator pool size alignment).result = 0 →
      ∃ (i : Nat) (chunk : jvm_chunk), pool.chunks[i]? = some chunk ∧
        allocate_from_pool.suitable size alignment chunk ∧
        (∀ j c, j < i → pool.chunks[j]? = some c →
          ¬ allocate_from_pool.suitable size alignment c) ∧
        (allocate_from_pool w allocator pool size alignment).p_out = some chunk.ptr) ∧
    ((∃ c ∈ pool.chunks, allocate_from_pool.suitable size alignment c) →
      ((allocate_from_pool w allocator pool size alignment).result = 0 ∨
        (allocate_from_pool w allocator pool size alignment).result = -1) ∧
      ((∀ b ∈ w.host, b = true) →
        (allocate_from_pool w allocator pool size alignment).result = 0)) ∧
    (∀ k off, k < 64 → size + 2 ^ k ≤ U64 →
      allocate_from_pool.padding off (2 ^ k) + size < U64) := by
  obtain ⟨h1, h2, h3, h4⟩ :=
    allocate_from_pool_first_fit_of_no_wrap w allocator pool size alignment hwrap hused
  refine ⟨h1, h2, h3, h4, ?_⟩
  intro k off hk hs
  have := @padding_lt off k hk
  omega

/-- C24, witness of the amended claim: 100 bytes at alignment 64 from the pool with chunks A,
B, C in use. -/
theorem allocate_from_pool_first_fit_witness :
    ((allocate_from_pool sample_world sample_allocator sample_pool_abc 100 (2 ^ 6)).result = 1 ↔
      ∀ c ∈ sample_pool_abc.chunks, ¬ allocate_from_pool.suitable 100 (2 ^ 6) c) ∧
    ((allocate_from_pool sample_world sample_allocator sample_pool_abc 100 (2 ^ 6)).result = 1 →
      allocate_from_pool sample_world sample_allocator sample_pool_abc 100 (2 ^ 6) =
        ⟨sample_world, 1, sample_pool_abc, none⟩) ∧
    (∃ (i : Nat) (chunk : jvm_chunk), sample_pool_abc.chunks[i]? = some chunk ∧
        allocate_from_pool.suitable 100 (2 ^ 6) chunk ∧
        (∀ j c, j < i → sample_pool_abc.chunks[j]? = some c →
          ¬ allocate_from_pool.suitable 100 (2 ^ 6) c) ∧
        (allocate_from_pool sample_world sample_allocator sample_pool_abc 100 (2 ^ 6)).p_out =
          some chunk.ptr) ∧
    (((allocate_from_pool sample_world sample_allocator sample_pool_abc 100 (2 ^ 6)).result =
          0 ∨
        (allocate_from_pool sample_world sample_allocator sample_pool_abc 100 (2 ^ 6)).result =
          -1) ∧
      (allocate_from_pool sample_world sample_allocator sample_pool_abc 100 (2 ^ 6)).result =
        0) :=
  ⟨(allocate_from_pool_first_fit sample_world sample_allocator sample_pool_abc 100 (2 ^ 6)
      (by decide) (by decide)).1,
   (allocate_from_pool_first_fit sample_world sample_allocator sample_pool_abc 100 (2 ^ 6)
      (by decide) (by decide)).2.1,
   (allocate_from_pool_first_fit sample_world sample_allocator sample_pool_abc 100 (2 ^ 6)
      (by decide) (by decide)).2.2.1 (by decide),
   ((allocate_from_pool_first_fit sample_world sample_allocator sample_pool_abc 100 (2 ^ 6)
      (by decide) (by decide)).2.2.2.1 (by decide)).1,
   ((allocate_from_pool_first_fit sample_world sample_allocator sample_pool_abc 100 (2 ^ 6)
      (by decide) (by decide)).2.2.2.1 (by decide)).2 (by decide)⟩

theorem u64_sub_of_le {a b : Nat} (hb : b ≤ a) (ha : a < U64) : u64_sub a b = a - b := by
  unfold u64_sub
  have hbU : b % U64 = b := Nat.mod_eq_of_lt (by omega)
  rw [hbU]
  have : a + (U64 - b) = (a - b) + U64 := by omega
  rw [this, Nat.add_mod_right]
  exact Nat.mod_eq_of_lt (by omega)

/-- The two successful outcomes of `allocate_from_pool` with the test that tells them
apart. -/
theorem allocate_from_pool_success_threshold (w : World) (allocator : jvm_allocator)
    (pool : jvm_allocation_pool) (size alignment : Nat)
    (h0 : (allocate_from_pool w allocator pool size alignment).result = 0) :
    ∃ (j : Nat) (chunk : jvm_chunk), pool.chunks[j]? = some chunk ∧
      allocate_from_pool.fits size alignment chunk ∧
      (∀ j' c, j' < j → pool.chunks[j']? = some c →
        ¬ allocate_from_pool.fits size alignment c) ∧
      ((allocator.min_allocation_size <
          u64_sub chunk.size
            (u64_add (allocate_from_pool.padding chunk.chunk_offset alignment) size) ∧
        ∃ (w1 : World) (cap a : Nat), w.next ≤ a ∧
          allocate_from_pool w allocator pool size alignment =
            ⟨w1, 0,
              { pool with
                chunk_capacity := cap
                chunks := allocate_from_pool.split_chunks pool j chunk size
                  (allocate_from_pool.padding chunk.chunk_offset alignment)
                  (u64_sub chunk.size
                    (u64_add (allocate_from_pool.padding chunk.chunk_offset alignment) size))
                  a },
              some chunk.ptr⟩) ∨
       (¬ allocator.min_allocation_size <
          u64_sub chunk.size
            (u64_add (allocate_from_pool.padding chunk.chunk_offset alignment) size) ∧
        allocate_from_pool w allocator pool size alignment =
          ⟨w, 0,
            { pool with
              chunks := pool.chunks.set j
                { chunk with
                  padding := allocate_from_pool.padding chunk.chunk_offset alignment
                  used := 1 } },
            some chunk.ptr⟩)) := by
  unfold allocate_from_pool at h0 ⊢
  rcases loop_cases w allocator pool size alignment pool.chunk_count 0
      (by simp [jvm_allocation_pool.chunk_count]) with ⟨-, h⟩ | ⟨j, chunk, -, hj, hfit, hlow, h⟩
  · rw [h] at h0; simp at h0
  · rw [h] at h0 ⊢
    refine ⟨j, chunk, hj, hfit, fun j' c hlt hc => hlow j' c (Nat.zero_le _) hlt hc, ?_⟩
    rcases carve_cases w allocator pool j chunk size
        (allocate_from_pool.padding chunk.chunk_offset alignment) with
      ⟨-, w1, cap, e, -⟩ | ⟨hl, w1, cap, a, e, ha, -⟩ | ⟨hl, e⟩
    · rw [e] at h0; simp at h0
    · exact Or.inl ⟨hl, w1, cap, a, ha, e⟩
    · exact Or.inr ⟨hl, e⟩

/-! ## C25: the split threshold -/

/-- C25 as stated is refuted: for 2 ^ 64 - 64 bytes at the alignment `2 ^ 7`,
`allocate_from_pool` on `offset_pool` returns 0 and hands out the chunk `c` at index 1, of
4032 bytes at offset 64. The padding is 64 and `padding + size` is `2 ^ 64`, more than
`c.size`, so `c.size - (padding + size)` is not above `min_allocation_size`; yet the chunk
count grows from 2 to 3 and `c.size` becomes 0: the code computes `padding + size` in 64
bits, where it is 0. -/
theorem allocate_from_pool_split_wraps :
    2 ^ 64 - 64 < U64 ∧
    offset_pool.chunks[1]? = some ⟨100, 0, 0, 4032, 2, 64, 0, 1⟩ ∧
    (allocate_from_pool offset_world sample_allocator offset_pool (2 ^ 64 - 64)
      (2 ^ 7)).result = 0 ∧
    (allocate_from_pool offset_world sample_allocator offset_pool (2 ^ 64 - 64)
      (2 ^ 7)).p_out = some (jvm_chunk.ptr ⟨100, 0, 0, 4032, 2, 64, 0, 1⟩) ∧
    allocate_from_pool.padding 64 (2 ^ 7) = 64 ∧
    4032 - (allocate_from_pool.padding 64 (2 ^ 7) + (2 ^ 64 - 64)) ≤
      sample_allocator.min_allocation_size ∧
    offset_pool.chunk_count = 2 ∧
    (allocate_from_pool offset_world sample_allocator offset_pool (2 ^ 64 - 64)
      (2 ^ 7)).pool.chunk_count = 3 ∧
    (allocate_from_pool offset_world sample_allocator offset_pool (2 ^ 64 - 64)
        (2 ^ 7)).pool.chunks.map
      (fun c => (c.addr, c.chunk_offset, c.size, c.padding, c.used)) =
      ([(3, 0, 64, 0, 1), (100, 64, 0, 64, 1), (101, 64, 4032, 0, 0)] :
        List (Nat × Nat × Nat × Nat × Nat)) := by
  refine ⟨by decide, by decide, by decide, by decide, by decide, by decide, by decide,
    by decide, by rfl⟩

/-- C25, amended: let the sizes of the chunks be `VkDeviceSize` values. When
`allocate_from_pool` returns 0 it hands out a chunk `c` at some index `i`, and if
`c.chunk_offset + padding + size < 2 ^ 64` (no wrap-around) then `padding + size <= c.size`
and, with `leftover = c.size - (padding + size)`: if `leftover > min_allocation_size`, the
chunk list is the old one with `c` shrunk to `padding + size` and marked used, and a new
unused chunk at offset `c.chunk_offset + padding + size` of size `leftover`, padding 0, right
after it, so the chunk count grows by one; otherwise the chunk list is the old one with `c`
marked used, its size unchanged, and the chunk count is unchanged. -/
theorem allocate_from_pool_split_threshold (w : World) (allocator : jvm_allocator)
    (pool : jvm_allocation_pool) (size alignment : Nat)
    (htype : ∀ c ∈ pool.chunks, c.size < U64)
    (h0 : (allocate_from_pool w allocator pool size alignment).result = 0) :
    ∃ (i : Nat) (c : jvm_chunk), pool.chunks[i]? = some c ∧
      (allocate_from_pool w allocator pool size alignment).p_out = some c.ptr ∧
      (c.chunk_offset + allocate_from_pool.padding c.chunk_offset alignment + size < U64 →
        allocate_from_pool.padding c.chunk_offset alignment + size ≤ c.size ∧
        (allocator.min_allocation_size <
            c.size - (allocate_from_pool.padding c.chunk_offset alignment + size) →
          (∃ a : Nat,
            (allocate_from_pool w allocator pool size alignment).pool.chunks =
              pool.chunks.take i ++
                { c with
                  size := allocate_from_pool.padding c.chunk_offset alignment + size
                  padding := allocate_from_pool.padding c.chunk_offset alignment
                  used := 1 } ::
                { addr := a
                  size := c.size - (allocate_from_pool.padding c.chunk_offset alignment + size)
                  chunk_offset :=
                    c.chunk_offset + allocate_from_pool.padding c.chunk_offset alignment + size
                  padding := 0, used := 0, mapped := 0, pool := pool.addr,
                  memory := pool.memory } ::
                pool.chunks.drop (i + 1)) ∧
          (allocate_from_pool w allocator pool size alignment).pool.chunk_count =
            pool.chunk_count + 1) ∧
        (c.size - (allocate_from_pool.padding c.chunk_offset alignment + size) ≤
            allocator.min_allocation_size →
          (allocate_from_pool w allocator pool size alignment).pool.chunks =
            pool.chunks.set i
              { c with
                padding := allocate_from_pool.padding c.chunk_offset alignment
                used := 1 } ∧
          (allocate_from_pool w allocator pool size alignment).pool.chunk_count =
            pool.chunk_count)) := by
  obtain ⟨j, c, hj, hfit, -, hcase⟩ :=
    allocate_from_pool_success_threshold w allocator pool size alignment h0
  have hjl : j < pool.chunks.length := (List.getElem?_eq_some_iff.mp hj).1
  have hcs := htype c (List.mem_iff_getElem?.mpr ⟨j, hj⟩)
  refine ⟨j, c, hj, ?_, ?_⟩
  · rcases hcase with ⟨-, w1, cap, a, -, e⟩ | ⟨-, e⟩ <;> rw [e]
  intro hwrap
  have hadd : u64_add (allocate_from_pool.padding c.chunk_offset alignment) size =
      allocate_from_pool.padding c.chunk_offset alignment + size := u64_add_of_lt (by omega)
  have hadd' : u64_add size (allocate_from_pool.padding c.chunk_offset alignment) =
      allocate_from_pool.padding c.chunk_offset alignment + size := by
    rw [Nat.add_comm]; exact u64_add_of_lt (by omega)
  have hle : allocate_from_pool.padding c.chunk_offset alignment + size ≤ c.size := by
    have := hfit.2
    rw [hadd] at this
    omega
  have hsub : u64_sub c.size (allocate_from_pool.padding c.chunk_offset alignment + size) =
      c.size - (allocate_from_pool.padding c.chunk_offset alignment + size) :=
    u64_sub_of_le hle hcs
  have hoff : u64_add
      (u64_add c.chunk_offset (allocate_from_pool.padding c.chunk_offset alignment)) size =
      c.chunk_offset + allocate_from_pool.padding c.chunk_offset alignment + size := by
    rw [u64_add_of_lt (show c.chunk_offset +
      allocate_from_pool.padding c.chunk_offset alignment < U64 by omega)]
    exact u64_add_of_lt (by omega)
  rw [hadd, hsub] at hcase
  refine ⟨hle, ?_, ?_⟩
  · intro hl
    rcases hcase with ⟨-, w1, cap, a, -, e⟩ | ⟨hnl, -⟩
    · rw [e]
      refine ⟨⟨a, ?_⟩, ?_⟩
      · show allocate_from_pool.split_chunks pool j c size _ _ a = _
        unfold allocate_from_pool.split_chunks
        rw [hadd', hoff]
      · show (allocate_from_pool.split_chunks pool j c size _ _ a).length =
          pool.chunks.length + 1
        unfold allocate_from_pool.split_chunks
        simp only [List.length_append, List.length_cons, List.length_take, List.length_drop]
        omega
    · exact absurd hl hnl
  · intro hl
    rcases hcase with ⟨hgt, -⟩ | ⟨-, e⟩
    · omega
    · rw [e]
      exact ⟨rfl, by simp [jvm_allocation_pool.chunk_count]⟩

/-- C25, witness of the amended claim: 200 bytes at alignment 64 from the pool with chunks A,
B, C in use; no sum wraps, and the unused chunk at offset 684 is split. -/
theorem allocate_from_pool_split_threshold_witness :
    ∃ (i : Nat) (c : jvm_chunk), sample_pool_abc.chunks[i]? = some c ∧
      (allocate_from_pool sample_world sample_allocator sample_pool_abc 200 (2 ^ 6)).p_out =
        some c.ptr ∧
      c.chunk_offset + allocate_from_pool.padding c.chunk_offset (2 ^ 6) + 200 < U64 ∧
      allocate_from_pool.padding c.chunk_offset (2 ^ 6) + 200 ≤ c.size ∧
      (sample_allocator.min_allocation_size <
          c.size - (allocate_from_pool.padding c.chunk_offset (2 ^ 6) + 200) →
        (∃ a : Nat,
          (allocate_from_pool sample_world sample_allocator sample_pool_abc 200
              (2 ^ 6)).pool.chunks =
            sample_pool_abc.chunks.take i ++
              { c with
                size := allocate_from_pool.padding c.chunk_offset (2 ^ 6) + 200
                padding := allocate_from_pool.padding c.chunk_offset (2 ^ 6)
                used := 1 } ::
              { addr := a
                size := c.size - (allocate_from_pool.padding c.chunk_offset (2 ^ 6) + 200)
                chunk_offset :=
                  c.chunk_offset + allocate_from_pool.padding c.chunk_offset (2 ^ 6) + 200
                padding := 0, used := 0, mapped := 0, pool := sample_pool_abc.addr,
                memory := sample_pool_abc.memory } ::
              sample_pool_abc.chunks.drop (i + 1)) ∧
        (allocate_from_pool sample_world sample_allocator sample_pool_abc 200
            (2 ^ 6)).pool.chunk_count = sample_pool_abc.chunk_count + 1) ∧
      (c.size - (allocate_from_pool.padding c.chunk_offset (2 ^ 6) + 200) ≤
          sample_allocator.min_allocation_size →
        (allocate_from_pool sample_world sample_allocator sample_pool_abc 200
            (2 ^ 6)).pool.chunks =
          sample_pool_abc.chunks.set i
            { c with
              padding := allocate_from_pool.padding c.chunk_offset (2 ^ 6)
              used := 1 } ∧
        (allocate_from_pool sample_world sample_allocator sample_pool_abc 200
            (2 ^ 6)).pool.chunk_count = sample_pool_abc.chunk_count) := by
  obtain ⟨i, c, hi, hp, himp⟩ :=
    allocate_from_pool_split_threshold sample_world sample_allocator sample_pool_abc 200
      (2 ^ 6) (by decide) (by decide)
  have hall : ∀ c ∈ sample_pool_abc.chunks,
      c.chunk_offset + allocate_from_pool.padding c.chunk_offset (2 ^ 6) + 200 < U64 := by
    decide
  have hc := hall c (List.mem_iff_getElem?.mpr ⟨i, hi⟩)
  exact ⟨i, c, hi, hp, hc, himp hc⟩

/-! ## C30: a failed split leaves the chunks alone -/

/-- C30: when `allocate_from_pool` returns a negative value, the chunk list of the pool, and
so `chunk_count` and every field of every chunk, is as before the call, and no chunk is
handed out; only `chunk_capacity` may differ. -/
theorem allocate_from_pool_negative_keeps_chunks (w : World) (allocator : jvm_allocator)
    (pool : jvm_allocation_pool) (size alignment : Nat)
    (hneg : (allocate_from_pool w allocator pool size alignment).result < 0) :
    (allocate_from_pool w allocator pool size alignment).pool.chunks = pool.chunks ∧
    (allocate_from_pool w allocator pool size alignment).pool.chunk_count = pool.chunk_count ∧
    (∃ cap, (allocate_from_pool w allocator pool size alignment).pool =
      { pool with chunk_capacity := cap }) ∧
    (allocate_from_pool w allocator pool size alignment).p_out = none := by
  obtain ⟨⟨cap, hp⟩, hout⟩ :=
    allocate_from_pool_failure w allocator pool size alignment (by omega)
  rw [hp]
  exact ⟨rfl, rfl, ⟨cap, rfl⟩, hout⟩

/-- C30, witness: 100 bytes from `sample_pool` when the allocation of the chunk record of the
split fails. -/
theorem allocate_from_pool_negative_keeps_chunks_witness :
    (allocate_from_pool first_alloc_fails_world sample_allocator sample_pool 100 64).result <
      0 ∧
    (allocate_from_pool first_alloc_fails_world sample_allocator sample_pool 100
      64).pool.chunks = sample_pool.chunks ∧
    (allocate_from_pool first_alloc_fails_world sample_allocator sample_pool 100
      64).pool.chunk_count = sample_pool.chunk_count ∧
    (∃ cap, (allocate_from_pool first_alloc_fails_world sample_allocator sample_pool 100
      64).pool = { sample_pool with chunk_capacity := cap }) ∧
    (allocate_from_pool first_alloc_fails_world sample_allocator sample_pool 100 64).p_out =
      none :=
  ⟨by decide,
    allocate_from_pool_negative_keeps_chunks first_alloc_fails_world sample_allocator
      sample_pool 100 64 (by decide)⟩

/-! ## C23: when `jvm_deallocate` returns `VK_ERROR_UNKNOWN` -/

/-- C23: for a chunk pointer whose pool is a pool of the allocator, `jvm_deallocate` returns
`VK_ERROR_UNKNOWN` exactly when no chunk record of the chunk list of that pool is at the
address of the chunk, and then the whole allocator, its pool list and the chunk list of the
pool, is as before; otherwise it returns `VK_SUCCESS`. -/
theorem jvm_deallocate_unknown_iff (w : World) (allocator : jvm_allocator) (chunk : chunk_ptr)
    (pool : jvm_allocation_pool)
    (hp : allocator.pools[allocator.pools.findIdx (fun p => p.addr == chunk.pool)]? =
      some pool) :
    ∃ r, jvm_deallocate w allocator chunk = some r ∧
      (r.result = VK_ERROR_UNKNOWN ↔ ∀ c ∈ pool.chunks, c.addr ≠ chunk.addr) ∧
      ((∀ c ∈ pool.chunks, c.addr ≠ chunk.addr) → r.allocator = allocator) ∧
      (r.result ≠ VK_ERROR_UNKNOWN → r.result = VK_SUCCESS) := by
  unfold jvm_deallocate
  simp only [hp]
  rcases deallocate_from_pool_cases pool chunk with ⟨hnone, e⟩ | ⟨pre, x, post, hdec, hx, -, e⟩
  · rw [e]
    simp only []
    rw [if_pos (by decide)]
    refine ⟨_, rfl, ⟨fun _ => hnone, fun _ => rfl⟩, fun _ => ?_, fun h => absurd rfl h⟩
    show { allocator with pools := allocator.pools.set _ pool } = allocator
    rw [set_getElem?_self hp, allocator_with_pools rfl]
  · rw [e]
    simp only []
    rw [if_neg (by decide)]
    have hmem : x ∈ pool.chunks := by rw [hdec]; simp
    have hsucc : ∀ r : allocator_result, r.result = VK_SUCCESS →
        (r.result = VK_ERROR_UNKNOWN ↔ ∀ c ∈ pool.chunks, c.addr ≠ chunk.addr) ∧
        ((∀ c ∈ pool.chunks, c.addr ≠ chunk.addr) → r.allocator = allocator) ∧
        (r.result ≠ VK_ERROR_UNKNOWN → r.result = VK_SUCCESS) := by
      intro r hr
      refine ⟨⟨fun h => ?_, fun h => absurd hx (h x hmem)⟩, fun h => absurd hx (h x hmem),
        fun _ => hr⟩
      rw [hr] at h
      exact absurd h (by decide)
    generalize ({ pool with
      chunks := merge_left pre.reverse (merge_right x.release post).1 ++
        (merge_right x.release post).2 } : jvm_allocation_pool) = pool1
    by_cases h1 : pool1.chunk_count = 1 ∧ allocator.automatically_free_unused ≠ 0
    · rw [if_pos h1]
      generalize remove_pool w _ _ = rp
      obtain ⟨w1, res1, allocator2⟩ := rp
      simp only []
      by_cases h2 : res1 < 0
      · rw [if_pos h2]; exact ⟨_, rfl, hsucc _ rfl⟩
      · rw [if_neg h2]; exact ⟨_, rfl, hsucc _ rfl⟩
    · rw [if_neg h1]; exact ⟨_, rfl, hsucc _ rfl⟩

/-- C23, witness: on `abc_allocator` the pointer to chunk B is found, a pointer to address
999 in the same pool is not. -/
theorem jvm_deallocate_unknown_iff_witness :
    (∃ r, jvm_deallocate sample_world abc_allocator ⟨999, 1⟩ = some r ∧
      (r.result = VK_ERROR_UNKNOWN ↔ ∀ c ∈ sample_pool_abc.chunks, c.addr ≠ 999) ∧
      ((∀ c ∈ sample_pool_abc.chunks, c.addr ≠ 999) → r.allocator = abc_allocator) ∧
      (r.result ≠ VK_ERROR_UNKNOWN → r.result = VK_SUCCESS)) ∧
    (∃ r, jvm_deallocate sample_world abc_allocator ⟨100, 1⟩ = some r ∧
      (r.result = VK_ERROR_UNKNOWN ↔ ∀ c ∈ sample_pool_abc.chunks, c.addr ≠ 100) ∧
      ((∀ c ∈ sample_pool_abc.chunks, c.addr ≠ 100) → r.allocator = abc_allocator) ∧
      (r.result ≠ VK_ERROR_UNKNOWN → r.result = VK_SUCCESS)) :=
  ⟨jvm_deallocate_unknown_iff sample_world abc_allocator ⟨999, 1⟩ sample_pool_abc (by rfl),
   jvm_deallocate_unknown_iff sample_world abc_allocator ⟨100, 1⟩ sample_pool_abc (by rfl)⟩

/-! ## C28: `remove_pool` -/

theorem nodup_split_addr {l1 l2 : List jvm_allocation_pool} {pool : jvm_allocation_pool}
    (h : ((l1 ++ pool :: l2).map (fun p => p.addr)).Nodup) :
    ∀ q ∈ l1, q.addr ≠ pool.addr := by
  intro q hq heq
  rw [List.map_append, List.map_cons] at h
  have hdis := (List.nodup_append.mp h).2.2
  exact hdis (List.mem_map.mpr ⟨q, hq, rfl⟩) (by rw [heq]; exact List.mem_cons_self _ _)

/-- C28: `remove_pool` of a pool with more than one chunk, or with one chunk that is in use,
returns -2 and leaves the allocator as it was. For a pool of one unused chunk that is in the
pool list (pools at pairwise different addresses), it returns 0, frees the memory of the
pool, and the pool list is the old one with that pool taken out, the other pools in their
order, so `pool_count` is one less. -/
theorem remove_pool_spec (w : World) (this : jvm_allocator) (pool : jvm_allocation_pool) :
    ((pool.chunk_count > 1 ∨ ∃ c, pool.chunks = [c] ∧ c.used ≠ 0) →
      (remove_pool w this pool).2.1 = -2 ∧ (remove_pool w this pool).2.2 = this) ∧
    (∀ c, pool.chunks = [c] → c.used = 0 → pool ∈ this.pools →
      (this.pools.map (fun p => p.addr)).Nodup →
      ∃ l1 l2, this.pools = l1 ++ pool :: l2 ∧
        remove_pool w this pool =
          (w.emit (Event.vkFreeMemory pool.memory), 0, { this with pools := l1 ++ l2 }) ∧
        (remove_pool w this pool).2.2.pool_count + 1 = this.pool_count) := by
  constructor
  · intro h
    have hcond : pool.chunk_count > 1 ∨ (pool.chunks.map (fun c => c.used)).headD 0 ≠ 0 := by
      rcases h with h | ⟨c, hc, hu⟩
      · exact Or.inl h
      · right; rw [hc]; simpa using hu
    unfold remove_pool
    rw [if_pos hcond]
    exact ⟨rfl, rfl⟩
  · intro c hc hu hmem hnodup
    obtain ⟨l1, l2, hdec⟩ := List.append_of_mem hmem
    have hl1 : ∀ q ∈ l1, q.addr ≠ pool.addr := nodup_split_addr (hdec ▸ hnodup)
    have hpos : this.pools.findIdx (fun p => p.addr == pool.addr) = l1.length := by
      rw [hdec]
      exact findIdx_append_cons _ l1 pool l2 (by intro q hq; simpa using hl1 q hq) (by simp)
    have heq : remove_pool w this pool =
        (w.emit (Event.vkFreeMemory pool.memory), 0, { this with pools := l1 ++ l2 }) := by
      unfold remove_pool
      rw [if_neg (by simp [jvm_allocation_pool.chunk_count, hc, hu])]
      simp only [hpos]
      rw [if_neg (by simp [jvm_allocator.pool_count, hdec])]
      rw [hdec, List.eraseIdx_append_of_length_le (Nat.le_refl _)]
      simp
    refine ⟨l1, l2, hdec, heq, ?_⟩
    rw [heq]
    simp [jvm_allocator.pool_count, hdec]
    omega

/-- C28, witness: `sample_pool_abc` has four chunks; `sample_pool_b` is one unused chunk, the
second pool of `two_unused_pools_allocator`. -/
theorem remove_pool_spec_witness :
    ((remove_pool sample_world abc_allocator sample_pool_abc).2.1 = -2 ∧
      (remove_pool sample_world abc_allocator sample_pool_abc).2.2 = abc_allocator) ∧
    (∃ l1 l2, two_unused_pools_allocator.pools = l1 ++ sample_pool_b :: l2 ∧
        remove_pool sample_world two_unused_pools_allocator sample_pool_b =
          (sample_world.emit (Event.vkFreeMemory sample_pool_b.memory), 0,
            { two_unused_pools_allocator with pools := l1 ++ l2 }) ∧
        (remove_pool sample_world two_unused_pools_allocator sample_pool_b).2.2.pool_count + 1 =
          two_unused_pools_allocator.pool_count) :=
  ⟨(remove_pool_spec sample_world abc_allocator sample_pool_abc).1 (Or.inl (by decide)),
   (remove_pool_spec sample_world two_unused_pools_allocator sample_pool_b).2
      ⟨7, 0, 0, 4096, 6, 0, 0, 5⟩ (by rfl) (by rfl) (by decide) (by decide)⟩

/-! ## C29: automatic freeing after a failed allocation -/

/-- C29, the code at a failing input: `auto_free_allocator` has `automatically_free_unused`
set and no pools; in a world whose fifth host allocation fails `jvm_allocate` creates a pool,
fails to allocate the chunk record of the split, and returns
`VK_ERROR_OUT_OF_HOST_MEMORY`: the allocator is left with a pool that is one unused chunk. -/
theorem jvm_allocate_failure_leaves_unused_pool :
    auto_free_allocator.automatically_free_unused ≠ 0 ∧
    auto_free_allocator.pools = [] ∧
    (jvm_allocate fifth_alloc_fails_world auto_free_allocator 100 64 3 1 0).result =
      VK_ERROR_OUT_OF_HOST_MEMORY ∧
    (jvm_allocate fifth_alloc_fails_world auto_free_allocator 100 64 3 1
      0).allocator.automatically_free_unused ≠ 0 ∧
    (jvm_allocate fifth_alloc_fails_world auto_free_allocator 100 64 3 1 0).allocator.pools.map
      (fun pool => pool.chunks.map (fun c => c.used)) = [[0]] := by
  refine ⟨by decide, by decide, by decide, by decide, by decide⟩

theorem allocate_from_pool_of_no_fit (w : World) (allocator : jvm_allocator)
    (pool : jvm_allocation_pool) (size alignment : Nat)
    (h : ∀ c ∈ pool.chunks, ¬ allocate_from_pool.fits size alignment c) :
    allocate_from_pool w allocator pool size alignment = ⟨w, 1, pool, none⟩ := by
  unfold allocate_from_pool
  rcases loop_cases w allocator pool size alignment pool.chunk_count 0
      (by simp [jvm_allocation_pool.chunk_count]) with ⟨-, e⟩ | ⟨j, chunk, -, hj, hfit, -, -⟩
  · exact e
  · exact absurd hfit (h chunk (List.mem_iff_getElem?.mpr ⟨j, hj⟩))

theorem allocate_from_pool_of_fit (w : World) (allocator : jvm_allocator)
    (pool : jvm_allocation_pool) (size alignment : Nat)
    (h : ∃ c ∈ pool.chunks, allocate_from_pool.fits size alignment c) :
    ((allocate_from_pool w allocator pool size alignment).result = 0 ∨
      (allocate_from_pool w allocator pool size alignment).result = -1) ∧
    ((∀ b ∈ w.host, b = true) →
      (allocate_from_pool w allocator pool size alignment).result = 0) := by
  unfold allocate_from_pool
  rcases loop_cases w allocator pool size alignment pool.chunk_count 0
      (by simp [jvm_allocation_pool.chunk_count]) with ⟨hno, -⟩ | ⟨j, chunk, -, hj, hfit, -, e⟩
  · obtain ⟨c, hc, hf⟩ := h
    obtain ⟨i, hi⟩ := List.mem_iff_getElem?.mp hc
    exact absurd hf (hno i c (Nat.zero_le _) hi)
  · rw [e]
    refine ⟨?_, fun hh => carve_ok w allocator pool j chunk size _ hh⟩
    rcases carve_result w allocator pool j chunk size
        (allocate_from_pool.padding chunk.chunk_offset alignment) with ⟨h1, -⟩ | ⟨h1, -⟩
    · exact Or.inr h1
    · exact Or.inl h1

/-- The loop of `jvm_allocate` over the pools stops at the first pool of the memory type that
has a chunk that fits. -/
theorem pools_loop_first (w : World) (allocator : jvm_allocator)
    (size alignment idx : Nat) (j : Nat) (pool : jvm_allocation_pool)
    (hj : allocator.pools[j]? = some pool) (htype : pool.memory_type_index = idx)
    (hfit : ∃ c ∈ pool.chunks, allocate_from_pool.fits size alignment c)
    (hlow : ∀ i p, i < j → allocator.pools[i]? = some p → p.memory_type_index = idx →
      ∀ c ∈ p.chunks, ¬ allocate_from_pool.fits size alignment c) :
    ∀ (fuel i : Nat), i ≤ j → j < i + fuel →
      jvm_allocate.pools_loop w allocator size alignment idx fuel i =
        some ⟨(allocate_from_pool w allocator pool size alignment).world,
          if (allocate_from_pool w allocator pool size alignment).result = 0 then VK_SUCCESS
          else VK_ERROR_OUT_OF_HOST_MEMORY,
          { allocator with
            pools := allocator.pools.set j
              (allocate_from_pool w allocator pool size alignment).pool },
          if (allocate_from_pool w allocator pool size alignment).result = 0 then
            (allocate_from_pool w allocator pool size alignment).p_out
          else none⟩ := by
  intro fuel
  induction fuel with
  | zero => intro i h1 h2; omega
  | succ fuel ih =>
    intro i h1 h2
    rw [jvm_allocate.pools_loop]
    by_cases hij : i = j
    · subst hij
      rw [hj]
      simp only []
      rw [if_neg (not_not.mpr htype)]
      rcases (allocate_from_pool_of_fit w allocator pool size alignment hfit).1 with h0 | hn
      · rw [if_pos h0, if_pos h0, if_pos h0]
      · have h0 : ¬ (allocate_from_pool w allocator pool size alignment).result = 0 := by
          rw [hn]; decide
        rw [if_neg h0, if_neg h0, if_neg h0, if_pos (by rw [hn]; decide)]
    · have hlt : i < j := by omega
      have hil : i < allocator.pools.length := by
        have := (List.getElem?_eq_some_iff.mp hj).1
        omega
      rw [List.getElem?_eq_getElem hil]
      simp only []
      by_cases ht : (allocator.pools[i]).memory_type_index ≠ idx
      · rw [if_pos ht]
        exact ih (i + 1) (by omega) (by omega)
      · rw [if_neg ht]
        have hnf := allocate_from_pool_of_no_fit w allocator allocator.pools[i] size alignment
          (hlow i _ hlt (List.getElem?_eq_getElem hil) (not_not.mp ht))
        rw [hnf]
        simp only []
        rw [if_neg (by decide), if_neg (by decide)]
        exact ih (i + 1) (by omega) (by omega)

/-- The function `jvm_allocate` once the memory type is chosen. -/
theorem jvm_allocate_of_type (w : World) (allocator : jvm_allocator)
    (size alignment type_bits desired_flags undesired_flags idx : Nat)
    (hidx : jvm_allocate.memory_type allocator.memory_properties type_bits desired_flags
      undesired_flags = some idx) :
    jvm_allocate w allocator size alignment type_bits desired_flags undesired_flags =
      match jvm_allocate.pools_loop w allocator
        (need_to_map allocator idx desired_flags (normalized_size allocator size alignment)
          alignment).1
        (need_to_map allocator idx desired_flags (normalized_size allocator size alignment)
          alignment).2 idx allocator.pool_count 0 with
      | some r => r
      | none =>
        allocate_in_new_pool w allocator
          (if allocator.min_pool_size <
              (need_to_map allocator idx desired_flags
                (normalized_size allocator size alignment) alignment).1 then
            (need_to_map allocator idx desired_flags (normalized_size allocator size alignment)
              alignment).1
          else allocator.min_pool_size)
          (need_to_map allocator idx desired_flags (normalized_size allocator size alignment)
            alignment).1
          (need_to_map allocator idx desired_flags (normalized_size allocator size alignment)
            alignment).2 idx := by
  unfold jvm_allocate
  simp only [hidx]
  try rfl

/-! ## C27: the pool `jvm_allocate` takes the chunk from -/

/-- C27: let `idx` be the memory type chosen and let the pool at index `j` be the first pool
of that memory type with a chunk that fits the request (its size and alignment after
normalisation and "check for need to map"). Then `jvm_allocate` returns what
`allocate_from_pool` makes of that pool: the pool list is the old one with that pool
replaced, so `pool_count` is unchanged and every other pool is untouched; on `VK_SUCCESS` the
chunk returned is a chunk of that pool, marked used; and the call succeeds when no host
allocation fails. -/
theorem jvm_allocate_pool_selection (w : World) (allocator : jvm_allocator)
    (size alignment type_bits desired_flags undesired_flags idx j : Nat)
    (pool : jvm_allocation_pool)
    (hidx : jvm_allocate.memory_type allocator.memory_properties type_bits desired_flags
      undesired_flags = some idx)
    (hj : allocator.pools[j]? = some pool) (htype : pool.memory_type_index = idx)
    (hfit : ∃ c ∈ pool.chunks,
      allocate_from_pool.fits
        (need_to_map allocator idx desired_flags (normalized_size allocator size alignment)
          alignment).1
        (need_to_map allocator idx desired_flags (normalized_size allocator size alignment)
          alignment).2 c)
    (hlow : ∀ i p, i < j → allocator.pools[i]? = some p → p.memory_type_index = idx →
      ∀ c ∈ p.chunks,
        ¬ allocate_from_pool.fits
          (need_to_map allocator idx desired_flags (normalized_size allocator size alignment)
            alignment).1
          (need_to_map allocator idx desired_flags (normalized_size allocator size alignment)
            alignment).2 c) :
    (jvm_allocate w allocator size alignment type_bits desired_flags
        undesired_flags).allocator.pools =
      allocator.pools.set j
        (allocate_from_pool w allocator pool
          (need_to_map allocator idx desired_flags (normalized_size allocator size alignment)
            alignment).1
          (need_to_map allocator idx desired_flags (normalized_size allocator size alignment)
            alignment).2).pool ∧
    (jvm_allocate w allocator size alignment type_bits desired_flags
        undesired_flags).allocator.pool_count = allocator.pool_count ∧
    (∀ i, i ≠ j →
      (jvm_allocate w allocator size alignment type_bits desired_flags
        undesired_flags).allocator.pools[i]? = allocator.pools[i]?) ∧
    ((jvm_allocate w allocator size alignment type_bits desired_flags
        undesired_flags).result = VK_SUCCESS →
      ∃ (pool1 : jvm_allocation_pool) (chunk : jvm_chunk),
        (jvm_allocate w allocator size alignment type_bits desired_flags
          undesired_flags).allocator.pools[j]? = some pool1 ∧
        chunk ∈ pool1.chunks ∧ chunk.used = 1 ∧
        (jvm_allocate w allocator size alignment type_bits desired_flags
          undesired_flags).p_out = some chunk.ptr) ∧
    ((∀ b ∈ w.host, b = true) →
      (jvm_allocate w allocator size alignment type_bits desired_flags
        undesired_flags).result = VK_SUCCESS) := by
  have hjl : j < allocator.pools.length := (List.getElem?_eq_some_iff.mp hj).1
  rw [jvm_allocate_of_type w allocator size alignment type_bits desired_flags undesired_flags
    idx hidx]
  rw [pools_loop_first w allocator _ _ idx j pool hj htype hfit hlow allocator.pool_count 0
    (Nat.zero_le _) (by simpa [jvm_allocator.pool_count] using hjl)]
  simp only []
  refine ⟨trivial, by simp [jvm_allocator.pool_count], ?_, ?_, ?_⟩
  · intro i hi
    exact List.getElem?_set_ne (Ne.symm hi)
  · intro hok
    by_cases h0 : (allocate_from_pool w allocator pool
        (need_to_map allocator idx desired_flags (normalized_size allocator size alignment)
          alignment).1
        (need_to_map allocator idx desired_flags (normalized_size allocator size alignment)
          alignment).2).result = 0
    · obtain ⟨chunk, hmem, hp, hu⟩ := allocate_from_pool_handed w allocator pool _ _ h0
      refine ⟨_, chunk, List.getElem?_set_self hjl, hmem, hu, ?_⟩
      rw [if_pos h0]; exact hp
    · rw [if_neg h0] at hok
      exact absurd hok (by decide)
  · intro hh
    rw [if_pos ((allocate_from_pool_of_fit w allocator pool _ _ hfit).2 hh)]

/-- C27, witness: 200 bytes at alignment 64 on `abc_allocator`, whose only pool has an unused
chunk that fits. -/
theorem jvm_allocate_pool_selection_witness :
    (jvm_allocate sample_world abc_allocator 200 64 1 1 0).allocator.pools =
      abc_allocator.pools.set 0
        (allocate_from_pool sample_world abc_allocator sample_pool_abc
          (need_to_map abc_allocator 0 1 (normalized_size abc_allocator 200 64) 64).1
          (need_to_map abc_allocator 0 1 (normalized_size abc_allocator 200 64) 64).2).pool ∧
    (jvm_allocate sample_world abc_allocator 200 64 1 1 0).allocator.pool_count =
      abc_allocator.pool_count ∧
    (∀ i, i ≠ 0 →
      (jvm_allocate sample_world abc_allocator 200 64 1 1 0).allocator.pools[i]? =
        abc_allocator.pools[i]?) ∧
    (∃ (pool1 : jvm_allocation_pool) (chunk : jvm_chunk),
        (jvm_allocate sample_world abc_allocator 200 64 1 1 0).allocator.pools[0]? =
          some pool1 ∧
        chunk ∈ pool1.chunks ∧ chunk.used = 1 ∧
        (jvm_allocate sample_world abc_allocator 200 64 1 1 0).p_out = some chunk.ptr) ∧
    (jvm_allocate sample_world abc_allocator 200 64 1 1 0).result = VK_SUCCESS :=
  ⟨(jvm_allocate_pool_selection sample_world abc_allocator 200 64 1 1 0 0 0 sample_pool_abc
      (by decide) (by rfl) (by rfl) (by decide)
      (fun i _ hi => absurd hi (Nat.not_lt_zero i))).1,
   (jvm_allocate_pool_selection sample_world abc_allocator 200 64 1 1 0 0 0 sample_pool_abc
      (by decide) (by rfl) (by rfl) (by decide)
      (fun i _ hi => absurd hi (Nat.not_lt_zero i))).2.1,
   (jvm_allocate_pool_selection sample_world abc_allocator 200 64 1 1 0 0 0 sample_pool_abc
      (by decide) (by rfl) (by rfl) (by decide)
      (fun i _ hi => absurd hi (Nat.not_lt_zero i))).2.2.1,
   (jvm_allocate_pool_selection sample_world abc_allocator 200 64 1 1 0 0 0 sample_pool_abc
      (by decide) (by rfl) (by rfl) (by decide)
      (fun i _ hi => absurd hi (Nat.not_lt_zero i))).2.2.2.1 (by decide),
   (jvm_allocate_pool_selection sample_world abc_allocator 200 64 1 1 0 0 0 sample_pool_abc
      (by decide) (by rfl) (by rfl) (by decide)
      (fun i _ hi => absurd hi (Nat.not_lt_zero i))).2.2.2.2 (by decide)⟩

theorem need_to_map_size_lt (allocator : jvm_allocator)
    (idx desired_flags size alignment : Nat) (hsize : size < U64) (halign : alignment < U64)
    (hmap : allocator.min_map_alignment < U64) :
    (need_to_map allocator idx desired_flags size alignment).1 < U64 := by
  unfold need_to_map
  simp only []
  split_ifs <;> assumption

/-! ## C26: the layout of a first allocation -/

/-- The layout of a first allocation in terms of `need_to_map`: on an allocator with no pools,
with 64-bit sizes and limits, when `jvm_allocate` succeeds the pool list is one pool of size
`P = max(min_pool_size, n)`, `n` being the size after normalisation and "check for need to
map"; the chunk returned is its first chunk, at offset 0 with padding 0 and `used == 1`. If
`P - n > min_allocation_size` the pool holds two chunks, the first of size `n`, the second
unused, at offset `n`, of size `P - n`; otherwise it holds the one chunk, of size `P`. -/
theorem jvm_allocate_first_layout_bumped (w : World) (allocator : jvm_allocator)
    (size alignment type_bits desired_flags undesired_flags : Nat)
    (hpools : allocator.pools = []) (hsize : size < U64) (halign : alignment < U64)
    (hmin : allocator.min_allocation_size < U64) (hmap : allocator.min_map_alignment < U64)
    (hpool : allocator.min_pool_size < U64)
    (hok : (jvm_allocate w allocator size alignment type_bits desired_flags
      undesired_flags).result = VK_SUCCESS) :
    ∃ (idx : Nat) (pool : jvm_allocation_pool) (c : jvm_chunk) (rest : List jvm_chunk),
      jvm_allocate.memory_type allocator.memory_properties type_bits desired_flags
        undesired_flags = some idx ∧
      (jvm_allocate w allocator size alignment type_bits desired_flags
        undesired_flags).allocator.pools = [pool] ∧
      pool.size = max allocator.min_pool_size
        (need_to_map allocator idx desired_flags (normalized_size allocator size alignment)
          alignment).1 ∧
      pool.chunks = c :: rest ∧
      (jvm_allocate w allocator size alignment type_bits desired_flags
        undesired_flags).p_out = some c.ptr ∧
      c.chunk_offset = 0 ∧ c.padding = 0 ∧ c.used = 1 ∧
      (allocator.min_allocation_size <
          pool.size - (need_to_map allocator idx desired_flags
            (normalized_size allocator size alignment) alignment).1 →
        c.size = (need_to_map allocator idx desired_flags
          (normalized_size allocator size alignment) alignment).1 ∧
        ∃ d : jvm_chunk, rest = [d] ∧ d.used = 0 ∧ d.padding = 0 ∧
          d.chunk_offset = (need_to_map allocator idx desired_flags
            (normalized_size allocator size alignment) alignment).1 ∧
          d.size = pool.size - (need_to_map allocator idx desired_flags
            (normalized_size allocator size alignment) alignment).1) ∧
      (pool.size - (need_to_map allocator idx desired_flags
            (normalized_size allocator size alignment) alignment).1 ≤
          allocator.min_allocation_size →
        rest = [] ∧ c.size = pool.size) := by
  rcases hmt : jvm_allocate.memory_type allocator.memory_properties type_bits
      desired_flags undesired_flags with _ | idx
  · unfold jvm_allocate at hok
    rw [hmt] at hok
    simp [VK_ERROR_OUT_OF_DEVICE_MEMORY, VK_SUCCESS] at hok
  · rw [jvm_allocate_of_type w allocator size alignment type_bits desired_flags
      undesired_flags idx hmt] at hok ⊢
    have hloop : ∀ s a, jvm_allocate.pools_loop w allocator s a idx allocator.pool_count 0 =
        none := by
      intro s a
      simp [jvm_allocator.pool_count, hpools, jvm_allocate.pools_loop]
    rw [hloop] at hok ⊢
    simp only [] at hok ⊢
    refine ⟨idx, ?_⟩
    have hn := normalized_size_lt allocator size alignment hsize halign hmin
    have hs1 := need_to_map_size_lt allocator idx desired_flags
      (normalized_size allocator size alignment) alignment hn halign hmap
    have ha1 := need_to_map_alignment_lt allocator idx desired_flags
      (normalized_size allocator size alignment) alignment halign hmap
    generalize need_to_map allocator idx desired_flags
      (normalized_size allocator size alignment) alignment = nm at hok hs1 ha1 ⊢
    obtain ⟨n, al⟩ := nm
    simp only [] at hok hs1 ha1 ⊢
    have hP : (if allocator.min_pool_size < n then n else allocator.min_pool_size) =
        max allocator.min_pool_size n := by
      split_ifs with h
      · rw [max_eq_right h.le]
      · rw [max_eq_left (Nat.le_of_not_lt h)]
    rw [hP] at hok ⊢
    have hPlt : max allocator.min_pool_size n < U64 := by
      rcases max_cases allocator.min_pool_size n with ⟨h, -⟩ | ⟨h, -⟩ <;> rw [h] <;> assumption
    have hnP : n ≤ max allocator.min_pool_size n := le_max_right _ _
    generalize max allocator.min_pool_size n = P at hok hPlt hnP ⊢
    rcases allocate_in_new_pool_cases w allocator P n al idx with
      ⟨w1, res, cap, hres, e⟩ | ⟨w1, cap, pool, c, e1, e2, e3, e4, e5, e6, e7, e8, e9, -, -, e⟩
    · rw [e] at hok; exact absurd hok hres
    · rw [e] at hok ⊢
      simp only [] at hok ⊢
      by_cases h0 : (allocate_from_pool w1
          { allocator with pool_capacity := cap, pools := allocator.pools ++ [pool] }
          pool n al).result ≠ 0
      · rw [if_pos h0] at hok
        simp [VK_ERROR_OUT_OF_HOST_MEMORY, VK_SUCCESS] at hok
      · rw [if_neg h0]
        have hpad := padding_zero_offset al ha1
        have hadd : u64_add 0 n = n := by
          rw [u64_add_of_lt (by omega)]; omega
        have hadd' : u64_add n 0 = n := u64_add_of_lt (by omega)
        have hsub : u64_sub P n = P - n := u64_sub_of_le hnP hPlt
        rcases allocate_from_pool_single w1
            { allocator with pool_capacity := cap, pools := allocator.pools ++ [pool] }
            pool c n al e1 with
          h | ⟨w2, cap2, h⟩ | ⟨-, hl, w2, cap2, a, h⟩ | ⟨-, hl, h⟩
        · rw [h] at h0; simp at h0
        · rw [h] at h0; simp at h0
        · rw [e2, hpad, e3, hadd, hsub] at hl
          simp only [] at hl
          rw [h, hpools]
          simp only [List.nil_append]
          refine ⟨_, _, _, trivial, rfl, e8, rfl, rfl, e2, ?_, rfl, ?_, ?_⟩
          · rw [e2, hpad]
          · intro _
            refine ⟨?_, _, rfl, rfl, rfl, ?_, ?_⟩
            · rw [e2, hpad]; exact hadd'
            · rw [e2, hpad]
              show u64_add (u64_add 0 0) n = n
              rw [show u64_add 0 0 = 0 from rfl, hadd]
            · rw [e2, hpad, e3, hadd, hsub, e8]
          · intro hle
            rw [e8] at hle
            omega
        · rw [e2, hpad, e3, hadd, hsub] at hl
          simp only [] at hl
          rw [h, hpools]
          simp only [List.nil_append]
          refine ⟨_, _, _, trivial, rfl, e8, rfl, rfl, e2, ?_, rfl, ?_, ?_⟩
          · rw [e2, hpad]
          · intro hlt
            rw [e8] at hlt
            exact absurd hlt hl
          · intro _
            exact ⟨rfl, e3.trans e8.symm⟩

/-- The alignment after "check for need to map". -/
theorem need_to_map_alignment_eq (allocator : jvm_allocator)
    (idx desired_flags size alignment : Nat) :
    (need_to_map allocator idx desired_flags size alignment).2 =
      if ((allocator.memory_properties.memoryType idx).propertyFlags &&& desired_flags) &&&
          VK_MEMORY_PROPERTY_HOST_VISIBLE_BIT ≠ 0 then
        max alignment allocator.min_map_alignment
      else alignment := by
  unfold need_to_map
  by_cases h1 : ((allocator.memory_properties.memoryType idx).propertyFlags &&& desired_flags) &&&
      VK_MEMORY_PROPERTY_HOST_VISIBLE_BIT ≠ 0
  · rw [if_pos h1, if_pos h1]
    show (if alignment < allocator.min_map_alignment then allocator.min_map_alignment
      else alignment) = max alignment allocator.min_map_alignment
    by_cases h2 : alignment < allocator.min_map_alignment
    · rw [if_pos h2]; exact (max_eq_right (Nat.le_of_lt h2)).symm
    · rw [if_neg h2]; exact (max_eq_left (Nat.le_of_not_lt h2)).symm
  · rw [if_neg h1, if_neg h1]

/-- When the test of "check for need to map" fails, the size and the alignment stay. -/
theorem need_to_map_of_not_visible (allocator : jvm_allocator)
    (idx desired_flags size alignment : Nat)
    (h : ((allocator.memory_properties.memoryType idx).propertyFlags &&& desired_flags) &&&
      VK_MEMORY_PROPERTY_HOST_VISIBLE_BIT = 0) :
    need_to_map allocator idx desired_flags size alignment = (size, alignment) := by
  unfold need_to_map
  rw [if_neg (not_not.mpr h)]

/-- C26 as stated is refuted: `host_visible_allocator` has no pools, `min_pool_size` 4096,
`min_allocation_size` 8 and `min_map_alignment` 64. For 8 bytes at alignment 8 with
host-visible memory desired, the normalisation at the head of `jvm_allocate` leaves the size
at 8, and `P - 8` exceeds `min_allocation_size`; but the first chunk of the one pool has 64
bytes and the second starts at offset 64: "check for need to map" raised the size to 64. -/
theorem jvm_allocate_first_host_visible :
    host_visible_allocator.pools = [] ∧
    host_visible_allocator.min_pool_size = 4096 ∧
    host_visible_allocator.min_allocation_size = 8 ∧
    host_visible_allocator.min_map_alignment = 64 ∧
    normalized_size host_visible_allocator 8 8 = 8 ∧
    host_visible_allocator.min_allocation_size <
      max host_visible_allocator.min_pool_size (normalized_size host_visible_allocator 8 8) -
        normalized_size host_visible_allocator 8 8 ∧
    need_to_map host_visible_allocator 0 2 (normalized_size host_visible_allocator 8 8) 8 =
      (64, 64) ∧
    (jvm_allocate sample_world host_visible_allocator 8 8 1 2 0).result = VK_SUCCESS ∧
    (jvm_allocate sample_world host_visible_allocator 8 8 1 2 0).p_out = some ⟨103, 100⟩ ∧
    (jvm_allocate sample_world host_visible_allocator 8 8 1 2 0).allocator.pools.map
      (fun pool => (pool.addr, pool.size,
        pool.chunks.map (fun c => (c.addr, c.chunk_offset, c.padding, c.size, c.used)))) =
      ([(100, 4096, [(103, 0, 0, 64, 1), (105, 64, 0, 4032, 0)])] :
        List (Nat × Nat × List (Nat × Nat × Nat × Nat × Nat))) := by
  refine ⟨by decide, by decide, by decide, by decide, by decide, by decide, by decide,
    by decide, by decide, by rfl⟩

/-- C26, amended: on an allocator with no pools, with 64-bit sizes and limits, let `a` be the
alignment, raised to at least `min_map_alignment` when the memory type chosen and
`desired_flags` are both host-visible, and `n = max(size, min_allocation_size, a)`, the
normalised size after the host-visible bump (without the bump it is the size the head of
`jvm_allocate` computes). When `jvm_allocate` succeeds the pool list is one pool of size
`P = max(min_pool_size, n)`; the chunk returned is its first chunk, at offset 0 with padding
0 and `used == 1`. If `P - n > min_allocation_size` the pool holds exactly two chunks, the
first of size `n`, the second unused, at offset `n`, of size `P - n`; otherwise it holds the
one chunk, of size `P`. -/
theorem jvm_allocate_first_layout (w : World) (allocator : jvm_allocator)
    (size alignment type_bits desired_flags undesired_flags : Nat)
    (hpools : allocator.pools = []) (hsize : size < U64) (halign : alignment < U64)
    (hmin : allocator.min_allocation_size < U64) (hmap : allocator.min_map_alignment < U64)
    (hpool : allocator.min_pool_size < U64)
    (hok : (jvm_allocate w allocator size alignment type_bits desired_flags
      undesired_flags).result = VK_SUCCESS) :
    ∃ (idx a n : Nat) (pool : jvm_allocation_pool) (c : jvm_chunk) (rest : List jvm_chunk),
      jvm_allocate.memory_type allocator.memory_properties type_bits desired_flags
        undesired_flags = some idx ∧
      a = (if ((allocator.memory_properties.memoryType idx).propertyFlags &&& desired_flags) &&&
            VK_MEMORY_PROPERTY_HOST_VISIBLE_BIT ≠ 0 then
          max alignment allocator.min_map_alignment
        else alignment) ∧
      n = max (max size allocator.min_allocation_size) a ∧
      (((allocator.memory_properties.memoryType idx).propertyFlags &&& desired_flags) &&&
          VK_MEMORY_PROPERTY_HOST_VISIBLE_BIT = 0 →
        n = normalized_size allocator size alignment) ∧
      (jvm_allocate w allocator size alignment type_bits desired_flags
        undesired_flags).allocator.pools = [pool] ∧
      pool.size = max allocator.min_pool_size n ∧
      pool.chunks = c :: rest ∧
      (jvm_allocate w allocator size alignment type_bits desired_flags
        undesired_flags).p_out = some c.ptr ∧
      c.chunk_offset = 0 ∧ c.padding = 0 ∧ c.used = 1 ∧
      (allocator.min_allocation_size < pool.size - n →
        c.size = n ∧
        ∃ d : jvm_chunk, rest = [d] ∧ d.used = 0 ∧ d.padding = 0 ∧ d.chunk_offset = n ∧
          d.size = pool.size - n) ∧
      (pool.size - n ≤ allocator.min_allocation_size → rest = [] ∧ c.size = pool.size) := by
  obtain ⟨idx, pool, c, rest, h1, h2, h3, h4, h5, h6, h7, h8, h9, h10⟩ :=
    jvm_allocate_first_layout_bumped w allocator size alignment type_bits desired_flags
      undesired_flags hpools hsize halign hmin hmap hpool hok
  have hn := need_to_map_size_eq allocator idx desired_flags size alignment
  have ha := need_to_map_alignment_eq allocator idx desired_flags
    (normalized_size allocator size alignment) alignment
  rw [ha] at hn
  refine ⟨idx, _, _, pool, c, rest, h1, rfl, rfl, ?_, h2, ?_, h4, h5, h6, h7, h8, ?_, ?_⟩
  · intro hv
    rw [← hn, need_to_map_of_not_visible allocator idx desired_flags _ alignment hv]
  · rw [← hn]; exact h3
  · rw [← hn]; exact h9
  · rw [← hn]; exact h10

/-- C26, witness of the amended claim: 8 bytes at alignment 8 on `host_visible_allocator`,
host-visible memory desired, where the bump raises the size to 64. -/
theorem jvm_allocate_first_layout_witness :
    ∃ (pool : jvm_allocation_pool) (c d : jvm_chunk),
      (jvm_allocate sample_world host_visible_allocator 8 8 1 2 0).allocator.pools = [pool] ∧
      pool.size = 4096 ∧ pool.chunks = [c, d] ∧
      (jvm_allocate sample_world host_visible_allocator 8 8 1 2 0).p_out = some c.ptr ∧
      c.chunk_offset = 0 ∧ c.padding = 0 ∧ c.used = 1 ∧ c.size = 64 ∧
      d.used = 0 ∧ d.padding = 0 ∧ d.chunk_offset = 64 ∧ d.size = 4032 := by
  obtain ⟨idx, a, n, pool, c, rest, h1, ha, hn, -, h2, h3, h4, h5, h6, h7, h8, h9, -⟩ :=
    jvm_allocate_first_layout sample_world host_visible_allocator 8 8 1 2 0 rfl (by decide)
      (by decide) (by decide) (by decide) (by decide) (by decide)
  have hidx : idx = 0 := by
    have e : jvm_allocate.memory_type host_visible_allocator.memory_properties 1 2 0 =
        some 0 := by decide
    rw [e] at h1
    exact (Option.some.inj h1).symm
  subst hidx
  have ha' : a = 64 := by rw [ha]; decide
  subst ha'
  have hn' : n = 64 := by rw [hn]; decide
  subst hn'
  have hP : pool.size = 4096 := by rw [h3]; decide
  obtain ⟨hc, d, hr, hd1, hd2, hd3, hd4⟩ := h9 (by rw [hP]; decide)
  refine ⟨pool, c, d, h2, hP, by rw [h4, hr], h5, h6, h7, h8, hc, hd1, hd2, hd3, ?_⟩
  rw [hd4, hP]

/-! ## The event log -/

theorem silent_refl (w : World) : w.silent w := ⟨[], rfl, by simp, by simp⟩

theorem silent_of_log {w w1 : World} (h : w1.log = w.log) : w.silent w1 :=
  ⟨[], by simpa using h, by simp, by simp⟩

theorem silent_trans {w w1 w2 : World} (h1 : w.silent w1) (h2 : w1.silent w2) :
    w.silent w2 := by
  obtain ⟨e1, l1, a1, b1⟩ := h1
  obtain ⟨e2, l2, a2, b2⟩ := h2
  refine ⟨e2 ++ e1, by rw [l2, l1, List.append_assoc], ?_, ?_⟩
  · simp [a1, a2]
  · simp [b1, b2]

theorem silent_emit (w : World) (e : Event) (h1 : e ≠ Event.jvm_error)
    (h2 : e ≠ Event.report) : w.silent (w.emit e) :=
  ⟨[e], rfl, by simpa using h1.symm, by simpa using h2.symm⟩

theorem grown_refl (w : World) : w.grown w := ⟨[], rfl⟩

theorem grown_of_silent {w w1 : World} (h : w.silent w1) : w.grown w1 :=
  ⟨h.choose, h.choose_spec.1⟩

theorem grown_of_reported {w w1 : World} (h : w.reported w1) : w.grown w1 :=
  ⟨h.choose, h.choose_spec.1⟩

theorem grown_trans {w w1 w2 : World} (h1 : w.grown w1) (h2 : w1.grown w2) : w.grown w2 := by
  obtain ⟨e1, l1⟩ := h1
  obtain ⟨e2, l2⟩ := h2
  exact ⟨e2 ++ e1, by rw [l2, l1, List.append_assoc]⟩

theorem reported_grown {w w1 w2 : World} (h1 : w.reported w1) (h2 : w1.grown w2) :
    w.reported w2 := by
  obtain ⟨e1, l1, a1⟩ := h1
  obtain ⟨e2, l2⟩ := h2
  exact ⟨e2 ++ e1, by rw [l2, l1, List.append_assoc], by simp [a1]⟩

theorem grown_reported {w w1 w2 : World} (h1 : w.grown w1) (h2 : w1.reported w2) :
    w.reported w2 := by
  obtain ⟨e1, l1⟩ := h1
  obtain ⟨e2, l2, a2⟩ := h2
  exact ⟨e2 ++ e1, by rw [l2, l1, List.append_assoc], by simp [a2]⟩

theorem jvm_alloc_log (w : World) : (jvm_alloc w).1.log = w.log := by
  rcases jvm_alloc_cases w with ⟨w1, h, -, hl⟩ | ⟨w1, h, -, hl⟩ <;> rw [h] <;> exact hl

theorem jvm_alloc_silent (w : World) : w.silent (jvm_alloc w).1 :=
  silent_of_log (jvm_alloc_log w)

theorem driver_call_log (w : World) : (w.driver_call).1.log = w.log := by
  unfold World.driver_call
  rcases w.driver with _ | ⟨r, rest⟩ <;> rfl

theorem driver_call_silent (w : World) : w.silent (w.driver_call).1 :=
  silent_of_log (driver_call_log w)

theorem jvm_report_error_grown (w : World) (alc : jvm_allocator) :
    w.grown (jvm_report_error w alc) := by
  unfold jvm_report_error
  split_ifs
  · exact grown_refl w
  · rcases jvm_alloc_cases w with ⟨w1, h, -, hl⟩ | ⟨w1, h, -, hl⟩ <;> rw [h]
    · exact ⟨[], by simpa using hl⟩
    · exact ⟨[Event.report], by simp [World.emit, hl]⟩

/-- The macro `JVM_ERROR` leaves its mark in the log. -/
theorem JVM_ERROR_reported (w : World) (alc : jvm_allocator) : w.reported (JVM_ERROR w alc) := by
  unfold JVM_ERROR
  exact grown_reported (grown_refl w)
    (reported_grown ⟨[Event.jvm_error], rfl, by simp⟩ (jvm_report_error_grown _ alc))

theorem not_silent_and_reported {w w1 : World} (h1 : w.silent w1) (h2 : w.reported w1) :
    False := by
  obtain ⟨e1, l1, a1, -⟩ := h1
  obtain ⟨e2, l2, a2⟩ := h2
  rw [l1] at l2
  have := List.append_cancel_right l2
  rw [this] at a1
  exact a1 a2

theorem oohm_ne_success : VK_ERROR_OUT_OF_HOST_MEMORY ≠ VK_SUCCESS := by decide

theorem jvm_alloc_split (w : World) :
    ∃ w1 o, jvm_alloc w = (w1, o) ∧ w.silent w1 :=
  ⟨(jvm_alloc w).1, (jvm_alloc w).2, rfl, jvm_alloc_silent w⟩

theorem driver_call_split (w : World) :
    ∃ w1 r, w.driver_call = (w1, r) ∧ w.silent w1 :=
  ⟨(w.driver_call).1, (w.driver_call).2, rfl, driver_call_silent w⟩

theorem split_log (w : World) (allocator : jvm_allocator) (pool : jvm_allocation_pool)
    (i : Nat) (chunk : jvm_chunk) (size padding left_over : Nat) :
    ((allocate_from_pool.split w allocator pool i chunk size padding left_over).result = 0 ∧
      w.silent (allocate_from_pool.split w allocator pool i chunk size padding
        left_over).world) ∨
    ((allocate_from_pool.split w allocator pool i chunk size padding left_over).result = -1 ∧
      w.reported (allocate_from_pool.split w allocator pool i chunk size padding
        left_over).world) := by
  unfold allocate_from_pool.split
  obtain ⟨w1, o, e, hs⟩ := jvm_alloc_split w
  rw [e]
  cases o with
  | none =>
    right
    exact ⟨rfl, grown_reported (grown_of_silent hs) (JVM_ERROR_reported w1 allocator)⟩
  | some a =>
    left
    exact ⟨rfl, hs⟩

theorem carve_log (w : World) (allocator : jvm_allocator) (pool : jvm_allocation_pool)
    (i : Nat) (chunk : jvm_chunk) (size padding : Nat) :
    ((allocate_from_pool.carve w allocator pool i chunk size padding).result = 0 ∧
      w.silent (allocate_from_pool.carve w allocator pool i chunk size padding).world) ∨
    ((allocate_from_pool.carve w allocator pool i chunk size padding).result = -1 ∧
      w.reported (allocate_from_pool.carve w allocator pool i chunk size padding).world) := by
  unfold allocate_from_pool.carve
  simp only [gt_iff_lt]
  by_cases hl : allocator.min_allocation_size < u64_sub chunk.size (u64_add padding size)
  · rw [if_pos hl]
    by_cases hc : pool.chunk_count = pool.chunk_capacity
    · rw [if_pos hc]
      unfold jvm_realloc
      obtain ⟨w1, o, e, hs⟩ := jvm_alloc_split w
      rw [e]
      cases o with
      | none =>
        right
        exact ⟨rfl, grown_reported (grown_of_silent hs) (JVM_ERROR_reported w1 allocator)⟩
      | some a =>
        simp only []
        rcases split_log w1 allocator
            { pool with chunk_capacity :=
              ((if pool.chunk_capacity ≠ 0 then pool.chunk_capacity else 8) <<< 1) % U32 }
            i chunk size padding (u64_sub chunk.size (u64_add padding size)) with
          ⟨h1, h2⟩ | ⟨h1, h2⟩
        · exact Or.inl ⟨h1, silent_trans hs h2⟩
        · exact Or.inr ⟨h1, grown_reported (grown_of_silent hs) h2⟩
    · rw [if_neg hc]
      exact split_log w allocator pool i chunk size padding _
  · rw [if_neg hl]
    exact Or.inl ⟨rfl, silent_refl w⟩

/-- `allocate_from_pool` and the log: nothing happens when no chunk fits, a return of 0 is
silent, a return of -1 went through `JVM_ERROR`. -/
theorem allocate_from_pool_log (w : World) (allocator : jvm_allocator)
    (pool : jvm_allocation_pool) (size alignment : Nat) :
    (allocate_from_pool w allocator pool size alignment = ⟨w, 1, pool, none⟩) ∨
    ((allocate_from_pool w allocator pool size alignment).result = 0 ∧
      w.silent (allocate_from_pool w allocator pool size alignment).world) ∨
    ((allocate_from_pool w allocator pool size alignment).result = -1 ∧
      w.reported (allocate_from_pool w allocator pool size alignment).world) := by
  unfold allocate_from_pool
  rcases loop_cases w allocator pool size alignment pool.chunk_count 0
      (by simp [jvm_allocation_pool.chunk_count]) with ⟨-, e⟩ | ⟨j, chunk, -, -, -, -, e⟩
  · exact Or.inl e
  · rw [e]
    exact Or.inr (carve_log w allocator pool j chunk size _)

theorem vkAllocateMemory_split (w : World) (size idx : Nat) :
    ∃ w1 r mem, vkAllocateMemory w size idx = (w1, r, mem) ∧ w.silent w1 := by
  unfold vkAllocateMemory
  have h1 := silent_emit w (Event.vkAllocateMemory size idx) (by simp) (by simp)
  obtain ⟨w1, r, e, h2⟩ := driver_call_split (w.emit (Event.vkAllocateMemory size idx))
  rw [e]
  simp only []
  split_ifs
  · exact ⟨_, _, _, rfl, silent_trans h1 (silent_trans h2 (silent_of_log rfl))⟩
  · exact ⟨_, _, _, rfl, silent_trans h1 h2⟩

theorem create_new_pool_fill_log (w : World) (this : jvm_allocator)
    (pool_addr mem_size idx : Nat) (mem_info : VkMemoryType) :
    ((create_new_pool.fill w this pool_addr mem_size idx mem_info).result = VK_SUCCESS ∧
      w.silent (create_new_pool.fill w this pool_addr mem_size idx mem_info).world) ∨
    ((create_new_pool.fill w this pool_addr mem_size idx mem_info).result ≠ VK_SUCCESS ∧
      w.reported (create_new_pool.fill w this pool_addr mem_size idx mem_info).world) := by
  unfold create_new_pool.fill
  obtain ⟨w1, o1, e1, hs1⟩ := jvm_alloc_split w
  rw [e1]
  cases o1 with
  | none =>
    right
    exact ⟨oohm_ne_success, grown_reported (grown_of_silent hs1) (JVM_ERROR_reported w1 this)⟩
  | some a =>
    simp only []
    obtain ⟨w2, o2, e2, hs2⟩ := jvm_alloc_split w1
    rw [e2]
    cases o2 with
    | none =>
      right
      exact ⟨oohm_ne_success, grown_reported (grown_of_silent (silent_trans hs1 hs2))
        (JVM_ERROR_reported w2 this)⟩
    | some b =>
      simp only []
      obtain ⟨w3, res, mem, e3, hs3⟩ := vkAllocateMemory_split w2 mem_size idx
      rw [e3]
      simp only []
      by_cases hr : res ≠ VK_SUCCESS
      · rw [if_pos hr]
        right
        exact ⟨hr, grown_reported
          (grown_of_silent (silent_trans hs1 (silent_trans hs2 hs3)))
          (JVM_ERROR_reported w3 this)⟩
      · rw [if_neg hr]
        left
        exact ⟨rfl, silent_trans hs1 (silent_trans hs2 hs3)⟩

theorem create_new_pool_log (w : World) (this : jvm_allocator) (mem_size idx : Nat)
    (mem_info : VkMemoryType) :
    ((create_new_pool w this mem_size idx mem_info).result = VK_SUCCESS ∧
      w.silent (create_new_pool w this mem_size idx mem_info).world) ∨
    ((create_new_pool w this mem_size idx mem_info).result ≠ VK_SUCCESS ∧
      w.reported (create_new_pool w this mem_size idx mem_info).world) := by
  unfold create_new_pool
  obtain ⟨w1, o1, e1, hs1⟩ := jvm_alloc_split w
  rw [e1]
  cases o1 with
  | none =>
    right
    exact ⟨oohm_ne_success, grown_reported (grown_of_silent hs1) (JVM_ERROR_reported w1 this)⟩
  | some a =>
    simp only []
    by_cases hcap : this.pool_capacity = this.pool_count
    · rw [if_pos hcap]
      unfold jvm_realloc
      obtain ⟨w2, o2, e2, hs2⟩ := jvm_alloc_split w1
      rw [e2]
      cases o2 with
      | none =>
        right
        exact ⟨oohm_ne_success, grown_reported (grown_of_silent (silent_trans hs1 hs2))
          (JVM_ERROR_reported w2 this)⟩
      | some b =>
        simp only []
        rcases create_new_pool_fill_log w2
            { this with pool_capacity :=
              ((if this.pool_count ≠ 0 then this.pool_count else 8) <<< 1) % U32 }
            a mem_size idx mem_info with ⟨h1, h2⟩ | ⟨h1, h2⟩
        · exact Or.inl ⟨h1, silent_trans hs1 (silent_trans hs2 h2)⟩
        · exact Or.inr ⟨h1, grown_reported (grown_of_silent (silent_trans hs1 hs2)) h2⟩
    · rw [if_neg hcap]
      rcases create_new_pool_fill_log w1 this a mem_size idx mem_info with
        ⟨h1, h2⟩ | ⟨h1, h2⟩
      · exact Or.inl ⟨h1, silent_trans hs1 h2⟩
      · exact Or.inr ⟨h1, grown_reported (grown_of_silent hs1) h2⟩

theorem oodm_ne_success : VK_ERROR_OUT_OF_DEVICE_MEMORY ≠ VK_SUCCESS := by decide

/-- `allocate_in_new_pool` and the log: success is silent; a failure went through `JVM_ERROR`,
unless `allocate_from_pool` found no fit in the pool just made. -/
theorem allocate_in_new_pool_log (w : World) (allocator : jvm_allocator)
    (new_pool_size size alignment idx : Nat) :
    ((allocate_in_new_pool w allocator new_pool_size size alignment idx).result = VK_SUCCESS →
      w.silent (allocate_in_new_pool w allocator new_pool_size size alignment idx).world) ∧
    ((allocate_in_new_pool w allocator new_pool_size size alignment idx).result ≠ VK_SUCCESS →
      w.reported (allocate_in_new_pool w allocator new_pool_size size alignment idx).world ∨
      ∃ (w1 : World) (allocator1 : jvm_allocator) (pool : jvm_allocation_pool) (c : jvm_chunk),
        pool.chunks = [c] ∧ c.chunk_offset = 0 ∧ c.size = new_pool_size ∧ c.used = 0 ∧
        allocate_from_pool w1 allocator1 pool size alignment = ⟨w1, 1, pool, none⟩) := by
  unfold allocate_in_new_pool
  simp only []
  rcases create_new_pool_log w allocator new_pool_size idx
      (allocator.memory_properties.memoryType idx) with ⟨h1, h2⟩ | ⟨h1, h2⟩
  · rw [if_neg (not_not.mpr h1)]
    obtain ⟨pool, c, e1, e2, e3, e4, e5, -⟩ :=
      create_new_pool_success w allocator new_pool_size idx _ h1
    generalize create_new_pool w allocator new_pool_size idx
      (allocator.memory_properties.memoryType idx) = cr at e1 h2
    have hlast : cr.allocator.pools[cr.allocator.pool_count - 1]? = some pool := by
      simp [jvm_allocator.pool_count, e1]
    rw [hlast]
    simp only []
    rcases allocate_from_pool_log cr.world cr.allocator pool size alignment with
      e | ⟨h0, hs⟩ | ⟨hn, hr⟩
    · rw [e]
      simp only []
      rw [if_pos (by decide)]
      exact ⟨fun h => absurd h oohm_ne_success,
        fun _ => Or.inr ⟨cr.world, cr.allocator, pool, c, e2, e3, e4, e5, e⟩⟩
    · rw [if_neg (not_not.mpr h0)]
      exact ⟨fun _ => silent_trans h2 hs, fun h => absurd rfl h⟩
    · rw [if_pos (by rw [hn]; decide)]
      exact ⟨fun h => absurd h oohm_ne_success,
        fun _ => Or.inl (grown_reported (grown_of_silent h2) hr)⟩
  · rw [if_pos h1]
    exact ⟨fun h => absurd h h1,
      fun _ => Or.inl (grown_reported (grown_of_reported h2) (JVM_ERROR_reported _ _))⟩

/-- On a pool just made, a request of at most its size with a 64-bit alignment fits. -/
theorem fresh_chunk_fits (c : jvm_chunk) (size alignment : Nat) (hoff : c.chunk_offset = 0)
    (hu : c.used = 0) (hsize : size ≤ c.size) (halign : alignment < U64) :
    allocate_from_pool.fits size alignment c := by
  unfold allocate_from_pool.fits
  rw [hoff, padding_zero_offset alignment halign]
  refine ⟨by omega, ?_⟩
  unfold u64_add
  have : (0 + size) % U64 ≤ size := by
    rw [Nat.zero_add]; exact Nat.mod_le _ _
  omega

/-- With a 64-bit alignment and a pool at least as large as the request, a failure of
`allocate_in_new_pool` went through `JVM_ERROR`. -/
theorem allocate_in_new_pool_failure_reported (w : World) (allocator : jvm_allocator)
    (new_pool_size size alignment idx : Nat) (halign : alignment < U64)
    (hsize : size ≤ new_pool_size)
    (hfail : (allocate_in_new_pool w allocator new_pool_size size alignment idx).result ≠
      VK_SUCCESS) :
    w.reported (allocate_in_new_pool w allocator new_pool_size size alignment idx).world := by
  rcases (allocate_in_new_pool_log w allocator new_pool_size size alignment idx).2 hfail with
    h | ⟨w1, a1, pool, c, e1, e2, e3, e4, e⟩
  · exact h
  · have hfit := fresh_chunk_fits c size alignment e2 e4 (by omega) halign
    have := (allocate_from_pool_of_fit w1 a1 pool size alignment
      ⟨c, by rw [e1]; simp, hfit⟩).1
    rw [e] at this
    simp at this

/-- The loop of `jvm_allocate` over the pools and the log. -/
theorem pools_loop_log (w : World) (allocator : jvm_allocator)
    (size alignment idx : Nat) (fuel i : Nat) (r : jvm_result)
    (h : jvm_allocate.pools_loop w allocator size alignment idx fuel i = some r) :
    (r.result = VK_SUCCESS ∧ w.silent r.world) ∨
    (r.result ≠ VK_SUCCESS ∧ w.reported r.world) := by
  rcases pools_loop_cases w allocator size alignment idx fuel i with
    hnone | ⟨j, pool, -, -, hle, e⟩
  · rw [hnone] at h; simp at h
  · rw [e] at h
    simp only [Option.some.injEq] at h
    subst h
    simp only []
    rcases allocate_from_pool_log w allocator pool size alignment with
      e1 | ⟨h0, hs⟩ | ⟨hn, hr⟩
    · rw [e1] at hle; simp at hle
    · rw [if_pos h0]; exact Or.inl ⟨rfl, hs⟩
    · rw [if_neg (by rw [hn]; decide)]; exact Or.inr ⟨oohm_ne_success, hr⟩

/-- `jvm_allocate` and the log: success is silent; with 64-bit alignments a failure went
through `JVM_ERROR`. -/
theorem jvm_allocate_log (w : World) (allocator : jvm_allocator)
    (size alignment type_bits desired_flags undesired_flags : Nat) :
    ((jvm_allocate w allocator size alignment type_bits desired_flags
        undesired_flags).result = VK_SUCCESS →
      w.silent (jvm_allocate w allocator size alignment type_bits desired_flags
        undesired_flags).world) ∧
    (alignment < U64 → allocator.min_map_alignment < U64 →
      (jvm_allocate w allocator size alignment type_bits desired_flags
        undesired_flags).result ≠ VK_SUCCESS →
      w.reported (jvm_allocate w allocator size alignment type_bits desired_flags
        undesired_flags).world) := by
  rcases hmt : jvm_allocate.memory_type allocator.memory_properties type_bits
      desired_flags undesired_flags with _ | idx
  · have e : jvm_allocate w allocator size alignment type_bits desired_flags undesired_flags =
        ⟨JVM_ERROR w allocator, VK_ERROR_OUT_OF_DEVICE_MEMORY, allocator, none⟩ := by
      unfold jvm_allocate
      simp only [hmt]
    rw [e]
    exact ⟨fun h => absurd h oodm_ne_success, fun _ _ _ => JVM_ERROR_reported w allocator⟩
  · rw [jvm_allocate_of_type w allocator size alignment type_bits desired_flags
      undesired_flags idx hmt]
    rcases hl : jvm_allocate.pools_loop w allocator
        (need_to_map allocator idx desired_flags (normalized_size allocator size alignment)
          alignment).1
        (need_to_map allocator idx desired_flags (normalized_size allocator size alignment)
          alignment).2 idx allocator.pool_count 0 with _ | r
    · simp only []
      refine ⟨(allocate_in_new_pool_log w allocator _ _ _ idx).1, ?_⟩
      intro halign hmap hfail
      refine allocate_in_new_pool_failure_reported w allocator _ _ _ idx
        (need_to_map_alignment_lt allocator idx desired_flags _ alignment halign hmap) ?_ hfail
      split_ifs with hlt
      · exact Nat.le_refl _
      · exact Nat.le_of_not_lt hlt
    · simp only []
      rcases pools_loop_log w allocator _ _ idx _ 0 r hl with ⟨h1, h2⟩ | ⟨h1, h2⟩
      · exact ⟨fun _ => h2, fun _ _ h => absurd h1 h⟩
      · exact ⟨fun h => absurd h h1, fun _ _ _ => h2⟩

/-- `jvm_allocate_dedicated` and the log. -/
theorem jvm_allocate_dedicated_log (w : World) (allocator : jvm_allocator)
    (size alignment type_bits desired_flags undesired_flags : Nat) :
    ((jvm_allocate_dedicated w allocator size alignment type_bits desired_flags
        undesired_flags).result = VK_SUCCESS →
      w.silent (jvm_allocate_dedicated w allocator size alignment type_bits desired_flags
        undesired_flags).world) ∧
    (alignment < U64 → allocator.min_map_alignment < U64 →
      (jvm_allocate_dedicated w allocator size alignment type_bits desired_flags
        undesired_flags).result ≠ VK_SUCCESS →
      w.reported (jvm_allocate_dedicated w allocator size alignment type_bits desired_flags
        undesired_flags).world) := by
  rcases jvm_allocate_dedicated_outcome w allocator size alignment type_bits desired_flags
      undesired_flags with ⟨-, e⟩ | ⟨idx, -, e⟩
  · rw [e]
    exact ⟨fun h => absurd h oodm_ne_success, fun _ _ _ => JVM_ERROR_reported w allocator⟩
  · rw [e]
    refine ⟨(allocate_in_new_pool_log w allocator _ _ _ idx).1, ?_⟩
    intro halign hmap hfail
    exact allocate_in_new_pool_failure_reported w allocator _ _ _ idx
      (need_to_map_alignment_lt allocator idx desired_flags _ alignment halign hmap)
      (Nat.le_refl _) hfail

theorem unknown_ne_success : VK_ERROR_UNKNOWN ≠ VK_SUCCESS := by decide

theorem deallocate_from_pool_result (pool : jvm_allocation_pool) (chunk : chunk_ptr) :
    (deallocate_from_pool pool chunk).1 = -1 ∨ (deallocate_from_pool pool chunk).1 = 0 := by
  rcases deallocate_from_pool_cases pool chunk with ⟨-, e⟩ | ⟨pre, x, post, -, -, -, e⟩ <;>
    rw [e]
  · exact Or.inl rfl
  · exact Or.inr rfl

theorem merge_right_used (x : jvm_chunk) (post : List jvm_chunk) :
    (merge_right x post).1.used = x.used := by
  induction post generalizing x with
  | nil => rfl
  | cons d r ih =>
    unfold merge_right
    split_ifs
    · rw [ih]; rfl
    · rfl

theorem merge_left_ne_nil (rl : List jvm_chunk) (y : jvm_chunk) : merge_left rl y ≠ [] := by
  induction rl generalizing y with
  | nil => simp [merge_left]
  | cons l r ih =>
    unfold merge_left
    split_ifs
    · exact ih _
    · simp

/-- When the merge towards the front leaves one chunk, that chunk is unused. -/
theorem merge_left_single (rl : List jvm_chunk) (y : jvm_chunk) (hy : y.used = 0)
    (hlen : (merge_left rl y).length = 1) : ∀ c ∈ merge_left rl y, c.used = 0 := by
  induction rl generalizing y with
  | nil =>
    intro c hc
    simp only [merge_left, List.mem_singleton] at hc
    rw [hc]; exact hy
  | cons l r ih =>
    unfold merge_left at hlen ⊢
    by_cases h : l.used = 0 ∧ y.used = 0
    · rw [if_pos h] at hlen ⊢
      exact ih (l.absorb y) h.1 hlen
    · rw [if_neg h] at hlen
      simp at hlen

/-- When `deallocate_from_pool` succeeds and leaves one chunk, that chunk is unused. -/
theorem deallocate_from_pool_single_unused (pool : jvm_allocation_pool) (chunk : chunk_ptr)
    (h0 : (deallocate_from_pool pool chunk).1 = 0)
    (h1 : (deallocate_from_pool pool chunk).2.chunk_count = 1) :
    ((deallocate_from_pool pool chunk).2.chunks.map (fun c => c.used)).headD 0 = 0 := by
  rcases deallocate_from_pool_cases pool chunk with ⟨-, e⟩ | ⟨pre, x, post, -, -, -, e⟩
  · rw [e] at h0; simp at h0
  · rw [e] at h1 ⊢
    simp only [jvm_allocation_pool.chunk_count, List.length_append] at h1
    have hne := merge_left_ne_nil pre.reverse (merge_right x.release post).1
    have hpos : 0 < (merge_left pre.reverse (merge_right x.release post).1).length :=
      List.length_pos.mpr hne
    have hlen : (merge_left pre.reverse (merge_right x.release post).1).length = 1 := by omega
    have hrest : (merge_right x.release post).2 = [] := List.length_eq_zero.mp (by omega)
    have hall := merge_left_single pre.reverse (merge_right x.release post).1
      (by rw [merge_right_used]; rfl) hlen
    rw [hrest, List.append_nil]
    rcases hm : merge_left pre.reverse (merge_right x.release post).1 with _ | ⟨c, l⟩
    · exact absurd hm hne
    · rw [hm] at hall
      simpa using hall c (List.mem_cons_self _ _)

/-- `deallocate_from_pool` does not move the pool. -/
theorem deallocate_from_pool_addr (pool : jvm_allocation_pool) (chunk : chunk_ptr) :
    (deallocate_from_pool pool chunk).2.addr = pool.addr ∧
    (deallocate_from_pool pool chunk).2.memory = pool.memory := by
  rcases deallocate_from_pool_cases pool chunk with ⟨-, e⟩ | ⟨pre, x, post, -, -, -, e⟩ <;>
    rw [e] <;> exact ⟨rfl, rfl⟩

/-- `jvm_deallocate` and the log: `VK_SUCCESS` is silent, any other result went through
`JVM_ERROR`. -/
theorem jvm_deallocate_log (w : World) (allocator : jvm_allocator) (chunk : chunk_ptr)
    (r : allocator_result) (h : jvm_deallocate w allocator chunk = some r) :
    (r.result = VK_SUCCESS → w.silent r.world) ∧
    (r.result ≠ VK_SUCCESS → w.reported r.world) := by
  unfold jvm_deallocate at h
  simp only [] at h
  rcases hp : allocator.pools[allocator.pools.findIdx (fun p => p.addr == chunk.pool)]? with
    _ | pool
  · rw [hp] at h; simp at h
  · rw [hp] at h
    simp only [] at h
    have hk := (List.getElem?_eq_some_iff.mp hp).1
    have h0 := deallocate_from_pool_single_unused pool chunk
    have haddr := (deallocate_from_pool_addr pool chunk).1
    have hres := deallocate_from_pool_result pool chunk
    generalize deallocate_from_pool pool chunk = dr at h h0 haddr hres
    obtain ⟨res, pool1⟩ := dr
    simp only [] at h h0 haddr hres
    by_cases hneg : res < 0
    · rw [if_pos hneg] at h
      simp only [Option.some.injEq] at h
      rw [← h]
      exact ⟨fun hs => absurd hs unknown_ne_success, fun _ => JVM_ERROR_reported w _⟩
    · rw [if_neg hneg] at h
      by_cases h1 : pool1.chunk_count = 1 ∧ allocator.automatically_free_unused ≠ 0
      · rw [if_pos h1] at h
        have hrem : remove_pool w
            { allocator with
              pools := allocator.pools.set
                (allocator.pools.findIdx (fun p => p.addr == chunk.pool)) pool1 } pool1 =
            (w.emit (Event.vkFreeMemory pool1.memory), 0,
              { allocator with
                pools := (allocator.pools.set
                  (allocator.pools.findIdx (fun p => p.addr == chunk.pool)) pool1).eraseIdx
                  ((allocator.pools.set
                    (allocator.pools.findIdx (fun p => p.addr == chunk.pool)) pool1).findIdx
                    (fun p => p.addr == pool1.addr)) }) := by
          have hres0 : res = 0 := by omega
          have hhead := h0 hres0 h1.1
          have hfound : (allocator.pools.set
              (allocator.pools.findIdx (fun p => p.addr == chunk.pool)) pool1).findIdx
              (fun p => p.addr == pool1.addr) <
              (allocator.pools.set
                (allocator.pools.findIdx (fun p => p.addr == chunk.pool)) pool1).length := by
            apply List.findIdx_lt_length_of_exists
            exact ⟨pool1, List.mem_iff_getElem?.mpr ⟨_, List.getElem?_set_self hk⟩, by simp⟩
          unfold remove_pool
          rw [if_neg (by rw [hhead, h1.1]; simp)]
          simp only [jvm_allocator.pool_count]
          rw [if_neg (Nat.ne_of_lt hfound)]
        rw [hrem] at h
        simp only [] at h
        rw [if_neg (by decide)] at h
        simp only [Option.some.injEq] at h
        rw [← h]
        exact ⟨fun _ => silent_emit w _ (by simp) (by simp), fun hs => absurd rfl hs⟩
      · rw [if_neg h1] at h
        simp only [Option.some.injEq] at h
        rw [← h]
        exact ⟨fun _ => silent_refl w, fun hs => absurd rfl hs⟩

theorem map_failed_ne_success : VK_ERROR_MEMORY_MAP_FAILED ≠ VK_SUCCESS := by decide

/-- When `jvm_chunk_map` returns, the pointer led to a chunk record. -/
theorem jvm_chunk_map_deref (w : World) (allocator : jvm_allocator) (chunk : chunk_ptr)
    (r : map_result) (h : jvm_chunk_map w allocator chunk = some r) :
    ∃ pool c, allocator.deref chunk = some (pool, c) := by
  unfold jvm_chunk_map at h
  unfold jvm_allocator.deref
  simp only [] at h
  rcases hp : allocator.pools[allocator.pools.findIdx (fun p => p.addr == chunk.pool)]? with
    _ | pool
  · rw [hp] at h; simp at h
  · rw [hp] at h
    simp only [] at h ⊢
    rcases hc : pool.chunks[pool.chunks.findIdx (fun c => c.addr == chunk.addr)]? with _ | c
    · rw [hc] at h; simp at h
    · exact ⟨pool, c, by rw [hp]; simp only []; rw [hc]⟩

theorem jvm_chunk_unmap_deref (w : World) (allocator : jvm_allocator) (chunk : chunk_ptr)
    (r : allocator_result) (h : jvm_chunk_unmap w allocator chunk = some r) :
    ∃ pool c, allocator.deref chunk = some (pool, c) := by
  unfold jvm_chunk_unmap at h
  unfold jvm_allocator.deref
  simp only [] at h
  rcases hp : allocator.pools[allocator.pools.findIdx (fun p => p.addr == chunk.pool)]? with
    _ | pool
  · rw [hp] at h; simp at h
  · rw [hp] at h
    simp only [] at h ⊢
    rcases hc : pool.chunks[pool.chunks.findIdx (fun c => c.addr == chunk.addr)]? with _ | c
    · rw [hc] at h; simp at h
    · exact ⟨pool, c, by rw [hp]; simp only []; rw [hc]⟩

/-- `jvm_chunk_map` and the log: `VK_SUCCESS` is silent; a failure of `vkMapMemory` (chunk not
mapped, pool not mapped) went through `JVM_ERROR`. -/
theorem jvm_chunk_map_log (w : World) (allocator : jvm_allocator) (chunk : chunk_ptr)
    (pool : jvm_allocation_pool) (c : jvm_chunk) (r : map_result)
    (hderef : allocator.deref chunk = some (pool, c))
    (h : jvm_chunk_map w allocator chunk = some r) :
    (r.result = VK_SUCCESS → w.silent r.world) ∧
    (r.result ≠ VK_SUCCESS → c.mapped = 0 → pool.map_count = 0 → w.reported r.world) := by
  obtain ⟨hp, hc⟩ := deref_some hderef
  by_cases hm : c.mapped = 0
  · by_cases hcount : pool.map_count ≠ 0
    · rw [jvm_chunk_map_shared w allocator chunk pool c hderef hm hcount] at h
      simp only [Option.some.injEq] at h
      rw [← h]
      refine ⟨fun _ => ?_, fun _ _ h0 => absurd h0 hcount⟩
      unfold jvm_chunk_mapped_invalidate
      exact silent_trans (silent_emit w _ (by simp) (by simp)) (driver_call_silent _)
    · have hsil : ∀ w1 res,
          (w.emit (Event.vkMapMemory pool.memory 0 pool.size)).driver_call = (w1, res) →
          w.silent w1 := by
        intro w1 res hd
        have := driver_call_silent (w.emit (Event.vkMapMemory pool.memory 0 pool.size))
        rw [hd] at this
        exact silent_trans (silent_emit w _ (by simp) (by simp)) this
      rcases jvm_chunk_map_first w allocator chunk pool c hderef hm (not_not.mp hcount) with
        ⟨w1, res, hd, hres, e⟩ | ⟨w1, hd, e⟩
      · rw [e] at h
        simp only [Option.some.injEq] at h
        rw [← h]
        exact ⟨fun hs => absurd hs hres, fun _ _ _ =>
          grown_reported
            (grown_of_silent (silent_trans (hsil w1 res hd)
              (silent_of_log (stray_write_log w1 pool.map_ptr))))
            (reported_grown (JVM_ERROR_reported _ allocator)
              (grown_of_reported (JVM_ERROR_reported _ allocator)))⟩
      · rw [e] at h
        simp only [Option.some.injEq] at h
        rw [← h]
        exact ⟨fun _ => silent_trans (hsil w1 _ hd) (silent_of_log rfl),
          fun hs => absurd rfl hs⟩
  · have e : jvm_chunk_map w allocator chunk =
        some ⟨w, VK_ERROR_MEMORY_MAP_FAILED, allocator, none, none⟩ := by
      unfold jvm_chunk_map
      simp only [hp, hc]
      rw [if_pos hm]
    rw [e] at h
    simp only [Option.some.injEq] at h
    rw [← h]
    exact ⟨fun hs => absurd hs map_failed_ne_success, fun _ h0 => absurd h0 hm⟩

/-- `jvm_chunk_unmap` and the log: `VK_SUCCESS` is silent; the unmap of a mapped chunk of a
pool with `map_count == 0` went through `JVM_ERROR`. -/
theorem jvm_chunk_unmap_log (w : World) (allocator : jvm_allocator) (chunk : chunk_ptr)
    (pool : jvm_allocation_pool) (c : jvm_chunk) (r : allocator_result)
    (hderef : allocator.deref chunk = some (pool, c))
    (h : jvm_chunk_unmap w allocator chunk = some r) :
    (r.result = VK_SUCCESS → w.silent r.world) ∧
    (r.result ≠ VK_SUCCESS → c.mapped ≠ 0 → pool.map_count = 0 → w.reported r.world) := by
  obtain ⟨hp, hc⟩ := deref_some hderef
  by_cases hm : c.mapped = 0
  · have e : jvm_chunk_unmap w allocator chunk =
        some ⟨w, VK_ERROR_MEMORY_MAP_FAILED, allocator⟩ := by
      unfold jvm_chunk_unmap
      simp only [hp, hc]
      rw [if_pos hm]
    rw [e] at h
    simp only [Option.some.injEq] at h
    rw [← h]
    exact ⟨fun hs => absurd hs map_failed_ne_success, fun _ h0 => absurd hm h0⟩
  · by_cases hcount : pool.map_count = 0
    · rw [jvm_chunk_unmap_unknown w allocator chunk pool c hderef hm hcount] at h
      simp only [Option.some.injEq] at h
      rw [← h]
      exact ⟨fun hs => absurd hs unknown_ne_success, fun _ _ _ => JVM_ERROR_reported w allocator⟩
    · by_cases hone : pool.map_count - 1 ≠ 0
      · rw [jvm_chunk_unmap_shared w allocator chunk pool c hderef hm hone] at h
        simp only [Option.some.injEq] at h
        rw [← h]
        refine ⟨fun _ => ?_, fun _ _ h0 => absurd h0 hcount⟩
        unfold jvm_chunk_mapped_flush
        exact silent_trans (silent_emit w _ (by simp) (by simp)) (driver_call_silent _)
      · rw [jvm_chunk_unmap_last w allocator chunk pool c hderef hm (by omega)] at h
        simp only [Option.some.injEq] at h
        rw [← h]
        exact ⟨fun _ => silent_emit w _ (by simp) (by simp), fun hs => absurd rfl hs⟩

/-! ## C21: success is silent -/

/-- C21: a call of `jvm_allocate`, `jvm_allocate_dedicated`, `jvm_deallocate`, `jvm_chunk_map`
or `jvm_chunk_unmap` that returns `VK_SUCCESS` adds to the log neither `jvm_error` nor
`report`: the macro `JVM_ERROR` is not reached and the error callback is not called. -/
theorem success_is_silent (w : World) (allocator : jvm_allocator)
    (size alignment type_bits desired_flags undesired_flags : Nat) (chunk : chunk_ptr) :
    ((jvm_allocate w allocator size alignment type_bits desired_flags
        undesired_flags).result = VK_SUCCESS →
      ∃ evs : List Event,
        (jvm_allocate w allocator size alignment type_bits desired_flags
          undesired_flags).world.log = evs ++ w.log ∧
        Event.jvm_error ∉ evs ∧ Event.report ∉ evs) ∧
    ((jvm_allocate_dedicated w allocator size alignment type_bits desired_flags
        undesired_flags).result = VK_SUCCESS →
      ∃ evs : List Event,
        (jvm_allocate_dedicated w allocator size alignment type_bits desired_flags
          undesired_flags).world.log = evs ++ w.log ∧
        Event.jvm_error ∉ evs ∧ Event.report ∉ evs) ∧
    (∀ r, jvm_deallocate w allocator chunk = some r → r.result = VK_SUCCESS →
      ∃ evs : List Event, r.world.log = evs ++ w.log ∧
        Event.jvm_error ∉ evs ∧ Event.report ∉ evs) ∧
    (∀ r, jvm_chunk_map w allocator chunk = some r → r.result = VK_SUCCESS →
      ∃ evs : List Event, r.world.log = evs ++ w.log ∧
        Event.jvm_error ∉ evs ∧ Event.report ∉ evs) ∧
    (∀ r, jvm_chunk_unmap w allocator chunk = some r → r.result = VK_SUCCESS →
      ∃ evs : List Event, r.world.log = evs ++ w.log ∧
        Event.jvm_error ∉ evs ∧ Event.report ∉ evs) := by
  refine ⟨(jvm_allocate_log w allocator _ _ _ _ _).1,
    (jvm_allocate_dedicated_log w allocator _ _ _ _ _).1, ?_, ?_, ?_⟩
  · intro r h hs
    exact (jvm_deallocate_log w allocator chunk r h).1 hs
  · intro r h hs
    obtain ⟨pool, c, hd⟩ := jvm_chunk_map_deref w allocator chunk r h
    exact (jvm_chunk_map_log w allocator chunk pool c r hd h).1 hs
  · intro r h hs
    obtain ⟨pool, c, hd⟩ := jvm_chunk_unmap_deref w allocator chunk r h
    exact (jvm_chunk_unmap_log w allocator chunk pool c r hd h).1 hs

/-- C21, witness: successful calls on `abc_mapped_allocator`: an allocation from the pool, a
dedicated allocation, the release of chunk C, the map of chunk B and the unmap of chunk A. -/
theorem success_is_silent_witness :
    (∃ evs : List Event,
        (jvm_allocate sample_world abc_mapped_allocator 100 64 1 1 0).world.log =
          evs ++ sample_world.log ∧
        Event.jvm_error ∉ evs ∧ Event.report ∉ evs) ∧
    (∃ evs : List Event,
        (jvm_allocate_dedicated sample_world abc_mapped_allocator 100 64 1 1 0).world.log =
          evs ++ sample_world.log ∧
        Event.jvm_error ∉ evs ∧ Event.report ∉ evs) ∧
    (∃ r, jvm_deallocate sample_world abc_mapped_allocator ⟨101, 1⟩ = some r ∧
      ∃ evs : List Event, r.world.log = evs ++ sample_world.log ∧
        Event.jvm_error ∉ evs ∧ Event.report ∉ evs) ∧
    (∃ r, jvm_chunk_map sample_world abc_mapped_allocator ⟨100, 1⟩ = some r ∧
      ∃ evs : List Event, r.world.log = evs ++ sample_world.log ∧
        Event.jvm_error ∉ evs ∧ Event.report ∉ evs) ∧
    (∃ r, jvm_chunk_unmap sample_world abc_mapped_allocator ⟨3, 1⟩ = some r ∧
      ∃ evs : List Event, r.world.log = evs ++ sample_world.log ∧
        Event.jvm_error ∉ evs ∧ Event.report ∉ evs) :=
  ⟨(success_is_silent sample_world abc_mapped_allocator 100 64 1 1 0 ⟨101, 1⟩).1 (by decide),
   (success_is_silent sample_world abc_mapped_allocator 100 64 1 1 0 ⟨101, 1⟩).2.1 (by decide),
   ⟨_, rfl,
    (success_is_silent sample_world abc_mapped_allocator 100 64 1 1 0 ⟨101, 1⟩).2.2.1 _ rfl
      (by decide)⟩,
   ⟨_, rfl,
    (success_is_silent sample_world abc_mapped_allocator 100 64 1 1 0 ⟨100, 1⟩).2.2.2.1 _ rfl
      (by decide)⟩,
   ⟨_, rfl,
    (success_is_silent sample_world abc_mapped_allocator 100 64 1 1 0 ⟨3, 1⟩).2.2.2.2 _ rfl
      (by decide)⟩⟩

/-- `jvm_chunk_map` of a chunk that is already mapped, or of a chunk of a pool that is already
mapped, does not reach `JVM_ERROR`, whatever it returns. -/
theorem jvm_chunk_map_quiet (w : World) (allocator : jvm_allocator) (chunk : chunk_ptr)
    (pool : jvm_allocation_pool) (c : jvm_chunk) (r : map_result)
    (hderef : allocator.deref chunk = some (pool, c))
    (h : jvm_chunk_map w allocator chunk = some r)
    (hq : c.mapped ≠ 0 ∨ pool.map_count ≠ 0) : w.silent r.world := by
  obtain ⟨hp, hc⟩ := deref_some hderef
  by_cases hm : c.mapped = 0
  · have hcount : pool.map_count ≠ 0 := by
      rcases hq with hq | hq
      · exact absurd hm hq
      · exact hq
    rw [jvm_chunk_map_shared w allocator chunk pool c hderef hm hcount] at h
    simp only [Option.some.injEq] at h
    rw [← h]
    unfold jvm_chunk_mapped_invalidate
    exact silent_trans (silent_emit w _ (by simp) (by simp)) (driver_call_silent _)
  · have e : jvm_chunk_map w allocator chunk =
        some ⟨w, VK_ERROR_MEMORY_MAP_FAILED, allocator, none, none⟩ := by
      unfold jvm_chunk_map
      simp only [hp, hc]
      rw [if_pos hm]
    rw [e] at h
    simp only [Option.some.injEq] at h
    rw [← h]
    exact silent_refl w

/-- `jvm_chunk_unmap` of a chunk that is not mapped, or of a chunk of a pool with a map count
other than 0, does not reach `JVM_ERROR`, whatever it returns. -/
theorem jvm_chunk_unmap_quiet (w : World) (allocator : jvm_allocator) (chunk : chunk_ptr)
    (pool : jvm_allocation_pool) (c : jvm_chunk) (r : allocator_result)
    (hderef : allocator.deref chunk = some (pool, c))
    (h : jvm_chunk_unmap w allocator chunk = some r)
    (hq : c.mapped = 0 ∨ pool.map_count ≠ 0) : w.silent r.world := by
  obtain ⟨hp, hc⟩ := deref_some hderef
  by_cases hm : c.mapped = 0
  · have e : jvm_chunk_unmap w allocator chunk =
        some ⟨w, VK_ERROR_MEMORY_MAP_FAILED, allocator⟩ := by
      unfold jvm_chunk_unmap
      simp only [hp, hc]
      rw [if_pos hm]
    rw [e] at h
    simp only [Option.some.injEq] at h
    rw [← h]
    exact silent_refl w
  · have hcount : pool.map_count ≠ 0 := by
      rcases hq with hq | hq
      · exact absurd hq hm
      · exact hq
    by_cases hone : pool.map_count - 1 ≠ 0
    · rw [jvm_chunk_unmap_shared w allocator chunk pool c hderef hm hone] at h
      simp only [Option.some.injEq] at h
      rw [← h]
      unfold jvm_chunk_mapped_flush
      exact silent_trans (silent_emit w _ (by simp) (by simp)) (driver_call_silent _)
    · rw [jvm_chunk_unmap_last w allocator chunk pool c hderef hm (by omega)] at h
      simp only [Option.some.injEq] at h
      rw [← h]
      exact silent_emit w _ (by simp) (by simp)

/-! ## C22: which failures reach `JVM_ERROR` -/

/-- C22, failing calls that do not reach `JVM_ERROR`: the map of chunk A of
`abc_mapped_allocator`, which is already mapped, and the unmap of its chunk B, which is not
mapped, return `VK_ERROR_MEMORY_MAP_FAILED` and leave the log empty; with a driver whose next
call fails, the map of chunk B (the pool is already mapped, so the range is invalidated) and
the unmap of chunk A of `ab_mapped_allocator` (the pool stays mapped, so the range is flushed)
return `VK_ERROR_UNKNOWN` and log the driver call only. -/
theorem map_failures_not_reported :
    VK_ERROR_MEMORY_MAP_FAILED ≠ VK_SUCCESS ∧ VK_ERROR_UNKNOWN ≠ VK_SUCCESS ∧
    sample_world.log = [] ∧ first_call_fails_world.log = [] ∧
    (jvm_chunk_map sample_world abc_mapped_allocator ⟨3, 1⟩).map
        (fun r => (r.result, r.world.log)) = some (VK_ERROR_MEMORY_MAP_FAILED, []) ∧
    (jvm_chunk_unmap sample_world abc_mapped_allocator ⟨100, 1⟩).map
        (fun r => (r.result, r.world.log)) = some (VK_ERROR_MEMORY_MAP_FAILED, []) ∧
    (jvm_chunk_map first_call_fails_world abc_mapped_allocator ⟨100, 1⟩).map
        (fun r => (r.result, r.world.log)) =
      some (VK_ERROR_UNKNOWN, [Event.vkInvalidateMappedMemoryRanges 2 100 228]) ∧
    (jvm_chunk_unmap first_call_fails_world ab_mapped_allocator ⟨3, 1⟩).map
        (fun r => (r.result, r.world.log)) =
      some (VK_ERROR_UNKNOWN, [Event.vkFlushMappedMemoryRanges 2 0 100]) := by
  refine ⟨by decide, by decide, rfl, rfl, by decide, by decide, by decide, by decide⟩

/-- C22, amended: a call of `jvm_allocate` or `jvm_allocate_dedicated` (alignment and
`min_map_alignment` 64-bit values) or of `jvm_deallocate` that returns a result other than
`VK_SUCCESS` reaches `JVM_ERROR` at least once; a `jvm_chunk_map` that returns a result other
than `VK_SUCCESS` does so exactly when the chunk was not mapped and the map count of its pool
was 0 (`vkMapMemory` failed), and a failing `jvm_chunk_unmap` exactly when the chunk was
mapped and the map count of its pool was 0. -/
theorem failures_reported (w : World) (allocator : jvm_allocator)
    (size alignment type_bits desired_flags undesired_flags : Nat) (chunk : chunk_ptr) :
    (alignment < U64 → allocator.min_map_alignment < U64 →
      (jvm_allocate w allocator size alignment type_bits desired_flags
        undesired_flags).result ≠ VK_SUCCESS →
      ∃ evs : List Event,
        (jvm_allocate w allocator size alignment type_bits desired_flags
          undesired_flags).world.log = evs ++ w.log ∧ Event.jvm_error ∈ evs) ∧
    (alignment < U64 → allocator.min_map_alignment < U64 →
      (jvm_allocate_dedicated w allocator size alignment type_bits desired_flags
        undesired_flags).result ≠ VK_SUCCESS →
      ∃ evs : List Event,
        (jvm_allocate_dedicated w allocator size alignment type_bits desired_flags
          undesired_flags).world.log = evs ++ w.log ∧ Event.jvm_error ∈ evs) ∧
    (∀ r, jvm_deallocate w allocator chunk = some r → r.result ≠ VK_SUCCESS →
      ∃ evs : List Event, r.world.log = evs ++ w.log ∧ Event.jvm_error ∈ evs) ∧
    (∀ pool c r, allocator.deref chunk = some (pool, c) →
      jvm_chunk_map w allocator chunk = some r → r.result ≠ VK_SUCCESS →
      ((∃ evs : List Event, r.world.log = evs ++ w.log ∧ Event.jvm_error ∈ evs) ↔
        (c.mapped = 0 ∧ pool.map_count = 0))) ∧
    (∀ pool c r, allocator.deref chunk = some (pool, c) →
      jvm_chunk_unmap w allocator chunk = some r → r.result ≠ VK_SUCCESS →
      ((∃ evs : List Event, r.world.log = evs ++ w.log ∧ Event.jvm_error ∈ evs) ↔
        (c.mapped ≠ 0 ∧ pool.map_count = 0))) := by
  refine ⟨(jvm_allocate_log w allocator _ _ _ _ _).2,
    (jvm_allocate_dedicated_log w allocator _ _ _ _ _).2, ?_, ?_, ?_⟩
  · intro r h hs
    exact (jvm_deallocate_log w allocator chunk r h).2 hs
  · intro pool c r hderef h hs
    constructor
    · intro hrep
      by_contra hcon
      have hq : c.mapped ≠ 0 ∨ pool.map_count ≠ 0 := by
        by_cases hm : c.mapped = 0
        · exact Or.inr (fun h0 => hcon ⟨hm, h0⟩)
        · exact Or.inl hm
      exact not_silent_and_reported (jvm_chunk_map_quiet w allocator chunk pool c r hderef h hq)
        hrep
    · intro hcon
      exact (jvm_chunk_map_log w allocator chunk pool c r hderef h).2 hs hcon.1 hcon.2
  · intro pool c r hderef h hs
    constructor
    · intro hrep
      by_contra hcon
      have hq : c.mapped = 0 ∨ pool.map_count ≠ 0 := by
        by_cases hm : c.mapped = 0
        · exact Or.inl hm
        · exact Or.inr (fun h0 => hcon ⟨hm, h0⟩)
      exact not_silent_and_reported
        (jvm_chunk_unmap_quiet w allocator chunk pool c r hderef h hq) hrep
    · intro hcon
      exact (jvm_chunk_unmap_log w allocator chunk pool c r hderef h).2 hs hcon.1 hcon.2

/-- C22, witness of the amended claim: an allocation and a dedicated allocation whose first
host allocation fails, the release of a chunk that is not in its pool, the map of chunk B of
`abc_allocator` with a failing `vkMapMemory`, and the unmap of chunk A of
`stale_map_allocator`. -/
theorem failures_reported_witness :
    (∃ evs : List Event,
        (jvm_allocate first_alloc_fails_world two_heaps_allocator 100 64 3 1 0).world.log =
          evs ++ first_alloc_fails_world.log ∧ Event.jvm_error ∈ evs) ∧
    (∃ evs : List Event,
        (jvm_allocate_dedicated first_alloc_fails_world two_heaps_allocator 100 64 3 1
          0).world.log = evs ++ first_alloc_fails_world.log ∧ Event.jvm_error ∈ evs) ∧
    (∃ r, jvm_deallocate sample_world abc_allocator ⟨999, 1⟩ = some r ∧
      r.result ≠ VK_SUCCESS ∧
      ∃ evs : List Event, r.world.log = evs ++ sample_world.log ∧ Event.jvm_error ∈ evs) ∧
    (∃ r, jvm_chunk_map first_call_fails_world abc_allocator ⟨100, 1⟩ = some r ∧
      r.result ≠ VK_SUCCESS ∧
      ∃ evs : List Event,
        r.world.log = evs ++ first_call_fails_world.log ∧ Event.jvm_error ∈ evs) ∧
    (∃ r, jvm_chunk_unmap sample_world stale_map_allocator ⟨3, 1⟩ = some r ∧
      r.result ≠ VK_SUCCESS ∧
      ∃ evs : List Event, r.world.log = evs ++ sample_world.log ∧ Event.jvm_error ∈ evs) :=
  ⟨(failures_reported first_alloc_fails_world two_heaps_allocator 100 64 3 1 0 ⟨0, 0⟩).1
      (by decide) (by decide) (by decide),
   (failures_reported first_alloc_fails_world two_heaps_allocator 100 64 3 1 0 ⟨0, 0⟩).2.1
      (by decide) (by decide) (by decide),
   ⟨_, rfl, by decide,
    (failures_reported sample_world abc_allocator 100 64 3 1 0 ⟨999, 1⟩).2.2.1 _ rfl
      (by decide)⟩,
   ⟨_, rfl, by decide,
    ((failures_reported first_call_fails_world abc_allocator 100 64 3 1 0
      ⟨100, 1⟩).2.2.2.1 _ _ _ rfl rfl (by decide)).2 ⟨by decide, by decide⟩⟩,
   ⟨_, rfl, by decide,
    ((failures_reported sample_world stale_map_allocator 100 64 3 1 0
      ⟨3, 1⟩).2.2.2.2 _ _ _ rfl rfl (by decide)).2 ⟨by decide, by decide⟩⟩⟩

/-! ## C31: the padding formula -/

/-- The formula of the specification for a power-of-two alignment, in closed form. -/
theorem padding_formula_eq {off k : Nat} (hk : k < 64) :
    padding_formula off (2 ^ k) = if off % 2 ^ k = 0 then 0 else 2 ^ k - off % 2 ^ k := by
  have ha := pow2_lt_U64 hk
  have hpos : 0 < 2 ^ k := Nat.pos_pow_of_pos k (by decide)
  have hr : off % 2 ^ k < 2 ^ k := Nat.mod_lt _ hpos
  unfold padding_formula
  rw [u64_sub_one hpos ha, Nat.and_pow_two_sub_one_eq_mod, Nat.and_pow_two_sub_one_eq_mod]
  have hsub : u64_sub (2 ^ k) (off % 2 ^ k) = 2 ^ k - off % 2 ^ k := by
    generalize off % 2 ^ k = r at hr
    generalize 2 ^ k = a at *
    unfold u64_sub U64 at *
    omega
  rw [hsub]
  split_ifs with h
  · rw [h]; simp
  · exact Nat.mod_eq_of_lt (by omega)

/-- C31: for every power-of-two alignment `2 ^ k` that is a `VkDeviceSize` and every chunk
offset, the padding computed by `allocate_from_pool` equals
`(a - (o & (a - 1))) & (a - 1)`, is strictly less than the alignment, makes `o + padding` a
multiple of the alignment, and is the least such number. -/
theorem padding_is_formula (off k : Nat) (hk : k < 64) :
    allocate_from_pool.padding off (2 ^ k) = padding_formula off (2 ^ k) ∧
    allocate_from_pool.padding off (2 ^ k) < 2 ^ k ∧
    (off + allocate_from_pool.padding off (2 ^ k)) % 2 ^ k = 0 ∧
    ∀ p, (off + p) % 2 ^ k = 0 → allocate_from_pool.padding off (2 ^ k) ≤ p := by
  refine ⟨by rw [padding_eq hk, padding_formula_eq hk], padding_lt hk, padding_aligned hk, ?_⟩
  intro p hp
  rw [padding_eq hk]
  have hpos : 0 < 2 ^ k := Nat.pos_pow_of_pos k (by decide)
  have hr : off % 2 ^ k < 2 ^ k := Nat.mod_lt _ hpos
  split_ifs with h
  · exact Nat.zero_le _
  · by_contra hlt
    have hlt' : p < 2 ^ k - off % 2 ^ k := Nat.lt_of_not_le hlt
    rw [Nat.add_mod, Nat.mod_eq_of_lt (show p < 2 ^ k by omega),
      Nat.mod_eq_of_lt (show off % 2 ^ k + p < 2 ^ k by omega)] at hp
    omega

/-- C31, witness: offset 100 and alignment 64 give the padding 28. -/
theorem padding_is_formula_witness :
    allocate_from_pool.padding 100 (2 ^ 6) = 28 ∧
    allocate_from_pool.padding 100 (2 ^ 6) = padding_formula 100 (2 ^ 6) ∧
    allocate_from_pool.padding 100 (2 ^ 6) < 2 ^ 6 ∧
    (100 + allocate_from_pool.padding 100 (2 ^ 6)) % 2 ^ 6 = 0 ∧
    ∀ p, (100 + p) % 2 ^ 6 = 0 → allocate_from_pool.padding 100 (2 ^ 6) ≤ p :=
  ⟨by decide, padding_is_formula 100 6 (by decide)⟩

/-! ## C34: unused chunks have no padding -/

/-- C34: starting from a freshly created pool, after any sequence of `allocate_from_pool` and
`deallocate_from_pool` calls, whatever they return, every chunk with `used == 0` has
`padding == 0`. -/
theorem free_chunks_unpadded (w : World) (pool : jvm_allocation_pool) (ops : List pool_op)
    (hfresh : fresh_pool pool) :
    ∀ c ∈ (run_pool_ops (w, pool) ops).2.chunks, c.used = 0 → c.padding = 0 :=
  (run_pool_ops_inv (w, pool) ops (fresh_pool_inv hfresh)).1.free_padding

/-- C34, witness: after `sample_ops` on `sample_pool` the first chunk, which was handed out
and released, is unused. -/
theorem free_chunks_unpadded_witness :
    fresh_pool sample_pool ∧
    (∃ c ∈ (run_pool_ops (sample_world, sample_pool) sample_ops).2.chunks, c.used = 0) ∧
    ∀ c ∈ (run_pool_ops (sample_world, sample_pool) sample_ops).2.chunks,
      c.used = 0 → c.padding = 0 :=
  ⟨sample_pool_fresh, by decide,
    free_chunks_unpadded sample_world sample_pool sample_ops sample_pool_fresh⟩

/-! ## C35: a pool just made always fits the request -/

/-- C35: for a 64-bit alignment, `allocate_from_pool` on a pool that is one unused chunk at
offset 0 of at least `size` bytes returns 0 or -1, never +1. So `alloc_res <= 0` holds at the
assertion of `jvm_allocate` and `jvm_allocate_dedicated`: after a successful
`create_new_pool` of at least `size` bytes the call on the last pool of the list returns a
value `<= 0`, and the size and alignment both functions pass on are such a request (the pool
is asked for with `max(min_pool_size, size)`, respectively `size`, bytes). -/
theorem allocate_from_fresh_pool_fits (w : World) (allocator : jvm_allocator)
    (size alignment : Nat) (halign : alignment < U64) :
    (∀ (pool : jvm_allocation_pool) (c : jvm_chunk), pool.chunks = [c] → c.chunk_offset = 0 →
      c.used = 0 → size ≤ c.size →
      ((allocate_from_pool w allocator pool size alignment).result = 0 ∨
        (allocate_from_pool w allocator pool size alignment).result = -1) ∧
      (allocate_from_pool w allocator pool size alignment).result ≠ 1) ∧
    (∀ (this : jvm_allocator) (new_pool_size idx : Nat) (pool : jvm_allocation_pool),
      size ≤ new_pool_size →
      (create_new_pool w this new_pool_size idx
        (this.memory_properties.memoryType idx)).result = VK_SUCCESS →
      (create_new_pool w this new_pool_size idx
        (this.memory_properties.memoryType idx)).allocator.pools[
          (create_new_pool w this new_pool_size idx
            (this.memory_properties.memoryType idx)).allocator.pool_count - 1]? = some pool →
      (allocate_from_pool
        (create_new_pool w this new_pool_size idx
          (this.memory_properties.memoryType idx)).world
        (create_new_pool w this new_pool_size idx
          (this.memory_properties.memoryType idx)).allocator pool size alignment).result ≤ 0) ∧
    (∀ (this : jvm_allocator) (idx desired_flags n : Nat), this.min_map_alignment < U64 →
      (need_to_map this idx desired_flags n alignment).2 < U64 ∧
      (need_to_map this idx desired_flags n alignment).1 ≤
        (if this.min_pool_size < (need_to_map this idx desired_flags n alignment).1 then
          (need_to_map this idx desired_flags n alignment).1
        else this.min_pool_size)) := by
  have key : ∀ (w1 : World) (alc : jvm_allocator) (pool : jvm_allocation_pool) (c : jvm_chunk),
      pool.chunks = [c] → c.chunk_offset = 0 → c.used = 0 → size ≤ c.size →
      ((allocate_from_pool w1 alc pool size alignment).result = 0 ∨
        (allocate_from_pool w1 alc pool size alignment).result = -1) := by
    intro w1 alc pool c hc hoff hu hsize
    exact (allocate_from_pool_of_fit w1 alc pool size alignment
      ⟨c, by rw [hc]; exact List.mem_singleton_self c,
        fresh_chunk_fits c size alignment hoff hu hsize halign⟩).1
  refine ⟨?_, ?_, ?_⟩
  · intro pool c hc hoff hu hsize
    have h := key w allocator pool c hc hoff hu hsize
    refine ⟨h, ?_⟩
    rcases h with h | h <;> (rw [h]; decide)
  · intro this new_pool_size idx pool hsize hok hlast
    obtain ⟨cap, pool1, c, e, hc, hoff, hcs, hu, -⟩ :=
      create_new_pool_success_frame w this new_pool_size idx _ hok
    have hpool : pool = pool1 := by
      rw [e] at hlast
      simp [jvm_allocator.pool_count] at hlast
      exact hlast.symm
    subst hpool
    rcases key _ _ pool c hc hoff hu (by rw [hcs]; exact hsize) with h | h
    · rw [h]
    · rw [h]; decide
  · intro this idx desired_flags n hmap
    refine ⟨need_to_map_alignment_lt this idx desired_flags n alignment halign hmap, ?_⟩
    split_ifs with h
    · exact Nat.le_refl _
    · exact Nat.le_of_not_lt h

/-- C35, witness: 100 bytes at alignment 64 from `sample_pool`, and from a pool of 4096 bytes
that `create_new_pool` makes. -/
theorem allocate_from_fresh_pool_fits_witness :
    (((allocate_from_pool sample_world sample_allocator sample_pool 100 64).result = 0 ∨
        (allocate_from_pool sample_world sample_allocator sample_pool 100 64).result = -1) ∧
      (allocate_from_pool sample_world sample_allocator sample_pool 100 64).result ≠ 1) ∧
    (∃ pool,
      (create_new_pool sample_world two_heaps_allocator 4096 0
        (two_heaps_allocator.memory_properties.memoryType 0)).allocator.pools[
          (create_new_pool sample_world two_heaps_allocator 4096 0
            (two_heaps_allocator.memory_properties.memoryType 0)).allocator.pool_count - 1]? =
        some pool ∧
      (allocate_from_pool
        (create_new_pool sample_world two_heaps_allocator 4096 0
          (two_heaps_allocator.memory_properties.memoryType 0)).world
        (create_new_pool sample_world two_heaps_allocator 4096 0
          (two_heaps_allocator.memory_properties.memoryType 0)).allocator pool 100 64).result ≤
        0) :=
  ⟨(allocate_from_fresh_pool_fits sample_world sample_allocator 100 64 (by decide)).1
      sample_pool _ rfl rfl rfl (by decide),
   ⟨_, rfl,
    (allocate_from_fresh_pool_fits sample_world sample_allocator 100 64 (by decide)).2.1
      two_heaps_allocator 4096 0 _ (by decide) (by decide) rfl⟩⟩

/-! ## C37: the index chosen by the scorers -/

/-- A property that the body of a counting loop keeps holds after any number of rounds. -/
theorem for_loop_inv {σ : Type} (P : σ → Prop) (body : Nat → σ → σ)
    (hbody : ∀ i s, P s → P (body i s)) (init : σ) (h0 : P init) (n : Nat) :
    P (for_loop n body init) := by
  induction n with
  | zero => exact h0
  | succ n ih => rw [for_loop_succ]; exact hbody n _ ih

theorem set_nonneg {s : List Int} (h : ∀ j, 0 ≤ s.getD j 0) (i : Nat) {v : Int} (hv : 0 ≤ v) :
    ∀ j, 0 ≤ (s.set i v).getD j 0 := by
  intro j
  rw [getD_set]
  split_ifs
  · exact hv
  · exact h j

theorem heap_score_nonneg (mp : VkPhysicalDeviceMemoryProperties) (i : Nat) :
    0 ≤ heap_score mp i := by
  unfold heap_score
  exact Int.ofNat_nonneg _

/-- In the course of the scoring loops of `jvm_allocate` no entry of `scores` is negative. -/
theorem scores_at_nonneg (mp : VkPhysicalDeviceMemoryProperties)
    (type_bits desired_flags undesired_flags n1 n2 n3 n4 : Nat) :
    ∀ j, 0 ≤ (jvm_allocate.scores_at mp type_bits desired_flags undesired_flags n1 n2 n3
      n4).getD j 0 := by
  unfold jvm_allocate.scores_at
  simp only []
  have h1 : ∀ j, 0 ≤ (for_loop n1 (fun i (scores : List Int) => scores.set i 1)
      (List.replicate VK_MAX_MEMORY_TYPES 0)).getD j 0 := by
    apply for_loop_inv (fun s : List Int => ∀ j, 0 ≤ s.getD j 0)
    · intro i s hs
      exact set_nonneg hs i (by decide)
    · intro j
      rw [getD_replicate_zero]
  generalize for_loop n1 (fun i (scores : List Int) => scores.set i 1)
    (List.replicate VK_MAX_MEMORY_TYPES 0) = s1 at h1 ⊢
  have h2 : ∀ j, 0 ≤ (if undesired_flags ≠ 0 then
      for_loop n2
        (fun i (st : List Int × Nat) =>
          ((if (mp.memoryType i).propertyFlags &&& undesired_flags ≠ 0 then st.1.set i 0
            else st.1), st.2 + 1))
        (s1, 0)
    else (s1, 0)).1.getD j 0 := by
    split_ifs with hu
    · apply for_loop_inv (fun st : List Int × Nat => ∀ j, 0 ≤ st.1.getD j 0)
      · intro i st hs
        show ∀ j, 0 ≤ (if (mp.memoryType i).propertyFlags &&& undesired_flags ≠ 0 then
          st.1.set i 0 else st.1).getD j 0
        split_ifs
        · exact set_nonneg hs i (Int.le_refl 0)
        · exact hs
      · exact h1
    · exact h1
  generalize (if undesired_flags ≠ 0 then
      for_loop n2
        (fun i (st : List Int × Nat) =>
          ((if (mp.memoryType i).propertyFlags &&& undesired_flags ≠ 0 then st.1.set i 0
            else st.1), st.2 + 1))
        (s1, 0)
    else (s1, 0)) = st2 at h2 ⊢
  have h3 : ∀ j, 0 ≤ (for_loop n3
      (fun i (scores : List Int) => if type_bit type_bits i = 0 then scores.set i 0 else scores)
      st2.1).getD j 0 := by
    apply for_loop_inv (fun s : List Int => ∀ j, 0 ≤ s.getD j 0)
    · intro i s hs
      show ∀ j, 0 ≤ (if type_bit type_bits i = 0 then s.set i 0 else s).getD j 0
      split_ifs
      · exact set_nonneg hs i (Int.le_refl 0)
      · exact hs
    · exact h2
  generalize for_loop n3
      (fun i (scores : List Int) => if type_bit type_bits i = 0 then scores.set i 0 else scores)
      st2.1 = s3 at h3 ⊢
  apply for_loop_inv (fun st : List Int × Nat => ∀ j, 0 ≤ st.1.getD j 0)
  · intro i st hs
    show ∀ j, 0 ≤ (if st.1.getD i 0 = -1 then st
      else if (mp.memoryType i).propertyFlags &&& desired_flags = desired_flags then
        (st.1.set i (st.1.getD i 0 * heap_score mp i),
          st.2 + (if st.1.getD i 0 * heap_score mp i ≠ 0 then 1 else 0))
      else st).1.getD j 0
    by_cases ha : st.1.getD i 0 = -1
    · rw [if_pos ha]; exact hs
    · rw [if_neg ha]
      by_cases hb : (mp.memoryType i).propertyFlags &&& desired_flags = desired_flags
      · rw [if_pos hb]
        exact set_nonneg hs i (Int.mul_nonneg (hs i) (heap_score_nonneg mp i))
      · rw [if_neg hb]; exact hs
  · exact h3

/-- The array that `jvm_allocate.scores` returns is the one after all rounds of the four
loops. -/
theorem jvm_allocate_scores_at (mp : VkPhysicalDeviceMemoryProperties)
    (type_bits desired_flags undesired_flags : Nat) (sc : List Int) (vc : Nat)
    (h : jvm_allocate.scores mp type_bits desired_flags undesired_flags = some (sc, vc)) :
    sc = jvm_allocate.scores_at mp type_bits desired_flags undesired_flags mp.memoryTypeCount
      mp.memoryTypeCount mp.memoryTypeCount mp.memoryTypeCount := by
  unfold jvm_allocate.scores at h
  unfold jvm_allocate.scores_at
  simp only [] at h ⊢
  by_cases hu : undesired_flags ≠ 0
  · simp only [hu, if_true, ne_eq, not_false_eq_true, true_and] at h ⊢
    split_ifs at h
    simp only [Option.some.injEq] at h
    rw [h]
  · simp only [hu, if_false, ne_eq, not_false_eq_true, false_and] at h ⊢
    simp only [Option.some.injEq] at h
    rw [h]

/-- When `jvm_allocate_dedicated.memory_type` returns an index, it is the index of a memory
type. -/
theorem jvm_allocate_dedicated_memory_type_lt (mp : VkPhysicalDeviceMemoryProperties)
    (type_bits desired_flags undesired_flags idx : Nat)
    (h : jvm_allocate_dedicated.memory_type mp type_bits desired_flags undesired_flags =
      some idx) :
    idx < mp.memoryTypeCount := by
  unfold jvm_allocate_dedicated.memory_type at h
  rcases hs : jvm_allocate_dedicated.scores mp type_bits desired_flags undesired_flags with
    _ | ⟨sc, vc⟩
  · rw [hs] at h; simp at h
  · rw [hs] at h
    simp only [] at h
    split_ifs at h with h1 h2
    simp only [Option.some.injEq] at h
    rcases (best_of_spec sc mp.memoryTypeCount).2 with ⟨h0, -⟩ | ⟨-, hlt, -⟩
    · exact absurd h0 h2
    · rw [← h]; exact hlt

/-- C37: when `jvm_allocate` or `jvm_allocate_dedicated` gets past the test
`best_score == 0`, the index `idx` it goes on with is less than `memoryTypeCount`; and in
`jvm_allocate` no entry of `scores` is negative, neither after any number of rounds of the
four scoring loops nor in the array the selection loop reads. -/
theorem scorer_index_safe (mp : VkPhysicalDeviceMemoryProperties)
    (type_bits desired_flags undesired_flags : Nat) :
    (∀ idx, jvm_allocate.memory_type mp type_bits desired_flags undesired_flags = some idx →
      idx < mp.memoryTypeCount) ∧
    (∀ idx, jvm_allocate_dedicated.memory_type mp type_bits desired_flags undesired_flags =
        some idx → idx < mp.memoryTypeCount) ∧
    (∀ n1 n2 n3 n4 j,
      0 ≤ (jvm_allocate.scores_at mp type_bits desired_flags undesired_flags n1 n2 n3
        n4).getD j 0) ∧
    (∀ sc vc, jvm_allocate.scores mp type_bits desired_flags undesired_flags = some (sc, vc) →
      sc = jvm_allocate.scores_at mp type_bits desired_flags undesired_flags mp.memoryTypeCount
        mp.memoryTypeCount mp.memoryTypeCount mp.memoryTypeCount ∧
      ∀ j, 0 ≤ sc.getD j 0) := by
  refine ⟨?_, ?_, ?_, ?_⟩
  · intro idx h
    exact (jvm_allocate_memory_type_some mp type_bits desired_flags undesired_flags idx h).1
  · intro idx h
    exact jvm_allocate_dedicated_memory_type_lt mp type_bits desired_flags undesired_flags idx h
  · intro n1 n2 n3 n4
    exact scores_at_nonneg mp type_bits desired_flags undesired_flags n1 n2 n3 n4
  · intro sc vc h
    have e := jvm_allocate_scores_at mp type_bits desired_flags undesired_flags sc vc h
    refine ⟨e, ?_⟩
    rw [e]
    exact scores_at_nonneg mp type_bits desired_flags undesired_flags _ _ _ _

/-- C37, witness: the memory types of `two_heaps_allocator`, both functions asked for type 0
or 1 with the property flag 1. -/
theorem scorer_index_safe_witness :
    (∃ idx, jvm_allocate.memory_type two_heaps_allocator.memory_properties 3 1 0 = some idx ∧
      idx < two_heaps_allocator.memory_properties.memoryTypeCount) ∧
    (∃ idx, jvm_allocate_dedicated.memory_type two_heaps_allocator.memory_properties 3 1 0 =
        some idx ∧
      idx < two_heaps_allocator.memory_properties.memoryTypeCount) ∧
    (∃ sc vc, jvm_allocate.scores two_heaps_allocator.memory_properties 3 1 0 = some (sc, vc) ∧
      ∀ j, 0 ≤ sc.getD j 0) :=
  ⟨⟨_, rfl, (scorer_index_safe two_heaps_allocator.memory_properties 3 1 0).1 _ rfl⟩,
   ⟨_, rfl, (scorer_index_safe two_heaps_allocator.memory_properties 3 1 0).2.1 _ rfl⟩,
   ⟨_, _, rfl, ((scorer_index_safe two_heaps_allocator.memory_properties 3 1 0).2.2.2 _ _
      rfl).2⟩⟩

/-! ## C32: what a successful map returns -/

/-- C32: let `chunk` point to a chunk record `c` with `mapped == 0` in the pool `pool`. When
`jvm_chunk_map` returns `VK_SUCCESS`, the pointer then leads to the record with `mapped`
set, in a pool whose `map_count` is one more; `*p_out` is `map_ptr + chunk_offset + padding`
for the `map_ptr` of the pool after the call (pointer arithmetic of 64 bits) and `*p_size` is
`size - padding`; and the call `vkMapMemory(memory, 0, pool.size)` is made exactly when
`map_count` was 0, no other `vkMapMemory` being made. -/
theorem jvm_chunk_map_success (w : World) (allocator : jvm_allocator) (chunk : chunk_ptr)
    (pool : jvm_allocation_pool) (c : jvm_chunk) (r : map_result)
    (hderef : allocator.deref chunk = some (pool, c)) (hm : c.mapped = 0)
    (h : jvm_chunk_map w allocator chunk = some r) (hok : r.result = VK_SUCCESS) :
    ∃ (pool1 : jvm_allocation_pool) (evs : List Event),
      r.allocator.deref chunk = some (pool1, { c with mapped := 1 }) ∧
      pool1.map_count = pool.map_count + 1 ∧
      (pool.map_count ≠ 0 → pool1.map_ptr = pool.map_ptr) ∧
      r.p_out = some (u64_add (u64_add (pool1.map_ptr.getD 0) c.chunk_offset) c.padding) ∧
      (pool1.map_ptr.getD 0 + c.chunk_offset + c.padding < U64 →
        r.p_out = some (pool1.map_ptr.getD 0 + c.chunk_offset + c.padding)) ∧
      r.p_size = some (u64_sub c.size c.padding) ∧
      (c.padding ≤ c.size → c.size < U64 → r.p_size = some (c.size - c.padding)) ∧
      r.world.log = evs ++ w.log ∧
      (∀ m o s, Event.vkMapMemory m o s ∈ evs ↔
        (pool.map_count = 0 ∧ m = pool.memory ∧ o = 0 ∧ s = pool.size)) := by
  have hplain : ∀ p : Nat, p + c.chunk_offset + c.padding < U64 →
      u64_add (u64_add p c.chunk_offset) c.padding = p + c.chunk_offset + c.padding := by
    intro p hp
    rw [u64_add_of_lt (show p + c.chunk_offset < U64 by omega), u64_add_of_lt hp]
  have hsz : c.padding ≤ c.size → c.size < U64 →
      some (u64_sub c.size c.padding) = some (c.size - c.padding) := by
    intro h1 h2
    rw [u64_sub_of_le h1 h2]
  by_cases hcount : pool.map_count ≠ 0
  · rw [jvm_chunk_map_shared w allocator chunk pool c hderef hm hcount] at h
    simp only [Option.some.injEq] at h
    subst h
    refine ⟨_, [Event.vkInvalidateMappedMemoryRanges pool.memory c.chunk_offset c.size],
      store_deref_same allocator chunk pool { pool with map_count := pool.map_count + 1 } c
        { c with mapped := 1 } hderef rfl rfl rfl, rfl, fun _ => rfl, rfl, ?_, rfl, hsz, ?_, ?_⟩
    · intro hp
      simp only []
      rw [hplain _ hp]
    · simp only []
      unfold jvm_chunk_mapped_invalidate
      rw [driver_call_log]
      rfl
    · intro m o s
      constructor
      · intro hmem
        simp at hmem
      · intro hh
        exact absurd hh.1 hcount
  · have hzero : pool.map_count = 0 := not_not.mp hcount
    rcases jvm_chunk_map_first w allocator chunk pool c hderef hm hzero with
      ⟨w1, res, hd, hres, e⟩ | ⟨w1, hd, e⟩
    · rw [e] at h
      simp only [Option.some.injEq] at h
      subst h
      exact absurd hok hres
    · rw [e] at h
      simp only [Option.some.injEq] at h
      subst h
      have hlog : w1.log = Event.vkMapMemory pool.memory 0 pool.size :: w.log := by
        have := driver_call_log (w.emit (Event.vkMapMemory pool.memory 0 pool.size))
        rw [hd] at this
        exact this
      refine ⟨_, [Event.vkMapMemory pool.memory 0 pool.size],
        store_deref_same allocator chunk pool
          { pool with map_ptr := some w1.next, map_count := pool.map_count + 1 } c
          { c with mapped := 1 } hderef rfl rfl rfl, rfl, fun hne => absurd hzero hne, rfl, ?_,
        rfl, hsz, ?_, ?_⟩
      · intro hp
        simp only [Option.getD_some] at hp ⊢
        rw [hplain _ hp]
      · simp only []
        rw [hlog]
        rfl
      · intro m o s
        simp only [List.mem_singleton, Event.vkMapMemory.injEq]
        constructor
        · intro hh
          exact ⟨hzero, hh⟩
        · intro hh
          exact hh.2

/-- C32, witness: the first map of chunk B of `abc_allocator`, which calls `vkMapMemory`, and
its map in `abc_mapped_allocator`, whose pool is mapped already. -/
theorem jvm_chunk_map_success_witness :
    (∃ (r : map_result) (pool1 : jvm_allocation_pool) (c1 : jvm_chunk),
      jvm_chunk_map sample_world abc_allocator ⟨100, 1⟩ = some r ∧
      r.result = VK_SUCCESS ∧
      r.allocator.deref ⟨100, 1⟩ = some (pool1, c1) ∧ c1.mapped = 1 ∧
      pool1.map_count = 1 ∧ r.p_out = some 228 ∧ r.p_size = some 200 ∧
      r.world.log = [Event.vkMapMemory 2 0 4096]) ∧
    (∃ (r : map_result) (pool1 : jvm_allocation_pool) (c1 : jvm_chunk),
      jvm_chunk_map sample_world abc_mapped_allocator ⟨100, 1⟩ = some r ∧
      r.result = VK_SUCCESS ∧
      r.allocator.deref ⟨100, 1⟩ = some (pool1, c1) ∧ c1.mapped = 1 ∧
      pool1.map_count = 2 ∧ r.p_out = some 228 ∧ r.p_size = some 200 ∧
      r.world.log = [Event.vkInvalidateMappedMemoryRanges 2 100 228]) := by
  constructor
  · obtain ⟨pool1, evs, h1, h2, -, h4, -, h6, -, -, -⟩ :=
      jvm_chunk_map_success sample_world abc_allocator ⟨100, 1⟩ sample_pool_abc
        ⟨100, 0, 1, 228, 2, 100, 28, 1⟩ _ (by rfl) rfl rfl (by decide)
    exact ⟨_, pool1, _, rfl, by decide, h1, rfl, h2, by decide, by decide, by decide⟩
  · obtain ⟨pool1, evs, h1, h2, -, h4, -, h6, -, -, -⟩ :=
      jvm_chunk_map_success sample_world abc_mapped_allocator ⟨100, 1⟩
        { sample_pool_abc with
          map_count := 1, map_ptr := some 100,
          chunks := sample_pool_abc.chunks.set 0 ⟨3, 1, 1, 100, 2, 0, 0, 1⟩ }
        ⟨100, 0, 1, 228, 2, 100, 28, 1⟩ _ (by rfl) rfl rfl (by decide)
    exact ⟨_, pool1, _, rfl, by decide, h1, rfl, h2, by decide, by decide, by decide⟩

/-! ## C39: a failing map or unmap that changes the state -/

/-- C39: in `abc_mapped_allocator` chunk A is mapped, so the pool of chunk B has
`map_count == 1`, and chunk B is not mapped. With a driver whose next call fails,
`jvm_chunk_map` of chunk B calls `vkInvalidateMappedMemoryRanges` only, returns its result,
`VK_ERROR_UNKNOWN`, and leaves chunk B with `mapped == 1` and the pool with
`map_count == 2`. In `ab_mapped_allocator`, where A and B are mapped, `jvm_chunk_unmap` of
chunk A calls `vkFlushMappedMemoryRanges` only, returns its result, and leaves chunk A with
`mapped == 0` and the pool with `map_count == 1`. -/
theorem failing_map_changes_state :
    VK_ERROR_UNKNOWN ≠ VK_SUCCESS ∧
    (abc_mapped_allocator.deref ⟨100, 1⟩).map (fun p => (p.1.map_count, p.2.mapped)) =
      some (1, 0) ∧
    (jvm_chunk_map first_call_fails_world abc_mapped_allocator ⟨100, 1⟩).map
        (fun r => (r.result, r.world.log,
          (r.allocator.deref ⟨100, 1⟩).map (fun p => (p.1.map_count, p.2.mapped)))) =
      some (VK_ERROR_UNKNOWN, [Event.vkInvalidateMappedMemoryRanges 2 100 228],
        some (2, 1)) ∧
    (ab_mapped_allocator.deref ⟨3, 1⟩).map (fun p => (p.1.map_count, p.2.mapped)) =
      some (2, 1) ∧
    (jvm_chunk_unmap first_call_fails_world ab_mapped_allocator ⟨3, 1⟩).map
        (fun r => (r.result, r.world.log,
          (r.allocator.deref ⟨3, 1⟩).map (fun p => (p.1.map_count, p.2.mapped)))) =
      some (VK_ERROR_UNKNOWN, [Event.vkFlushMappedMemoryRanges 2 0 100], some (1, 0)) := by
  refine ⟨by decide, by decide, by decide, by decide, by decide⟩

/-! ## C36: the unmap of a mapped chunk -/

/-- C36 as stated is refuted: in `ab_mapped_allocator` the pool has `map_count == 2` and two
mapped chunks, A and B. With a driver that answers `VK_ERROR_UNKNOWN` to the next call,
`jvm_chunk_unmap` of chunk A returns `VK_ERROR_UNKNOWN`: the result of the flush that
follows an unmap which leaves the pool mapped. -/
theorem jvm_chunk_unmap_flush_unknown :
    (∀ p ∈ ab_mapped_allocator.pools, p.map_count = mapped_count p.chunks) ∧
    (ab_mapped_allocator.deref ⟨3, 1⟩).map (fun p => (p.1.map_count, p.2.mapped)) =
      some (2, 1) ∧
    first_call_fails_world.driver = [VK_ERROR_UNKNOWN] ∧
    (jvm_chunk_unmap first_call_fails_world ab_mapped_allocator ⟨3, 1⟩).map
        (fun r => (r.result, r.world.log)) =
      some (VK_ERROR_UNKNOWN, [Event.vkFlushMappedMemoryRanges 2 0 100]) := by
  refine ⟨by decide, by decide, rfl, by decide⟩

/-- C36, amended: let `chunk` point to a chunk record `c` with `mapped != 0` in a pool whose
`map_count` is the number of its mapped chunks. Then `jvm_chunk_unmap` does not take the
failing path of `unmap_pool_memory` (no `JVM_ERROR`, no report): it clears `mapped`,
decrements `map_count` by exactly one, and returns `VK_SUCCESS` after `vkUnmapMemory` when
`map_count` was 1, the result of the flush otherwise; so it returns `VK_ERROR_UNKNOWN` only
when the driver answers the flush with it. -/
theorem jvm_chunk_unmap_mapped (w : World) (allocator : jvm_allocator) (chunk : chunk_ptr)
    (pool : jvm_allocation_pool) (c : jvm_chunk)
    (hderef : allocator.deref chunk = some (pool, c))
    (hinv : pool.map_count = mapped_count pool.chunks) (hm : c.mapped ≠ 0) :
    ∃ (r : allocator_result) (pool1 : jvm_allocation_pool),
      jvm_chunk_unmap w allocator chunk = some r ∧
      r.allocator.deref chunk = some (pool1, { c with mapped := 0 }) ∧
      pool1.map_count + 1 = pool.map_count ∧
      (∃ evs : List Event, r.world.log = evs ++ w.log ∧
        Event.jvm_error ∉ evs ∧ Event.report ∉ evs) ∧
      ((pool.map_count = 1 ∧ r.result = VK_SUCCESS ∧
          r.world = w.emit (Event.vkUnmapMemory pool.memory) ∧ pool1.map_ptr = none) ∨
        (1 < pool.map_count ∧
          (r.world, r.result) =
            (w.emit (Event.vkFlushMappedMemoryRanges pool.memory c.chunk_offset
              c.size)).driver_call)) ∧
      (r.result = VK_ERROR_UNKNOWN →
        1 < pool.map_count ∧
        (w.emit (Event.vkFlushMappedMemoryRanges pool.memory c.chunk_offset
          c.size)).driver_call.2 = VK_ERROR_UNKNOWN) := by
  obtain ⟨hp, hc⟩ := deref_some hderef
  have hmem : c ∈ pool.chunks := List.mem_iff_getElem?.mpr ⟨_, hc⟩
  have hpos : 0 < pool.map_count := by rw [hinv]; exact mapped_count_pos hmem hm
  by_cases hone : pool.map_count = 1
  · refine ⟨_, _, jvm_chunk_unmap_last w allocator chunk pool c hderef hm hone,
      store_deref_same allocator chunk pool
        { pool with map_count := pool.map_count - 1, map_ptr := none } c { c with mapped := 0 }
        hderef rfl rfl rfl, ?_, ?_, Or.inl ⟨hone, rfl, rfl, rfl⟩, ?_⟩
    · show pool.map_count - 1 + 1 = pool.map_count
      omega
    · exact silent_emit w _ (by simp) (by simp)
    · intro h
      exact absurd (show VK_ERROR_UNKNOWN = VK_SUCCESS from h.symm) unknown_ne_success
  · have hsh : pool.map_count - 1 ≠ 0 := by omega
    refine ⟨_, _, jvm_chunk_unmap_shared w allocator chunk pool c hderef hm hsh,
      store_deref_same allocator chunk pool
        { pool with map_count := pool.map_count - 1 } c { c with mapped := 0 }
        hderef rfl rfl rfl, ?_, ?_, Or.inr ⟨by omega, rfl⟩, ?_⟩
    · show pool.map_count - 1 + 1 = pool.map_count
      omega
    · show w.silent (jvm_chunk_mapped_flush w _ _).1
      unfold jvm_chunk_mapped_flush
      exact silent_trans (silent_emit w _ (by simp) (by simp)) (driver_call_silent _)
    · intro h
      exact ⟨by omega, h⟩

/-- C36, witness of the amended claim: the unmap of chunk A in `abc_mapped_allocator`, the
last mapped chunk of its pool, and in `ab_mapped_allocator`, where chunk B stays mapped. -/
theorem jvm_chunk_unmap_mapped_witness :
    (∃ (r : allocator_result) (pool1 : jvm_allocation_pool) (c1 : jvm_chunk),
      jvm_chunk_unmap sample_world abc_mapped_allocator ⟨3, 1⟩ = some r ∧
      r.allocator.deref ⟨3, 1⟩ = some (pool1, c1) ∧ c1.mapped = 0 ∧
      pool1.map_count + 1 = 1 ∧ r.result = VK_SUCCESS) ∧
    (∃ (r : allocator_result) (pool1 : jvm_allocation_pool) (c1 : jvm_chunk),
      jvm_chunk_unmap first_call_fails_world ab_mapped_allocator ⟨3, 1⟩ = some r ∧
      r.allocator.deref ⟨3, 1⟩ = some (pool1, c1) ∧ c1.mapped = 0 ∧
      pool1.map_count + 1 = 2 ∧
      ∃ evs : List Event, r.world.log = evs ++ first_call_fails_world.log ∧
        Event.jvm_error ∉ evs ∧ Event.report ∉ evs) := by
  constructor
  · obtain ⟨r, pool1, h1, h2, h3, -, h5, -⟩ :=
      jvm_chunk_unmap_mapped sample_world abc_mapped_allocator ⟨3, 1⟩
        { sample_pool_abc with
          map_count := 1, map_ptr := some 100,
          chunks := sample_pool_abc.chunks.set 0 ⟨3, 1, 1, 100, 2, 0, 0, 1⟩ }
        ⟨3, 1, 1, 100, 2, 0, 0, 1⟩ (by rfl) (by decide) (by decide)
    refine ⟨r, pool1, _, h1, h2, rfl, h3, ?_⟩
    rcases h5 with ⟨-, hs, -⟩ | ⟨hlt, -⟩
    · exact hs
    · exact absurd hlt (by decide)
  · obtain ⟨r, pool1, h1, h2, h3, h4, -, -⟩ :=
      jvm_chunk_unmap_mapped first_call_fails_world ab_mapped_allocator ⟨3, 1⟩
        { sample_pool_abc with
          map_count := 2, map_ptr := some 100,
          chunks := (sample_pool_abc.chunks.set 0 ⟨3, 1, 1, 100, 2, 0, 0, 1⟩).set 1
            ⟨100, 1, 1, 228, 2, 100, 28, 1⟩ }
        ⟨3, 1, 1, 100, 2, 0, 0, 1⟩ (by rfl) (by decide) (by decide)
    exact ⟨r, pool1, _, h1, h2, rfl, h3, h4⟩

/-! ## C38: the fit test and 64-bit wrap-around -/

theorem offset_pool_inv : pool_inv offset_pool :=
  allocate_from_pool_inv sample_world sample_allocator sample_pool 64 64
    (fresh_pool_inv sample_pool_fresh)

/-- The loop body of `allocate_from_pool` keeps the partition invariant of a pool whose size is
a `VkDeviceSize`, also when `padding + size` wraps. -/
theorem carve_partition (w : World) (allocator : jvm_allocator) (pool : jvm_allocation_pool)
    (size alignment j : Nat) (chunk : jvm_chunk) (hsz : pool.size < U64)
    (hpart : partition_inv pool) (hj : pool.chunks[j]? = some chunk)
    (hfit : allocate_from_pool.fits size alignment chunk) :
    partition_inv (allocate_from_pool.carve w allocator pool j chunk size
      (allocate_from_pool.padding chunk.chunk_offset alignment)).pool ∧
    (allocate_from_pool.carve w allocator pool j chunk size
      (allocate_from_pool.padding chunk.chunk_offset alignment)).pool.size = pool.size := by
  have hdec := list_split_at hj
  have hch := hpart.2
  rw [hdec, chain_append] at hch
  obtain ⟨m, hc1, hc2⟩ := hch
  rw [chain_cons] at hc2
  have hle := chain_le hc2.2
  have hW := Nat.le_of_not_lt hfit.2
  generalize allocate_from_pool.padding chunk.chunk_offset alignment = P at *
  rcases carve_cases w allocator pool j chunk size P with
    ⟨-, w1, cap, h, -⟩ | ⟨-, w1, cap, a, h, -, -⟩ | ⟨-, h⟩
  · rw [h]
    exact ⟨hpart, rfl⟩
  · rw [h]
    refine ⟨⟨by simp [allocate_from_pool.split_chunks], ?_⟩, rfl⟩
    show chain 0 (allocate_from_pool.split_chunks pool j chunk size P _ a) pool.size
    unfold allocate_from_pool.split_chunks
    rw [chain_append]
    refine ⟨m, hc1, ?_⟩
    rw [chain_cons, chain_cons]
    refine ⟨hc2.1, ?_, ?_⟩
    · show u64_add (u64_add chunk.chunk_offset P) size = m + u64_add size P
      rw [hc2.1]
      unfold u64_add U64 at *
      omega
    · show chain (m + u64_add size P + u64_sub chunk.size (u64_add P size)) _ _
      have : m + u64_add size P + u64_sub chunk.size (u64_add P size) = m + chunk.size := by
        unfold u64_add u64_sub U64 at *
        omega
      rw [this]
      exact hc2.2
  · rw [h]
    have hset : pool.chunks.set j { chunk with padding := P, used := 1 } =
        pool.chunks.take j ++ { chunk with padding := P, used := 1 } :: pool.chunks.drop (j + 1) :=
      List.set_eq_take_append_cons_drop.trans
        (by rw [if_pos (List.getElem?_eq_some_iff.mp hj).1])
    refine ⟨⟨?_, ?_⟩, rfl⟩
    · show pool.chunks.set j _ ≠ []
      rw [hset]; simp
    · show chain 0 (pool.chunks.set j _) pool.size
      rw [hset, chain_append]
      exact ⟨m, hc1, hc2⟩

/-- The function `allocate_from_pool` keeps the partition invariant of a pool whose size is a
`VkDeviceSize`, for every size and alignment. -/
theorem allocate_from_pool_partition (w : World) (allocator : jvm_allocator)
    (pool : jvm_allocation_pool) (size alignment : Nat) (hsz : pool.size < U64)
    (hpart : partition_inv pool) :
    partition_inv (allocate_from_pool w allocator pool size alignment).pool ∧
    (allocate_from_pool w allocator pool size alignment).pool.size = pool.size := by
  unfold allocate_from_pool
  rcases loop_cases w allocator pool size alignment pool.chunk_count 0
      (by simp [jvm_allocation_pool.chunk_count]) with
    ⟨-, heq⟩ | ⟨j, chunk, -, hj, hfit, -, heq⟩
  · rw [heq]; exact ⟨hpart, rfl⟩
  · rw [heq]; exact carve_partition w allocator pool size alignment j chunk hsz hpart hj hfit

theorem forall_mem_set {α : Type} {P : α → Prop} {l : List α} (h : ∀ p ∈ l, P p) (k : Nat)
    (x : α) (hx : P x) : ∀ p ∈ l.set k x, P p := by
  intro p hp
  rcases List.mem_or_eq_of_mem_set hp with hp | rfl
  · exact h p hp
  · exact hx

/-- The function `allocate_from_pool` keeps `map_count` and `map_ptr`. -/
theorem allocate_from_pool_map_ptr_inv (w : World) (allocator : jvm_allocator)
    (pool : jvm_allocation_pool) (size alignment : Nat) (h : map_ptr_inv pool) :
    map_ptr_inv (allocate_from_pool w allocator pool size alignment).pool := by
  obtain ⟨cap, l, e⟩ := allocate_from_pool_frame w allocator pool size alignment
  rw [e]
  exact h

/-- The function `deallocate_from_pool` keeps `map_count` and `map_ptr`. -/
theorem deallocate_from_pool_map_ptr_inv (pool : jvm_allocation_pool) (chunk : chunk_ptr)
    (h : map_ptr_inv pool) : map_ptr_inv (deallocate_from_pool pool chunk).2 := by
  rcases deallocate_from_pool_cases pool chunk with ⟨-, e⟩ | ⟨pre, x, post, -, -, -, e⟩
  · rw [e]; exact h
  · rw [e]; exact h

theorem store_map_ptr_inv {allocator : jvm_allocator} (chunk : chunk_ptr)
    (pool1 : jvm_allocation_pool) (c1 : jvm_chunk)
    (h : ∀ p ∈ allocator.pools, map_ptr_inv p) (h1 : map_ptr_inv pool1) :
    ∀ p ∈ (allocator.store chunk pool1 c1).pools, map_ptr_inv p :=
  forall_mem_set h _ _ h1

/-- The tail `allocate_in_new_pool` keeps the invariant of every pool. -/
theorem allocate_in_new_pool_map_ptr_inv (w : World) (allocator : jvm_allocator)
    (new_pool_size size alignment idx : Nat) (h : ∀ p ∈ allocator.pools, map_ptr_inv p) :
    ∀ p ∈ (allocate_in_new_pool w allocator new_pool_size size alignment idx).allocator.pools,
      map_ptr_inv p := by
  rcases allocate_in_new_pool_cases w allocator new_pool_size size alignment idx with
    ⟨w1, res, cap, -, e⟩ | ⟨w1, cap, pool, c, -, -, -, -, -, -, -, -, -, -, e11, e⟩
  · rw [e]; exact h
  · rw [e]
    intro p hp
    simp only [List.mem_append, List.mem_singleton] at hp
    rcases hp with hp | rfl
    · exact h p hp
    · exact allocate_from_pool_map_ptr_inv _ _ _ _ _ (fun _ => e11)

/-- The function `jvm_allocate` keeps the invariant of every pool, whatever it returns. -/
theorem jvm_allocate_map_ptr_inv (w : World) (allocator : jvm_allocator)
    (size alignment type_bits desired_flags undesired_flags : Nat)
    (h : ∀ p ∈ allocator.pools, map_ptr_inv p) :
    ∀ p ∈ (jvm_allocate w allocator size alignment type_bits desired_flags
      undesired_flags).allocator.pools, map_ptr_inv p := by
  rcases jvm_allocate_outcome w allocator size alignment type_bits desired_flags
      undesired_flags with ⟨-, e⟩ | ⟨idx, j, pool, -, hj, -, -, e⟩ | ⟨idx, n, -, e⟩
  · rw [e]; exact h
  · rw [e]
    exact forall_mem_set h j _
      (allocate_from_pool_map_ptr_inv _ _ _ _ _
        (h pool (List.mem_iff_getElem?.mpr ⟨j, hj⟩)))
  · rw [e]
    exact allocate_in_new_pool_map_ptr_inv w allocator n _ _ idx h

/-- The function `jvm_allocate_dedicated` keeps the invariant of every pool. -/
theorem jvm_allocate_dedicated_map_ptr_inv (w : World) (allocator : jvm_allocator)
    (size alignment type_bits desired_flags undesired_flags : Nat)
    (h : ∀ p ∈ allocator.pools, map_ptr_inv p) :
    ∀ p ∈ (jvm_allocate_dedicated w allocator size alignment type_bits desired_flags
      undesired_flags).allocator.pools, map_ptr_inv p := by
  rcases jvm_allocate_dedicated_outcome w allocator size alignment type_bits desired_flags
      undesired_flags with ⟨-, e⟩ | ⟨idx, -, e⟩
  · rw [e]; exact h
  · rw [e]
    exact allocate_in_new_pool_map_ptr_inv w allocator _ _ _ idx h

theorem driver_call_stray (w : World) : (w.driver_call).1.stray = w.stray := by
  unfold World.driver_call
  rcases w.driver with _ | ⟨r, rest⟩ <;> rfl

/-- A call of `jvm_chunk_map` on a pointer that leads to a chunk record, in a world where a
failing `vkMapMemory` leaves `*ppData` as it was, returns, whatever its result, with the
invariant of every pool kept and the pointer still leading to a record. -/
theorem jvm_chunk_map_map_ptr_inv (w : World) (allocator : jvm_allocator)
    (chunk : chunk_ptr) (pool : jvm_allocation_pool) (c : jvm_chunk)
    (hw : w.stray = [])
    (h : ∀ p ∈ allocator.pools, map_ptr_inv p)
    (hderef : allocator.deref chunk = some (pool, c)) :
    ∃ r, jvm_chunk_map w allocator chunk = some r ∧
      (∀ p ∈ r.allocator.pools, map_ptr_inv p) := by
  obtain ⟨hp, hc⟩ := deref_some hderef
  have hJ : map_ptr_inv pool := h pool (List.mem_iff_getElem?.mpr ⟨_, hp⟩)
  by_cases hm : c.mapped = 0
  · by_cases hcount : pool.map_count ≠ 0
    · rw [jvm_chunk_map_shared w allocator chunk pool c hderef hm hcount]
      exact ⟨_, rfl, store_map_ptr_inv chunk _ _ h (fun h0 => absurd h0 (Nat.succ_ne_zero _))⟩
    · rcases jvm_chunk_map_first w allocator chunk pool c hderef hm (not_not.mp hcount) with
        ⟨w1, res, hd, -, e⟩ | ⟨w1, -, e⟩
      · rw [e]
        have hs : w1.stray = [] := by
          have := driver_call_stray (w.emit (Event.vkMapMemory pool.memory 0 pool.size))
          rw [hd] at this
          rw [this]
          exact hw
        rw [stray_write_nil w1 pool.map_ptr hs]
        exact ⟨_, rfl, forall_mem_set h _ _ hJ⟩
      · rw [e]
        exact ⟨_, rfl, store_map_ptr_inv chunk _ _ h (fun h0 => absurd h0 (Nat.succ_ne_zero _))⟩
  · refine ⟨⟨w, VK_ERROR_MEMORY_MAP_FAILED, allocator, none, none⟩, ?_, h⟩
    unfold jvm_chunk_map
    simp only [hp, hc]
    rw [if_pos hm]

/-- A call of `jvm_chunk_unmap` on a pointer that leads to a chunk record returns, whatever
its result, with the invariant of every pool kept and the pointer still leading to a record,
which is not mapped when the record was. -/
theorem jvm_chunk_unmap_map_ptr_inv (w : World) (allocator : jvm_allocator)
    (chunk : chunk_ptr) (pool : jvm_allocation_pool) (c : jvm_chunk)
    (h : ∀ p ∈ allocator.pools, map_ptr_inv p)
    (hderef : allocator.deref chunk = some (pool, c)) :
    ∃ r, jvm_chunk_unmap w allocator chunk = some r ∧
      (∀ p ∈ r.allocator.pools, map_ptr_inv p) ∧
      ∃ pool1 c1, r.allocator.deref chunk = some (pool1, c1) := by
  obtain ⟨hp, hc⟩ := deref_some hderef
  have hJ : map_ptr_inv pool := h pool (List.mem_iff_getElem?.mpr ⟨_, hp⟩)
  by_cases hm : c.mapped = 0
  · refine ⟨⟨w, VK_ERROR_MEMORY_MAP_FAILED, allocator⟩, ?_, h, pool, c, hderef⟩
    unfold jvm_chunk_unmap
    simp only [hp, hc]
    rw [if_pos hm]
  · by_cases hzero : pool.map_count = 0
    · rw [jvm_chunk_unmap_unknown w allocator chunk pool c hderef hm hzero]
      exact ⟨_, rfl, h, pool, c, hderef⟩
    · by_cases hcount : pool.map_count - 1 ≠ 0
      · rw [jvm_chunk_unmap_shared w allocator chunk pool c hderef hm hcount]
        refine ⟨_, rfl, ?_, _, _, store_deref_same allocator chunk pool
          { pool with map_count := pool.map_count - 1 } c { c with mapped := 0 } hderef rfl rfl
          rfl⟩
        exact store_map_ptr_inv chunk _ _ h (fun h0 => absurd h0 hcount)
      · rw [jvm_chunk_unmap_last w allocator chunk pool c hderef hm (by omega)]
        refine ⟨_, rfl, ?_, _, _, store_deref_same allocator chunk pool
          { pool with map_count := pool.map_count - 1, map_ptr := none } c
          { c with mapped := 0 } hderef rfl rfl rfl⟩
        exact store_map_ptr_inv chunk _ _ h (fun _ => rfl)

/-- The function `jvm_deallocate` keeps the invariant of every pool. -/
theorem jvm_deallocate_map_ptr_inv (w : World) (allocator : jvm_allocator)
    (chunk : chunk_ptr) (pool : jvm_allocation_pool) (c : jvm_chunk)
    (h : ∀ p ∈ allocator.pools, map_ptr_inv p)
    (hderef : allocator.deref chunk = some (pool, c)) :
    ∃ r, jvm_deallocate w allocator chunk = some r ∧
      ∀ p ∈ r.allocator.pools, map_ptr_inv p := by
  obtain ⟨hp, hc⟩ := deref_some hderef
  have hJ : map_ptr_inv pool := h pool (List.mem_iff_getElem?.mpr ⟨_, hp⟩)
  obtain ⟨r, hr, hsub⟩ := jvm_deallocate_pools w allocator chunk pool hp
  exact ⟨r, hr, fun p hp' =>
    forall_mem_set h _ _ (deallocate_from_pool_map_ptr_inv pool chunk hJ) p (hsub p hp')⟩

/-- The destruction of a buffer or image keeps the invariant of every pool. -/
theorem destroy_allocation_map_ptr_inv (w : World) (allocator : jvm_allocator)
    (chunk : chunk_ptr) (pool : jvm_allocation_pool) (c : jvm_chunk)
    (h : ∀ p ∈ allocator.pools, map_ptr_inv p)
    (hderef : allocator.deref chunk = some (pool, c)) :
    ∃ r, destroy_allocation w allocator chunk = some r ∧
      ∀ p ∈ r.allocator.pools, map_ptr_inv p := by
  obtain ⟨hp, hc⟩ := deref_some hderef
  unfold destroy_allocation
  simp only [hp, hc]
  by_cases hm : c.mapped ≠ 0
  · rw [if_pos hm]
    obtain ⟨r, hr, hI, pool1, c1, hd1⟩ :=
      jvm_chunk_unmap_map_ptr_inv w allocator chunk pool c h hderef
    rw [hr]
    exact jvm_deallocate_map_ptr_inv r.world r.allocator chunk pool1 c1 hI hd1
  · rw [if_neg hm]
    exact jvm_deallocate_map_ptr_inv w allocator chunk pool c h hderef

/-! ## C33: the map pointer after a failed map -/

/-- C33 fails on a failing map: `host_visible_allocator` has no pools; a first `jvm_allocate`
creates the pool at address 100 with `map_count == 0` and `map_ptr == NULL` and returns its
chunk 103. In `stray_map_world` the `vkMapMemory` of the following `jvm_chunk_map` fails,
the driver having written 7 to `&pool->map_ptr`: the call returns
`VK_ERROR_MEMORY_MAP_FAILED`, writes no `*p_out`, and leaves the pool with `map_count == 0`
and `map_ptr == 7`. -/
theorem failed_map_leaves_map_ptr :
    host_visible_allocator.pools = [] ∧
    (jvm_allocate stray_map_world host_visible_allocator 100 64 1 2 0).result = VK_SUCCESS ∧
    (jvm_allocate stray_map_world host_visible_allocator 100 64 1 2 0).p_out =
      some ⟨103, 100⟩ ∧
    (jvm_allocate stray_map_world host_visible_allocator 100 64 1 2 0).allocator.pools.map
      (fun p => (p.addr, p.map_count, p.map_ptr)) = [(100, 0, none)] ∧
    (jvm_chunk_map (jvm_allocate stray_map_world host_visible_allocator 100 64 1 2 0).world
      (jvm_allocate stray_map_world host_visible_allocator 100 64 1 2 0).allocator
      ⟨103, 100⟩).map
        (fun r => (r.result, r.p_out,
          r.allocator.pools.map (fun p => (p.addr, p.map_count, p.map_ptr)))) =
      some (VK_ERROR_MEMORY_MAP_FAILED, none, [(100, 0, some 7)]) ∧
    (run_allocator_ops (stray_map_world, host_visible_allocator)
      [allocator_op.allocate 100 64 1 2 0, allocator_op.map ⟨103, 100⟩]).map
        (fun s => s.2.pools.map (fun p => (p.addr, p.map_count, p.map_ptr))) =
      some [(100, 0, some 7)] := by
  refine ⟨by decide, by decide, by decide, by rfl, by rfl, by rfl⟩

end Jvm
